import Mathlib

/-!
# Shenandoah collector core: cancellation, degenerated cycle, allocation, evacuation, marking

A shallow embedding of parts of
`shenandoahHeap.cpp`, `shenandoahHeap.inline.hpp`, `shenandoahDegeneratedGC.cpp`,
`shenandoahMark.inline.hpp`, `shenandoahMemoryPool.cpp`, `shenandoahOldGeneration.cpp`,
`shenandoahScanRemembered.hpp` and `shenandoahThreadLocalData.hpp`; the flags are those of
`shenandoah_globals.hpp` and of the shared runtime.

Conventions of the embedding.

* The heap is a record of the fields the embedded functions read or write.
* A statement of the C++ code is a function `ShenandoahHeap → ShenandoahHeap`.
* Code that lies outside these sources (generation objects, free set, control thread,
  verifier, full GC, ...) is a parameter: `Env.ext op` is an arbitrary function on the heap,
  and reads of such code are arbitrary functions of the heap.
* The field `trace` is ghost state: the list of calls made so far, in program order.  No
  embedded function reads it and no collaborator can change it.
* The free set keeps its own state, the field `_free_set`, which only
  `Env.free_set_allocate` reads and updates; the card table is not part of the heap record.
* `size_t` quantities are word and byte counts of one heap; they are natural numbers here.
  A subtraction the code makes without a test of its operands is `size_t_sub`, which wraps
  around; the sums and products of `allocate_memory_under_lock` and of `expend_promoted`
  are `size_t_add` and `size_t_mul`, which wrap around at 64 bits as well; `int` arithmetic
  (array chunks) wraps around at 32 bits through `to_int`.
* `double` clock readings are kept as an abstract natural number; they are only stored and
  compared with zero.
* A thread-local buffer (`PLAB`, from the shared collector code) is an abstract state on which
  `Env.lab_allocate`, `Env.lab_words_remaining`, ... answer for `PLAB`'s member functions;
  `PLAB::min_size()`, `PLAB::max_size()` and `CardTable::card_size_in_words()` are
  parameters too.
* The marking context (`ShenandoahMarkingContext`, the mark bitmap) is an abstract state on
  which `Env.mark_strong` and `Env.mark_weak` answer for its member functions: they return
  whether the object was newly marked (and, for `mark_strong`, whether a weak mark was
  upgraded) and the new state.
* The forwarding pointers installed in object headers are the table `_forwardee` of the heap
  record, so that collaborators (other threads among them) may change them between two steps
  of the embedded code.  Where several threads evacuate one object, the threads are explicit:
  a schedule interleaves their steps, and each thread has its own thread-local data.
* A loop that may not end takes fuel and returns `none` when the fuel runs out; `none` is
  also the result where the code stops the virtual machine or evaluates an undefined
  operation.
* Assertions (`assert`) are compiled out, as in a product build.  Logging is not modelled.
-/

namespace Shenandoah

/-! ## Enumerations -/

/-- The three values of `ShenandoahHeap::_cancelled_gc` (enum `CancelState`). -/
inductive CancelState
  | CANCELLABLE
  | CANCELLED
  | NOT_CANCELLED
  deriving DecidableEq, Repr

/-- The `GCCause::Cause` values that occur in the embedded code. -/
inductive GCCause
  | _allocation_failure
  | _shenandoah_allocation_failure_evac
  | _shenandoah_upgrade_to_full_gc
  | _shenandoah_concurrent_gc
  | _java_lang_system_gc
  deriving DecidableEq, Repr

/-- The enum `ShenandoahGC::ShenandoahDegenPoint`. -/
inductive ShenandoahDegenPoint
  | _degenerated_unset
  | _degenerated_outside_cycle
  | _degenerated_roots
  | _degenerated_mark
  | _degenerated_evac
  | _degenerated_updaterefs
  | _DEGENERATED_LIMIT
  deriving DecidableEq, Repr

/-- The enum `GenerationMode` of a `ShenandoahGeneration`. -/
inductive GenerationMode
  | YOUNG
  | OLD
  | GLOBAL
  deriving DecidableEq, Repr

/-- The enum `ShenandoahRegionAffiliation`. -/
inductive ShenandoahRegionAffiliation
  | FREE
  | YOUNG_GENERATION
  | OLD_GENERATION
  deriving DecidableEq, Repr

/-- The enum `ShenandoahAllocRequest::Type`. -/
inductive AllocType
  | _alloc_shared
  | _alloc_shared_gc
  | _alloc_tlab
  | _alloc_gclab
  | _alloc_plab
  deriving DecidableEq, Repr

/-- Operations of collaborators whose bodies are not part of these sources. -/
inductive ExtOp
  | spin_pause
  | sts_yield
  | metrics_snap_before
  | metrics_snap_after
  | transfer_old_pointers_from_satb
  | swap_remembered_set
  | generation_cancel_marking
  | young_cancel_marking
  | old_cancel_marking
  | global_cancel_marking
  | satb_abandon_partial_marking
  | merge_write_table
  | generation_prepare_gc
  | stw_mark
  | finish_mark
  | verify_roots_no_forwarded
  | parallel_cleaning
  | prepare_regions_and_collection_set
  | tlabs_retire
  | verify_during_evacuation
  | verify_after_concmark
  | universe_verify
  | recycle_trash
  | coalesce_and_fill_old_regions
  | labs_make_parsable
  | sync_pinned_region_status
  | cset_clear_current_index
  | evacuate_collection_set
  | prepare_update_heap_references
  | update_heap_references
  | update_roots
  | update_heap_region_states
  | verify_after_updaterefs
  | rebuild_free_set
  | disarm_nmethods
  | young_unadjust_available
  | old_unadjust_available
  | verify_after_degenerated
  | notify_gc_no_progress
  | notify_gc_progress
  | record_degenerated_upgrade_to_full
  | op_full
  | pace_for_alloc
  | unpace_for_alloc
  | free_set_allocate
  | handle_alloc_failure
  | notify_heap_changed
  | notify_mutator_alloc_words
  | increase_allocated
  | increase_used
  | card_scan_register_object
  | gclab_retire
  | plab_retire
  | zero_to_words
  | lab_undo_allocation
  | register_object_wo_lock
  | mark_range_as_dirty
  | old_increase_allocated
  | handle_promotion_failure
  | handle_alloc_failure_evac
  | handle_out_of_memory_during_evacuation
  | copy_aligned_disjoint_words
  | increase_object_age
  | relativize_stack_chunk
  | fill_with_object
  | increase_live_data_gc_words
  | marked_object_iterate
  | pacer_report_evac
  | promote_humongous
  | mark_card_as_dirty
  deriving DecidableEq, Repr

/-- The member functions of `ShenandoahDegenGC` that `op_degenerated` calls. -/
inductive DegenOp
  | op_reset
  | op_mark
  | op_finish_mark
  | op_prepare_evacuation
  | op_cleanup_early
  | op_global_coalesce_and_fill
  | op_evacuate
  | op_init_updaterefs
  | op_updaterefs
  | op_update_roots
  | op_cleanup_complete
  | op_degenerated_fail
  | op_degenerated_futile
  | upgrade_to_full
  deriving DecidableEq, Repr

/-- Ghost events: one per call, in program order. -/
inductive Ev
  | ext (op : ExtOp)
  | op (m : DegenOp)
  | case_label (p : ShenandoahDegenPoint)
  | cancel_gc (cause : GCCause)
  | undo_allocation (lab : AllocType) (copy size : Nat)
  | fill_with_object (copy size : Nat)
  | on_region (op : ExtOp) (index : Nat)
  deriving DecidableEq, Repr

/-! ## Data model -/

/-- The bits of `ShenandoahHeap::_gc_state`, one field per mask constant. -/
structure GCStateBits where
  HAS_FORWARDED : Bool := false
  YOUNG_MARKING : Bool := false
  EVACUATION : Bool := false
  UPDATEREFS : Bool := false
  WEAK_ROOTS : Bool := false
  OLD_MARKING : Bool := false
  deriving DecidableEq, Repr

/-- What the embedded code reads of a `ShenandoahHeapRegion`. -/
structure ShenandoahHeapRegion where
  _top : Nat := 0
  _update_watermark : Nat := 0
  is_active : Bool := false
  is_pinned : Bool := false
  in_cset : Bool := false
  _affiliation : ShenandoahRegionAffiliation := .FREE
  _age : Nat := 0
  _live_data : Nat := 0
  is_humongous_start : Bool := false
  used : Nat := 0
  _bottom : Nat := 0
  _end : Nat := 0
  deriving DecidableEq, Repr

/-- The fields of `ShenandoahHeap` used by the embedded functions. -/
structure ShenandoahHeap where
  _cancelled_gc : CancelState := .CANCELLABLE
  _cancel_requested_time : Nat := 0
  _upgraded_to_full : Bool := false
  _oom_evac_handler : Nat := 0
  _gc_state : GCStateBits := {}
  _unload_classes : Bool := false
  _concurrent_strong_root_in_progress : Bool := false
  _regions : List ShenandoahHeapRegion := []
  _alloc_supplement_reserve : Int := 0
  _promoted_reserve : Nat := 0
  _promoted_expended : Nat := 0
  _old_evac_reserve : Nat := 0
  _old_evac_expended : Nat := 0
  _young_evac_reserve : Nat := 0
  young_adjusted_available : Nat := 0
  _progress_last_gc : Bool := true
  _free_set : Nat := 0
  _gc_generation : Option GenerationMode := none
  _is_aging_cycle : Bool := false
  _old_gen_oom_evac : Bool := false
  _forwardee : List (Nat × Nat) := []
  trace : List Ev := []
  deriving DecidableEq, Repr

/-- A `ShenandoahAllocRequest`. -/
structure ShenandoahAllocRequest where
  _min_size : Nat
  _requested_size : Nat
  _actual_size : Nat := 0
  _alloc_type : AllocType
  _affiliation : ShenandoahRegionAffiliation
  deriving DecidableEq, Repr

/-- What a successful `ShenandoahFreeSet::allocate` hands back. -/
structure FreeSetGrant where
  addr : Nat
  actual_size : Nat
  in_new_region : Bool
  deriving DecidableEq, Repr

/-- The fields of `ShenandoahThreadLocalData` used by the allocation and evacuation paths.
A buffer pointer (`PLAB*`) is `none` when null; otherwise it holds the state of the buffer, of
which the embedded code knows nothing but what `PLAB`'s member functions answer. -/
structure ShenandoahThreadLocalData where
  _plab_allows_promotion : Bool := false
  _plab_evacuated : Nat := 0
  _plab_promoted : Nat := 0
  _plab_preallocated_promoted : Nat := 0
  _plab_retries_enabled : Bool := true
  _oom_during_evac : Bool := false
  _gclab : Option Nat := none
  _gclab_size : Nat := 0
  _plab : Option Nat := none
  _plab_size : Nat := 0
  deriving DecidableEq, Repr

/-- The global flags read by the embedded code, with their defaults. -/
structure Flags where
  ShenandoahSuspendibleWorkers : Bool := false
  ShenandoahVerify : Bool := false
  VerifyAfterGC : Bool := false
  UseTLAB : Bool := true
  ClassUnloading : Bool := true
  ShenandoahPacing : Bool := true
  ShenandoahAllocFailureALot : Bool := false
  ShenandoahFullGCThreshold : Nat := 3
  ShenandoahMaxEvacLABRatio : Nat := 16
  ShenandoahUsePLAB : Bool := true
  ShenandoahPromoteTenuredObjects : Bool := true
  InitialTenuringThreshold : Nat := 7
  ZeroTLAB : Bool := false
  ShenandoahMarkScanPrefetch : Int := 32

/-- The collaborators: flags, heap mode, and the behaviour of code outside these sources. -/
structure Env where
  flags : Flags := {}
  is_generational : Bool := true
  ext : ExtOp → ShenandoahHeap → ShenandoahHeap := fun _ h => h
  should_yield : ShenandoahHeap → Bool := fun _ => false
  elapsedTime : ShenandoahHeap → Nat := fun _ => 1
  can_unload_classes : ShenandoahHeap → Bool := fun _ => false
  generation_is_concurrent_mark_in_progress : ShenandoahHeap → Bool := fun _ => false
  is_good_progress : ShenandoahHeap → Bool := fun _ => true
  should_inject_alloc_failure : ShenandoahHeap → Bool := fun _ => false
  pacer_epoch : ShenandoahHeap → Int := fun _ => 0
  free_set_allocate : Nat → ShenandoahAllocRequest → Option FreeSetGrant × Nat :=
    fun fs _ => (none, fs)
  PLAB_min_size : Nat := 258
  PLAB_max_size : Nat := 131072
  card_size_in_words : Nat := 64
  region_size_bytes_shift : Nat := 18
  lab_allocate : Nat → Nat → Option Nat × Nat := fun b _ => (none, b)
  lab_words_remaining : Nat → Nat := fun _ => 0
  lab_undo_allocation : Nat → Nat → Nat → Nat := fun b _ _ => b
  lab_retire : Nat → Nat := fun b => b
  lab_set_buf : Nat → Nat → Nat → Nat := fun b _ _ => b
  plab_retire_leaves_filler : ShenandoahHeap → Nat → Bool := fun _ _ => false
  oom_handler_thread_data : ShenandoahThreadLocalData → ShenandoahThreadLocalData :=
    fun t => { t with _oom_during_evac := true }
  SHENANDOAH_LIVEDATA_MAX : Nat := 4294967295
  required_regions : Nat → Nat := fun bytes => (bytes + 262143) >>> 18
  mark_strong : Nat → Nat → (Bool × Bool) × Nat := fun ctx _ => ((false, false), ctx)
  mark_weak : Nat → Nat → Bool × Nat := fun ctx _ => (false, ctx)

/-- `HeapWordSize` on a 64-bit platform. -/
def HeapWordSize : Nat := 8

/-! ## Statements -/

/-- A statement: a heap transformer. -/
abbrev Stmt := ShenandoahHeap → ShenandoahHeap

/-- Record a ghost event. -/
def emit (e : Ev) : Stmt :=
  fun h => { h with trace := h.trace ++ [e] }

/-- Call a collaborator: it may change the heap at will, the call is recorded. -/
def call (env : Env) (op : ExtOp) : Stmt :=
  fun h => { env.ext op h with trace := h.trace ++ [Ev.ext op] }

/-- A sequence of statements. -/
def block (l : List Stmt) : Stmt :=
  fun h => l.foldl (fun acc f => f acc) h

/-- The statement `if (c) f`. -/
def guarded (c : ShenandoahHeap → Bool) (f : Stmt) : Stmt :=
  fun h => if c h then f h else h

/-- The statement `if (c) f else g`. -/
def branch (c : ShenandoahHeap → Bool) (f g : Stmt) : Stmt :=
  fun h => if c h then f h else g h

/-! ## The cancellation flag (`shenandoahHeap.inline.hpp`, `shenandoahHeap.cpp`) -/

/-- `ShenandoahHeap::cancelled_gc`. -/
def cancelled_gc (h : ShenandoahHeap) : Bool :=
  decide (h._cancelled_gc = .CANCELLED)

/-- `_cancelled_gc.cmpxchg(new_value, expected)`: returns the previous value and stores
`new_value` when the previous value is `expected`. -/
def cancelled_gc_cmpxchg (new_value expected : CancelState) (h : ShenandoahHeap) :
    CancelState × ShenandoahHeap :=
  if h._cancelled_gc = expected then (h._cancelled_gc, { h with _cancelled_gc := new_value })
  else (h._cancelled_gc, h)

/-- `ShenandoahHeap::try_cancel_gc`.  One unit of fuel is one iteration of the `while (true)`
loop; between two iterations the other threads run (`spin_pause`). -/
def try_cancel_gc (env : Env) : Nat → ShenandoahHeap → Option (Bool × ShenandoahHeap)
  | 0, _ => none
  | fuel + 1, h =>
    let r := cancelled_gc_cmpxchg .CANCELLED .CANCELLABLE h
    if r.1 = .CANCELLABLE then some (true, r.2)
    else if r.1 = .CANCELLED then some (false, r.2)
    else try_cancel_gc env fuel (call env .spin_pause r.2)

/-- `ShenandoahHeap::cancel_gc`. -/
def cancel_gc (env : Env) (fuel : Nat) (cause : GCCause) (h : ShenandoahHeap) :
    Option ShenandoahHeap :=
  match try_cancel_gc env fuel h with
  | none => none
  | some (true, h1) =>
    let h2 := { h1 with _cancel_requested_time := env.elapsedTime h1 }
    if cause = ._shenandoah_upgrade_to_full_gc then some { h2 with _upgraded_to_full := true }
    else some h2
  | some (false, h1) => some h1

/-- `ShenandoahHeap::check_cancelled_gc_and_yield`. -/
def check_cancelled_gc_and_yield (env : Env) (sts_active : Bool) (h : ShenandoahHeap) :
    Bool × ShenandoahHeap :=
  if !(sts_active && env.flags.ShenandoahSuspendibleWorkers) then (cancelled_gc h, h)
  else
    let r := cancelled_gc_cmpxchg .NOT_CANCELLED .CANCELLABLE h
    if r.1 = .CANCELLABLE ∨ r.1 = .NOT_CANCELLED then
      let h2 := guarded env.should_yield (call env .sts_yield) r.2
      let h3 := if r.1 = .CANCELLABLE then { h2 with _cancelled_gc := .CANCELLABLE } else h2
      (false, h3)
    else (true, r.2)

/-- `ShenandoahHeap::clear_cancelled_gc`.  The handler of evacuation failures keeps one
counter, which `clear` zeroes. -/
def clear_cancelled_gc (clear_oom_handler : Bool) : Stmt :=
  fun h =>
    let h1 := { h with _cancelled_gc := .CANCELLABLE }
    let h2 := if h1._cancel_requested_time > 0 then { h1 with _cancel_requested_time := 0 } else h1
    if clear_oom_handler then { h2 with _oom_evac_handler := 0 } else h2

/-- The calls on the cancellation flag that leave it to the caller to clear it. -/
inductive CancelCall
  | try_cancel_gc
  | cancel_gc (cause : GCCause)
  | check_cancelled_gc_and_yield (sts_active : Bool)
  deriving DecidableEq, Repr

/-- The value a `CancelCall` returns. -/
inductive CancelRet
  | bool (b : Bool)
  | void
  deriving DecidableEq, Repr

/-- Run one call on the cancellation flag. -/
def run_cancel_call (env : Env) (fuel : Nat) (c : CancelCall) (h : ShenandoahHeap) :
    Option (CancelRet × ShenandoahHeap) :=
  match c with
  | .try_cancel_gc => (try_cancel_gc env fuel h).map (fun r => (CancelRet.bool r.1, r.2))
  | .cancel_gc cause => (cancel_gc env fuel cause h).map (fun h1 => (CancelRet.void, h1))
  | .check_cancelled_gc_and_yield sts =>
    let r := check_cancelled_gc_and_yield env sts h
    some (CancelRet.bool r.1, r.2)

/-- Run a sequence of calls on the cancellation flag, collecting the returned values. -/
def run_cancel_calls (env : Env) (fuel : Nat) :
    List CancelCall → ShenandoahHeap → Option (List CancelRet × ShenandoahHeap)
  | [], h => some ([], h)
  | c :: cs, h =>
    match run_cancel_call env fuel c h with
    | none => none
    | some (r, h1) =>
      match run_cancel_calls env fuel cs h1 with
      | none => none
      | some (rs, h2) => some (r :: rs, h2)

/-- What each call returns once the flag is `CANCELLED`. -/
def cancelled_answer : CancelCall → CancelRet
  | .try_cancel_gc => .bool false
  | .cancel_gc _ => .void
  | .check_cancelled_gc_and_yield _ => .bool true

/-! ## Heap state accessors (`shenandoahHeap.inline.hpp`, `shenandoahHeap.cpp`) -/

/-- `ShenandoahHeap::has_forwarded_objects`. -/
def has_forwarded_objects (h : ShenandoahHeap) : Bool :=
  h._gc_state.HAS_FORWARDED

/-- `ShenandoahHeap::is_concurrent_mark_in_progress`: some bit of
`YOUNG_MARKING | OLD_MARKING` is set. -/
def is_concurrent_mark_in_progress (h : ShenandoahHeap) : Bool :=
  h._gc_state.YOUNG_MARKING || h._gc_state.OLD_MARKING

/-- `ShenandoahHeap::is_concurrent_old_mark_in_progress`. -/
def is_concurrent_old_mark_in_progress (h : ShenandoahHeap) : Bool :=
  h._gc_state.OLD_MARKING

/-- `ShenandoahHeap::is_evacuation_in_progress`. -/
def is_evacuation_in_progress (h : ShenandoahHeap) : Bool :=
  h._gc_state.EVACUATION

/-- `ShenandoahHeap::set_evacuation_in_progress`. -/
def set_evacuation_in_progress (in_progress : Bool) : Stmt :=
  fun h => { h with _gc_state := { h._gc_state with EVACUATION := in_progress } }

/-- `ShenandoahHeap::set_has_forwarded_objects`. -/
def set_has_forwarded_objects (cond : Bool) : Stmt :=
  fun h => { h with _gc_state := { h._gc_state with HAS_FORWARDED := cond } }

/-- `ShenandoahHeap::set_concurrent_weak_root_in_progress`. -/
def set_concurrent_weak_root_in_progress (cond : Bool) : Stmt :=
  fun h => { h with _gc_state := { h._gc_state with WEAK_ROOTS := cond } }

/-- `ShenandoahHeap::set_concurrent_strong_root_in_progress`. -/
def set_concurrent_strong_root_in_progress (in_progress : Bool) : Stmt :=
  fun h => { h with _concurrent_strong_root_in_progress := in_progress }

/-- `ShenandoahHeap::set_update_refs_in_progress`. -/
def set_update_refs_in_progress (in_progress : Bool) : Stmt :=
  fun h => { h with _gc_state := { h._gc_state with UPDATEREFS := in_progress } }

/-- `ShenandoahHeap::set_unload_classes`. -/
def set_unload_classes (uc : Bool) : Stmt :=
  fun h => { h with _unload_classes := uc }

/-- `ShenandoahHeap::cancel_concurrent_mark`. -/
def cancel_concurrent_mark (env : Env) : Stmt :=
  block [call env .young_cancel_marking, call env .old_cancel_marking,
    call env .global_cancel_marking, call env .satb_abandon_partial_marking]

/-- `ShenandoahHeap::set_alloc_supplement_reserve` (the returned old value is unused). -/
def set_alloc_supplement_reserve (new_val : Int) : Stmt :=
  fun h => { h with _alloc_supplement_reserve := new_val }

/-- `ShenandoahHeap::set_young_evac_reserve` (the returned old value is unused). -/
def set_young_evac_reserve (new_val : Nat) : Stmt :=
  fun h => { h with _young_evac_reserve := new_val }

/-- `ShenandoahHeap::set_old_evac_reserve` (the returned old value is unused). -/
def set_old_evac_reserve (new_val : Nat) : Stmt :=
  fun h => { h with _old_evac_reserve := new_val }

/-- `ShenandoahHeap::reset_old_evac_expended`. -/
def reset_old_evac_expended : Stmt :=
  fun h => { h with _old_evac_expended := 0 }

/-- `ShenandoahHeap::set_promoted_reserve` (the returned old value is unused). -/
def set_promoted_reserve (new_val : Nat) : Stmt :=
  fun h => { h with _promoted_reserve := new_val }

/-- The regions of the collection set, in index order: what repeated calls of
`collection_set()->next()` return after `clear_current_index()`. -/
def collection_set (h : ShenandoahHeap) : List ShenandoahHeapRegion :=
  h._regions.filter (fun r => r.in_cset)

/-- `collection_set()->is_empty()`. -/
def collection_set_is_empty (h : ShenandoahHeap) : Bool :=
  (collection_set h).isEmpty

/-- The loop of `op_degenerated` over the collection set finds a pinned region. -/
def cset_has_pinned (h : ShenandoahHeap) : Bool :=
  (collection_set h).any (fun r => r.is_pinned)

/-! ## The degenerated cycle (`shenandoahDegeneratedGC.cpp`) -/

/-- The fields of a `ShenandoahDegenGC`; the constructor clears `_upgraded_to_full`. -/
structure ShenandoahDegenGC where
  _degen_point : ShenandoahDegenPoint
  _generation : GenerationMode
  _upgraded_to_full : Bool := false
  deriving DecidableEq, Repr

/-- `ShenandoahDegenGC::upgraded_to_full`. -/
def ShenandoahDegenGC.upgraded_to_full (gc : ShenandoahDegenGC) : Bool :=
  gc._upgraded_to_full

/-- `ShenandoahDegenGC::op_reset`. -/
def op_reset (env : Env) : Stmt :=
  block [emit (.op .op_reset), call env .generation_prepare_gc]

/-- `ShenandoahDegenGC::op_mark`. -/
def op_mark (env : Env) : Stmt :=
  block [emit (.op .op_mark), call env .stw_mark]

/-- `ShenandoahDegenGC::op_finish_mark`. -/
def op_finish_mark (env : Env) : Stmt :=
  block [emit (.op .op_finish_mark), call env .finish_mark]

/-- `ShenandoahDegenGC::op_prepare_evacuation`. -/
def op_prepare_evacuation (env : Env) : Stmt :=
  block [emit (.op .op_prepare_evacuation),
    guarded (fun _ => env.flags.ShenandoahVerify) (call env .verify_roots_no_forwarded),
    call env .parallel_cleaning,
    call env .prepare_regions_and_collection_set,
    guarded (fun _ => env.flags.UseTLAB) (call env .tlabs_retire),
    branch (fun h => !collection_set_is_empty h)
      (block [set_evacuation_in_progress true,
        set_has_forwarded_objects true,
        guarded (fun _ => env.flags.ShenandoahVerify) (call env .verify_during_evacuation)])
      (block [guarded (fun _ => env.flags.ShenandoahVerify) (call env .verify_after_concmark),
        guarded (fun _ => env.flags.VerifyAfterGC) (call env .universe_verify)])]

/-- `ShenandoahDegenGC::op_cleanup_early`. -/
def op_cleanup_early (env : Env) : Stmt :=
  block [emit (.op .op_cleanup_early), call env .recycle_trash]

/-- `ShenandoahDegenGC::op_global_coalesce_and_fill`. -/
def op_global_coalesce_and_fill (env : Env) : Stmt :=
  block [emit (.op .op_global_coalesce_and_fill), call env .coalesce_and_fill_old_regions]

/-- `ShenandoahDegenGC::op_evacuate`. -/
def op_evacuate (env : Env) : Stmt :=
  block [emit (.op .op_evacuate), call env .evacuate_collection_set]

/-- `ShenandoahDegenGC::op_init_updaterefs`. -/
def op_init_updaterefs (env : Env) : Stmt :=
  block [emit (.op .op_init_updaterefs),
    set_evacuation_in_progress false,
    set_concurrent_weak_root_in_progress false,
    set_concurrent_strong_root_in_progress false,
    call env .prepare_update_heap_references,
    set_update_refs_in_progress true]

/-- `ShenandoahDegenGC::op_updaterefs`. -/
def op_updaterefs (env : Env) : Stmt :=
  block [emit (.op .op_updaterefs),
    call env .update_heap_references,
    set_update_refs_in_progress false,
    set_has_forwarded_objects false]

/-- `ShenandoahDegenGC::op_update_roots`. -/
def op_update_roots (env : Env) : Stmt :=
  block [emit (.op .op_update_roots),
    call env .update_roots,
    call env .update_heap_region_states,
    guarded (fun _ => env.flags.ShenandoahVerify) (call env .verify_after_updaterefs),
    guarded (fun _ => env.flags.VerifyAfterGC) (call env .universe_verify),
    call env .rebuild_free_set]

/-- `ShenandoahDegenGC::op_cleanup_complete`. -/
def op_cleanup_complete (env : Env) : Stmt :=
  block [emit (.op .op_cleanup_complete), call env .recycle_trash]

/-- `ShenandoahDegenGC::upgrade_to_full`. -/
def upgrade_to_full (env : Env) (gc : ShenandoahDegenGC) (h : ShenandoahHeap) :
    ShenandoahDegenGC × ShenandoahHeap :=
  ({ gc with _upgraded_to_full := true },
   block [emit (.op .upgrade_to_full), call env .record_degenerated_upgrade_to_full] h)

/-- `ShenandoahDegenGC::op_degenerated_fail`. -/
def op_degenerated_fail (env : Env) (gc : ShenandoahDegenGC) (h : ShenandoahHeap) :
    ShenandoahDegenGC × ShenandoahHeap :=
  let r := upgrade_to_full env gc (emit (.op .op_degenerated_fail) h)
  (r.1, call env .op_full r.2)

/-- `ShenandoahDegenGC::op_degenerated_futile`. -/
def op_degenerated_futile (env : Env) (gc : ShenandoahDegenGC) (h : ShenandoahHeap) :
    ShenandoahDegenGC × ShenandoahHeap :=
  let r := upgrade_to_full env gc (emit (.op .op_degenerated_futile) h)
  (r.1, call env .op_full r.2)

/-- The body of `case _degenerated_outside_cycle:` (lines 126 to 149). -/
def case_outside_cycle (env : Env) (gc : ShenandoahDegenGC) : Stmt :=
  block [emit (.case_label ._degenerated_outside_cycle),
    guarded is_concurrent_old_mark_in_progress (call env .transfer_old_pointers_from_satb),
    fun h => set_unload_classes
      ((!env.is_generational || gc._generation == .GLOBAL) && env.can_unload_classes h) h,
    guarded (fun _ => env.is_generational &&
        (gc._generation == .YOUNG ||
          (gc._generation == .GLOBAL && env.flags.ShenandoahVerify)))
      (call env .swap_remembered_set)]

/-- The body of `case _degenerated_roots:` (lines 151 to 178). -/
def case_roots (env : Env) (gc : ShenandoahDegenGC) : Stmt :=
  block [emit (.case_label ._degenerated_roots),
    branch (fun _ => !env.is_generational)
      (guarded is_concurrent_mark_in_progress (cancel_concurrent_mark env))
      (guarded env.generation_is_concurrent_mark_in_progress
        (call env .generation_cancel_marking)),
    guarded (fun _ => gc._degen_point == ._degenerated_roots) (call env .merge_write_table),
    op_reset env,
    op_mark env]

/-- The body of `case _degenerated_mark:` (lines 180 to 192). -/
def case_mark (env : Env) (gc : ShenandoahDegenGC) : Stmt :=
  block [emit (.case_label ._degenerated_mark),
    guarded (fun h => gc._degen_point == ._degenerated_mark && is_concurrent_mark_in_progress h)
      (op_finish_mark env),
    op_prepare_evacuation env,
    op_cleanup_early env]

/-- Lines 196 to 198 of `case _degenerated_evac:`. -/
def evac_coalesce (env : Env) (gc : ShenandoahDegenGC) : Stmt :=
  guarded (fun _ => env.is_generational && gc._generation == .GLOBAL)
    (op_global_coalesce_and_fill env)

/-- The loop of lines 217 to 222: move the update watermark of active regions up to `top`. -/
def advance_update_watermarks : Stmt :=
  fun h => { h with _regions := h._regions.map (fun r =>
    if r.is_active && decide (r._top > r._update_watermark)
    then { r with _update_watermark := r._top } else r) }

/-- Lines 204 to 223: what is done only when the cycle degenerated during evacuation. -/
def evac_handover (env : Env) (gc : ShenandoahDegenGC) : Stmt :=
  guarded (fun _ => gc._degen_point == ._degenerated_evac)
    (block [guarded (fun _ => env.flags.UseTLAB) (call env .labs_make_parsable),
      advance_update_watermarks])

/-- Lines 240 and 241: refresh the pinned status, rewind the collection set. -/
def evac_sync (env : Env) : Stmt :=
  block [call env .sync_pinned_region_status, call env .cset_clear_current_index]

/-- Lines 262 to 265, the end of `case _degenerated_evac:`. -/
def evac_finish (env : Env) : Stmt :=
  guarded has_forwarded_objects (op_init_updaterefs env)

/-- The body of `case _degenerated_updaterefs:` (lines 267 to 281). -/
def case_updaterefs (env : Env) : Stmt :=
  block [emit (.case_label ._degenerated_updaterefs),
    guarded has_forwarded_objects (block [op_updaterefs env, op_update_roots env]),
    guarded (fun _ => env.flags.ClassUnloading) (call env .disarm_nmethods),
    op_cleanup_complete env]

/-- Lines 286 to 309: what follows the `switch` up to the second metrics snapshot. -/
def degen_after_switch (env : Env) : Stmt :=
  block [guarded (fun _ => env.is_generational)
      (block [call env .young_unadjust_available,
        call env .old_unadjust_available,
        set_alloc_supplement_reserve 0,
        set_young_evac_reserve 0,
        set_old_evac_reserve 0,
        reset_old_evac_expended,
        set_promoted_reserve 0]),
    guarded (fun _ => env.flags.ShenandoahVerify) (call env .verify_after_degenerated),
    guarded (fun _ => env.flags.VerifyAfterGC) (call env .universe_verify),
    call env .metrics_snap_after]

/-- How a call of `op_degenerated` ended. -/
inductive DegenExit
  | pinned_cset
  | evac_cancelled
  | completed_futile
  | completed_progress
  | should_not_reach_here
  deriving DecidableEq, Repr

/-- The state on return from `op_degenerated`, and the way it returned: `pinned_cset` is the
`return` of line 247, `evac_cancelled` the one of line 256, `completed_futile` and
`completed_progress` the two branches of the futility check of line 313. -/
structure DegenResult where
  gc : ShenandoahDegenGC
  heap : ShenandoahHeap
  exit : DegenExit
  deriving DecidableEq, Repr

/-- Lines 286 to 320: the code after the `switch`, with the futility check. -/
def degen_epilogue (env : Env) (fuel : Nat) (gc : ShenandoahDegenGC) (h : ShenandoahHeap) :
    Option DegenResult :=
  let h1 := degen_after_switch env h
  if !env.is_good_progress h1 then
    match cancel_gc env fuel ._shenandoah_upgrade_to_full_gc
        (emit (.cancel_gc ._shenandoah_upgrade_to_full_gc) (call env .notify_gc_no_progress h1)) with
    | none => none
    | some h2 =>
      let r := op_degenerated_futile env gc h2
      some { gc := r.1, heap := r.2, exit := .completed_futile }
  else
    some { gc := gc, heap := call env .notify_gc_progress h1, exit := .completed_progress }

/-- Control enters the `switch` at `case _degenerated_updaterefs:`. -/
def degen_from_updaterefs (env : Env) (fuel : Nat) (gc : ShenandoahDegenGC)
    (h : ShenandoahHeap) : Option DegenResult :=
  degen_epilogue env fuel gc (case_updaterefs env h)

/-- Lines 194 to 198: the heap on which line 202 tests `is_evacuation_in_progress()`. -/
def evac_entry (env : Env) (gc : ShenandoahDegenGC) : Stmt :=
  block [emit (.case_label ._degenerated_evac), evac_coalesce env gc]

/-- Lines 204 to 241: the heap whose collection set the loop of lines 243 to 249 walks. -/
def evac_restart (env : Env) (gc : ShenandoahDegenGC) : Stmt :=
  block [evac_handover env gc, evac_sync env]

/-- Lines 251 to 253: rewind the collection set and evacuate. -/
def evac_run (env : Env) : Stmt :=
  block [call env .cset_clear_current_index, op_evacuate env]

/-- Control enters or falls into `case _degenerated_evac:` (lines 194 to 265) and, unless one
of the two `return` statements is taken, falls through into the next case. -/
def degen_from_evac (env : Env) (fuel : Nat) (gc : ShenandoahDegenGC) (h : ShenandoahHeap) :
    Option DegenResult :=
  let h1 := evac_entry env gc h
  if is_evacuation_in_progress h1 then
    let h2 := evac_restart env gc h1
    if cset_has_pinned h2 then
      match cancel_gc env fuel ._shenandoah_upgrade_to_full_gc
          (emit (.cancel_gc ._shenandoah_upgrade_to_full_gc) h2) with
      | none => none
      | some h3 =>
        let r := op_degenerated_fail env gc h3
        some { gc := r.1, heap := r.2, exit := .pinned_cset }
    else
      let h3 := evac_run env h2
      if cancelled_gc h3 then
        let r := op_degenerated_fail env gc h3
        some { gc := r.1, heap := r.2, exit := .evac_cancelled }
      else degen_from_updaterefs env fuel gc (evac_finish env h3)
  else degen_from_updaterefs env fuel gc (evac_finish env h1)

/-- Control enters or falls into `case _degenerated_mark:`, then falls through. -/
def degen_from_mark (env : Env) (fuel : Nat) (gc : ShenandoahDegenGC) (h : ShenandoahHeap) :
    Option DegenResult :=
  degen_from_evac env fuel gc (case_mark env gc h)

/-- Control enters or falls into `case _degenerated_roots:`, then falls through. -/
def degen_from_roots (env : Env) (fuel : Nat) (gc : ShenandoahDegenGC) (h : ShenandoahHeap) :
    Option DegenResult :=
  degen_from_mark env fuel gc (case_roots env gc h)

/-- Control enters at `case _degenerated_outside_cycle:`, then falls through. -/
def degen_from_outside_cycle (env : Env) (fuel : Nat) (gc : ShenandoahDegenGC)
    (h : ShenandoahHeap) : Option DegenResult :=
  degen_from_roots env fuel gc (case_outside_cycle env gc h)

/-- Lines 100 and 119: what `op_degenerated` does before the `switch`. -/
def degen_before_switch (env : Env) : Stmt :=
  block [clear_cancelled_gc true, call env .metrics_snap_before]

/-- `ShenandoahDegenGC::op_degenerated`.  The result is `none` when a `cancel_gc` it issues is
still spinning after `fuel` iterations; `default:` is `ShouldNotReachHere()`. -/
def op_degenerated (env : Env) (fuel : Nat) (gc : ShenandoahDegenGC) (h : ShenandoahHeap) :
    Option DegenResult :=
  let h0 := degen_before_switch env h
  match gc._degen_point with
  | ._degenerated_outside_cycle => degen_from_outside_cycle env fuel gc h0
  | ._degenerated_roots => degen_from_roots env fuel gc h0
  | ._degenerated_mark => degen_from_mark env fuel gc h0
  | ._degenerated_evac => degen_from_evac env fuel gc h0
  | ._degenerated_updaterefs => degen_from_updaterefs env fuel gc h0
  | _ => some { gc := gc, heap := h0, exit := .should_not_reach_here }

/-- The heap with which control reaches `case _degenerated_evac:`, if it does. -/
def reach_evac (env : Env) (gc : ShenandoahDegenGC) (h : ShenandoahHeap) :
    Option ShenandoahHeap :=
  let h0 := degen_before_switch env h
  match gc._degen_point with
  | ._degenerated_outside_cycle =>
    some (case_mark env gc (case_roots env gc (case_outside_cycle env gc h0)))
  | ._degenerated_roots => some (case_mark env gc (case_roots env gc h0))
  | ._degenerated_mark => some (case_mark env gc h0)
  | ._degenerated_evac => some h0
  | _ => none

/-- The heap with which the evac case falls through into `case _degenerated_updaterefs:`;
`none` when it takes one of its two `return` statements. -/
def after_evac_stage (env : Env) (gc : ShenandoahDegenGC) (h_evac : ShenandoahHeap) :
    Option ShenandoahHeap :=
  let h1 := evac_entry env gc h_evac
  if is_evacuation_in_progress h1 then
    let h2 := evac_restart env gc h1
    if cset_has_pinned h2 then none
    else
      let h3 := evac_run env h2
      if cancelled_gc h3 then none else some (evac_finish env h3)
  else some (evac_finish env h1)

/-- The heap on which line 313 evaluates `metrics.is_good_progress()`, if control gets
there. -/
def futility_heap (env : Env) (gc : ShenandoahDegenGC) (h : ShenandoahHeap) :
    Option ShenandoahHeap :=
  match gc._degen_point with
  | ._degenerated_updaterefs =>
    some (degen_after_switch env (case_updaterefs env (degen_before_switch env h)))
  | _ =>
    match reach_evac env gc h with
    | none => none
    | some h_evac =>
      match after_evac_stage env gc h_evac with
      | none => none
      | some h_upd => some (degen_after_switch env (case_updaterefs env h_upd))

/-- Control reaches the evac case with evacuation in progress, and the loop of lines 243 to
249 finds a pinned region in the collection set. -/
def pinned_region_found (env : Env) (gc : ShenandoahDegenGC) (h : ShenandoahHeap) : Bool :=
  match reach_evac env gc h with
  | none => false
  | some h_evac =>
    is_evacuation_in_progress (evac_entry env gc h_evac) &&
    cset_has_pinned (evac_restart env gc (evac_entry env gc h_evac))

/-- No pinned region was found, `op_evacuate` ran, and `cancelled_gc()` holds on its return
(line 254). -/
def evacuation_cancelled (env : Env) (gc : ShenandoahDegenGC) (h : ShenandoahHeap) : Bool :=
  match reach_evac env gc h with
  | none => false
  | some h_evac =>
    is_evacuation_in_progress (evac_entry env gc h_evac) &&
    !cset_has_pinned (evac_restart env gc (evac_entry env gc h_evac)) &&
    cancelled_gc (evac_run env (evac_restart env gc (evac_entry env gc h_evac)))

/-- The cycle completed and the metrics snapshot reports no good progress (line 313). -/
def no_good_progress (env : Env) (gc : ShenandoahDegenGC) (h : ShenandoahHeap) : Bool :=
  match futility_heap env gc h with
  | none => false
  | some h_chk => !env.is_good_progress h_chk

/-- The entry points of the degenerated cycle, in pipeline order. -/
def degen_pipeline : List ShenandoahDegenPoint :=
  [._degenerated_outside_cycle, ._degenerated_roots, ._degenerated_mark,
   ._degenerated_evac, ._degenerated_updaterefs]

/-- The stages from `p` on: `p` and every later stage of the pipeline. -/
def stages_from (p : ShenandoahDegenPoint) : List ShenandoahDegenPoint :=
  degen_pipeline.dropWhile (fun q => decide (q ≠ p))

/-- The case bodies a trace went through, in order. -/
def case_labels (t : List Ev) : List ShenandoahDegenPoint :=
  t.filterMap (fun e => match e with
    | .case_label p => some p
    | _ => none)

/-- The spin of `try_cancel_gc` ends within `fuel` iterations, whatever the heap. -/
def SpinEnds (env : Env) (fuel : Nat) : Prop :=
  ∀ h, (try_cancel_gc env fuel h).isSome = true

/-! ## Allocation (`shenandoahHeap.cpp`, lines 1121 to 1311) -/

/-- `ShenandoahAllocRequest::size`: the requested size, in words. -/
def ShenandoahAllocRequest.size (req : ShenandoahAllocRequest) : Nat :=
  req._requested_size

/-- `ShenandoahAllocRequest::actual_size`: the granted size, in words. -/
def ShenandoahAllocRequest.actual_size (req : ShenandoahAllocRequest) : Nat :=
  req._actual_size

/-- `ShenandoahAllocRequest::type`. -/
def ShenandoahAllocRequest.type (req : ShenandoahAllocRequest) : AllocType :=
  req._alloc_type

/-- `ShenandoahAllocRequest::affiliation`. -/
def ShenandoahAllocRequest.affiliation (req : ShenandoahAllocRequest) :
    ShenandoahRegionAffiliation :=
  req._affiliation

/-- `ShenandoahAllocRequest::is_mutator_alloc`: a TLAB or a shared mutator allocation. -/
def ShenandoahAllocRequest.is_mutator_alloc (req : ShenandoahAllocRequest) : Bool :=
  match req._alloc_type with
  | ._alloc_tlab => true
  | ._alloc_shared => true
  | _ => false

/-- `ShenandoahAllocRequest::is_gc_alloc`: a GCLAB, a PLAB or a shared GC allocation. -/
def ShenandoahAllocRequest.is_gc_alloc (req : ShenandoahAllocRequest) : Bool :=
  match req._alloc_type with
  | ._alloc_gclab => true
  | ._alloc_plab => true
  | ._alloc_shared_gc => true
  | _ => false

/-- `ShenandoahHeap::get_promoted_reserve`. -/
def get_promoted_reserve (h : ShenandoahHeap) : Nat :=
  h._promoted_reserve

/-- `ShenandoahHeap::get_promoted_expended`. -/
def get_promoted_expended (h : ShenandoahHeap) : Nat :=
  h._promoted_expended

/-- `ShenandoahHeap::get_old_evac_reserve`. -/
def get_old_evac_reserve (h : ShenandoahHeap) : Nat :=
  h._old_evac_reserve

/-- The sum of two `size_t` values (64 bits): it wraps around. -/
def size_t_add (a b : Nat) : Nat :=
  (a + b) % 2 ^ 64

/-- The product of two `size_t` values (64 bits): it wraps around. -/
def size_t_mul (a b : Nat) : Nat :=
  (a * b) % 2 ^ 64

/-- `ShenandoahHeap::expend_promoted`, an `Atomic::add` on a `size_t` (the returned new value
is unused). -/
def expend_promoted (increment : Nat) : Stmt :=
  fun h => { h with _promoted_expended := size_t_add h._promoted_expended increment }

/-- The variables `allocate_memory_under_lock` works on: the heap, the data of the current
thread, and the two reference parameters `req` and `in_new_region`. -/
structure AllocState where
  heap : ShenandoahHeap
  tld : ShenandoahThreadLocalData
  req : ShenandoahAllocRequest
  in_new_region : Bool := false
  deriving DecidableEq, Repr

/-- What lines 1209 to 1255 decide. -/
inductive BudgetVerdict
  | reject
  | proceed (allow_allocation promotion_eligible : Bool)
  deriving DecidableEq, Repr

/-- Lines 1202 to 1255 of `allocate_memory_under_lock`: the budget checks of generational
mode.  `reject` is one of the two `return nullptr` of lines 1215 and 1248; otherwise the
values of `allow_allocation` and `promotion_eligible` on reaching line 1256. -/
def budget_check (env : Env) (is_promotion : Bool) (h : ShenandoahHeap)
    (req : ShenandoahAllocRequest) : BudgetVerdict :=
  let requested_bytes := size_t_mul req.size HeapWordSize
  if env.is_generational then
    if req.affiliation = .YOUNG_GENERATION then
      if req.is_mutator_alloc then
        if requested_bytes ≥ h.young_adjusted_available then .reject
        else .proceed true false
      else .proceed true false
    else
      if req.type = ._alloc_plab then
        let promotion_avail := get_promoted_reserve h
        let promotion_expended := get_promoted_expended h
        if size_t_add promotion_expended requested_bytes > promotion_avail then
          if get_old_evac_reserve h = 0 then .proceed false false
          else .proceed true false
        else .proceed true true
      else if is_promotion then
        let promotion_avail := get_promoted_reserve h
        let promotion_expended := get_promoted_expended h
        let promotion_avail :=
          if size_t_add promotion_expended requested_bytes > promotion_avail then 0
          else promotion_avail - size_t_add promotion_expended requested_bytes
        if promotion_avail = 0 then .reject
        else .proceed true false
      else .proceed true false
  else .proceed true false

/-- Lines 1258 to 1300: the bookkeeping after a successful allocation of `actual_size`
words. -/
def after_success (is_promotion promotion_eligible : Bool) (s : AllocState) : AllocState :=
  let requested_bytes := size_t_mul s.req.size HeapWordSize
  if s.req.affiliation = .OLD_GENERATION then
    let tld1 := { s.tld with _plab_promoted := 0 }
    let s1 : AllocState :=
      if s.req.is_gc_alloc then
        if s.req.type = ._alloc_plab then
          if promotion_eligible then
            let actual_size := size_t_mul s.req.actual_size HeapWordSize
            { s with heap := expend_promoted actual_size s.heap,
                     tld := { tld1 with _plab_allows_promotion := true,
                                        _plab_preallocated_promoted := actual_size } }
          else
            { s with tld := { tld1 with _plab_allows_promotion := false,
                                        _plab_preallocated_promoted := 0 } }
        else if is_promotion then
          { s with heap := expend_promoted requested_bytes s.heap, tld := tld1 }
        else { s with tld := tld1 }
      else { s with tld := tld1 }
    { s1 with heap := emit (.ext .card_scan_register_object) s1.heap }
  else s

/-- Lines 1301 to 1309: the bookkeeping after a failed allocation. -/
def after_failure (s : AllocState) : AllocState :=
  if s.req.affiliation = .OLD_GENERATION ∧ s.req.is_gc_alloc = true ∧
      s.req.type = ._alloc_plab then
    { s with tld := { s.tld with _plab_preallocated_promoted := 0 } }
  else s

/-- Line 1256, taken when `allow_allocation` holds: `_free_set->allocate(req, in_new_region)`.
A grant sets the actual size of the request and `in_new_region`. -/
def free_set_allocate (env : Env) (s : AllocState) : Option Nat × AllocState :=
  let r := env.free_set_allocate s.heap._free_set s.req
  let h1 := emit (.ext .free_set_allocate) { s.heap with _free_set := r.2 }
  match r.1 with
  | some g =>
    (some g.addr, { s with heap := h1, req := { s.req with _actual_size := g.actual_size },
                           in_new_region := g.in_new_region })
  | none => (none, { s with heap := h1 })

/-- `ShenandoahHeap::allocate_memory_under_lock`.  The result is the address, `none` for
`nullptr`. -/
def allocate_memory_under_lock (env : Env) (is_promotion : Bool) (s : AllocState) :
    Option Nat × AllocState :=
  match budget_check env is_promotion s.heap s.req with
  | .reject => (none, s)
  | .proceed allow_allocation promotion_eligible =>
    let r := if allow_allocation then free_set_allocate env s else (none, s)
    match r.1 with
    | some addr => (some addr, after_success is_promotion promotion_eligible r.2)
    | none => (none, after_failure r.2)

/-- The local variables of `allocate_memory` while it retries. -/
structure RetryState where
  tries : Nat
  result : Option Nat
  st : AllocState
  deriving DecidableEq, Repr

/-- One retry: the body shared by the loops of lines 1148 and 1154. -/
def retry_once (env : Env) (is_promotion : Bool) (rs : RetryState) : RetryState :=
  let s1 := { rs.st with heap := call env .handle_alloc_failure rs.st.heap }
  let r := allocate_memory_under_lock env is_promotion s1
  { tries := rs.tries + 1, result := r.1, st := r.2 }

/-- The loop of lines 1148 to 1152: retry while the last collection made progress.  One unit
of fuel is one test of the loop condition. -/
def retry_while_progress (env : Env) (is_promotion : Bool) :
    Nat → RetryState → Option RetryState
  | 0, _ => none
  | fuel + 1, rs =>
    if rs.result.isNone && rs.st.heap._progress_last_gc then
      retry_while_progress env is_promotion fuel (retry_once env is_promotion rs)
    else some rs

/-- The loop of lines 1154 to 1158: retry while `tries <= ShenandoahFullGCThreshold`.  The
first argument bounds the number of iterations; `ShenandoahFullGCThreshold + 1 - tries` is
enough, since `tries` grows by one in every iteration. -/
def retry_upto_threshold (env : Env) (is_promotion : Bool) :
    Nat → RetryState → RetryState
  | 0, rs => rs
  | n + 1, rs =>
    if rs.result.isNone && decide (rs.tries ≤ env.flags.ShenandoahFullGCThreshold) then
      retry_upto_threshold env is_promotion n (retry_once env is_promotion rs)
    else rs

/-- Lines 1167 to 1195 of `allocate_memory`: notifications and accounting. -/
def allocate_memory_finish (env : Env) (pacer_epoch : Int) (result : Option Nat)
    (s : AllocState) : AllocState :=
  let h1 := guarded (fun _ => s.in_new_region)
    (block [call env .notify_heap_changed, call env .notify_heap_changed]) s.heap
  let h2 :=
    if result.isSome then
      if s.req.is_mutator_alloc then
        block [call env .notify_mutator_alloc_words, call env .increase_allocated,
          guarded (fun _ => env.flags.ShenandoahPacing && decide (pacer_epoch > 0) &&
              decide (s.req.size > s.req.actual_size))
            (call env .unpace_for_alloc)] h1
      else call env .increase_used h1
    else h1
  { s with heap := h2 }

/-- Lines 1126 to 1134: pacing and the first attempt of a mutator allocation. -/
def first_attempt (env : Env) (is_promotion : Bool) (s : AllocState) : RetryState :=
  let h1 := guarded (fun _ => env.flags.ShenandoahPacing) (call env .pace_for_alloc) s.heap
  let s1 := { s with heap := h1 }
  if !env.flags.ShenandoahAllocFailureALot || !env.should_inject_alloc_failure h1 then
    let r := allocate_memory_under_lock env is_promotion s1
    { tries := 0, result := r.1, st := r.2 }
  else { tries := 0, result := none, st := s1 }

/-- What `allocate_memory` returns, with the final value of its counter `tries` and the
value `tries` had when the first loop ended. -/
structure AllocOutcome where
  result : Option Nat
  st : AllocState
  tries : Nat
  tries_while_progress : Nat
  deriving DecidableEq, Repr

/-- `ShenandoahHeap::allocate_memory`.  The result is `none` when the loop of line 1148 is
still running after `fuel` tests of its condition. -/
def allocate_memory (env : Env) (fuel : Nat) (is_promotion : Bool) (s : AllocState) :
    Option AllocOutcome :=
  if s.req.is_mutator_alloc then
    let pacer_epoch : Int :=
      if env.flags.ShenandoahPacing then env.pacer_epoch (call env .pace_for_alloc s.heap) else 0
    match retry_while_progress env is_promotion fuel (first_attempt env is_promotion s) with
    | none => none
    | some rs1 =>
      let rs2 := retry_upto_threshold env is_promotion
        (env.flags.ShenandoahFullGCThreshold + 1 - rs1.tries) rs1
      some { result := rs2.result,
             st := allocate_memory_finish env pacer_epoch rs2.result rs2.st,
             tries := rs2.tries,
             tries_while_progress := rs1.tries }
  else
    let r := allocate_memory_under_lock env is_promotion s
    some { result := r.1,
           st := allocate_memory_finish env 0 r.1 r.2,
           tries := 0,
           tries_while_progress := 0 }

/-- The invariant of the promotion budget. -/
@[reducible] def promotion_within_budget (h : ShenandoahHeap) : Prop :=
  get_promoted_expended h ≤ get_promoted_reserve h

/-- A concrete environment in generational mode whose free set grants every request in
full, at address 4096. -/
def granting_env : Env :=
  { is_generational := true,
    free_set_allocate := fun fs req =>
      (some { addr := 4096, actual_size := req._requested_size, in_new_region := false },
       fs + 1) }

/-- A concrete environment: every collection makes progress, and the free set fails
until the control thread has been notified five times. -/
def slow_env : Env :=
  { flags := { ShenandoahPacing := false },
    ext := fun op h =>
      if op = .handle_alloc_failure then { h with _free_set := h._free_set + 1 } else h,
    free_set_allocate := fun fs req =>
      if fs < 5 then (none, fs)
      else (some { addr := 4096, actual_size := req._requested_size, in_new_region := false },
            fs) }

/-- A young mutator request of 8 words, 64 bytes, on a heap whose young generation has
exactly 64 bytes of adjusted available memory. -/
def young_request_at_limit : AllocState :=
  { heap := { young_adjusted_available := 64 },
    tld := {},
    req := { _min_size := 8, _requested_size := 8, _alloc_type := ._alloc_shared,
             _affiliation := .YOUNG_GENERATION } }

/-- A PLAB request of 4 words, 32 bytes, on a heap whose promotion reserve of 16 bytes is
used up, with `old_evac_reserve` bytes reserved for old-generation evacuation. -/
def plab_request_over_budget (old_evac_reserve : Nat) : AllocState :=
  { heap := { _promoted_reserve := 16, _promoted_expended := 16,
              _old_evac_reserve := old_evac_reserve },
    tld := {},
    req := { _min_size := 2, _requested_size := 4, _alloc_type := ._alloc_plab,
             _affiliation := .OLD_GENERATION } }

/-- A shared GC request of one word in the old generation, on a heap with an empty promotion
reserve. -/
def shared_old_request : AllocState :=
  { heap := {},
    tld := {},
    req := { _min_size := 1, _requested_size := 1, _alloc_type := ._alloc_shared_gc,
             _affiliation := .OLD_GENERATION } }

/-- A shared mutator request of one word, on a heap with room in the young generation. -/
def shared_mutator_request : AllocState :=
  { heap := { young_adjusted_available := 1024 },
    tld := {},
    req := { _min_size := 1, _requested_size := 1, _alloc_type := ._alloc_shared,
             _affiliation := .YOUNG_GENERATION } }

/-! ## Milestones of a degenerated cycle -/

/-- The events by which a run of `op_degenerated` is told apart: case labels, cancellation
requests, evacuation, the steps that update references, the futility check and the upgrade
to a full collection. -/
def milestone : Ev → Bool
  | .case_label _ => true
  | .cancel_gc _ => true
  | .op .op_evacuate => true
  | .op .op_init_updaterefs => true
  | .op .op_updaterefs => true
  | .op .op_update_roots => true
  | .op .op_degenerated_fail => true
  | .op .op_degenerated_futile => true
  | .op .upgrade_to_full => true
  | .ext .op_full => true
  | .ext .metrics_snap_after => true
  | .ext .notify_gc_no_progress => true
  | .ext .notify_gc_progress => true
  | _ => false

/-- The milestones of `op_degenerated_fail`. -/
def fail_events : List Ev :=
  [.op .op_degenerated_fail, .op .upgrade_to_full, .ext .op_full]

/-- The milestones of the futile branch of the futility check. -/
def futile_events : List Ev :=
  [.ext .notify_gc_no_progress, .cancel_gc ._shenandoah_upgrade_to_full_gc,
   .op .op_degenerated_futile, .op .upgrade_to_full, .ext .op_full]

/-- The milestones from `case _degenerated_updaterefs:` to the return. -/
def tail_shape (exit : DegenExit) (b_upd : Bool) : List Ev :=
  [.case_label ._degenerated_updaterefs] ++
  (if b_upd then [.op .op_updaterefs, .op .op_update_roots] else []) ++
  [.ext .metrics_snap_after] ++
  (match exit with
   | .completed_futile => futile_events
   | _ => [.ext .notify_gc_progress])

/-- The milestones from `case _degenerated_evac:` to the return. -/
def evac_shape (exit : DegenExit) (b_evac b_init b_upd : Bool) : List Ev :=
  [.case_label ._degenerated_evac] ++
  (match exit with
   | .pinned_cset => [.cancel_gc ._shenandoah_upgrade_to_full_gc] ++ fail_events
   | .evac_cancelled => [.op .op_evacuate] ++ fail_events
   | _ =>
     (if b_evac then [.op .op_evacuate] else []) ++
     (if b_init then [.op .op_init_updaterefs] else []) ++
     tail_shape exit b_upd)

/-- The milestones of a whole run entered at `p`. -/
def run_shape (p : ShenandoahDegenPoint) (exit : DegenExit) (b_evac b_init b_upd : Bool) :
    List Ev :=
  match p with
  | ._degenerated_outside_cycle =>
    [.case_label ._degenerated_outside_cycle, .case_label ._degenerated_roots,
     .case_label ._degenerated_mark] ++ evac_shape exit b_evac b_init b_upd
  | ._degenerated_roots =>
    [.case_label ._degenerated_roots, .case_label ._degenerated_mark] ++
      evac_shape exit b_evac b_init b_upd
  | ._degenerated_mark =>
    [.case_label ._degenerated_mark] ++ evac_shape exit b_evac b_init b_upd
  | ._degenerated_evac => evac_shape exit b_evac b_init b_upd
  | ._degenerated_updaterefs => tail_shape exit b_upd
  | _ => []

/-- The exits that go through a full collection. -/
def DegenExit.upgrades : DegenExit → Bool
  | .pinned_cset => true
  | .evac_cancelled => true
  | .completed_futile => true
  | _ => false

/-- The exits an entry point can lead to. -/
def exit_possible (p : ShenandoahDegenPoint) (exit : DegenExit) : Bool :=
  match p with
  | ._degenerated_outside_cycle | ._degenerated_roots | ._degenerated_mark
  | ._degenerated_evac => decide (exit ≠ .should_not_reach_here)
  | ._degenerated_updaterefs =>
    decide (exit = .completed_futile) || decide (exit = .completed_progress)
  | _ => decide (exit = .should_not_reach_here)

/-- A statement adds no event selected by `p` to the trace. -/
def Silent (p : Ev → Bool) (f : Stmt) : Prop :=
  ∀ h, (f h).trace.filter p = h.trace.filter p

/-- The result of a run: its milestones follow `shape`, and the collector object records an
upgrade exactly when the exit goes through a full collection. -/
def FollowsShape (gc : ShenandoahDegenGC) (h : ShenandoahHeap) (r : DegenResult)
    (shape : List Ev) : Prop :=
  r.heap.trace.filter milestone = h.trace.filter milestone ++ shape ∧
  r.gc = { gc with _upgraded_to_full := gc._upgraded_to_full || r.exit.upgrades }

/-- The number of times `e` was recorded between the heap `h` and the heap `h1`. -/
def calls_between (e : Ev) (h h1 : ShenandoahHeap) : Int :=
  (h1.trace.count e : Int) - (h.trace.count e : Int)

/-- A concrete environment: collaborators leave the heap alone, except that the worker
holding the flag at `NOT_CANCELLED` hands it back while a canceller pauses. -/
def fair_env : Env :=
  { ext := fun op h =>
      if op = .spin_pause then { h with _cancelled_gc := .CANCELLABLE } else h }

/-- A concrete heap: evacuation was in progress when the cycle degenerated, and the second
of the two regions of the collection set is pinned. -/
def pinned_heap : ShenandoahHeap :=
  { _gc_state := { EVACUATION := true, HAS_FORWARDED := true },
    _regions := [{ is_active := true, in_cset := true },
                 { is_active := true, in_cset := true, is_pinned := true },
                 { is_active := true, _top := 5 }] }

/-! ## Minimum and maximum (`MIN2`, `MAX2`) -/

/-- The template `MAX2`: `(a > b) ? a : b`. -/
def MAX2 (a b : Nat) : Nat :=
  if a > b then a else b

/-- The template `MIN2`: `(a < b) ? a : b`. -/
def MIN2 (a b : Nat) : Nat :=
  if a < b then a else b

/-! ## The memory pool (`shenandoahMemoryPool.cpp`) -/

/-- The four arguments of the constructor of `MemoryUsage`, in order. -/
structure MemoryUsage where
  initSize : Nat
  used : Nat
  committed : Nat
  maxSize : Nat
  deriving DecidableEq, Repr

/-- What a `ShenandoahMemoryPool` reads: its own `initial_size()` and three counters of the
heap it belongs to, `max_capacity()`, `used()` and `committed()`. -/
structure ShenandoahMemoryPool where
  _initial_size : Nat := 0
  heap_max_capacity : Nat := 0
  heap_used : Nat := 0
  heap_committed : Nat := 0
  deriving DecidableEq, Repr

/-- `CollectedMemoryPool::initial_size`. -/
def ShenandoahMemoryPool.initial_size (pool : ShenandoahMemoryPool) : Nat :=
  pool._initial_size

/-- `ShenandoahMemoryPool::used_in_bytes`: `_heap->used()`. -/
def ShenandoahMemoryPool.used_in_bytes (pool : ShenandoahMemoryPool) : Nat :=
  pool.heap_used

/-- `ShenandoahMemoryPool::max_size`: `_heap->max_capacity()`. -/
def ShenandoahMemoryPool.max_size (pool : ShenandoahMemoryPool) : Nat :=
  pool.heap_max_capacity

/-- `ShenandoahMemoryPool::get_memory_usage` (lines 49 to 67). -/
def ShenandoahMemoryPool.get_memory_usage (pool : ShenandoahMemoryPool) : MemoryUsage :=
  let initial := pool.initial_size
  let max := pool.max_size
  let used := pool.used_in_bytes
  let committed := pool.heap_committed
  let committed := MAX2 used committed
  { initSize := initial, used := used, committed := committed, maxSize := max }

/-! ## The state machine of the old generation (`shenandoahOldGeneration.cpp`) -/

/-- The enum `ShenandoahOldGeneration::State`. -/
inductive OldGenState
  | IDLE
  | FILLING
  | BOOTSTRAPPING
  | MARKING
  | WAITING
  deriving DecidableEq, Repr

/-- The state of a `ShenandoahOldGeneration` and what `validate_transition` reads of the
heap, of the old heuristics and of the young generation. -/
structure ShenandoahOldGeneration where
  _state : OldGenState := .IDLE
  is_concurrent_old_mark_in_progress : Bool := false
  is_prepare_for_old_mark_in_progress : Bool := false
  unprocessed_old_collection_candidates : Nat := 0
  young_old_gen_task_queues_is_null : Bool := true
  deriving DecidableEq, Repr

/-- `ShenandoahOldGeneration::validate_transition` (lines 388 to 419, compiled under
`ASSERT` only).  The result is `none` when one of its assertions fails, which stops the
virtual machine, and `some true` when it returns. -/
def validate_transition (g : ShenandoahOldGeneration) (new_state : OldGenState) :
    Option Bool :=
  match new_state with
  | .IDLE =>
    if !g.is_concurrent_old_mark_in_progress &&
        decide (g.unprocessed_old_collection_candidates = 0) &&
        !g.is_prepare_for_old_mark_in_progress &&
        g.young_old_gen_task_queues_is_null then some true else none
  | .FILLING =>
    if decide (g._state = .IDLE) && g.is_prepare_for_old_mark_in_progress then some true
    else none
  | .BOOTSTRAPPING =>
    if decide (g._state = .FILLING) && !g.is_prepare_for_old_mark_in_progress then some true
    else none
  | .MARKING =>
    if decide (g._state = .BOOTSTRAPPING) && !g.young_old_gen_task_queues_is_null &&
        g.is_concurrent_old_mark_in_progress then some true else none
  | .WAITING =>
    if decide (g._state = .MARKING) &&
        decide (g.unprocessed_old_collection_candidates > 0) then some true else none

/-- `ShenandoahOldGeneration::transition_to` (lines 336 to 342) in a build with assertions:
`none` when `assert(validate_transition(new_state))` fails. -/
def transition_to (g : ShenandoahOldGeneration) (new_state : OldGenState) :
    Option ShenandoahOldGeneration :=
  if g._state ≠ new_state then
    if validate_transition g new_state = some true then some { g with _state := new_state }
    else none
  else some g

/-- The five edges of the cycle `IDLE, FILLING, BOOTSTRAPPING, MARKING, WAITING, IDLE`. -/
def old_gen_cycle_edges : List (OldGenState × OldGenState) :=
  [(.IDLE, .FILLING), (.FILLING, .BOOTSTRAPPING), (.BOOTSTRAPPING, .MARKING),
   (.MARKING, .WAITING), (.WAITING, .IDLE)]

/-- An old generation in state `MARKING` whose marking has ended without collection
candidates: no old mark in progress, no preparation for old mark, no candidates, no old
mark queues. -/
def marking_finished_without_candidates : ShenandoahOldGeneration :=
  { _state := .MARKING }

/-- An old generation in state `IDLE` for which preparation for old mark has begun. -/
def idle_preparing : ShenandoahOldGeneration :=
  { _state := .IDLE, is_prepare_for_old_mark_in_progress := true }

/-! ## Merging the write card table (`shenandoahScanRemembered.hpp`) -/

/-- The two byte maps of a `ShenandoahCardTable`, by card index; a card value is a byte. -/
structure ShenandoahCardTable where
  read_byte_map : Nat → Nat
  write_byte_map : Nat → Nat

/-- `sizeof (intptr_t) / sizeof (CardTable::CardValue)` on a 64-bit platform. -/
def cards_per_word : Nat := 8

/-- Modelled from the spec: `card_index_for_addr`, whose body is not part of these sources.
A card is one fixed-size slice of memory: with addresses counted in words from the start of
the heap, card `i` is the memory `[i * card_size_in_words, (i + 1) * card_size_in_words)`. -/
def card_index_for_addr (card_size_in_words : Nat) (p : Nat) : Nat :=
  p / card_size_in_words

/-- One iteration of the loop of `merge_write_table`: `*read_table_ptr &= *write_table_ptr`
on the word of eight card bytes that starts at card `first`.  The conjunction of two words
is the conjunction of their bytes, lane by lane. -/
def merge_word (t : ShenandoahCardTable) (first : Nat) : ShenandoahCardTable :=
  { t with read_byte_map := fun j =>
      if first ≤ j ∧ j < first + cards_per_word then
        Nat.land (t.read_byte_map j) (t.write_byte_map j)
      else t.read_byte_map j }

/-- The loop of lines 293 to 297: `iterations` words, the pointers starting at card `p`. -/
def merge_write_table_loop : Nat → Nat → ShenandoahCardTable → ShenandoahCardTable
  | 0, _, t => t
  | iterations + 1, p, t => merge_write_table_loop iterations (p + cards_per_word)
      (merge_word t p)

/-- `ShenandoahDirectCardMarkRememberedSet::merge_write_table` (lines 287 to 298). -/
def merge_write_table (card_size_in_words : Nat) (start word_count : Nat)
    (t : ShenandoahCardTable) : ShenandoahCardTable :=
  let card_index := card_index_for_addr card_size_in_words start
  let num_cards := word_count / card_size_in_words
  let iterations := num_cards / cards_per_word
  merge_write_table_loop iterations card_index t

/-- Whether card `j` lies in the memory `[start, start + word_count)`. -/
def card_within (card_size_in_words start word_count j : Nat) : Prop :=
  start ≤ j * card_size_in_words ∧ (j + 1) * card_size_in_words ≤ start + word_count

/-- A card table with 64-word cards whose card 0 is dirty (value `0`) in the write table
and clean (value `255`) in the read table; every other card is clean in both. -/
def one_dirty_write_card : ShenandoahCardTable :=
  { read_byte_map := fun _ => 255,
    write_byte_map := fun j => if j = 0 then 0 else 255 }

/-! ## Thread-local buffers for evacuation (`shenandoahHeap.cpp`, lines 853 to 1117;
`shenandoahHeap.inline.hpp`, lines 284 to 330) -/

/-- The variables of an evacuating thread: the heap and the thread's own data. -/
structure EvacState where
  heap : ShenandoahHeap
  tld : ShenandoahThreadLocalData
  deriving DecidableEq, Repr

/-- Subtraction of `size_t` values, which wraps around below zero (64-bit platform). -/
def size_t_sub (a b : Nat) : Nat :=
  if b ≤ a then a - b else a + 2 ^ 64 - b

/-- `ShenandoahHeap::unexpend_promoted` (the returned new value is unused). -/
def unexpend_promoted (decrement : Nat) : Stmt :=
  fun h => { h with _promoted_expended := size_t_sub h._promoted_expended decrement }

/-- Call a collaborator and record the call together with its arguments. -/
def call_as (env : Env) (op : ExtOp) (e : Ev) : Stmt :=
  fun h => { env.ext op h with trace := h.trace ++ [e] }

/-- `ShenandoahAllocRequest::for_gclab`. -/
def ShenandoahAllocRequest.for_gclab (min_size requested_size : Nat) :
    ShenandoahAllocRequest :=
  { _min_size := min_size, _requested_size := requested_size, _alloc_type := ._alloc_gclab,
    _affiliation := .YOUNG_GENERATION }

/-- `ShenandoahAllocRequest::for_plab`. -/
def ShenandoahAllocRequest.for_plab (min_size requested_size : Nat) :
    ShenandoahAllocRequest :=
  { _min_size := min_size, _requested_size := requested_size, _alloc_type := ._alloc_plab,
    _affiliation := .OLD_GENERATION }

/-- `ShenandoahAllocRequest::for_shared_gc`. -/
def ShenandoahAllocRequest.for_shared_gc (requested_size : Nat)
    (affiliation : ShenandoahRegionAffiliation) : ShenandoahAllocRequest :=
  { _min_size := 0, _requested_size := requested_size, _alloc_type := ._alloc_shared_gc,
    _affiliation := affiliation }

/-- The call `allocate_memory(req, is_promotion)` made by a collector thread, with the
request handed back.  A request of the collector is attempted once and never waits, so that
no fuel is needed. -/
def allocate_memory_for_gc (env : Env) (req : ShenandoahAllocRequest) (is_promotion : Bool)
    (s : EvacState) : (Option Nat × ShenandoahAllocRequest) × EvacState :=
  match allocate_memory env 0 is_promotion { heap := s.heap, tld := s.tld, req := req } with
  | some out => ((out.result, out.st.req), { heap := out.st.heap, tld := out.st.tld })
  | none => ((none, req), s)

/-- `ShenandoahHeap::allocate_new_gclab` (lines 1091 to 1102): the buffer, `none` for
`NULL`, and `*actual_size`. -/
def allocate_new_gclab (env : Env) (min_size word_size : Nat) (s : EvacState) :
    (Option Nat × Nat) × EvacState :=
  let r := allocate_memory_for_gc env (.for_gclab min_size word_size) false s
  match r.1.1 with
  | some res => ((some res, r.1.2.actual_size), r.2)
  | none => ((none, 0), r.2)

/-- `ShenandoahHeap::allocate_new_plab` (lines 1104 to 1117). -/
def allocate_new_plab (env : Env) (min_size word_size : Nat) (s : EvacState) :
    (Option Nat × Nat) × EvacState :=
  let r := allocate_memory_for_gc env (.for_plab min_size word_size) false s
  match r.1.1 with
  | some res => ((some res, r.1.2.actual_size), r.2)
  | none => ((none, 0), r.2)

/-- Lines 858 to 866 of `allocate_from_gclab_slow`: the new desired size of the GCLAB. -/
def gclab_new_size (env : Env) (gclab_size : Nat) : Nat :=
  let new_size := gclab_size * 2
  let new_size :=
    if env.flags.ShenandoahMaxEvacLABRatio > 0 then
      MIN2 new_size (env.PLAB_min_size * env.flags.ShenandoahMaxEvacLABRatio)
    else new_size
  let new_size := MIN2 new_size env.PLAB_max_size
  MAX2 new_size env.PLAB_min_size

/-- `ShenandoahHeap::allocate_from_gclab_slow` (lines 853 to 906), for the thread's GCLAB
in state `gclab`. -/
def allocate_from_gclab_slow (env : Env) (gclab : Nat) (size : Nat) (s : EvacState) :
    Option Nat × EvacState :=
  let min_size := MAX2 size env.PLAB_min_size
  let new_size := gclab_new_size env s.tld._gclab_size
  let s1 : EvacState := { s with tld := { s.tld with _gclab_size := new_size } }
  if new_size < size then (none, s1)
  else
    let gclab1 := env.lab_retire gclab
    let s2 : EvacState :=
      { heap := call env .gclab_retire s1.heap, tld := { s1.tld with _gclab := some gclab1 } }
    let r := allocate_new_gclab env min_size new_size s2
    match r.1.1 with
    | none => (none, r.2)
    | some gclab_buf =>
      let h3 := guarded (fun _ => env.flags.ZeroTLAB) (call env .zero_to_words) r.2.heap
      let a := env.lab_allocate (env.lab_set_buf gclab1 gclab_buf r.1.2) size
      (a.1, { heap := h3, tld := { r.2.tld with _gclab := some a.2 } })

/-- `ShenandoahHeap::allocate_from_gclab` (lines 284 to 299). -/
def allocate_from_gclab (env : Env) (size : Nat) (s : EvacState) : Option Nat × EvacState :=
  match s.tld._gclab with
  | none => (none, s)
  | some gclab =>
    let a := env.lab_allocate gclab size
    let s1 : EvacState := { s with tld := { s.tld with _gclab := some a.2 } }
    match a.1 with
    | some obj => (some obj, s1)
    | none => allocate_from_gclab_slow env a.2 size s1

/-- `ShenandoahHeap::retire_plab` (lines 995 to 1024), for the thread's PLAB in state
`plab`. -/
def retire_plab (env : Env) (plab : Nat) (s : EvacState) : EvacState :=
  let not_promoted := size_t_sub s.tld._plab_preallocated_promoted s.tld._plab_promoted
  let tld1 := { s.tld with _plab_promoted := 0, _plab_evacuated := 0,
                           _plab_preallocated_promoted := 0 }
  let h1 := guarded (fun _ => decide (not_promoted > 0)) (unexpend_promoted not_promoted) s.heap
  let h2 := call env .plab_retire h1
  let remnant := env.plab_retire_leaves_filler h2 plab
  let h3 := guarded (fun _ => remnant) (call env .register_object_wo_lock) h2
  { heap := h3, tld := { tld1 with _plab := some (env.lab_retire plab) } }

/-- Lines 914 to 930 of `allocate_from_plab_slow`: the desired size of the next PLAB, a
multiple of the card size. -/
def plab_future_size (env : Env) (cur_size : Nat) : Nat :=
  let future_size := cur_size * 2
  let future_size :=
    if env.flags.ShenandoahMaxEvacLABRatio > 0 then
      MIN2 future_size (env.PLAB_min_size * env.flags.ShenandoahMaxEvacLABRatio)
    else future_size
  let future_size := MIN2 future_size env.PLAB_max_size
  let future_size := MAX2 future_size env.PLAB_min_size
  let unalignment := future_size % env.card_size_in_words
  if unalignment ≠ 0 then future_size - unalignment + env.card_size_in_words
  else future_size

/-- `ShenandoahHeap::allocate_from_plab_slow` (lines 909 to 989), for the thread's PLAB in
state `plab`. -/
def allocate_from_plab_slow (env : Env) (plab : Nat) (size : Nat) (is_promotion : Bool)
    (s : EvacState) : Option Nat × EvacState :=
  let min_size := MAX2 size env.PLAB_min_size
  let cur_size := if s.tld._plab_size = 0 then env.PLAB_min_size else s.tld._plab_size
  let future_size := plab_future_size env cur_size
  let s1 : EvacState := { s with tld := { s.tld with _plab_size := future_size } }
  if cur_size < size then (none, s1)
  else if env.lab_words_remaining plab < env.PLAB_min_size then
    let s2 := retire_plab env plab s1
    let r := allocate_new_plab env min_size cur_size s2
    match r.1.1 with
    | none => (none, r.2)
    | some plab_buf =>
      let h3 := guarded (fun _ => env.flags.ZeroTLAB) (call env .zero_to_words) r.2.heap
      let plab2 := env.lab_set_buf (env.lab_retire plab) plab_buf r.1.2
      let s3 : EvacState :=
        { heap := h3, tld := { r.2.tld with _plab_retries_enabled := true,
                                            _plab := some plab2 } }
      if is_promotion && !s3.tld._plab_allows_promotion then (none, s3)
      else
        let a := env.lab_allocate plab2 size
        (a.1, { s3 with tld := { s3.tld with _plab := some a.2 } })
  else (none, s1)

/-- `ShenandoahHeap::allocate_from_plab` (lines 301 to 330). -/
def allocate_from_plab (env : Env) (size : Nat) (is_promotion : Bool) (s : EvacState) :
    Option Nat × EvacState :=
  match s.tld._plab with
  | none => (none, s)
  | some plab =>
    if is_promotion && decide (env.lab_words_remaining plab > 0) &&
        !s.tld._plab_allows_promotion then (none, s)
    else
      let a := env.lab_allocate plab size
      let s1 : EvacState := { s with tld := { s.tld with _plab := some a.2 } }
      let r :=
        if a.1.isNone && decide (env.lab_words_remaining a.2 < env.PLAB_min_size) then
          allocate_from_plab_slow env a.2 size is_promotion s1
        else (a.1, s1)
      match r.1 with
      | none => (none, r.2)
      | some obj =>
        if is_promotion then
          (some obj, { r.2 with tld := { r.2.tld with
            _plab_promoted := r.2.tld._plab_promoted + size * HeapWordSize } })
        else
          (some obj, { r.2 with tld := { r.2.tld with
            _plab_evacuated := r.2.tld._plab_evacuated + size * HeapWordSize } })

/-! ## Evacuation of one object (`shenandoahHeap.inline.hpp`, lines 332 to 579;
`shenandoahHeap.cpp`, lines 827 to 851 and 1355 to 1369) -/

/-- What the evacuation path reads of an object `p`, apart from its forwarding pointer: its
address (a byte offset from the base of the heap), its size in words and, of its mark word,
the displaced-mark bit and the age. -/
structure oopDesc where
  addr : Nat
  size : Nat
  has_displaced_mark_helper : Bool := false
  age : Nat := 0
  deriving DecidableEq, Repr

/-- `ShenandoahHeapRegion::affiliation`. -/
def ShenandoahHeapRegion.affiliation (r : ShenandoahHeapRegion) :
    ShenandoahRegionAffiliation :=
  r._affiliation

/-- `ShenandoahHeapRegion::age`. -/
def ShenandoahHeapRegion.age (r : ShenandoahHeapRegion) : Nat :=
  r._age

/-- `ShenandoahHeapRegion::is_young`. -/
def ShenandoahHeapRegion.is_young (r : ShenandoahHeapRegion) : Bool :=
  decide (r._affiliation = .YOUNG_GENERATION)

/-- `ShenandoahHeap::heap_region_index_containing` (lines 79 to 84). -/
def heap_region_index_containing (env : Env) (addr : Nat) : Nat :=
  addr >>> env.region_size_bytes_shift

/-- `ShenandoahHeap::heap_region_containing` (lines 86 to 91); `get_region` answers `NULL`,
here `none`, for an index past the last region. -/
def heap_region_containing (env : Env) (h : ShenandoahHeap) (addr : Nat) :
    Option ShenandoahHeapRegion :=
  h._regions.get? (heap_region_index_containing env addr)

/-- `ShenandoahHeap::is_gc_generation_young` (`shenandoahHeap.cpp`, lines 651 to 653). -/
def is_gc_generation_young (h : ShenandoahHeap) : Bool :=
  match h._gc_generation with
  | some m => decide (m = .YOUNG)
  | none => false

/-- `ShenandoahHeap::is_aging_cycle`. -/
def is_aging_cycle (h : ShenandoahHeap) : Bool :=
  h._is_aging_cycle

/-- Modelled from the spec: `oopDesc::is_forwarded`, that is `mark().is_marked()`, whose body
is not part of these sources: the object's header holds a forwarding pointer. -/
def is_forwarded (h : ShenandoahHeap) (p : oopDesc) : Bool :=
  (h._forwardee.lookup p.addr).isSome

/-- Modelled from the spec: `ShenandoahBarrierSet::resolve_forwarded`, whose body is not part
of these sources: the copy the header of `p` points to, and `p` itself when it is not
forwarded. -/
def resolve_forwarded (h : ShenandoahHeap) (p : oopDesc) : Nat :=
  (h._forwardee.lookup p.addr).getD p.addr

/-- Modelled from the spec: `ShenandoahForwarding::try_update_forwardee`, whose body is not
part of these sources: a single compare-and-swap on the header of `p`, which installs
`copy_val` and returns it when `p` is not forwarded, and returns the forwarding pointer
already there otherwise. -/
def try_update_forwardee (p : oopDesc) (copy_val : Nat) (h : ShenandoahHeap) :
    Nat × ShenandoahHeap :=
  match h._forwardee.lookup p.addr with
  | some winner => (winner, h)
  | none => (copy_val, { h with _forwardee := (p.addr, copy_val) :: h._forwardee })

/-- `ShenandoahHeap::handle_old_evacuation` (lines 827 to 841). -/
def handle_old_evacuation (env : Env) (promotion : Bool) : Stmt :=
  block [call env .register_object_wo_lock, call env .mark_range_as_dirty,
    guarded (fun _ => promotion) (call env .old_increase_allocated)]

/-- `ShenandoahHeap::handle_old_evacuation_failure` (lines 843 to 847). -/
def handle_old_evacuation_failure : Stmt :=
  fun h => { h with _old_gen_oom_evac := true }

/-- `ShenandoahHeap::handle_promotion_failure` (lines 849 to 851). -/
def handle_promotion_failure (env : Env) : Stmt :=
  call env .handle_promotion_failure

/-- The local variables of `try_evacuate_object` on reaching line 449. -/
structure EvacAlloc where
  copy : Option Nat
  alloc_from_lab : Bool
  has_plab : Bool
  st : EvacState
  deriving DecidableEq, Repr

/-- Lines 386 to 393: the GCLAB attempts for a young target. -/
def evac_allocate_gclab (env : Env) (size : Nat) (s : EvacState) : Option Nat × EvacState :=
  let r := allocate_from_gclab env size s
  if r.1.isNone && decide (size < r.2.tld._gclab_size) then
    allocate_from_gclab env size
      { r.2 with tld := { r.2.tld with _gclab_size := env.PLAB_min_size } }
  else r

/-- Lines 397 to 423: the PLAB attempts for an old target.  The result is `none` where the
code dereferences a null `plab` (line 412). -/
def evac_allocate_plab (env : Env) (size : Nat) (is_promotion : Bool) (s : EvacState) :
    Option (Option Nat × EvacState) :=
  let plab := s.tld._plab
  let r := allocate_from_plab env size is_promotion s
  if r.1.isNone && decide (size < r.2.tld._plab_size) && r.2.tld._plab_retries_enabled then
    match plab, r.2.tld._plab with
    | some _, some plab_now =>
      if env.lab_words_remaining plab_now < env.PLAB_min_size then
        let r2 := allocate_from_plab env size is_promotion
          { r.2 with tld := { r.2.tld with _plab_size := env.PLAB_min_size } }
        if r2.1.isNone then
          some (none, { r2.2 with tld := { r2.2.tld with _plab_retries_enabled := false } })
        else some r2
      else some r
    | _, _ => none
  else some r

/-- Lines 383 to 431 of `try_evacuate_object`: the attempt to allocate the copy in a buffer
of the thread, in a product build.  The result is `none` where the code stops the virtual
machine (`ShouldNotReachHere` for a target that is neither young nor old) or dereferences a
null pointer. -/
def evac_allocate_lab (env : Env) (size : Nat) (is_promotion : Bool)
    (target_gen : ShenandoahRegionAffiliation) (s : EvacState) : Option EvacAlloc :=
  if env.flags.UseTLAB then
    match target_gen with
    | .YOUNG_GENERATION =>
      let r := evac_allocate_gclab env size s
      some { copy := r.1, alloc_from_lab := true, has_plab := false, st := r.2 }
    | .OLD_GENERATION =>
      if env.flags.ShenandoahUsePLAB then
        (evac_allocate_plab env size is_promotion s).map fun r =>
          { copy := r.1, alloc_from_lab := true, has_plab := s.tld._plab.isSome, st := r.2 }
      else some { copy := none, alloc_from_lab := true, has_plab := false, st := s }
    | .FREE => none
  else some { copy := none, alloc_from_lab := true, has_plab := false, st := s }

/-- Lines 433 to 444 of `try_evacuate_object`: the shared allocation, tried when no buffer
gave the copy, except for the promotion of a small object by a thread that has a PLAB. -/
def evac_allocate_shared (env : Env) (size : Nat) (is_promotion : Bool)
    (target_gen : ShenandoahRegionAffiliation) (a : EvacAlloc) : EvacAlloc :=
  if a.copy.isNone then
    if !is_promotion || !a.has_plab || decide (size > env.PLAB_min_size) then
      let r := allocate_memory_for_gc env (.for_shared_gc size target_gen) is_promotion a.st
      { a with copy := r.1.1, alloc_from_lab := false, st := r.2 }
    else a
  else a

/-- Lines 371 to 447 of `try_evacuate_object`: the allocation of the copy. -/
def evac_allocate (env : Env) (size : Nat) (is_promotion : Bool)
    (target_gen : ShenandoahRegionAffiliation) (s : EvacState) : Option EvacAlloc :=
  (evac_allocate_lab env size is_promotion target_gen s).map
    (evac_allocate_shared env size is_promotion target_gen)

/-- Lines 449 to 517 of `try_evacuate_object`: no memory for the copy.  The squelching of
the log messages is not modelled. -/
def evac_allocation_failed (env : Env) (p : oopDesc) (from_region : ShenandoahHeapRegion)
    (target_gen : ShenandoahRegionAffiliation) (s : EvacState) : Option Nat × EvacState :=
  if target_gen = .OLD_GENERATION ∧ from_region.is_young = true then
    (none, { s with heap := handle_promotion_failure env s.heap })
  else
    let h1 := guarded (fun _ => decide (target_gen = .OLD_GENERATION))
      handle_old_evacuation_failure s.heap
    let h2 := call env .handle_alloc_failure_evac h1
    let h3 := call env .handle_out_of_memory_during_evacuation h2
    (some (resolve_forwarded h3 p), { heap := h3, tld := env.oom_handler_thread_data s.tld })

/-- Lines 545 to 577 of `try_evacuate_object`: this thread's copy lost the race.  The
result is `none` where the code stops the virtual machine or dereferences a null buffer. -/
def evac_undo_copy (env : Env) (size : Nat) (is_promotion : Bool)
    (target_gen : ShenandoahRegionAffiliation) (copy : Nat) (alloc_from_lab : Bool)
    (s : EvacState) : Option EvacState :=
  if alloc_from_lab then
    match target_gen with
    | .YOUNG_GENERATION =>
      s.tld._gclab.map fun gclab =>
        { heap := call_as env .lab_undo_allocation (.undo_allocation ._alloc_gclab copy size)
            s.heap,
          tld := { s.tld with _gclab := some (env.lab_undo_allocation gclab copy size) } }
    | .OLD_GENERATION =>
      s.tld._plab.map fun plab =>
        let tld1 := { s.tld with _plab := some (env.lab_undo_allocation plab copy size) }
        { heap := call_as env .lab_undo_allocation (.undo_allocation ._alloc_plab copy size)
            s.heap,
          tld :=
            if is_promotion then
              { tld1 with
                _plab_promoted := size_t_sub tld1._plab_promoted (size * HeapWordSize) }
            else
              { tld1 with
                _plab_evacuated := size_t_sub tld1._plab_evacuated (size * HeapWordSize) } }
    | .FREE => none
  else
    some { s with heap := call_as env .fill_with_object (.fill_with_object copy size) s.heap }

/-- Lines 519 to 529 of `try_evacuate_object`: copy the object, age the copy, and prepare
a stack chunk. -/
def evac_copy (env : Env) (target_gen : ShenandoahRegionAffiliation) : Stmt :=
  block [call env .copy_aligned_disjoint_words,
    guarded (fun h => env.is_generational && decide (target_gen = .YOUNG_GENERATION) &&
        is_aging_cycle h) (call env .increase_object_age),
    call env .relativize_stack_chunk]

/-- Lines 519 to 578 of `try_evacuate_object`: copy the object and race for the forwarding
pointer. -/
def evac_copy_and_install (env : Env) (p : oopDesc) (from_region : ShenandoahHeapRegion)
    (target_gen : ShenandoahRegionAffiliation) (is_promotion : Bool) (copy : Nat)
    (alloc_from_lab : Bool) (s : EvacState) : Option (Nat × EvacState) :=
  let h1 := evac_copy env target_gen s.heap
  let cas := try_update_forwardee p copy h1
  if cas.1 = copy then
    let h2 := guarded (fun _ => env.is_generational && decide (target_gen = .OLD_GENERATION))
      (handle_old_evacuation env from_region.is_young) cas.2
    some (copy, { s with heap := h2 })
  else
    (evac_undo_copy env p.size is_promotion target_gen copy alloc_from_lab
      { s with heap := cas.2 }).map fun s1 => (cas.1, s1)

/-- `ShenandoahHeap::try_evacuate_object` (lines 369 to 579).  The inner result is the
returned `oop`, `none` for `NULL`; the outer result is `none` where the code stops the virtual
machine or dereferences a null pointer. -/
def try_evacuate_object (env : Env) (p : oopDesc) (from_region : ShenandoahHeapRegion)
    (target_gen : ShenandoahRegionAffiliation) (s : EvacState) :
    Option (Option Nat × EvacState) :=
  let size := p.size
  let is_promotion := decide (target_gen = .OLD_GENERATION) && from_region.is_young
  match evac_allocate env size is_promotion target_gen s with
  | none => none
  | some a =>
    match a.copy with
    | none => some (evac_allocation_failed env p from_region target_gen a.st)
    | some copy =>
      (evac_copy_and_install env p from_region target_gen is_promotion copy a.alloc_from_lab
        a.st).map fun r => (some r.1, r.2)

/-- Lines 346 to 356 of `evacuate_object`: whether a promotion is attempted first, for an
object whose mark word shows no forwarding pointer. -/
def promotion_attempted (env : Env) (h : ShenandoahHeap) (p : oopDesc)
    (r : ShenandoahHeapRegion) : Bool :=
  env.is_generational && is_gc_generation_young h &&
    decide (r.affiliation = .YOUNG_GENERATION) &&
    env.flags.ShenandoahPromoteTenuredObjects &&
    !p.has_displaced_mark_helper &&
    decide (r.age + p.age ≥ env.flags.InitialTenuringThreshold)

/-- `ShenandoahHeap::evacuate_object` (lines 332 to 365).  The result is `none` where the
code stops the virtual machine or dereferences a null pointer (an object outside every
region among them). -/
def evacuate_object (env : Env) (p : oopDesc) (s : EvacState) :
    Option (Option Nat × EvacState) :=
  if s.tld._oom_during_evac then some (some (resolve_forwarded s.heap p), s)
  else
    match heap_region_containing env s.heap p.addr with
    | none => none
    | some r =>
      let target_gen := r.affiliation
      if env.is_generational && is_gc_generation_young s.heap &&
          decide (target_gen = .YOUNG_GENERATION) &&
          env.flags.ShenandoahPromoteTenuredObjects then
        if is_forwarded s.heap p then some (some (resolve_forwarded s.heap p), s)
        else if p.has_displaced_mark_helper then try_evacuate_object env p r target_gen s
        else if r.age + p.age ≥ env.flags.InitialTenuringThreshold then
          match try_evacuate_object env p r .OLD_GENERATION s with
          | none => none
          | some (some result, s1) => some (some result, s1)
          | some (none, s1) => try_evacuate_object env p r target_gen s1
        else try_evacuate_object env p r target_gen s
      else try_evacuate_object env p r target_gen s

/-- `ShenandoahConcurrentEvacuateRegionObjectClosure::do_object` (`shenandoahHeap.cpp`,
lines 1363 to 1368). -/
def do_object (env : Env) (p : oopDesc) (s : EvacState) : Option EvacState :=
  if !is_forwarded s.heap p then (evacuate_object env p s).map fun r => r.2
  else some s

/-- A thread whose desired PLAB size has grown to 4096 words, on an empty heap. -/
def thread_with_large_plab : EvacState :=
  { heap := {}, tld := { _plab := some 0, _plab_size := 4096 } }

/-- The collaborators a shared allocation of the collector calls. -/
def shared_alloc_ops : List ExtOp :=
  [.free_set_allocate, .card_scan_register_object, .notify_heap_changed, .increase_used]

/-- The collaborators the allocation of an evacuation copy calls. -/
def evac_alloc_ops : List ExtOp :=
  [.free_set_allocate, .card_scan_register_object, .notify_heap_changed, .increase_used,
   .gclab_retire, .plab_retire, .zero_to_words, .register_object_wo_lock]

/-- The heap `h1` was reached from the heap `h` by recording calls of collaborators among
`ops`, and nothing else. -/
def TraceGrows (ops : List ExtOp) (h h1 : ShenandoahHeap) : Prop :=
  ∃ extra : List ExtOp, h1.trace = h.trace ++ extra.map Ev.ext ∧ ∀ op ∈ extra, op ∈ ops

/-- The number of PLABs retired so far. -/
def plab_retirements (h : ShenandoahHeap) : Nat :=
  h.trace.count (.ext .plab_retire)

/-- How the two counters of the PLAB stand in `s1`, compared with `s`, when `promoted` and
`evacuated` bytes have been added since: either no PLAB was retired in between and the
counters have grown by these amounts, or a PLAB was retired and the counters hold these
amounts only. -/
def PlabAccounting (s s1 : EvacState) (promoted evacuated : Nat) : Prop :=
  (s1.tld._plab_promoted = s.tld._plab_promoted + promoted ∧
    s1.tld._plab_evacuated = s.tld._plab_evacuated + evacuated ∧
    plab_retirements s1.heap = plab_retirements s.heap) ∨
  (s1.tld._plab_promoted = promoted ∧ s1.tld._plab_evacuated = evacuated ∧
    plab_retirements s.heap < plab_retirements s1.heap)

/-- A concrete environment for evacuation, in generational mode.  The state of a buffer is
the number of words left in it; a buffer hands out the address `65536 - words left`, a new
buffer has the size granted, a retired one is empty.  The free set grants every request in
full, at address 4096. -/
def evac_env : Env :=
  { is_generational := true,
    free_set_allocate := fun fs req =>
      (some { addr := 4096, actual_size := req._requested_size, in_new_region := false },
       fs + 1),
    lab_allocate := fun b size => if size ≤ b then (some (65536 - b), b - size) else (none, b),
    lab_words_remaining := fun b => b,
    lab_undo_allocation := fun b _ size => b + size,
    lab_retire := fun _ => 0,
    lab_set_buf := fun _ _ word_sz => word_sz }

/-- The environment `evac_env` with a competitor: while this thread copies the object at
address 64, another thread installs the forwarding pointer 777 in its header. -/
def racing_env : Env :=
  { evac_env with
    ext := fun op h =>
      if op = .copy_aligned_disjoint_words then
        { h with _forwardee := (64, 777) :: h._forwardee }
      else h }

/-- A young region of age 10. -/
def aged_young_region : ShenandoahHeapRegion :=
  { is_active := true, in_cset := true, _affiliation := .YOUNG_GENERATION, _age := 10 }

/-- An object of 4 words at address 64, in the first region, with a plain mark word of
age 0. -/
def small_object : oopDesc :=
  { addr := 64, size := 4 }

/-- A thread with 300 words left in its GCLAB and in its PLAB, promotions allowed and 80
bytes promoted into this PLAB so far, during a collection of generation `gen`; the first
region is young and of age 10, the promotion reserve is 100000 bytes. -/
def evacuating_thread (gen : GenerationMode) : EvacState :=
  { heap := { _regions := [aged_young_region], _gc_generation := some gen,
              _promoted_reserve := 100000, _promoted_expended := 2400 },
    tld := { _gclab := some 300, _plab := some 300, _plab_allows_promotion := true,
             _plab_promoted := 80, _plab_preallocated_promoted := 2400 } }

/-- The thread of `evacuating_thread` during a young collection, its PLAB used up. -/
def thread_with_full_plab : EvacState :=
  { evacuating_thread .YOUNG with
    tld := { (evacuating_thread .YOUNG).tld with _plab := some 0 } }

/-- The thread of `evacuating_thread` during a young collection, the object at address 64
already forwarded to address 777. -/
def thread_facing_forwarded : EvacState :=
  { evacuating_thread .YOUNG with
    heap := { (evacuating_thread .YOUNG).heap with _forwardee := [(64, 777)] } }

/-- A thread without buffers on a heap without memory: one young region of age 10, a young
collection, nothing in the promotion reserve. -/
def thread_without_memory : EvacState :=
  { heap := { _regions := [aged_young_region], _gc_generation := some .YOUNG }, tld := {} }

/-- The collaborators called between the allocation of the copy and the race for the
forwarding pointer. -/
def evac_copy_ops : List ExtOp :=
  [.copy_aligned_disjoint_words, .increase_object_age, .relativize_stack_chunk]

/-- The locals of `try_evacuate_object` after the copy of `small_object` was allocated in
the PLAB of `evacuating_thread .YOUNG`, for a promotion: 296 words are left, and the 32 bytes
of the copy are counted as promoted. -/
def allocated_in_plab : EvacAlloc :=
  { copy := some 65236, alloc_from_lab := true, has_plab := true,
    st := { heap := (evacuating_thread .YOUNG).heap,
            tld := { (evacuating_thread .YOUNG).tld with
              _plab := some 296, _plab_promoted := 112 } } }

/-! ## Counting live words (`shenandoahMark.inline.hpp`, lines 109 to 140;
`shenandoahHeap.cpp`, lines 2954 to 2967) -/

/-- `LogHeapWordSize` on a 64-bit platform. -/
def LogHeapWordSize : Nat := 3

/-- The state of a marking worker: the heap and the worker's own liveness cache, the array
`ShenandoahLiveData* live_data` indexed by region. -/
structure MarkState where
  heap : ShenandoahHeap
  live_data : Nat → Nat

/-- The conversion `(ShenandoahLiveData) v`: `ShenandoahLiveData` is the unsigned type whose
largest value is `SHENANDOAH_LIVEDATA_MAX`. -/
def to_ShenandoahLiveData (env : Env) (v : Nat) : Nat :=
  v % (env.SHENANDOAH_LIVEDATA_MAX + 1)

/-- The assignment `live_data[region_idx] = v`. -/
def MarkState.set_live_data (m : MarkState) (region_idx v : Nat) : MarkState :=
  { m with live_data := fun i => if i = region_idx then v else m.live_data i }

/-- Modelled from the spec: `ShenandoahHeapRegion::increase_live_data_gc_words`, whose body
is not part of these sources: the count of live words of the region grows by `s`. -/
def ShenandoahHeapRegion.increase_live_data_gc_words (r : ShenandoahHeapRegion) (s : Nat) :
    ShenandoahHeapRegion :=
  { r with _live_data := r._live_data + s }

/-- The call `get_region(region_idx)->increase_live_data_gc_words(s)`. -/
def increase_live_data_gc_words_at (region_idx s : Nat) : Stmt :=
  fun h =>
    { h with
      _regions := h._regions.modify (fun r => r.increase_live_data_gc_words s) region_idx }

/-- The count of live words of region `region_idx`, 0 when there is no such region. -/
def live_words (h : ShenandoahHeap) (region_idx : Nat) : Nat :=
  match h._regions[region_idx]? with
  | some r => r._live_data
  | none => 0

/-- The loop of lines 133 to 138 of `count_liveness`, for a humongous object: `n` regions
from region `i` on.  The result is `none` where `get_region` answers `NULL`. -/
def count_liveness_humongous : Nat → Nat → ShenandoahHeap → Option ShenandoahHeap
  | 0, _, h => some h
  | n + 1, i, h =>
    match h._regions[i]? with
    | none => none
    | some chain_reg =>
      count_liveness_humongous n (i + 1)
        (increase_live_data_gc_words_at i (chain_reg.used >>> LogHeapWordSize) h)

/-- `ShenandoahMark::count_liveness` (lines 109 to 140).  The result is `none` where
`get_region` answers `NULL`, for an object outside every region. -/
def count_liveness (env : Env) (obj : oopDesc) (m : MarkState) : Option MarkState :=
  let region_idx := heap_region_index_containing env obj.addr
  match m.heap._regions[region_idx]? with
  | none => none
  | some region =>
    let size := obj.size
    if !region.is_humongous_start then
      let cur := m.live_data region_idx
      let new_val := size + cur
      if new_val ≥ env.SHENANDOAH_LIVEDATA_MAX then
        some (MarkState.set_live_data
          { m with heap := increase_live_data_gc_words_at region_idx new_val m.heap }
          region_idx 0)
      else some (m.set_live_data region_idx (to_ShenandoahLiveData env new_val))
    else
      let num_regions := env.required_regions (size * HeapWordSize)
      (count_liveness_humongous num_regions region_idx m.heap).map fun h =>
        { m with heap := h }

/-- The loop of `flush_liveness_cache` (lines 2959 to 2966): `n` iterations from `i` on. -/
def flush_liveness_cache_loop : Nat → Nat → MarkState → MarkState
  | 0, _, m => m
  | n + 1, i, m =>
    let live := m.live_data i
    flush_liveness_cache_loop n (i + 1)
      (if live > 0 then
        MarkState.set_live_data { m with heap := increase_live_data_gc_words_at i live m.heap }
          i 0
      else m)

/-- `ShenandoahHeap::flush_liveness_cache` (lines 2954 to 2967), for the cache of one
worker. -/
def flush_liveness_cache (m : MarkState) : MarkState :=
  flush_liveness_cache_loop m.heap._regions.length 0 m

/-- A sequence of calls of `count_liveness`, one per object, in order. -/
def count_liveness_all (env : Env) : List oopDesc → MarkState → Option MarkState
  | [], m => some m
  | obj :: objs, m =>
    match count_liveness env obj m with
    | none => none
    | some m1 => count_liveness_all env objs m1

/-- The words of the objects of `objs` that lie in region `region_idx`. -/
def counted_words (env : Env) (objs : List oopDesc) (region_idx : Nat) : Nat :=
  ((objs.filter fun obj => heap_region_index_containing env obj.addr = region_idx).map
    fun obj => obj.size).sum

/-- The objects of `objs` lie in regions of the heap that are not humongous starts. -/
def InRegularRegions (env : Env) (h : ShenandoahHeap) (objs : List oopDesc) : Prop :=
  ∀ obj ∈ objs, ∃ r, h._regions[heap_region_index_containing env obj.addr]? = some r ∧
    r.is_humongous_start = false

/-- A marking worker with an empty cache on a heap of two regular young regions, the first
with 5 live words counted so far. -/
def fresh_marker : MarkState :=
  { heap := { _regions := [{ _affiliation := .YOUNG_GENERATION, _live_data := 5 },
                           { _affiliation := .YOUNG_GENERATION }] },
    live_data := fun _ => 0 }

/-- Three objects: two in the first region of 256 KB, of 4 and 6 words, and one in the second,
of 3 words. -/
def three_objects : List oopDesc :=
  [{ addr := 64, size := 4 }, { addr := 262144, size := 3 }, { addr := 1024, size := 6 }]

/-- Whether region `j` is a humongous start, `none` when there is no such region. -/
def is_humongous_start_at (h : ShenandoahHeap) (j : Nat) : Option Bool :=
  (h._regions[j]?).map fun r => r.is_humongous_start

/-! ## Chunked marking of object arrays (`shenandoahMark.inline.hpp`, lines 142 to 237) -/

/-- The value of type `int` (32 bits, two's complement) that the integer `x` wraps to. -/
def to_int (x : Int) : Int :=
  (x + 2 ^ 31) % 2 ^ 32 - 2 ^ 31

/-- The conversion of an `int` to `uintptr_t` (64 bits), made when an `int` is compared with
`ShenandoahMarkTask::chunk_size()`. -/
def int_to_uintptr (x : Int) : Nat :=
  (x % 2 ^ 64).toNat

/-- The expression `1 << pow` on `int`; `none` for a shift count past the width of `int`,
which is undefined.  (A negative count is `none` where `pow` is decremented from 0.) -/
def shl_one (pow : Nat) : Option Int :=
  if pow < 32 then some (to_int (2 ^ pow)) else none

/-- The function `log2i_graceful` of the shared runtime on `int`: the position of the highest
bit set, `-1` for zero, `31` for a negative value. -/
def log2i_graceful (value : Int) : Int :=
  if value = 0 then -1 else if value < 0 then 31 else (Nat.log2 value.toNat : Int)

/-- A `ShenandoahMarkTask` for a chunk of an array: its chunk id and its power. -/
structure ChunkTask where
  chunk : Int
  pow : Nat
  deriving DecidableEq, Repr

/-- The loop condition `(1 << pow) > (int)ObjArrayMarkingStride &&
(chunk*2 < ShenandoahMarkTask::chunk_size())` of lines 185 and 218; `stride` is
`(int)ObjArrayMarkingStride`. -/
def chunk_loop_cond (stride : Int) (chunk_size : Nat) (pow : Nat) (chunk : Int) :
    Option Bool :=
  (shl_one pow).map fun v =>
    decide (v > stride) && decide (int_to_uintptr (to_int (chunk * 2)) < chunk_size)

/-- The loop of lines 185 to 199 of `do_chunked_array_start`: the tasks pushed, in order,
and the final value of `last_idx`.  The result is `none` where `pow` is decremented below 0,
the next shift being undefined. -/
def chunk_start_loop (stride : Int) (chunk_size : Nat) (len : Int) :
    Nat → Int → Int → Option (List ChunkTask × Int)
  | 0, chunk, last_idx =>
    match chunk_loop_cond stride chunk_size 0 chunk with
    | none => none
    | some true => none
    | some false => some ([], last_idx)
  | pow + 1, chunk, last_idx =>
    match chunk_loop_cond stride chunk_size (pow + 1) chunk with
    | none => none
    | some false => some ([], last_idx)
    | some true =>
      let left_chunk := to_int (to_int (chunk * 2) - 1)
      let right_chunk := to_int (chunk * 2)
      match shl_one pow with
      | none => none
      | some v =>
        let left_chunk_end := to_int (left_chunk * v)
        if left_chunk_end < len then
          (chunk_start_loop stride chunk_size len pow right_chunk left_chunk_end).map
            fun r => ({ chunk := left_chunk, pow := pow } :: r.1, r.2)
        else chunk_start_loop stride chunk_size len pow left_chunk last_idx

/-- `ShenandoahMark::do_chunked_array_start` (lines 142 to 207) for an array of length `len`:
the tasks pushed, in order, and the ranges handed to `oop_iterate_range`.  `stride` is the
flag `ObjArrayMarkingStride`, of type `uintx`.  The result is `none` where the code evaluates
an undefined shift. -/
def do_chunked_array_start (stride chunk_size : Nat) (len : Int) :
    Option (List ChunkTask × List (Int × Int)) :=
  if len ≤ to_int (to_int stride * 2) then some ([], [(0, len)])
  else
    let bits := log2i_graceful len
    if bits < 0 then none
    else
      match shl_one bits.toNat with
      | none => none
      | some v =>
        let bits := if len ≠ v then bits.toNat + 1 else bits.toNat
        let start : Option (List ChunkTask × Int × Nat × Int) :=
          if bits ≥ 31 then
            (shl_one (bits - 1)).map fun w =>
              ([{ chunk := 1, pow := bits - 1 }], 2, bits - 1, w)
          else some ([], 1, bits, 0)
        match start with
        | none => none
        | some (pushed, chunk, pow, last_idx) =>
          (chunk_start_loop (to_int stride) chunk_size len pow chunk last_idx).map fun r =>
            (pushed ++ r.1, if r.2 < len then [(r.2, len)] else [])

/-- The loop of lines 218 to 223 of `do_chunked_array`: the tasks pushed, in order, and the
final values of `chunk` and `pow`. -/
def chunk_split_loop (stride : Int) (chunk_size : Nat) :
    Nat → Int → Option (List ChunkTask × Int × Nat)
  | 0, chunk =>
    match chunk_loop_cond stride chunk_size 0 chunk with
    | none => none
    | some true => none
    | some false => some ([], chunk, 0)
  | pow + 1, chunk =>
    match chunk_loop_cond stride chunk_size (pow + 1) chunk with
    | none => none
    | some false => some ([], chunk, pow + 1)
    | some true =>
      let chunk1 := to_int (chunk * 2)
      (chunk_split_loop stride chunk_size pow chunk1).map fun r =>
        ({ chunk := to_int (chunk1 - 1), pow := pow } :: r.1, r.2)

/-- `ShenandoahMark::do_chunked_array` (lines 209 to 237) for one task: the tasks pushed, in
order, and the range handed to `oop_iterate_range`. -/
def do_chunked_array (stride chunk_size : Nat) (task : ChunkTask) :
    Option (List ChunkTask × (Int × Int)) :=
  match chunk_split_loop (to_int stride) chunk_size task.pow task.chunk with
  | none => none
  | some (pushed, chunk, pow) =>
    (shl_one pow).map fun chunk_size =>
      (pushed, (to_int ((chunk - 1) * chunk_size), to_int (chunk * chunk_size)))

/-- The worker's loop restricted to chunk tasks: pop a task, run `do_chunked_array` on it,
push what it pushes, until the queue is empty.  One unit of fuel is one task popped. -/
def drain_chunks (stride chunk_size : Nat) : Nat → List ChunkTask → Option (List (Int × Int))
  | _, [] => some []
  | 0, _ :: _ => none
  | fuel + 1, task :: queue =>
    match do_chunked_array stride chunk_size task with
    | none => none
    | some (pushed, range) =>
      (drain_chunks stride chunk_size fuel (pushed.reverse ++ queue)).map fun rs => range :: rs

/-- `do_chunked_array_start` on an array of length `len`, then `do_chunked_array` on every
task pushed, directly or not: all the ranges handed to `oop_iterate_range`. -/
def mark_objArray (stride chunk_size : Nat) (len : Int) (fuel : Nat) :
    Option (List (Int × Int)) :=
  (do_chunked_array_start stride chunk_size len).bind fun r =>
    (drain_chunks stride chunk_size fuel r.1.reverse).map fun rs => r.2 ++ rs

/-- The number of ranges `[from, to)` of `rs` that hold the index `i`. -/
def times_iterated (rs : List (Int × Int)) (i : Int) : Nat :=
  rs.countP fun r => decide (r.1 ≤ i ∧ i < r.2)

/-- The indices of a chunk task: `[(chunk - 1) * 2^pow, chunk * 2^pow)`. -/
def ChunkTask.range (t : ChunkTask) : Int × Int :=
  ((t.chunk - 1) * 2 ^ t.pow, t.chunk * 2 ^ t.pow)

/-- The number of indices of a chunk task. -/
def ChunkTask.weight (t : ChunkTask) : Nat :=
  2 ^ t.pow

/-- Whether the index `i` lies in `[a, b)`, as a number. -/
def hit (a b i : Int) : Nat :=
  if a ≤ i ∧ i < b then 1 else 0

/-- The number of tasks of `ts` whose chunk holds the index `i`. -/
def tasks_cover (ts : List ChunkTask) (i : Int) : Nat :=
  times_iterated (ts.map ChunkTask.range) i

/-- The number of indices of the tasks of `ts`. -/
def tasks_weight (ts : List ChunkTask) : Nat :=
  (ts.map ChunkTask.weight).sum

/-- A full chunk of an array of length `len`. -/
def ChunkTask.Valid (len : Int) (t : ChunkTask) : Prop :=
  1 ≤ t.chunk ∧ t.chunk * 2 ^ t.pow ≤ len ∧ t.pow ≤ 30

/-! ## Sizing the generations (`shenandoahHeap.cpp`, lines 445 to 454, 655 to 682 and 745
to 757) -/

/-- The flags `ShenandoahGCMode`, `NewSize`, `MaxNewSize` and `NewRatio`, with
`FLAG_IS_CMDLINE` of the last three.  `NewRatio` is declared with the range
`0 .. max_uintx - 1`, so that `NewRatio + 1` does not wrap around. -/
structure GenSizingFlags where
  ShenandoahGCMode : String := "satb"
  NewSize : Nat := 1048576
  MaxNewSize : Nat := 18446744073709551615
  NewRatio : Nat := 2
  FLAG_IS_CMDLINE_NewSize : Bool := false
  FLAG_IS_CMDLINE_MaxNewSize : Bool := false
  FLAG_IS_CMDLINE_NewRatio : Bool := false
  deriving DecidableEq, Repr

/-- `ShenandoahHeap::young_generation_capacity` (lines 666 to 682). -/
def young_generation_capacity (f : GenSizingFlags) (capacity : Nat) : Nat :=
  if f.ShenandoahGCMode = "generational" then
    if f.FLAG_IS_CMDLINE_NewSize && !f.FLAG_IS_CMDLINE_MaxNewSize &&
        !f.FLAG_IS_CMDLINE_NewRatio then
      MIN2 f.NewSize capacity
    else
      let capacity := capacity / (f.NewRatio + 1)
      let capacity := if f.FLAG_IS_CMDLINE_NewSize then MAX2 f.NewSize capacity else capacity
      if f.FLAG_IS_CMDLINE_MaxNewSize then MIN2 f.MaxNewSize capacity else capacity
  else capacity

/-- The two capacities a `ShenandoahGeneration` is constructed with. -/
structure ShenandoahGeneration where
  _max_capacity : Nat
  _soft_max_capacity : Nat
  deriving DecidableEq, Repr

/-- The fields of the heap that size it and its generations. -/
structure HeapSizing where
  _soft_max_size : Nat
  _young_generation : ShenandoahGeneration
  _old_generation : ShenandoahGeneration
  deriving DecidableEq, Repr

/-- `ShenandoahHeap::initialize_generations` (lines 445 to 454), for a heap whose
`max_capacity()` and `soft_max_capacity()` are the two arguments.  The subtractions are those
of `size_t`. -/
def initialize_generations (f : GenSizingFlags) (max_capacity soft_max_capacity : Nat) :
    HeapSizing :=
  let max_capacity_new := young_generation_capacity f max_capacity
  let soft_max_capacity_new := young_generation_capacity f soft_max_capacity
  let max_capacity_old := size_t_sub max_capacity max_capacity_new
  let soft_max_capacity_old := size_t_sub soft_max_capacity soft_max_capacity_new
  { _soft_max_size := soft_max_capacity,
    _young_generation :=
      { _max_capacity := max_capacity_new, _soft_max_capacity := soft_max_capacity_new },
    _old_generation :=
      { _max_capacity := max_capacity_old, _soft_max_capacity := soft_max_capacity_old } }

/-- `ShenandoahHeap::set_soft_max_capacity` (lines 745 to 757). -/
def set_soft_max_capacity (env : Env) (f : GenSizingFlags) (v : Nat) (s : HeapSizing) :
    HeapSizing :=
  let s1 := { s with _soft_max_size := v }
  if env.is_generational then
    let soft_max_capacity_young := young_generation_capacity f s1._soft_max_size
    let soft_max_capacity_old := size_t_sub s1._soft_max_size soft_max_capacity_young
    { s1 with
      _young_generation :=
        { s1._young_generation with _soft_max_capacity := soft_max_capacity_young },
      _old_generation :=
        { s1._old_generation with _soft_max_capacity := soft_max_capacity_old } }
  else s1

/-- The command line `-XX:ShenandoahGCMode=generational -XX:NewSize=2g -XX:NewRatio=2`. -/
def new_size_above_heap : GenSizingFlags :=
  { ShenandoahGCMode := "generational", NewSize := 2147483648,
    FLAG_IS_CMDLINE_NewSize := true, FLAG_IS_CMDLINE_NewRatio := true }

/-- The sizes `initialize_generations` computes under `new_size_above_heap` for a heap of
1 GB whose soft maximum is 1 GB too. -/
def heap_of_one_gigabyte : HeapSizing :=
  initialize_generations new_size_above_heap 1073741824 1073741824

/-- The command line `-XX:ShenandoahGCMode=generational -XX:NewSize=512m -XX:MaxNewSize=256m`. -/
def max_new_size_below_new_size : GenSizingFlags :=
  { ShenandoahGCMode := "generational", NewSize := 536870912, MaxNewSize := 268435456,
    FLAG_IS_CMDLINE_NewSize := true, FLAG_IS_CMDLINE_MaxNewSize := true }

/-! ## Region ages at the end of a cycle (`shenandoahHeap.cpp`, lines 2692 to 2743) -/

/-- Modelled from the spec: `ShenandoahHeapRegion::reset_age`, whose body is not part of these
sources: the age (tenure counter) of the region becomes 0. -/
def ShenandoahHeapRegion.reset_age (r : ShenandoahHeapRegion) : ShenandoahHeapRegion :=
  { r with _age := 0 }

/-- Modelled from the spec: `ShenandoahHeapRegion::increment_age`, whose body is not part of
these sources: the age (tenure counter) of the region grows by one. -/
def ShenandoahHeapRegion.increment_age (r : ShenandoahHeapRegion) : ShenandoahHeapRegion :=
  { r with _age := r._age + 1 }

/-- Modelled from the spec: `ShenandoahHeapRegion::make_pinned`, whose body is not part of
these sources: the region enters the state `pinned`. -/
def ShenandoahHeapRegion.make_pinned (r : ShenandoahHeapRegion) : ShenandoahHeapRegion :=
  { r with is_pinned := true }

/-- Modelled from the spec: `ShenandoahHeapRegion::make_unpinned`, whose body is not part of
these sources: the region leaves the state `pinned`. -/
def ShenandoahHeapRegion.make_unpinned (r : ShenandoahHeapRegion) : ShenandoahHeapRegion :=
  { r with is_pinned := false }

/-- `ShenandoahFinalUpdateRefsUpdateRegionStateClosure::heap_region_do` (lines 2703 to 2739).
`tams` is `_ctx->top_at_mark_start(r)` and `pin_count` is `r->pin_count()`. -/
def ShenandoahFinalUpdateRefsUpdateRegionStateClosure.heap_region_do (env : Env)
    (h : ShenandoahHeap) (tams pin_count : Nat) (r : ShenandoahHeapRegion) :
    ShenandoahHeapRegion :=
  let r1 :=
    if env.is_generational && r.is_young then
      if r._top > tams then r.reset_age
      else if is_aging_cycle h then r.increment_age
      else r
    else r
  if r1.is_active then
    if r1.is_pinned then
      if pin_count = 0 then r1.make_unpinned else r1
    else
      if pin_count > 0 then r1.make_pinned else r1
  else r1

/-- A young region of age 3 whose top, 100, lies above 40. -/
def survivor_region : ShenandoahHeapRegion :=
  { _top := 100, is_active := true, _affiliation := .YOUNG_GENERATION, _age := 3 }

/-! ## Generational evacuation (`shenandoahHeap.cpp`, lines 1418 to 1476) -/

/-- Lines 1457 to 1468 of `ShenandoahGenerationalEvacuationTask::do_work`: what is done with
the region `r` of index `index`. -/
def generational_evacuate_region (env : Env) (index : Nat) (r : ShenandoahHeapRegion) : Stmt :=
  if r.in_cset then
    block [call_as env .marked_object_iterate (.on_region .marked_object_iterate index),
      guarded (fun _ => env.flags.ShenandoahPacing) (call env .pacer_report_evac)]
  else if r.is_young && r.is_active && r.is_humongous_start &&
      decide (r.age > env.flags.InitialTenuringThreshold) then
    call_as env .promote_humongous (.on_region .promote_humongous index)
  else id

/-- `ShenandoahGenerationalEvacuationTask::do_work` (lines 1449 to 1476), for a worker to
which `_regions->next()` hands the regions of the indices `indices`, in this order. -/
def ShenandoahGenerationalEvacuationTask.do_work (env : Env) (concurrent : Bool) :
    List Nat → Stmt
  | [] => id
  | index :: rest => fun h =>
    match h._regions.get? index with
    | none => h
    | some r =>
      let c := check_cancelled_gc_and_yield env concurrent
        (generational_evacuate_region env index r h)
      if c.1 then c.2
      else ShenandoahGenerationalEvacuationTask.do_work env concurrent rest c.2

/-- A young, active humongous-start region outside the collection set, of age `age`. -/
def humongous_start_region (age : Nat) : ShenandoahHeapRegion :=
  { is_active := true, _affiliation := .YOUNG_GENERATION, is_humongous_start := true,
    _age := age }

/-- Whether the trace records the promotion of the humongous region of index `index`. -/
def humongous_promoted (h : ShenandoahHeap) (index : Nat) : Bool :=
  h.trace.contains (.on_region .promote_humongous index)

/-! ## Update watermarks on the way to the restart of evacuation
(`shenandoahDegeneratedGC.cpp`, lines 194 to 253) -/

/-- What the update-watermark loop reads and writes of a region, and what it relies on. -/
def region_bounds (r : ShenandoahHeapRegion) : Nat × Nat × Bool :=
  (r._top, r._update_watermark, r.is_active)

/-- The collaborators called from the entry of `op_degenerated` at the evac point up to the
call of `op_evacuate`. -/
def evac_restart_ops : List ExtOp :=
  [.metrics_snap_before, .coalesce_and_fill_old_regions, .labs_make_parsable,
   .sync_pinned_region_status, .cset_clear_current_index]

/-- The collaborators of `evac_restart_ops` leave `top`, the update watermark and the
activity of every region as they are. -/
def KeepsRegionBounds (env : Env) : Prop :=
  ∀ op ∈ evac_restart_ops, ∀ h,
    (env.ext op h)._regions.map region_bounds = h._regions.map region_bounds

/-- The heap on which line 253 calls `op_evacuate`, for an `op_degenerated` called on the heap
`h`; `none` when control does not get there. -/
def evacuation_restart_heap (env : Env) (gc : ShenandoahDegenGC) (h : ShenandoahHeap) :
    Option ShenandoahHeap :=
  match reach_evac env gc h with
  | none => none
  | some h_evac =>
    let h1 := evac_entry env gc h_evac
    if is_evacuation_in_progress h1 then
      let h2 := evac_restart env gc h1
      if cset_has_pinned h2 then none
      else some (call env .cset_clear_current_index h2)
    else none

/-- A heap during evacuation with three regions: an active one with allocations above its
update watermark, an active one without, and an inactive one. -/
def heap_with_watermarks : ShenandoahHeap :=
  { _gc_state := { EVACUATION := true, HAS_FORWARDED := true },
    _regions := [{ _top := 100, _update_watermark := 40, is_active := true },
                 { _top := 70, _update_watermark := 70, is_active := true },
                 { _top := 90, _update_watermark := 10, is_active := false }] }

/-! ## The chunk tasks of an array (`shenandoahMark.inline.hpp`, lines 142 to 237) -/

/-- The chunk tasks pushed while an array of length `len` is marked: those
`do_chunked_array_start` pushes, and those `do_chunked_array` pushes when it runs on a task
pushed before. -/
inductive PushedChunk (stride chunk_size : Nat) (len : Int) : ChunkTask → Prop
  | by_start {pushed : List ChunkTask} {ranges : List (Int × Int)} {t : ChunkTask} :
      do_chunked_array_start stride chunk_size len = some (pushed, ranges) → t ∈ pushed →
      PushedChunk stride chunk_size len t
  | by_chunk {u : ChunkTask} {pushed : List ChunkTask} {range : Int × Int} {t : ChunkTask} :
      PushedChunk stride chunk_size len u →
      do_chunked_array stride chunk_size u = some (pushed, range) → t ∈ pushed →
      PushedChunk stride chunk_size len t

/-! ## Marking through a reference (`shenandoahMark.inline.hpp`, lines 264 to 333;
`shenandoahHeap.cpp`, lines 767 to 779) -/

/-- A `ShenandoahMarkTask` for an object that is not a chunk of an array. -/
structure ShenandoahMarkTask where
  obj : Nat
  skip_live : Bool
  weak : Bool
  deriving DecidableEq, Repr

/-- What a marking step works on: the heap, the marking context, the queue `q` of the worker
and the queue `old` of the old generation, `none` when the pointer is null. -/
structure MarkRefState where
  heap : ShenandoahHeap
  mark_context : Nat
  q : List ShenandoahMarkTask
  old : Option (List ShenandoahMarkTask)
  deriving DecidableEq, Repr

/-- `ShenandoahHeap::is_in` (`shenandoahHeap.cpp`, lines 767 to 771), for an address given as
a byte offset from the base of the heap. -/
def is_in (env : Env) (h : ShenandoahHeap) (p : Nat) : Bool :=
  decide (p < h._regions.length <<< env.region_size_bytes_shift)

/-- `ShenandoahHeap::is_in_young` (lines 773 to 775). -/
def is_in_young (env : Env) (h : ShenandoahHeap) (p : Nat) : Bool :=
  is_in env h p &&
    match heap_region_containing env h p with
    | some r => decide (r.affiliation = .YOUNG_GENERATION)
    | none => false

/-- `ShenandoahHeap::is_in_old` (lines 777 to 779). -/
def is_in_old (env : Env) (h : ShenandoahHeap) (p : Nat) : Bool :=
  is_in env h p &&
    match heap_region_containing env h p with
    | some r => decide (r.affiliation = .OLD_GENERATION)
    | none => false

/-- `ShenandoahHeap::mark_card_as_dirty` (`shenandoahHeap.inline.hpp`, lines 929 to 933). -/
def mark_card_as_dirty (env : Env) : Stmt :=
  guarded (fun _ => env.is_generational) (call env .mark_card_as_dirty)

/-- `ShenandoahMark::in_generation<GENERATION>` (lines 264 to 275). -/
def in_generation (env : Env) (GENERATION : GenerationMode) (h : ShenandoahHeap) (obj : Nat) :
    Bool :=
  match GENERATION with
  | .YOUNG => is_in_young env h obj
  | .OLD => is_in_old env h obj
  | .GLOBAL => true

/-- `ShenandoahMark::mark_ref` (lines 319 to 333), on the queue `q`: the queue and the marking
context afterwards. -/
def mark_ref (env : Env) (q : List ShenandoahMarkTask) (mark_context : Nat) (weak : Bool)
    (obj : Nat) : List ShenandoahMarkTask × Nat :=
  let skip_live := false
  let r : (Bool × Bool) × Nat :=
    if weak then
      let m := env.mark_weak mark_context obj
      ((m.1, skip_live), m.2)
    else env.mark_strong mark_context obj
  let marked := r.1.1
  let skip_live := r.1.2
  if marked then (q ++ [{ obj := obj, skip_live := skip_live, weak := weak }], r.2)
  else (q, r.2)

/-- `ShenandoahMark::mark_through_ref<T, GENERATION>` (lines 277 to 317), for the reference at
the address `p` that holds `o`, `none` for null. -/
def mark_through_ref (env : Env) (GENERATION : GenerationMode) (p : Nat) (o : Option Nat)
    (weak : Bool) (s : MarkRefState) : MarkRefState :=
  match o with
  | none => s
  | some obj =>
    if in_generation env GENERATION s.heap obj then
      let r := mark_ref env s.q s.mark_context weak obj
      let s1 := { s with q := r.1, mark_context := r.2 }
      if env.is_generational then
        if GENERATION = .YOUNG ∧ is_in_old env s1.heap p = true then
          { s1 with heap := mark_card_as_dirty env s1.heap }
        else if GENERATION = .GLOBAL ∧ is_in_old env s1.heap p = true ∧
            is_in_young env s1.heap obj = true then
          { s1 with heap := mark_card_as_dirty env s1.heap }
        else s1
      else s1
    else
      match s.old with
      | some old =>
        let r := mark_ref env old s.mark_context weak obj
        { s with old := some r.1, mark_context := r.2 }
      | none =>
        if GENERATION = .OLD then
          if is_in env s.heap p then { s with heap := mark_card_as_dirty env s.heap }
          else s
        else s

/-- A marking context kept as a bit set: bit `obj` of the state is the strong mark of the
object at `obj`.  Regions are 16 bytes long. -/
def bitmap_env : Env :=
  { region_size_bytes_shift := 4,
    mark_strong := fun ctx obj =>
      if ctx.testBit obj then ((false, false), ctx) else ((true, false), ctx ||| 1 <<< obj),
    mark_weak := fun ctx obj =>
      if ctx.testBit obj then (false, ctx) else (true, ctx ||| 1 <<< obj) }

/-- A young region followed by an old one. -/
def young_then_old : ShenandoahHeap :=
  { _regions := [{ is_active := true, _affiliation := .YOUNG_GENERATION },
                 { is_active := true, _affiliation := .OLD_GENERATION }] }

/-- A young marking pass with an old-generation queue, both queues empty; only the old
object at address 20 has its mark bit set. -/
def young_pass_with_old_queue : MarkRefState :=
  { heap := young_then_old, mark_context := 1 <<< 20, q := [], old := some [] }

/-- Whether the marking context in state `mark_context` marks the object `obj` anew:
the value `marked` of `mark_ref`. -/
def newly_marked (env : Env) (mark_context : Nat) (weak : Bool) (obj : Nat) : Bool :=
  if weak then (env.mark_weak mark_context obj).1 else (env.mark_strong mark_context obj).1.1

/-- The marking context after `mark_ref` called `mark_weak` or `mark_strong` for `obj`. -/
def marked_context (env : Env) (mark_context : Nat) (weak : Bool) (obj : Nat) : Nat :=
  if weak then (env.mark_weak mark_context obj).2 else (env.mark_strong mark_context obj).2

/-! ## The promotion budget over the life of a PLAB (`shenandoahHeap.cpp`, lines 995 to 1024
and 1256 to 1281; `shenandoahHeap.inline.hpp`, lines 301 to 330) -/

/-- A thread whose PLAB is used up, during a young collection with a promotion reserve of
100000 bytes of which nothing is expended. -/
def thread_before_plab : EvacState :=
  { heap := { _regions := [aged_young_region], _gc_generation := some .YOUNG,
              _promoted_reserve := 100000 },
    tld := { _plab := some 0, _plab_allows_promotion := true } }

/-- The thread of `thread_before_plab` after the promotion of an object of 4 words: a new
PLAB of 258 words was allocated for it. -/
def thread_after_promotion : EvacState :=
  (allocate_from_plab evac_env 4 true thread_before_plab).2

/-- The thread of `thread_after_promotion` after a shared allocation of 500 words in the old
generation, for the evacuation of an old object too large for the PLAB. -/
def thread_after_shared_allocation : EvacState :=
  (allocate_memory_for_gc evac_env (.for_shared_gc 500 .OLD_GENERATION) false
    thread_after_promotion).2

/-- The retirement of the PLAB of the thread `s`. -/
def retire_current_plab (env : Env) (s : EvacState) : EvacState :=
  match s.tld._plab with
  | some plab => retire_plab env plab s
  | none => s

/-! ## Iterating over the marked objects of a region (`shenandoahHeap.inline.hpp`, lines 762
to 853) -/

/-- What `marked_object_iterate` reads of the marking context: the mark bits, and the top at
mark start of the region.  Addresses are counted in words. -/
structure ShenandoahMarkingContext where
  is_marked : Nat → Bool
  top_at_mark_start : Nat

/-- The first marked address among the `n` addresses from `start` on, and `start + n` when
there is none. -/
def next_marked_from (is_marked : Nat → Bool) : Nat → Nat → Nat
  | 0, start => start
  | n + 1, start => if is_marked start then start else next_marked_from is_marked n (start + 1)

/-- Modelled from the spec: `ShenandoahMarkingContext::get_next_marked_addr(start, end)`,
whose body is not part of these sources: the first marked address in `[start, end)`, and
`end` when there is none. -/
def ShenandoahMarkingContext.get_next_marked_addr (ctx : ShenandoahMarkingContext)
    (start end_ : Nat) : Nat :=
  next_marked_from ctx.is_marked (end_ - start) start

/-- The constant `skip_bitmap_delta` of `marked_object_iterate`. -/
def skip_bitmap_delta : Nat := 1

/-- Lines 809 to 812 and 831 to 834: move the cursor `cb` past the object it is at. -/
def advance_cursor (ctx : ShenandoahMarkingContext) (limit_bitmap cb : Nat) : Nat :=
  let cb := cb + skip_bitmap_delta
  if cb < limit_bitmap then ctx.get_next_marked_addr cb limit_bitmap else cb

/-- The loop of lines 824 to 835, the scan without prefetching: the objects handed to
`cl->do_object`, in order.  One unit of fuel is one iteration. -/
def simple_scan (ctx : ShenandoahMarkingContext) (limit_bitmap : Nat) :
    Nat → Nat → Option (List Nat)
  | 0, cb => if cb < limit_bitmap then none else some []
  | fuel + 1, cb =>
    if cb < limit_bitmap then
      (simple_scan ctx limit_bitmap fuel (advance_cursor ctx limit_bitmap cb)).map
        fun rest => cb :: rest
    else some []

/-- The first `for` loop of the batched scan (lines 806 to 813), with `n` iterations left to
`dist`: the slots filled and the cursor afterwards. -/
def fill_slots (ctx : ShenandoahMarkingContext) (limit_bitmap : Nat) :
    Nat → Nat → List Nat × Nat
  | 0, cb => ([], cb)
  | n + 1, cb =>
    if cb < limit_bitmap then
      let r := fill_slots ctx limit_bitmap n (advance_cursor ctx limit_bitmap cb)
      (cb :: r.1, r.2)
    else ([], cb)

/-- The `do ... while (avail > 0)` loop of lines 803 to 823, the batched scan: the objects
handed to `cl->do_object`, in order.  One unit of fuel is one batch. -/
def batched_scan (ctx : ShenandoahMarkingContext) (limit_bitmap dist : Nat) :
    Nat → Nat → Option (List Nat)
  | 0, _ => none
  | fuel + 1, cb =>
    let r := fill_slots ctx limit_bitmap dist cb
    let avail := r.1.length
    if avail > 0 then
      (batched_scan ctx limit_bitmap dist fuel r.2).map fun rest => r.1 ++ rest
    else some r.1

/-- Step 2 of `marked_object_iterate` (lines 840 to 849), the walk by object sizes from `cs`
to `limit`; `size_of` is `obj->size()`.  One unit of fuel is one iteration. -/
def size_walk (size_of : Nat → Nat) (limit : Nat) : Nat → Nat → Option (List Nat)
  | 0, cs => if cs < limit then none else some []
  | fuel + 1, cs =>
    if cs < limit then
      (size_walk size_of limit fuel (cs + size_of cs)).map fun rest => cs :: rest
    else some []

/-- `ShenandoahHeap::marked_object_iterate(region, cl, limit)` (lines 767 to 853): the
objects handed to `cl->do_object`, in order.  The closure does not change the mark bits, the
top at mark start or the sizes of the objects.  The result is `none` when a loop is still
running after `fuel` iterations, and where `guarantee(dist <= SLOT_COUNT)` stops the virtual
machine. -/
def marked_object_iterate (env : Env) (ctx : ShenandoahMarkingContext) (size_of : Nat → Nat)
    (region : ShenandoahHeapRegion) (limit : Nat) (fuel : Nat) : Option (List Nat) :=
  let tams := ctx.top_at_mark_start
  let start := region._bottom
  let end_ := MIN2 tams region._end
  let limit_bitmap := MIN2 limit tams
  let cb := ctx.get_next_marked_addr start end_
  let dist := env.flags.ShenandoahMarkScanPrefetch
  let step1 :=
    if dist > 0 then
      if dist ≤ 256 then batched_scan ctx limit_bitmap dist.toNat fuel cb else none
    else simple_scan ctx limit_bitmap fuel cb
  step1.bind fun below_tams =>
    (size_walk size_of limit fuel tams).map fun above_tams => below_tams ++ above_tams

/-- The scan as the specification words it: every marked address in
`[bottom, min(limit, TAMS))` in increasing order, followed by the size-based walk of the
objects in `[TAMS, limit)`. -/
def marked_object_iterate_spec (ctx : ShenandoahMarkingContext) (size_of : Nat → Nat)
    (region : ShenandoahHeapRegion) (limit : Nat) (fuel : Nat) : Option (List Nat) :=
  (size_walk size_of limit fuel ctx.top_at_mark_start).map fun above_tams =>
    (List.range' region._bottom (min limit ctx.top_at_mark_start - region._bottom)).filter
      ctx.is_marked ++ above_tams

/-- The objects the bitmap cursor visits from `cb` on, `gas` of them at most. -/
def cursor_trail (ctx : ShenandoahMarkingContext) (limit_bitmap : Nat) : Nat → Nat → List Nat
  | 0, _ => []
  | gas + 1, cb =>
    if cb < limit_bitmap then
      cb :: cursor_trail ctx limit_bitmap gas (advance_cursor ctx limit_bitmap cb)
    else []

/-- A region of 64 words from address 100 on, filled up to 150. -/
def scanned_region : ShenandoahHeapRegion :=
  { _bottom := 100, _end := 164, _top := 150, is_active := true }

/-- Mark bits at the addresses 104, 110 and 125, top at mark start at 130. -/
def three_marks : ShenandoahMarkingContext :=
  { is_marked := fun a => a == 104 || a == 110 || a == 125, top_at_mark_start := 130 }

/-- The collaborators with the prefetch distance `dist`. -/
def prefetching_env (dist : Int) : Env :=
  { flags := { ShenandoahMarkScanPrefetch := dist } }

/-! ## Threads racing to evacuate one object (`shenandoahHeap.inline.hpp`, lines 332 to 579) -/

/-- The locals of `try_evacuate_object` that are live at the compare-and-swap of line 531. -/
structure EvacRace where
  from_region : ShenandoahHeapRegion
  target_gen : ShenandoahRegionAffiliation
  copy : Nat
  alloc_from_lab : Bool
  deriving DecidableEq, Repr

/-- How a call of `evacuate_object` came to return: through the out-of-memory protocol (lines
336 and 516), for an object found forwarded (line 349), or after the compare-and-swap on the
header, which installed this thread's copy or did not. -/
inductive EvacReturn
  | oom
  | already_forwarded
  | cas_won
  | cas_lost
  deriving DecidableEq, Repr

/-- Where a thread stands in its call of `evacuate_object`: about to make it, before the
compare-and-swap of line 531, returned, or stopped with the virtual machine. -/
inductive EvacProgress
  | calling
  | racing (r : EvacRace)
  | returned (result : Option Nat) (how : EvacReturn)
  | stopped
  deriving DecidableEq, Repr

/-- Lines 369 to 529 of `try_evacuate_object`: from the entry to the compare-and-swap. -/
def try_evacuate_object_until_cas (env : Env) (p : oopDesc) (from_region : ShenandoahHeapRegion)
    (target_gen : ShenandoahRegionAffiliation) (s : EvacState) : EvacProgress × EvacState :=
  let size := p.size
  let is_promotion := decide (target_gen = .OLD_GENERATION) && from_region.is_young
  match evac_allocate env size is_promotion target_gen s with
  | none => (.stopped, s)
  | some a =>
    match a.copy with
    | none =>
      let r := evac_allocation_failed env p from_region target_gen a.st
      (.returned r.1 .oom, r.2)
    | some copy =>
      (.racing { from_region := from_region, target_gen := target_gen, copy := copy,
                 alloc_from_lab := a.alloc_from_lab },
       { a.st with heap := evac_copy env target_gen a.st.heap })

/-- Lines 531 to 578 of `try_evacuate_object`: the compare-and-swap and what follows it.  The
thread has won when the compare-and-swap found the header without a forwarding pointer. -/
def try_evacuate_object_from_cas (env : Env) (p : oopDesc) (r : EvacRace) (s : EvacState) :
    EvacProgress × EvacState :=
  let is_promotion := decide (r.target_gen = .OLD_GENERATION) && r.from_region.is_young
  let how : EvacReturn := if is_forwarded s.heap p then .cas_lost else .cas_won
  let cas := try_update_forwardee p r.copy s.heap
  if cas.1 = r.copy then
    let h2 := guarded (fun _ => env.is_generational && decide (r.target_gen = .OLD_GENERATION))
      (handle_old_evacuation env r.from_region.is_young) cas.2
    (.returned (some r.copy) how, { s with heap := h2 })
  else
    match evac_undo_copy env p.size is_promotion r.target_gen r.copy r.alloc_from_lab
        { s with heap := cas.2 } with
    | none => (.stopped, { s with heap := cas.2 })
    | some s1 => (.returned (some cas.1) .cas_lost, s1)

/-- Lines 332 to 365 of `evacuate_object`, with `try_evacuate_object` followed up to its
compare-and-swap. -/
def evacuate_object_until_cas (env : Env) (p : oopDesc) (s : EvacState) :
    EvacProgress × EvacState :=
  if s.tld._oom_during_evac then (.returned (some (resolve_forwarded s.heap p)) .oom, s)
  else
    match heap_region_containing env s.heap p.addr with
    | none => (.stopped, s)
    | some r =>
      let target_gen := r.affiliation
      if env.is_generational && is_gc_generation_young s.heap &&
          decide (target_gen = .YOUNG_GENERATION) &&
          env.flags.ShenandoahPromoteTenuredObjects then
        if is_forwarded s.heap p then
          (.returned (some (resolve_forwarded s.heap p)) .already_forwarded, s)
        else if p.has_displaced_mark_helper then
          try_evacuate_object_until_cas env p r target_gen s
        else if r.age + p.age ≥ env.flags.InitialTenuringThreshold then
          match try_evacuate_object_until_cas env p r .OLD_GENERATION s with
          | (.returned none _, s1) => try_evacuate_object_until_cas env p r target_gen s1
          | other => other
        else try_evacuate_object_until_cas env p r target_gen s
      else try_evacuate_object_until_cas env p r target_gen s

/-- A thread that evacuates: its own data and its progress. -/
structure EvacThread where
  tld : ShenandoahThreadLocalData
  progress : EvacProgress := .calling
  deriving DecidableEq, Repr

/-- The threads that call `evacuate_object` on one object, and the heap they share. -/
structure EvacSystem where
  heap : ShenandoahHeap
  threads : List EvacThread
  deriving DecidableEq, Repr

/-- The thread of index `i` runs up to its next step on the header of `p`: from the call of
`evacuate_object` to the compare-and-swap, or from the compare-and-swap to the return. -/
def thread_step (env : Env) (p : oopDesc) (i : Nat) (sys : EvacSystem) : EvacSystem :=
  match sys.threads.get? i with
  | none => sys
  | some t =>
    match t.progress with
    | .calling =>
      let r := evacuate_object_until_cas env p { heap := sys.heap, tld := t.tld }
      { heap := r.2.heap, threads := sys.threads.set i { tld := r.2.tld, progress := r.1 } }
    | .racing race =>
      let r := try_evacuate_object_from_cas env p race { heap := sys.heap, tld := t.tld }
      { heap := r.2.heap, threads := sys.threads.set i { tld := r.2.tld, progress := r.1 } }
    | _ => sys

/-- The threads run in the order of `schedule`, a list of thread indices. -/
def run_threads (env : Env) (p : oopDesc) (schedule : List Nat) (sys : EvacSystem) :
    EvacSystem :=
  schedule.foldl (fun s i => thread_step env p i s) sys

/-- The forwarding pointer in the header of `p`, if there is one. -/
def installed_forwardee (sys : EvacSystem) (p : oopDesc) : Option Nat :=
  sys.heap._forwardee.lookup p.addr

/-- The thread has returned after winning the compare-and-swap. -/
def EvacThread.won (t : EvacThread) : Bool :=
  match t.progress with
  | .returned _ .cas_won => true
  | _ => false

/-- The thread has returned after its compare-and-swap, won or lost. -/
def EvacThread.raced (t : EvacThread) : Bool :=
  match t.progress with
  | .returned _ .cas_won => true
  | .returned _ .cas_lost => true
  | _ => false

/-- The number of threads whose compare-and-swap won. -/
def cas_winners (sys : EvacSystem) : Nat :=
  sys.threads.countP EvacThread.won

/-- The collaborators write no forwarding pointer: the header of an object changes only
through `try_update_forwardee`. -/
def KeepsForwardee (env : Env) : Prop :=
  ∀ op h, (env.ext op h)._forwardee = h._forwardee

/-- Three threads with 300, 200 and 100 words left in their buffers, about to evacuate the
object at address 64 of a young region of age 10, none of them having run yet. -/
def three_evacuating_threads : EvacSystem :=
  { heap := (evacuating_thread .YOUNG).heap,
    threads := [{ tld := (evacuating_thread .YOUNG).tld },
                { tld := { (evacuating_thread .YOUNG).tld with
                    _gclab := some 200, _plab := some 200 } },
                { tld := { (evacuating_thread .YOUNG).tld with
                    _gclab := some 100, _plab := some 100 } }] }

/-- One thread without buffers on a heap without memory. -/
def one_thread_without_memory : EvacSystem :=
  { heap := thread_without_memory.heap, threads := [{ tld := thread_without_memory.tld }] }

/-- The invariant of the race for the header of `p`, which held `start` when the threads were
about to call: a thread that returned otherwise than through the out-of-memory protocol
returned the forwarding pointer installed; the compare-and-swap of one thread has won once a
forwarding pointer is installed in a header that had none, and of no thread otherwise; a
forwarding pointer present at the start is still there. -/
def RaceInvariant (p : oopDesc) (start : Option Nat) (sys : EvacSystem) : Prop :=
  (∀ t ∈ sys.threads, ∀ res how, t.progress = .returned res how → how ≠ .oom →
    res = installed_forwardee sys p ∧ (installed_forwardee sys p).isSome = true) ∧
  cas_winners sys =
    (if start = none ∧ (installed_forwardee sys p).isSome = true then 1 else 0) ∧
  (∀ v, start = some v → installed_forwardee sys p = some v)

/-! ## Theorems: the cancellation flag -/

theorem try_cancel_gc_cancellable (env : Env) (fuel : Nat) (h : ShenandoahHeap)
    (hc : h._cancelled_gc = .CANCELLABLE) :
    try_cancel_gc env (fuel + 1) h = some (true, { h with _cancelled_gc := .CANCELLED }) := by
  simp [try_cancel_gc, cancelled_gc_cmpxchg, hc]

theorem try_cancel_gc_cancelled (env : Env) (fuel : Nat) (h : ShenandoahHeap)
    (hc : h._cancelled_gc = .CANCELLED) :
    try_cancel_gc env (fuel + 1) h = some (false, h) := by
  simp [try_cancel_gc, cancelled_gc_cmpxchg, hc]

theorem cancel_gc_cancelled (env : Env) (fuel : Nat) (cause : GCCause) (h : ShenandoahHeap)
    (hc : h._cancelled_gc = .CANCELLED) :
    cancel_gc env (fuel + 1) cause h = some h := by
  simp [cancel_gc, try_cancel_gc_cancelled env fuel h hc]

theorem cancel_gc_cancellable (env : Env) (fuel : Nat) (cause : GCCause) (h : ShenandoahHeap)
    (hc : h._cancelled_gc = .CANCELLABLE) :
    cancel_gc env (fuel + 1) cause h = some
      (if cause = ._shenandoah_upgrade_to_full_gc then
        { h with _cancelled_gc := .CANCELLED,
                 _cancel_requested_time := env.elapsedTime { h with _cancelled_gc := .CANCELLED },
                 _upgraded_to_full := true }
       else
        { h with _cancelled_gc := .CANCELLED,
                 _cancel_requested_time :=
                   env.elapsedTime { h with _cancelled_gc := .CANCELLED } }) := by
  simp only [cancel_gc, try_cancel_gc_cancellable env fuel h hc]
  split <;> rfl

theorem check_cancelled_gc_and_yield_cancelled (env : Env) (sts : Bool) (h : ShenandoahHeap)
    (hc : h._cancelled_gc = .CANCELLED) :
    check_cancelled_gc_and_yield env sts h = (true, h) := by
  unfold check_cancelled_gc_and_yield
  split
  · simp [cancelled_gc, hc]
  · simp [cancelled_gc_cmpxchg, hc]

theorem run_cancel_call_cancelled (env : Env) (fuel : Nat) (c : CancelCall)
    (h : ShenandoahHeap) (hc : h._cancelled_gc = .CANCELLED) :
    run_cancel_call env (fuel + 1) c h = some (cancelled_answer c, h) := by
  cases c with
  | try_cancel_gc =>
    simp [run_cancel_call, cancelled_answer, try_cancel_gc_cancelled env fuel h hc]
  | cancel_gc cause =>
    simp [run_cancel_call, cancelled_answer, cancel_gc_cancelled env fuel cause h hc]
  | check_cancelled_gc_and_yield sts =>
    simp [run_cancel_call, cancelled_answer, check_cancelled_gc_and_yield_cancelled env sts h hc]

/-- C4: from `CANCELLABLE` the first `try_cancel_gc` returns true and leaves the flag
`CANCELLED`; from then on every `try_cancel_gc` returns false and leaves the heap as it is;
a second `cancel_gc`, with any cause, returns the heap the first one left, so that the flag,
`_cancel_requested_time` and `_upgraded_to_full` are those set by the first call. -/
theorem first_cancel_wins (env : Env) (fuel : Nat) (h : ShenandoahHeap)
    (cause1 cause2 : GCCause) (hc : h._cancelled_gc = .CANCELLABLE) :
    try_cancel_gc env (fuel + 1) h = some (true, { h with _cancelled_gc := .CANCELLED }) ∧
    (∀ h1 : ShenandoahHeap, h1._cancelled_gc = .CANCELLED →
      try_cancel_gc env (fuel + 1) h1 = some (false, h1)) ∧
    (∃ h1, cancel_gc env (fuel + 1) cause1 h = some h1 ∧
      h1._cancelled_gc = .CANCELLED ∧
      h1._cancel_requested_time = env.elapsedTime { h with _cancelled_gc := .CANCELLED } ∧
      h1._upgraded_to_full =
        (if cause1 = ._shenandoah_upgrade_to_full_gc then true else h._upgraded_to_full) ∧
      cancel_gc env (fuel + 1) cause2 h1 = some h1) := by
  refine ⟨try_cancel_gc_cancellable env fuel h hc,
    fun h1 h1c => try_cancel_gc_cancelled env fuel h1 h1c, ?_⟩
  have e := cancel_gc_cancellable env fuel cause1 h hc
  refine ⟨_, e, ?_, ?_, ?_, ?_⟩
  · split <;> rfl
  · split <;> rfl
  · by_cases hcause : cause1 = ._shenandoah_upgrade_to_full_gc <;> simp [hcause]
  · apply cancel_gc_cancelled
    split <;> rfl

/-- C4, at a concrete heap: two requests, the second with the cause upgrade-to-full. -/
theorem first_cancel_wins_witness :
    ({} : ShenandoahHeap)._cancelled_gc = .CANCELLABLE ∧
    (∃ h1, cancel_gc {} 1 ._allocation_failure {} = some h1 ∧
      h1._cancelled_gc = .CANCELLED ∧
      h1._cancel_requested_time = 1 ∧
      h1._upgraded_to_full = false ∧
      cancel_gc {} 1 ._shenandoah_upgrade_to_full_gc h1 = some h1) :=
  ⟨rfl, (first_cancel_wins {} 0 {} ._allocation_failure ._shenandoah_upgrade_to_full_gc rfl).2.2⟩

/-- C5: once the flag is `CANCELLED`, every sequence of `try_cancel_gc`, `cancel_gc` and
`check_cancelled_gc_and_yield` calls leaves the heap, hence the flag, as it is;
`try_cancel_gc` returns false and `check_cancelled_gc_and_yield` returns true each time;
`clear_cancelled_gc` puts the flag back to `CANCELLABLE`. -/
theorem cancelled_is_sticky (env : Env) (fuel : Nat) (calls : List CancelCall)
    (h : ShenandoahHeap) (hc : h._cancelled_gc = .CANCELLED) :
    run_cancel_calls env (fuel + 1) calls h = some (calls.map cancelled_answer, h) ∧
    (∀ h1, (∃ rs, run_cancel_calls env (fuel + 1) calls h = some (rs, h1)) →
      h1._cancelled_gc = .CANCELLED) ∧
    (∀ b, (clear_cancelled_gc b h)._cancelled_gc = .CANCELLABLE) := by
  have key : run_cancel_calls env (fuel + 1) calls h = some (calls.map cancelled_answer, h) := by
    induction calls with
    | nil => rfl
    | cons c cs ih =>
      simp [run_cancel_calls, run_cancel_call_cancelled env fuel c h hc, ih]
  refine ⟨key, ?_, ?_⟩
  · rintro h1 ⟨rs, hrs⟩
    rw [key] at hrs
    cases hrs
    exact hc
  · intro b
    unfold clear_cancelled_gc
    simp only []
    split <;> split <;> rfl

/-- C5, at a concrete heap and a concrete sequence of calls. -/
theorem cancelled_is_sticky_witness :
    run_cancel_calls {} 1
        [.try_cancel_gc, .cancel_gc ._shenandoah_upgrade_to_full_gc,
         .check_cancelled_gc_and_yield true, .check_cancelled_gc_and_yield false,
         .try_cancel_gc]
        { _cancelled_gc := .CANCELLED } =
      some ([.bool false, .void, .bool true, .bool true, .bool false],
        { _cancelled_gc := .CANCELLED }) :=
  (cancelled_is_sticky {} 0 _ { _cancelled_gc := .CANCELLED } rfl).1

/-- C6: with `sts_active` and `ShenandoahSuspendibleWorkers` both true and the flag
`CANCELLABLE`, `check_cancelled_gc_and_yield` stores `NOT_CANCELLED`, yields (if a yield is
requested) in that state, stores `CANCELLABLE` again and returns false; with one of the two
false it returns `cancelled_gc()` and leaves the heap as it is. -/
theorem check_cancelled_gc_and_yield_spec (env : Env) (sts_active : Bool)
    (h : ShenandoahHeap) :
    (sts_active = true → env.flags.ShenandoahSuspendibleWorkers = true →
      h._cancelled_gc = .CANCELLABLE →
      check_cancelled_gc_and_yield env sts_active h =
        (false,
         { guarded env.should_yield (call env .sts_yield)
             { h with _cancelled_gc := .NOT_CANCELLED } with _cancelled_gc := .CANCELLABLE }) ∧
      (check_cancelled_gc_and_yield env sts_active h).2._cancelled_gc = .CANCELLABLE) ∧
    ((sts_active = false ∨ env.flags.ShenandoahSuspendibleWorkers = false) →
      check_cancelled_gc_and_yield env sts_active h = (cancelled_gc h, h)) := by
  constructor
  · intro hs hw hc
    have e : check_cancelled_gc_and_yield env sts_active h =
        (false,
         { guarded env.should_yield (call env .sts_yield)
             { h with _cancelled_gc := .NOT_CANCELLED } with _cancelled_gc := .CANCELLABLE }) := by
      simp [check_cancelled_gc_and_yield, cancelled_gc_cmpxchg, hs, hw, hc]
    exact ⟨e, by rw [e]⟩
  · intro hor
    rcases hor with hs | hw
    · simp [check_cancelled_gc_and_yield, hs]
    · simp [check_cancelled_gc_and_yield, hw]

/-- C6, at concrete inputs: a yield is requested, and the yielding thread sees
`NOT_CANCELLED`. -/
theorem check_cancelled_gc_and_yield_spec_witness :
    check_cancelled_gc_and_yield
        { flags := { ShenandoahSuspendibleWorkers := true }, should_yield := fun _ => true,
          ext := fun _ h => { h with _free_set := if h._cancelled_gc = .NOT_CANCELLED then 7 else 9 } }
        true {} =
      (false, { _free_set := 7, trace := [Ev.ext .sts_yield] }) ∧
    check_cancelled_gc_and_yield {} true { _cancelled_gc := .CANCELLED } =
      (true, { _cancelled_gc := .CANCELLED }) :=
  ⟨((check_cancelled_gc_and_yield_spec
      { flags := { ShenandoahSuspendibleWorkers := true }, should_yield := fun _ => true,
        ext := fun _ h => { h with _free_set := if h._cancelled_gc = .NOT_CANCELLED then 7 else 9 } }
      true {}).1 rfl rfl rfl).1,
   (check_cancelled_gc_and_yield_spec {} true { _cancelled_gc := .CANCELLED }).2 (Or.inr rfl)⟩

/-! ## Theorems: traces of statements -/

theorem silent_of_trace {p : Ev → Bool} {f : Stmt} (hf : ∀ h, (f h).trace = h.trace) :
    Silent p f := by
  intro h
  rw [hf h]

theorem silent_emit {p : Ev → Bool} {e : Ev} (he : p e = false) : Silent p (emit e) := by
  intro h
  simp [emit, List.filter_append, he]

theorem silent_call {p : Ev → Bool} (env : Env) {op : ExtOp} (he : p (Ev.ext op) = false) :
    Silent p (call env op) := by
  intro h
  simp [call, List.filter_append, he]

theorem block_nil (h : ShenandoahHeap) : block [] h = h := rfl

theorem block_cons (f : Stmt) (l : List Stmt) (h : ShenandoahHeap) :
    block (f :: l) h = block l (f h) := rfl

theorem silent_block_nil {p : Ev → Bool} : Silent p (block []) :=
  fun _ => rfl

theorem silent_block_cons {p : Ev → Bool} {f : Stmt} {l : List Stmt}
    (hf : Silent p f) (hl : Silent p (block l)) : Silent p (block (f :: l)) := by
  intro h
  rw [block_cons, hl (f h), hf h]

theorem silent_guarded {p : Ev → Bool} {c : ShenandoahHeap → Bool} {f : Stmt}
    (hf : Silent p f) : Silent p (guarded c f) := by
  intro h
  unfold guarded
  split
  · exact hf h
  · rfl

theorem silent_branch {p : Ev → Bool} {c : ShenandoahHeap → Bool} {f g : Stmt}
    (hf : Silent p f) (hg : Silent p g) : Silent p (branch c f g) := by
  intro h
  unfold branch
  split
  · exact hf h
  · exact hg h

theorem emit_filter_milestone (e : Ev) (he : milestone e = true) (h : ShenandoahHeap) :
    (emit e h).trace.filter milestone = h.trace.filter milestone ++ [e] := by
  simp [emit, List.filter_append, he]

theorem call_filter_milestone (env : Env) (op : ExtOp) (he : milestone (Ev.ext op) = true)
    (h : ShenandoahHeap) :
    (call env op h).trace.filter milestone = h.trace.filter milestone ++ [Ev.ext op] := by
  simp [call, List.filter_append, he]

theorem block_emit_filter {e : Ev} {l : List Stmt} (he : milestone e = true)
    (hl : Silent milestone (block l)) (h : ShenandoahHeap) :
    (block (emit e :: l) h).trace.filter milestone = h.trace.filter milestone ++ [e] := by
  rw [block_cons, hl, emit_filter_milestone e he]

theorem case_outside_cycle_milestones (env : Env) (gc : ShenandoahDegenGC)
    (h : ShenandoahHeap) :
    (case_outside_cycle env gc h).trace.filter milestone =
      h.trace.filter milestone ++ [.case_label ._degenerated_outside_cycle] := by
  unfold case_outside_cycle
  apply block_emit_filter (by rfl)
  repeat' (first
    | exact silent_block_nil
    | apply silent_block_cons
    | apply silent_guarded
    | apply silent_branch
    | exact silent_call env rfl)

theorem case_roots_milestones (env : Env) (gc : ShenandoahDegenGC) (h : ShenandoahHeap) :
    (case_roots env gc h).trace.filter milestone =
      h.trace.filter milestone ++ [.case_label ._degenerated_roots] := by
  unfold case_roots op_reset op_mark cancel_concurrent_mark
  apply block_emit_filter (by rfl)
  repeat' (first
    | exact silent_block_nil
    | apply silent_block_cons
    | apply silent_guarded
    | apply silent_branch
    | exact silent_call env rfl
    | exact silent_emit rfl)

theorem case_mark_milestones (env : Env) (gc : ShenandoahDegenGC) (h : ShenandoahHeap) :
    (case_mark env gc h).trace.filter milestone =
      h.trace.filter milestone ++ [.case_label ._degenerated_mark] := by
  unfold case_mark op_finish_mark op_prepare_evacuation op_cleanup_early
  apply block_emit_filter (by rfl)
  repeat' (first
    | exact silent_block_nil
    | apply silent_block_cons
    | apply silent_guarded
    | apply silent_branch
    | exact silent_call env rfl
    | exact silent_emit rfl)

theorem degen_before_switch_milestones (env : Env) (h : ShenandoahHeap) :
    (degen_before_switch env h).trace.filter milestone = h.trace.filter milestone := by
  have hs : Silent milestone (degen_before_switch env) := by
    unfold degen_before_switch
    refine silent_block_cons (silent_of_trace ?_) (silent_block_cons (silent_call env rfl)
      silent_block_nil)
    intro h
    unfold clear_cancelled_gc
    simp only []
    split <;> split <;> rfl
  exact hs h

theorem evac_entry_milestones (env : Env) (gc : ShenandoahDegenGC) (h : ShenandoahHeap) :
    (evac_entry env gc h).trace.filter milestone =
      h.trace.filter milestone ++ [.case_label ._degenerated_evac] := by
  unfold evac_entry evac_coalesce op_global_coalesce_and_fill
  apply block_emit_filter (by rfl)
  repeat' (first
    | exact silent_block_nil
    | apply silent_block_cons
    | apply silent_guarded
    | apply silent_branch
    | exact silent_call env rfl
    | exact silent_emit rfl)

theorem evac_restart_milestones (env : Env) (gc : ShenandoahDegenGC) (h : ShenandoahHeap) :
    (evac_restart env gc h).trace.filter milestone = h.trace.filter milestone := by
  have hs : Silent milestone (evac_restart env gc) := by
    unfold evac_restart evac_handover evac_sync
    repeat' (first
      | exact silent_block_nil
      | apply silent_block_cons
      | apply silent_guarded
      | apply silent_branch
      | exact silent_call env rfl)
  exact hs h

theorem evac_run_milestones (env : Env) (h : ShenandoahHeap) :
    (evac_run env h).trace.filter milestone =
      h.trace.filter milestone ++ [.op .op_evacuate] := by
  unfold evac_run op_evacuate
  rw [block_cons, block_cons, block_nil]
  have hs : Silent milestone (block [call env .evacuate_collection_set]) :=
    silent_block_cons (silent_call env rfl) silent_block_nil
  rw [block_cons, hs, emit_filter_milestone _ (by rfl)]
  have hc : Silent milestone (call env .cset_clear_current_index) := silent_call env rfl
  rw [hc]

theorem op_init_updaterefs_milestones (env : Env) (h : ShenandoahHeap) :
    (op_init_updaterefs env h).trace.filter milestone =
      h.trace.filter milestone ++ [.op .op_init_updaterefs] := by
  unfold op_init_updaterefs
  apply block_emit_filter (by rfl)
  repeat' (first
    | exact silent_block_nil
    | apply silent_block_cons
    | exact silent_call env rfl)

theorem evac_finish_milestones (env : Env) (h : ShenandoahHeap) :
    (evac_finish env h).trace.filter milestone =
      h.trace.filter milestone ++
        (if has_forwarded_objects h then [.op .op_init_updaterefs] else []) := by
  unfold evac_finish guarded
  split
  · exact op_init_updaterefs_milestones env h
  · simp

theorem op_updaterefs_milestones (env : Env) (h : ShenandoahHeap) :
    (op_updaterefs env h).trace.filter milestone =
      h.trace.filter milestone ++ [.op .op_updaterefs] := by
  unfold op_updaterefs
  apply block_emit_filter (by rfl)
  repeat' (first
    | exact silent_block_nil
    | apply silent_block_cons
    | exact silent_call env rfl)

theorem op_update_roots_milestones (env : Env) (h : ShenandoahHeap) :
    (op_update_roots env h).trace.filter milestone =
      h.trace.filter milestone ++ [.op .op_update_roots] := by
  unfold op_update_roots
  apply block_emit_filter (by rfl)
  repeat' (first
    | exact silent_block_nil
    | apply silent_block_cons
    | apply silent_guarded
    | exact silent_call env rfl)

theorem case_updaterefs_milestones (env : Env) (h : ShenandoahHeap) :
    (case_updaterefs env h).trace.filter milestone =
      h.trace.filter milestone ++ ([.case_label ._degenerated_updaterefs] ++
        (if has_forwarded_objects (emit (.case_label ._degenerated_updaterefs) h)
         then [.op .op_updaterefs, .op .op_update_roots] else [])) := by
  unfold case_updaterefs
  rw [block_cons, block_cons]
  have hs : Silent milestone
      (block [guarded (fun _ => env.flags.ClassUnloading) (call env .disarm_nmethods),
        op_cleanup_complete env]) := by
    unfold op_cleanup_complete
    repeat' (first
      | exact silent_block_nil
      | apply silent_block_cons
      | apply silent_guarded
      | exact silent_call env rfl
      | exact silent_emit rfl)
  rw [hs]
  unfold guarded
  split
  · rw [block_cons, block_cons, block_nil, op_update_roots_milestones,
      op_updaterefs_milestones, emit_filter_milestone _ (by rfl)]
    simp
  · rw [emit_filter_milestone _ (by rfl)]
    simp

theorem degen_after_switch_milestones (env : Env) (h : ShenandoahHeap) :
    (degen_after_switch env h).trace.filter milestone =
      h.trace.filter milestone ++ [.ext .metrics_snap_after] := by
  unfold degen_after_switch
  rw [block_cons, block_cons, block_cons, block_cons, block_nil,
    call_filter_milestone env _ (by rfl)]
  have h1 : Silent milestone (guarded (fun _ => env.flags.VerifyAfterGC)
      (call env .universe_verify)) := silent_guarded (silent_call env rfl)
  have h2 : Silent milestone (guarded (fun _ => env.flags.ShenandoahVerify)
      (call env .verify_after_degenerated)) := silent_guarded (silent_call env rfl)
  have h3 : Silent milestone (guarded (fun _ => env.is_generational)
      (block [call env .young_unadjust_available,
        call env .old_unadjust_available,
        set_alloc_supplement_reserve 0,
        set_young_evac_reserve 0,
        set_old_evac_reserve 0,
        reset_old_evac_expended,
        set_promoted_reserve 0])) := by
    repeat' (first
      | exact silent_block_nil
      | apply silent_block_cons
      | apply silent_guarded
      | exact silent_call env rfl)
  rw [h1, h2, h3]

theorem try_cancel_gc_milestones (env : Env) (fuel : Nat) :
    ∀ (h : ShenandoahHeap) (r : Bool × ShenandoahHeap), try_cancel_gc env fuel h = some r →
      r.2.trace.filter milestone = h.trace.filter milestone := by
  induction fuel with
  | zero => intro h r hr; simp [try_cancel_gc] at hr
  | succ n ih =>
    intro h r hr
    unfold try_cancel_gc at hr
    simp only [cancelled_gc_cmpxchg] at hr
    by_cases h1 : h._cancelled_gc = .CANCELLABLE
    · simp [h1] at hr
      subst hr
      rfl
    · by_cases h2 : h._cancelled_gc = .CANCELLED
      · simp [h1, h2] at hr
        subst hr
        rfl
      · simp [h1, h2] at hr
        rw [ih _ r hr]
        exact silent_call env rfl h

theorem cancel_gc_milestones (env : Env) (fuel : Nat) (cause : GCCause)
    (h h1 : ShenandoahHeap) (hr : cancel_gc env fuel cause h = some h1) :
    h1.trace.filter milestone = h.trace.filter milestone := by
  unfold cancel_gc at hr
  split at hr
  · simp at hr
  · rename_i h2 heq
    have := try_cancel_gc_milestones env fuel h _ heq
    split at hr <;> (simp at hr; subst hr; exact this)
  · rename_i h2 heq
    have := try_cancel_gc_milestones env fuel h _ heq
    simp at hr
    subst hr
    exact this

theorem cancel_gc_isSome (env : Env) (fuel : Nat) (hs : SpinEnds env fuel) (cause : GCCause)
    (h : ShenandoahHeap) : ∃ h1, cancel_gc env fuel cause h = some h1 := by
  have := hs h
  unfold cancel_gc
  cases ht : try_cancel_gc env fuel h with
  | none => simp [ht] at this
  | some r =>
    obtain ⟨b, h1⟩ := r
    cases b
    · exact ⟨_, rfl⟩
    · simp only []
      split <;> exact ⟨_, rfl⟩

theorem op_degenerated_fail_milestones (env : Env) (gc : ShenandoahDegenGC)
    (h : ShenandoahHeap) :
    (op_degenerated_fail env gc h).2.trace.filter milestone =
      h.trace.filter milestone ++ fail_events ∧
    (op_degenerated_fail env gc h).1 = { gc with _upgraded_to_full := true } := by
  constructor
  · simp [op_degenerated_fail, upgrade_to_full, block, call, emit, List.filter_append,
      milestone, fail_events]
  · rfl

theorem op_degenerated_futile_milestones (env : Env) (gc : ShenandoahDegenGC)
    (h : ShenandoahHeap) :
    (op_degenerated_futile env gc h).2.trace.filter milestone =
      h.trace.filter milestone ++
        [.op .op_degenerated_futile, .op .upgrade_to_full, .ext .op_full] ∧
    (op_degenerated_futile env gc h).1 = { gc with _upgraded_to_full := true } := by
  constructor
  · simp [op_degenerated_futile, upgrade_to_full, block, call, emit, List.filter_append,
      milestone]
  · rfl

theorem degen_epilogue_shape (env : Env) (fuel : Nat) (gc : ShenandoahDegenGC)
    (h : ShenandoahHeap) (r : DegenResult) (hr : degen_epilogue env fuel gc h = some r) :
    (r.exit = .completed_futile ∨ r.exit = .completed_progress) ∧
    FollowsShape gc h r ([.ext .metrics_snap_after] ++
      (match r.exit with
       | .completed_futile => futile_events
       | _ => [.ext .notify_gc_progress])) := by
  unfold degen_epilogue at hr
  simp only [] at hr
  split at hr
  · split at hr
    · simp at hr
    · rename_i h2 heq
      simp only [Option.some.injEq] at hr
      subst hr
      have e1 := cancel_gc_milestones env fuel _ _ _ heq
      have e2 := op_degenerated_futile_milestones env gc h2
      refine ⟨Or.inl rfl, ?_, ?_⟩
      · simp only []
        rw [e2.1, e1, emit_filter_milestone _ (by rfl), call_filter_milestone env _ (by rfl),
          degen_after_switch_milestones]
        simp [futile_events]
      · simp only []
        rw [e2.2]
        simp [DegenExit.upgrades]
  · simp only [Option.some.injEq] at hr
    subst hr
    refine ⟨Or.inr rfl, ?_, ?_⟩
    · simp only []
      rw [call_filter_milestone env _ (by rfl), degen_after_switch_milestones]
      simp
    · simp [DegenExit.upgrades]

theorem degen_from_updaterefs_shape (env : Env) (fuel : Nat) (gc : ShenandoahDegenGC)
    (h : ShenandoahHeap) (r : DegenResult) (hr : degen_from_updaterefs env fuel gc h = some r) :
    (r.exit = .completed_futile ∨ r.exit = .completed_progress) ∧
    ∃ b_upd, FollowsShape gc h r (tail_shape r.exit b_upd) := by
  unfold degen_from_updaterefs at hr
  obtain ⟨hx, ht, hg⟩ := degen_epilogue_shape env fuel gc _ r hr
  refine ⟨hx, has_forwarded_objects (emit (.case_label ._degenerated_updaterefs) h), ?_, hg⟩
  rw [ht, case_updaterefs_milestones]
  simp [tail_shape]

theorem degen_from_evac_shape (env : Env) (fuel : Nat) (gc : ShenandoahDegenGC)
    (h : ShenandoahHeap) (r : DegenResult) (hr : degen_from_evac env fuel gc h = some r) :
    r.exit ≠ .should_not_reach_here ∧
    ∃ b_evac b_init b_upd, FollowsShape gc h r (evac_shape r.exit b_evac b_init b_upd) := by
  unfold degen_from_evac at hr
  simp only [] at hr
  split at hr
  · split at hr
    · split at hr
      · simp at hr
      · rename_i h3 heq
        simp only [Option.some.injEq] at hr
        subst hr
        have e1 := cancel_gc_milestones env fuel _ _ _ heq
        have e2 := op_degenerated_fail_milestones env gc h3
        refine ⟨by simp, false, false, false, ?_, ?_⟩
        · simp only []
          rw [e2.1, e1, emit_filter_milestone _ (by rfl), evac_restart_milestones,
            evac_entry_milestones]
          simp [evac_shape]
        · simp only []
          rw [e2.2]
          simp [DegenExit.upgrades]
    · split at hr
      · simp only [Option.some.injEq] at hr
        subst hr
        have e2 := op_degenerated_fail_milestones env gc
          (evac_run env (evac_restart env gc (evac_entry env gc h)))
        refine ⟨by simp, false, false, false, ?_, ?_⟩
        · simp only []
          rw [e2.1, evac_run_milestones, evac_restart_milestones, evac_entry_milestones]
          simp [evac_shape]
        · simp only []
          rw [e2.2]
          simp [DegenExit.upgrades]
      · obtain ⟨hx, b_upd, ht, hg⟩ := degen_from_updaterefs_shape env fuel gc _ r hr
        refine ⟨by rcases hx with hx | hx <;> simp [hx], true,
          has_forwarded_objects (evac_run env (evac_restart env gc (evac_entry env gc h))),
          b_upd, ?_, hg⟩
        rw [ht, evac_finish_milestones, evac_run_milestones, evac_restart_milestones,
          evac_entry_milestones]
        rcases hx with hx | hx <;> simp [evac_shape, hx]
  · obtain ⟨hx, b_upd, ht, hg⟩ := degen_from_updaterefs_shape env fuel gc _ r hr
    refine ⟨by rcases hx with hx | hx <;> simp [hx], false,
      has_forwarded_objects (evac_entry env gc h), b_upd, ?_, hg⟩
    rw [ht, evac_finish_milestones, evac_entry_milestones]
    rcases hx with hx | hx <;> simp [evac_shape, hx]

theorem op_degenerated_shape (env : Env) (fuel : Nat) (gc : ShenandoahDegenGC)
    (h : ShenandoahHeap) (r : DegenResult) (hr : op_degenerated env fuel gc h = some r) :
    exit_possible gc._degen_point r.exit = true ∧
    ∃ b_evac b_init b_upd,
      FollowsShape gc h r (run_shape gc._degen_point r.exit b_evac b_init b_upd) := by
  unfold op_degenerated at hr
  simp only [] at hr
  split at hr
  · rename_i hp
    unfold degen_from_outside_cycle degen_from_roots degen_from_mark at hr
    obtain ⟨hx, b1, b2, b3, ht, hg⟩ := degen_from_evac_shape env fuel gc _ r hr
    refine ⟨by simp [exit_possible, hp, hx], b1, b2, b3, ?_, hg⟩
    rw [ht, case_mark_milestones, case_roots_milestones, case_outside_cycle_milestones,
      degen_before_switch_milestones]
    simp [run_shape, hp]
  · rename_i hp
    unfold degen_from_roots degen_from_mark at hr
    obtain ⟨hx, b1, b2, b3, ht, hg⟩ := degen_from_evac_shape env fuel gc _ r hr
    refine ⟨by simp [exit_possible, hp, hx], b1, b2, b3, ?_, hg⟩
    rw [ht, case_mark_milestones, case_roots_milestones, degen_before_switch_milestones]
    simp [run_shape, hp]
  · rename_i hp
    unfold degen_from_mark at hr
    obtain ⟨hx, b1, b2, b3, ht, hg⟩ := degen_from_evac_shape env fuel gc _ r hr
    refine ⟨by simp [exit_possible, hp, hx], b1, b2, b3, ?_, hg⟩
    rw [ht, case_mark_milestones, degen_before_switch_milestones]
    simp [run_shape, hp]
  · rename_i hp
    obtain ⟨hx, b1, b2, b3, ht, hg⟩ := degen_from_evac_shape env fuel gc _ r hr
    refine ⟨by simp [exit_possible, hp, hx], b1, b2, b3, ?_, hg⟩
    rw [ht, degen_before_switch_milestones]
    simp [run_shape, hp]
  · rename_i hp
    obtain ⟨hx, b3, ht, hg⟩ := degen_from_updaterefs_shape env fuel gc _ r hr
    refine ⟨by rcases hx with hx | hx <;> simp [exit_possible, hp, hx], false, false, b3, ?_, hg⟩
    rw [ht, degen_before_switch_milestones]
    simp [run_shape, hp]
  · rename_i hp1 hp2 hp3 hp4 hp5
    simp only [Option.some.injEq] at hr
    subst hr
    have hrs : ∀ b1 b2 b3, run_shape gc._degen_point DegenExit.should_not_reach_here b1 b2 b3
        = [] := by
      intro b1 b2 b3
      unfold run_shape
      split <;> first | rfl | contradiction
    refine ⟨?_, false, false, false, ?_, ?_⟩
    · unfold exit_possible
      split <;> first | rfl | contradiction
    · simp only []
      rw [hrs, degen_before_switch_milestones]
      simp
    · simp [DegenExit.upgrades]

/-! ## Theorems: the degenerated cycle -/

theorem fair_env_spinEnds : SpinEnds fair_env 2 := by
  intro h
  cases hc : h._cancelled_gc <;>
    simp [try_cancel_gc, cancelled_gc_cmpxchg, hc, call, fair_env]

theorem degen_epilogue_isSome (env : Env) (fuel : Nat) (hs : SpinEnds env fuel)
    (gc : ShenandoahDegenGC) (h : ShenandoahHeap) :
    ∃ r, degen_epilogue env fuel gc h = some r := by
  unfold degen_epilogue
  simp only []
  split
  · obtain ⟨h2, e⟩ := cancel_gc_isSome env fuel hs ._shenandoah_upgrade_to_full_gc
      (emit (.cancel_gc ._shenandoah_upgrade_to_full_gc)
        (call env .notify_gc_no_progress (degen_after_switch env h)))
    rw [e]
    exact ⟨_, rfl⟩
  · exact ⟨_, rfl⟩

theorem degen_from_evac_isSome (env : Env) (fuel : Nat) (hs : SpinEnds env fuel)
    (gc : ShenandoahDegenGC) (h : ShenandoahHeap) :
    ∃ r, degen_from_evac env fuel gc h = some r := by
  unfold degen_from_evac
  simp only []
  split
  · split
    · obtain ⟨h2, e⟩ := cancel_gc_isSome env fuel hs ._shenandoah_upgrade_to_full_gc
        (emit (.cancel_gc ._shenandoah_upgrade_to_full_gc)
          (evac_restart env gc (evac_entry env gc h)))
      rw [e]
      exact ⟨_, rfl⟩
    · split
      · exact ⟨_, rfl⟩
      · exact degen_epilogue_isSome env fuel hs gc _
  · exact degen_epilogue_isSome env fuel hs gc _

theorem op_degenerated_isSome (env : Env) (fuel : Nat) (hs : SpinEnds env fuel)
    (gc : ShenandoahDegenGC) (h : ShenandoahHeap) :
    ∃ r, op_degenerated env fuel gc h = some r := by
  unfold op_degenerated
  simp only []
  split
  · exact degen_from_evac_isSome env fuel hs gc _
  · exact degen_from_evac_isSome env fuel hs gc _
  · exact degen_from_evac_isSome env fuel hs gc _
  · exact degen_from_evac_isSome env fuel hs gc _
  · exact degen_epilogue_isSome env fuel hs gc _
  · exact ⟨_, rfl⟩

theorem case_labels_filter_milestone (t : List Ev) :
    case_labels (t.filter milestone) = case_labels t := by
  unfold case_labels
  rw [List.filterMap_filter]
  congr 1
  funext e
  cases e <;> simp [milestone]

theorem case_labels_append (t u : List Ev) :
    case_labels (t ++ u) = case_labels t ++ case_labels u := by
  simp [case_labels]

theorem case_labels_of_shape (gc : ShenandoahDegenGC) (h : ShenandoahHeap) (r : DegenResult)
    (shape : List Ev) (hf : FollowsShape gc h r shape) :
    case_labels r.heap.trace = case_labels h.trace ++ case_labels shape := by
  rw [← case_labels_filter_milestone, hf.1, case_labels_append, case_labels_filter_milestone]

theorem calls_between_of_shape (gc : ShenandoahDegenGC) (h : ShenandoahHeap) (r : DegenResult)
    (shape : List Ev) (hf : FollowsShape gc h r shape) (e : Ev) (he : milestone e = true) :
    calls_between e h r.heap = (shape.count e : Int) := by
  unfold calls_between
  have e1 : r.heap.trace.count e = (r.heap.trace.filter milestone).count e :=
    (List.count_filter he).symm
  have e2 : h.trace.count e = (h.trace.filter milestone).count e :=
    (List.count_filter he).symm
  rw [e1, hf.1, List.count_append, ← e2]
  push_cast
  ring

theorem op_degenerated_of_reach_evac (env : Env) (fuel : Nat) (gc : ShenandoahDegenGC)
    (h h_evac : ShenandoahHeap) (hreach : reach_evac env gc h = some h_evac) :
    op_degenerated env fuel gc h = degen_from_evac env fuel gc h_evac := by
  obtain ⟨p, g, u⟩ := gc
  cases p <;> simp [reach_evac] at hreach <;> (subst hreach; rfl)

theorem degen_epilogue_exit (env : Env) (fuel : Nat) (gc : ShenandoahDegenGC)
    (h : ShenandoahHeap) (r : DegenResult) (hr : degen_epilogue env fuel gc h = some r) :
    r.exit = (if env.is_good_progress (degen_after_switch env h) then
      DegenExit.completed_progress else DegenExit.completed_futile) := by
  unfold degen_epilogue at hr
  simp only [] at hr
  cases hg : env.is_good_progress (degen_after_switch env h) with
  | true =>
    simp only [hg, Bool.not_true, Bool.false_eq_true, if_false, Option.some.injEq] at hr
    subst hr
    rfl
  | false =>
    simp only [hg, Bool.not_false, if_true] at hr
    split at hr
    · cases hr
    · simp only [Option.some.injEq] at hr
      subst hr
      rfl

theorem degen_from_evac_exit (env : Env) (fuel : Nat) (gc : ShenandoahDegenGC)
    (h : ShenandoahHeap) (r : DegenResult) (hr : degen_from_evac env fuel gc h = some r) :
    r.exit =
      (if is_evacuation_in_progress (evac_entry env gc h) = true ∧
          cset_has_pinned (evac_restart env gc (evac_entry env gc h)) = true then
        DegenExit.pinned_cset
      else if is_evacuation_in_progress (evac_entry env gc h) = true ∧
          cancelled_gc (evac_run env (evac_restart env gc (evac_entry env gc h))) = true then
        DegenExit.evac_cancelled
      else
        match after_evac_stage env gc h with
        | none => DegenExit.should_not_reach_here
        | some h_upd =>
          if env.is_good_progress (degen_after_switch env (case_updaterefs env h_upd)) then
            DegenExit.completed_progress else DegenExit.completed_futile) := by
  unfold degen_from_evac at hr
  unfold after_evac_stage
  simp only [] at hr ⊢
  cases he : is_evacuation_in_progress (evac_entry env gc h) with
  | false =>
    simp only [he, Bool.false_eq_true, if_false] at hr
    have := degen_epilogue_exit env fuel gc _ r hr
    simp [this]
  | true =>
    cases hp : cset_has_pinned (evac_restart env gc (evac_entry env gc h)) with
    | true =>
      simp only [he, hp, if_true] at hr
      split at hr
      · cases hr
      · simp only [Option.some.injEq] at hr
        subst hr
        simp
    | false =>
      cases hc : cancelled_gc (evac_run env (evac_restart env gc (evac_entry env gc h))) with
      | true =>
        simp only [he, hp, hc, Bool.false_eq_true, if_true, if_false,
          Option.some.injEq] at hr
        subst hr
        simp
      | false =>
        simp only [he, hp, hc, Bool.false_eq_true, if_true, if_false] at hr
        have := degen_epilogue_exit env fuel gc _ r hr
        simp [this]

theorem exit_of_reach_evac (env : Env) (fuel : Nat) (gc : ShenandoahDegenGC)
    (h h_evac : ShenandoahHeap) (r : DegenResult)
    (hreach : reach_evac env gc h = some h_evac)
    (hnu : gc._degen_point ≠ ._degenerated_updaterefs)
    (hr : op_degenerated env fuel gc h = some r) :
    (r.exit = .pinned_cset ↔ pinned_region_found env gc h = true) ∧
    (r.exit = .evac_cancelled ↔ evacuation_cancelled env gc h = true) ∧
    (r.exit = .completed_futile ↔ no_good_progress env gc h = true) := by
  rw [op_degenerated_of_reach_evac env fuel gc h h_evac hreach] at hr
  have hx := degen_from_evac_exit env fuel gc h_evac r hr
  have hfh : futility_heap env gc h =
      (after_evac_stage env gc h_evac).map
        (fun h_upd => degen_after_switch env (case_updaterefs env h_upd)) := by
    unfold futility_heap
    split
    · rename_i hp
      exact absurd hp hnu
    · rw [hreach]
      cases hae : after_evac_stage env gc h_evac <;> simp [hae]
  unfold pinned_region_found evacuation_cancelled no_good_progress
  rw [hfh, hreach]
  simp only []
  rw [hx]
  unfold after_evac_stage
  simp only []
  by_cases he : is_evacuation_in_progress (evac_entry env gc h_evac) = true <;>
  by_cases hp : cset_has_pinned (evac_restart env gc (evac_entry env gc h_evac)) = true <;>
  by_cases hc : cancelled_gc (evac_run env (evac_restart env gc (evac_entry env gc h_evac)))
      = true <;>
  simp [he, hp, hc] <;>
  split <;> simp_all

/-- How a run ended, read off the heaps on which the code tests for a pinned region, for a
cancelled evacuation and for progress. -/
theorem op_degenerated_exit (env : Env) (fuel : Nat) (gc : ShenandoahDegenGC)
    (h : ShenandoahHeap) (r : DegenResult) (hr : op_degenerated env fuel gc h = some r) :
    (r.exit = .pinned_cset ↔ pinned_region_found env gc h = true) ∧
    (r.exit = .evac_cancelled ↔ evacuation_cancelled env gc h = true) ∧
    (r.exit = .completed_futile ↔ no_good_progress env gc h = true) := by
  cases hp : gc._degen_point with
  | _degenerated_outside_cycle =>
    obtain ⟨he, hre⟩ : ∃ he, reach_evac env gc h = some he := by simp [reach_evac, hp]
    exact exit_of_reach_evac env fuel gc h he r hre (by simp [hp]) hr
  | _degenerated_roots =>
    obtain ⟨he, hre⟩ : ∃ he, reach_evac env gc h = some he := by simp [reach_evac, hp]
    exact exit_of_reach_evac env fuel gc h he r hre (by simp [hp]) hr
  | _degenerated_mark =>
    obtain ⟨he, hre⟩ : ∃ he, reach_evac env gc h = some he := by simp [reach_evac, hp]
    exact exit_of_reach_evac env fuel gc h he r hre (by simp [hp]) hr
  | _degenerated_evac =>
    obtain ⟨he, hre⟩ : ∃ he, reach_evac env gc h = some he := by simp [reach_evac, hp]
    exact exit_of_reach_evac env fuel gc h he r hre (by simp [hp]) hr
  | _degenerated_updaterefs =>
    have hr2 := hr
    unfold op_degenerated at hr2
    simp only [hp] at hr2
    have hx := degen_epilogue_exit env fuel gc _ r hr2
    simp only [pinned_region_found, evacuation_cancelled, no_good_progress, futility_heap,
      reach_evac, hp, hx]
    split <;> simp_all
  | _degenerated_unset =>
    have hr2 := hr
    unfold op_degenerated at hr2
    simp only [hp, Option.some.injEq] at hr2
    subst hr2
    simp [pinned_region_found, evacuation_cancelled, no_good_progress, futility_heap,
      reach_evac, hp]
  | _DEGENERATED_LIMIT =>
    have hr2 := hr
    unfold op_degenerated at hr2
    simp only [hp, Option.some.injEq] at hr2
    subst hr2
    simp [pinned_region_found, evacuation_cancelled, no_good_progress, futility_heap,
      reach_evac, hp]

theorem count_run_shape_pinned (p : ShenandoahDegenPoint) (b1 b2 b3 : Bool)
    (hp : exit_possible p .pinned_cset = true) :
    (run_shape p .pinned_cset b1 b2 b3).count (.cancel_gc ._shenandoah_upgrade_to_full_gc) = 1 ∧
    (run_shape p .pinned_cset b1 b2 b3).count (.op .op_degenerated_fail) = 1 ∧
    (run_shape p .pinned_cset b1 b2 b3).count (.ext .op_full) = 1 ∧
    (run_shape p .pinned_cset b1 b2 b3).count (.op .op_evacuate) = 0 ∧
    (run_shape p .pinned_cset b1 b2 b3).count (.op .op_init_updaterefs) = 0 ∧
    (run_shape p .pinned_cset b1 b2 b3).count (.op .op_updaterefs) = 0 ∧
    (run_shape p .pinned_cset b1 b2 b3).count (.op .op_update_roots) = 0 ∧
    (run_shape p .pinned_cset b1 b2 b3).count (.ext .metrics_snap_after) = 0 ∧
    (run_shape p .pinned_cset b1 b2 b3).count (.ext .notify_gc_no_progress) = 0 ∧
    (run_shape p .pinned_cset b1 b2 b3).count (.ext .notify_gc_progress) = 0 ∧
    (run_shape p .pinned_cset b1 b2 b3).count (.op .op_degenerated_futile) = 0 := by
  cases p <;> first | (exact absurd hp (by decide)) |
    (cases b1 <;> cases b2 <;> cases b3 <;> decide)

theorem count_run_shape_op_full (p : ShenandoahDegenPoint) (x : DegenExit) (b1 b2 b3 : Bool)
    (hp : exit_possible p x = true) :
    (run_shape p x b1 b2 b3).count (.ext .op_full) = if x.upgrades then 1 else 0 := by
  cases p <;> cases x <;> first | (exact absurd hp (by decide)) |
    (cases b1 <;> cases b2 <;> cases b3 <;> decide)

theorem case_labels_run_shape (p : ShenandoahDegenPoint) (x : DegenExit) (b1 b2 b3 : Bool)
    (hp : p ∈ degen_pipeline) (hposs : exit_possible p x = true)
    (hx1 : x ≠ .pinned_cset) (hx2 : x ≠ .evac_cancelled) :
    case_labels (run_shape p x b1 b2 b3) = stages_from p := by
  simp only [degen_pipeline, List.mem_cons, List.mem_singleton, List.not_mem_nil,
    or_false] at hp
  rcases hp with rfl | rfl | rfl | rfl | rfl <;> cases x <;>
    first
    | (exact absurd rfl hx1)
    | (exact absurd rfl hx2)
    | (exact absurd hposs (by decide))
    | (cases b1 <;> cases b2 <;> cases b3 <;> rfl)

/-- C1: a run of `op_degenerated` entered at a stage `p` of the pipeline outside-cycle, roots,
mark, evac, updaterefs returns (once the spin of `cancel_gc` ends), and when it is not
aborted (no pinned collection-set region is found, the collection is not cancelled when the
evacuation returns) the case bodies it went through are `p` and every later stage, in
pipeline order, and no earlier one; hence the stages run from any later entry point `q` are
a final segment of those run from `p`. -/
theorem degenerated_pipeline_fallthrough (env : Env) (fuel : Nat) (gc : ShenandoahDegenGC)
    (h : ShenandoahHeap) (hp : gc._degen_point ∈ degen_pipeline)
    (hnopin : pinned_region_found env gc h = false)
    (hnocancel : evacuation_cancelled env gc h = false) :
    (SpinEnds env fuel → ∃ r, op_degenerated env fuel gc h = some r) ∧
    (∀ r, op_degenerated env fuel gc h = some r →
      case_labels r.heap.trace = case_labels h.trace ++ stages_from gc._degen_point) ∧
    (∀ q ∈ stages_from gc._degen_point,
      stages_from q <:+ stages_from gc._degen_point ∧
      ∀ q1 ∈ degen_pipeline, q1 ∉ stages_from gc._degen_point → q1 ∉ stages_from q) := by
  refine ⟨fun hs => op_degenerated_isSome env fuel hs gc h, ?_, ?_⟩
  · intro r hr
    obtain ⟨hposs, b1, b2, b3, hf⟩ := op_degenerated_shape env fuel gc h r hr
    obtain ⟨e1, e2, _⟩ := op_degenerated_exit env fuel gc h r hr
    have hx1 : r.exit ≠ .pinned_cset := by
      intro hx
      rw [e1.mp hx] at hnopin
      exact absurd hnopin (by decide)
    have hx2 : r.exit ≠ .evac_cancelled := by
      intro hx
      rw [e2.mp hx] at hnocancel
      exact absurd hnocancel (by decide)
    rw [case_labels_of_shape gc h r _ hf,
      case_labels_run_shape gc._degen_point r.exit b1 b2 b3 hp hposs hx1 hx2]
  · generalize gc._degen_point = p at hp
    simp only [degen_pipeline, List.mem_cons, List.mem_singleton, List.not_mem_nil,
      or_false] at hp
    rcases hp with rfl | rfl | rfl | rfl | rfl <;> decide

/-- C1, at a concrete run: entered at roots with one unpinned region in the collection set, the
run goes through roots, mark, evac and updaterefs, in that order, and through nothing of
outside-cycle. -/
theorem degenerated_pipeline_fallthrough_witness :
    ∃ r, op_degenerated fair_env 2 { _degen_point := ._degenerated_roots, _generation := .YOUNG }
        { _regions := [{ is_active := true, in_cset := true }] } = some r ∧
      case_labels r.heap.trace =
        [._degenerated_roots, ._degenerated_mark, ._degenerated_evac,
         ._degenerated_updaterefs] := by
  have t := degenerated_pipeline_fallthrough fair_env 2
    { _degen_point := ._degenerated_roots, _generation := .YOUNG }
    { _regions := [{ is_active := true, in_cset := true }] } (by decide) (by decide)
    (by decide)
  obtain ⟨r, hr⟩ := t.1 fair_env_spinEnds
  exact ⟨r, hr, t.2.1 r hr⟩

/-- C2: when control reaches `case _degenerated_evac:` with evacuation in progress and the
collection set holds a pinned region after `sync_pinned_region_status`, `op_degenerated`
returns (once the spin of `cancel_gc` ends) through the `return` of line 247: from the case
label on it requests cancellation with the cause upgrade-to-full and runs
`op_degenerated_fail`, hence the full collection, and nothing else; in the whole run each of
these happens once, while `op_evacuate`, the steps that update references and the futility
check (second metrics snapshot, progress notification, `op_degenerated_futile`) never
happen. -/
theorem pinned_cset_escalates (env : Env) (fuel : Nat) (gc : ShenandoahDegenGC)
    (h h_evac : ShenandoahHeap)
    (hreach : reach_evac env gc h = some h_evac)
    (hevac : is_evacuation_in_progress (evac_entry env gc h_evac) = true)
    (hpin : cset_has_pinned (evac_restart env gc (evac_entry env gc h_evac)) = true) :
    (SpinEnds env fuel → ∃ r, op_degenerated env fuel gc h = some r) ∧
    (∀ r, op_degenerated env fuel gc h = some r →
      r.exit = .pinned_cset ∧
      r.heap.trace.filter milestone = h_evac.trace.filter milestone ++
        [.case_label ._degenerated_evac, .cancel_gc ._shenandoah_upgrade_to_full_gc,
         .op .op_degenerated_fail, .op .upgrade_to_full, .ext .op_full] ∧
      calls_between (.cancel_gc ._shenandoah_upgrade_to_full_gc) h r.heap = 1 ∧
      calls_between (.op .op_degenerated_fail) h r.heap = 1 ∧
      calls_between (.ext .op_full) h r.heap = 1 ∧
      calls_between (.op .op_evacuate) h r.heap = 0 ∧
      calls_between (.op .op_init_updaterefs) h r.heap = 0 ∧
      calls_between (.op .op_updaterefs) h r.heap = 0 ∧
      calls_between (.op .op_update_roots) h r.heap = 0 ∧
      calls_between (.ext .metrics_snap_after) h r.heap = 0 ∧
      calls_between (.ext .notify_gc_no_progress) h r.heap = 0 ∧
      calls_between (.ext .notify_gc_progress) h r.heap = 0 ∧
      calls_between (.op .op_degenerated_futile) h r.heap = 0) := by
  refine ⟨fun hs => op_degenerated_isSome env fuel hs gc h, ?_⟩
  intro r hr
  have hfound : pinned_region_found env gc h = true := by
    simp [pinned_region_found, hreach, hevac, hpin]
  have hx : r.exit = .pinned_cset := (op_degenerated_exit env fuel gc h r hr).1.mpr hfound
  obtain ⟨hposs, b1, b2, b3, hf⟩ := op_degenerated_shape env fuel gc h r hr
  rw [hx] at hposs
  have hc := count_run_shape_pinned gc._degen_point b1 b2 b3 hposs
  have hev : r.heap.trace.filter milestone = h_evac.trace.filter milestone ++
      [.case_label ._degenerated_evac, .cancel_gc ._shenandoah_upgrade_to_full_gc,
       .op .op_degenerated_fail, .op .upgrade_to_full, .ext .op_full] := by
    have hr2 := hr
    rw [op_degenerated_of_reach_evac env fuel gc h h_evac hreach] at hr2
    obtain ⟨_, c1, c2, c3, hf2, _⟩ := degen_from_evac_shape env fuel gc h_evac r hr2
    rw [hf2, hx]
    rfl
  rw [hx] at hf
  refine ⟨hx, hev, ?_, ?_, ?_, ?_, ?_, ?_, ?_, ?_, ?_, ?_, ?_⟩
  · rw [calls_between_of_shape gc h r _ hf _ (by rfl), hc.1]; rfl
  · rw [calls_between_of_shape gc h r _ hf _ (by rfl), hc.2.1]; rfl
  · rw [calls_between_of_shape gc h r _ hf _ (by rfl), hc.2.2.1]; rfl
  · rw [calls_between_of_shape gc h r _ hf _ (by rfl), hc.2.2.2.1]; rfl
  · rw [calls_between_of_shape gc h r _ hf _ (by rfl), hc.2.2.2.2.1]; rfl
  · rw [calls_between_of_shape gc h r _ hf _ (by rfl), hc.2.2.2.2.2.1]; rfl
  · rw [calls_between_of_shape gc h r _ hf _ (by rfl), hc.2.2.2.2.2.2.1]; rfl
  · rw [calls_between_of_shape gc h r _ hf _ (by rfl), hc.2.2.2.2.2.2.2.1]; rfl
  · rw [calls_between_of_shape gc h r _ hf _ (by rfl), hc.2.2.2.2.2.2.2.2.1]; rfl
  · rw [calls_between_of_shape gc h r _ hf _ (by rfl), hc.2.2.2.2.2.2.2.2.2.1]; rfl
  · rw [calls_between_of_shape gc h r _ hf _ (by rfl), hc.2.2.2.2.2.2.2.2.2.2]; rfl

/-- C2, at a concrete run: the cycle degenerated during evacuation and the second region of
the collection set is pinned. -/
theorem pinned_cset_escalates_witness :
    ∃ r, op_degenerated fair_env 2 { _degen_point := ._degenerated_evac, _generation := .YOUNG }
        pinned_heap = some r ∧
      r.exit = .pinned_cset ∧
      calls_between (.ext .op_full) pinned_heap r.heap = 1 ∧
      calls_between (.op .op_evacuate) pinned_heap r.heap = 0 := by
  have t := pinned_cset_escalates fair_env 2
    { _degen_point := ._degenerated_evac, _generation := .YOUNG } pinned_heap
    (degen_before_switch fair_env pinned_heap) rfl (by decide) (by decide)
  obtain ⟨r, hr⟩ := t.1 fair_env_spinEnds
  have t2 := t.2 r hr
  exact ⟨r, hr, t2.1, t2.2.2.2.2.1, t2.2.2.2.2.2.1⟩

/-- C3: in a run of `op_degenerated` on a freshly constructed collector object (which
returns once the spin of `cancel_gc` ends) `ShenandoahFullGC::op_full` is called once when a
pinned collection-set region was found, or the collection is cancelled when the evacuation
returns, or the cycle completed and `is_good_progress()` is false, and is not called
otherwise; `upgraded_to_full()` is true afterwards in exactly those three cases. -/
theorem full_gc_iff_escalation (env : Env) (fuel : Nat) (gc : ShenandoahDegenGC)
    (h : ShenandoahHeap) (hfresh : gc._upgraded_to_full = false) :
    (SpinEnds env fuel → ∃ r, op_degenerated env fuel gc h = some r) ∧
    (∀ r, op_degenerated env fuel gc h = some r →
      (calls_between (.ext .op_full) h r.heap = 1 ↔
        (pinned_region_found env gc h = true ∨ evacuation_cancelled env gc h = true ∨
          no_good_progress env gc h = true)) ∧
      (calls_between (.ext .op_full) h r.heap = 0 ∨
        calls_between (.ext .op_full) h r.heap = 1) ∧
      (r.gc.upgraded_to_full = true ↔
        (pinned_region_found env gc h = true ∨ evacuation_cancelled env gc h = true ∨
          no_good_progress env gc h = true))) := by
  refine ⟨fun hs => op_degenerated_isSome env fuel hs gc h, ?_⟩
  intro r hr
  obtain ⟨hposs, b1, b2, b3, hf⟩ := op_degenerated_shape env fuel gc h r hr
  obtain ⟨e1, e2, e3⟩ := op_degenerated_exit env fuel gc h r hr
  have hc := count_run_shape_op_full gc._degen_point r.exit b1 b2 b3 hposs
  have hcb := calls_between_of_shape gc h r _ hf (.ext .op_full) (by rfl)
  rw [hc] at hcb
  have hg : r.gc.upgraded_to_full = r.exit.upgrades := by
    rw [hf.2]
    simp [ShenandoahDegenGC.upgraded_to_full, hfresh]
  rw [hcb, hg, ← e1, ← e2, ← e3]
  cases r.exit <;> simp [DegenExit.upgrades]

/-- C3, at two concrete runs: one that finds a pinned region, one that completes with good
progress. -/
theorem full_gc_iff_escalation_witness :
    (∃ r, op_degenerated fair_env 2 { _degen_point := ._degenerated_evac, _generation := .YOUNG }
        pinned_heap = some r ∧
      calls_between (.ext .op_full) pinned_heap r.heap = 1 ∧ r.gc.upgraded_to_full = true) ∧
    (∃ r, op_degenerated fair_env 2 { _degen_point := ._degenerated_mark, _generation := .YOUNG }
        {} = some r ∧
      calls_between (.ext .op_full) {} r.heap ≠ 1 ∧ r.gc.upgraded_to_full ≠ true) := by
  constructor
  · have t := full_gc_iff_escalation fair_env 2
      { _degen_point := ._degenerated_evac, _generation := .YOUNG } pinned_heap rfl
    obtain ⟨r, hr⟩ := t.1 fair_env_spinEnds
    exact ⟨r, hr, (t.2 r hr).1.2 (Or.inl (by decide)), (t.2 r hr).2.2.2 (Or.inl (by decide))⟩
  · have t := full_gc_iff_escalation fair_env 2
      { _degen_point := ._degenerated_mark, _generation := .YOUNG } {} rfl
    obtain ⟨r, hr⟩ := t.1 fair_env_spinEnds
    refine ⟨r, hr, fun hone => ?_, fun hup => ?_⟩
    · have := (t.2 r hr).1.1 hone
      revert this
      decide
    · have := (t.2 r hr).2.2.1 hup
      revert this
      decide

/-! ## Theorems: allocation budgets -/

/-- C7: a young mutator request of exactly `adjusted_available()` bytes (8 words, 64 bytes)
does not exceed the budget and the free set would grant it, yet in generational mode
`allocate_memory_under_lock` returns `nullptr` without asking the free set: the state,
trace included, is left as it was. -/
theorem young_request_at_limit_rejected :
    young_request_at_limit.req.size * HeapWordSize =
      young_request_at_limit.heap.young_adjusted_available ∧
    (granting_env.free_set_allocate young_request_at_limit.heap._free_set
      young_request_at_limit.req).1.isSome = true ∧
    allocate_memory_under_lock granting_env false young_request_at_limit =
      (none, young_request_at_limit) := by
  decide

theorem free_set_allocate_cases (env : Env) (s : AllocState) :
    (∃ g fs, env.free_set_allocate s.heap._free_set s.req = (some g, fs) ∧
      free_set_allocate env s =
        (some g.addr,
         { s with heap := emit (.ext .free_set_allocate) { s.heap with _free_set := fs },
                  req := { s.req with _actual_size := g.actual_size },
                  in_new_region := g.in_new_region })) ∨
    (∃ fs, env.free_set_allocate s.heap._free_set s.req = (none, fs) ∧
      free_set_allocate env s =
        (none, { s with heap := emit (.ext .free_set_allocate)
                          { s.heap with _free_set := fs } })) := by
  unfold free_set_allocate
  rcases hfs : env.free_set_allocate s.heap._free_set s.req with ⟨og, fs⟩
  cases og with
  | none => exact Or.inr ⟨fs, rfl, rfl⟩
  | some g => exact Or.inl ⟨g, fs, rfl, rfl⟩

theorem size_t_add_eq (a b : Nat) (h : a + b < 2 ^ 64) : size_t_add a b = a + b := by
  unfold size_t_add
  exact Nat.mod_eq_of_lt h

theorem size_t_mul_eq (a b : Nat) (h : a * b < 2 ^ 64) : size_t_mul a b = a * b := by
  unfold size_t_mul
  exact Nat.mod_eq_of_lt h

/-- What the code does for a young mutator request in generational mode: it returns
`nullptr` without asking the free set exactly when the requested bytes reach
`adjusted_available()`, and hands the request to the free set otherwise. -/
theorem young_mutator_gate (env : Env) (is_promotion : Bool) (s : AllocState)
    (hgen : env.is_generational = true) (hy : s.req.affiliation = .YOUNG_GENERATION)
    (hm : s.req.is_mutator_alloc = true) :
    (size_t_mul s.req.size HeapWordSize ≥ s.heap.young_adjusted_available →
      allocate_memory_under_lock env is_promotion s = (none, s)) ∧
    (size_t_mul s.req.size HeapWordSize < s.heap.young_adjusted_available →
      allocate_memory_under_lock env is_promotion s = free_set_allocate env s) := by
  constructor
  · intro hge
    simp [allocate_memory_under_lock, budget_check, hgen, hy, hm, hge]
  · intro hlt
    have hnge : ¬ size_t_mul s.req.size HeapWordSize ≥ s.heap.young_adjusted_available :=
      Nat.not_le.mpr hlt
    have hy2 : s.req._affiliation = .YOUNG_GENERATION := hy
    simp only [allocate_memory_under_lock, budget_check, hgen, hy, hm, hnge, if_true,
      if_false]
    rcases free_set_allocate_cases env s with ⟨g, fs, _, e⟩ | ⟨fs, _, e⟩
    · rw [e]
      simp [after_success, ShenandoahAllocRequest.affiliation, hy2]
    · rw [e]
      simp [after_failure, ShenandoahAllocRequest.affiliation, hy2]

/-- C8, as stated, fails: a PLAB request that exceeds the promotion budget is handed to the
free set and allocated when an old-generation evacuation is scheduled (8 bytes reserved), and
is rejected without a free-set allocation when none is scheduled. -/
theorem plab_over_budget_counterexample :
    (plab_request_over_budget 8).heap._promoted_expended +
        (plab_request_over_budget 8).req.size * HeapWordSize >
      (plab_request_over_budget 8).heap._promoted_reserve ∧
    (allocate_memory_under_lock granting_env false (plab_request_over_budget 8)).1 =
      some 4096 ∧
    (allocate_memory_under_lock granting_env false (plab_request_over_budget 8)).2.heap.trace =
      [.ext .free_set_allocate, .ext .card_scan_register_object] ∧
    allocate_memory_under_lock granting_env false (plab_request_over_budget 0) =
      (none, plab_request_over_budget 0) := by
  decide

/-- C8, amended: in generational mode an old-generation PLAB request for which
`promoted_expended + requested bytes`, the sum that line 1224 takes in `size_t`, exceeds
`promoted_reserve` is rejected, and no free-set allocation is made, when no old-generation
evacuation is scheduled (`old_evac_reserve = 0`); when one is scheduled
(`old_evac_reserve > 0`) the request is handed to the free set, whose answer is returned,
nothing of the promotion budget is expended, and the PLAB obtained has promotions
disabled. -/
theorem plab_over_budget_gate (env : Env) (is_promotion : Bool) (s : AllocState)
    (hgen : env.is_generational = true)
    (hold : s.req.affiliation = .OLD_GENERATION)
    (hplab : s.req.type = ._alloc_plab)
    (hover : size_t_add (get_promoted_expended s.heap) (size_t_mul s.req.size HeapWordSize) >
      get_promoted_reserve s.heap) :
    (get_old_evac_reserve s.heap = 0 →
      allocate_memory_under_lock env is_promotion s =
        (none, { s with tld := { s.tld with _plab_preallocated_promoted := 0 } })) ∧
    (get_old_evac_reserve s.heap > 0 →
      (allocate_memory_under_lock env is_promotion s).1 = (free_set_allocate env s).1 ∧
      (allocate_memory_under_lock env is_promotion s).2.heap._free_set =
        (free_set_allocate env s).2.heap._free_set ∧
      get_promoted_expended (allocate_memory_under_lock env is_promotion s).2.heap =
        get_promoted_expended s.heap ∧
      ((allocate_memory_under_lock env is_promotion s).1.isSome = true →
        (allocate_memory_under_lock env is_promotion s).2.tld._plab_allows_promotion =
          false)) := by
  have hold2 : s.req._affiliation = .OLD_GENERATION := hold
  have hplab2 : s.req._alloc_type = ._alloc_plab := hplab
  have hny : ¬ s.req.affiliation = .YOUNG_GENERATION := by rw [hold]; decide
  constructor
  · intro h0
    simp [allocate_memory_under_lock, budget_check, hgen, hny, hplab, hover, h0,
      after_failure, hold, ShenandoahAllocRequest.is_gc_alloc, hplab2]
  · intro hpos
    have hne : ¬ get_old_evac_reserve s.heap = 0 := Nat.pos_iff_ne_zero.mp hpos
    simp only [allocate_memory_under_lock, budget_check, hgen, hny, hplab, hover, hne,
      if_true, if_false]
    rcases free_set_allocate_cases env s with ⟨g, fs, _, e⟩ | ⟨fs, _, e⟩
    · rw [e]
      simp [after_success, ShenandoahAllocRequest.affiliation, ShenandoahAllocRequest.type,
        ShenandoahAllocRequest.is_gc_alloc, hold2, hplab2, emit, get_promoted_expended]
    · rw [e]
      simp [after_failure, ShenandoahAllocRequest.affiliation, ShenandoahAllocRequest.type,
        ShenandoahAllocRequest.is_gc_alloc, hold2, hplab2, emit, get_promoted_expended]

/-- C8, amended, at two concrete requests. -/
theorem plab_over_budget_gate_witness :
    allocate_memory_under_lock granting_env false (plab_request_over_budget 0) =
      (none, plab_request_over_budget 0) ∧
    (allocate_memory_under_lock granting_env false (plab_request_over_budget 8)).1 =
      some 4096 ∧
    get_promoted_expended
      (allocate_memory_under_lock granting_env false (plab_request_over_budget 8)).2.heap =
        16 :=
  ⟨(plab_over_budget_gate granting_env false (plab_request_over_budget 0) rfl rfl rfl
      (by decide)).1 rfl,
   ((plab_over_budget_gate granting_env false (plab_request_over_budget 8) rfl rfl rfl
      (by decide)).2 (by decide)).1,
   ((plab_over_budget_gate granting_env false (plab_request_over_budget 8) rfl rfl rfl
      (by decide)).2 (by decide)).2.2.1⟩

/-- The sum of line 1224 wraps around: with `promoted_expended = 2^64 - 32` and a PLAB request
of 258 words (2064 bytes) the sum is 2032, within a reserve of 100000 bytes, so that the
request is granted with promotions enabled although no old-generation evacuation is
scheduled, and `expend_promoted` wraps around to 2032 as well. -/
theorem plab_budget_sum_wraps :
    size_t_add 18446744073709551584 (size_t_mul 258 HeapWordSize) = 2032 ∧
    (allocate_memory_under_lock granting_env false
      { heap := { _promoted_reserve := 100000, _promoted_expended := 18446744073709551584 },
        tld := {},
        req := { _min_size := 2, _requested_size := 258, _alloc_type := ._alloc_plab,
                 _affiliation := .OLD_GENERATION } }).1 = some 4096 ∧
    (allocate_memory_under_lock granting_env false
      { heap := { _promoted_reserve := 100000, _promoted_expended := 18446744073709551584 },
        tld := {},
        req := { _min_size := 2, _requested_size := 258, _alloc_type := ._alloc_plab,
                 _affiliation := .OLD_GENERATION } }).2.tld._plab_allows_promotion = true ∧
    (allocate_memory_under_lock granting_env false
      { heap := { _promoted_reserve := 100000, _promoted_expended := 18446744073709551584 },
        tld := {},
        req := { _min_size := 2, _requested_size := 258, _alloc_type := ._alloc_plab,
                 _affiliation := .OLD_GENERATION } }).2.heap._promoted_expended = 2032 := by
  decide

theorem budget_check_eligible (env : Env) (is_promotion : Bool) (h : ShenandoahHeap)
    (req : ShenandoahAllocRequest) (allow : Bool)
    (hb : budget_check env is_promotion h req = .proceed allow true) :
    size_t_add h._promoted_expended (size_t_mul req._requested_size HeapWordSize) ≤
      h._promoted_reserve := by
  unfold budget_check at hb
  simp only [ShenandoahAllocRequest.size, get_promoted_reserve, get_promoted_expended,
    get_old_evac_reserve] at hb
  by_cases hfit : size_t_add h._promoted_expended
      (size_t_mul req._requested_size HeapWordSize) > h._promoted_reserve
  · exfalso
    revert hb
    simp only [hfit, if_true]
    repeat' split
    all_goals simp
  · exact Nat.le_of_not_gt hfit

theorem budget_check_shared_promotion (env : Env) (h : ShenandoahHeap)
    (req : ShenandoahAllocRequest) (allow elig : Bool)
    (hgen : env.is_generational = true)
    (hold : req._affiliation = .OLD_GENERATION)
    (hnpl : ¬ req._alloc_type = ._alloc_plab)
    (hb : budget_check env true h req = .proceed allow elig) :
    size_t_add h._promoted_expended (size_t_mul req._requested_size HeapWordSize) ≤
      h._promoted_reserve := by
  unfold budget_check at hb
  simp only [ShenandoahAllocRequest.size, ShenandoahAllocRequest.affiliation,
    ShenandoahAllocRequest.type, get_promoted_reserve, get_promoted_expended,
    get_old_evac_reserve, hgen, hold, hnpl, if_true, if_false] at hb
  by_cases hfit : size_t_add h._promoted_expended
      (size_t_mul req._requested_size HeapWordSize) > h._promoted_reserve
  · exfalso
    revert hb
    simp [hfit]
  · exact Nat.le_of_not_gt hfit

theorem budget_check_nongen (env : Env) (is_promotion : Bool) (h : ShenandoahHeap)
    (req : ShenandoahAllocRequest) (hgen : env.is_generational = false) :
    budget_check env is_promotion h req = .proceed true false := by
  simp [budget_check, hgen]

theorem after_success_budget (is_promotion elig : Bool) (s : AllocState) :
    (after_success is_promotion elig s).heap._promoted_reserve = s.heap._promoted_reserve ∧
    ((after_success is_promotion elig s).heap._promoted_expended = s.heap._promoted_expended ∨
     (elig = true ∧ (after_success is_promotion elig s).heap._promoted_expended =
        size_t_add s.heap._promoted_expended (size_t_mul s.req._actual_size HeapWordSize)) ∨
     (is_promotion = true ∧ s.req._affiliation = .OLD_GENERATION ∧
        ¬ s.req._alloc_type = ._alloc_plab ∧
        (after_success is_promotion elig s).heap._promoted_expended =
          size_t_add s.heap._promoted_expended
            (size_t_mul s.req._requested_size HeapWordSize))) := by
  unfold after_success
  simp only [ShenandoahAllocRequest.affiliation, ShenandoahAllocRequest.type,
    ShenandoahAllocRequest.actual_size, ShenandoahAllocRequest.size]
  by_cases ho : s.req._affiliation = .OLD_GENERATION
  · by_cases hg : s.req.is_gc_alloc = true
    · by_cases hp : s.req._alloc_type = ._alloc_plab
      · cases elig
        · simp [ho, hg, hp, emit]
        · simp [ho, hg, hp, emit, expend_promoted]
      · cases is_promotion
        · simp [ho, hg, hp, emit]
        · simp [ho, hg, hp, emit, expend_promoted]
    · simp [ho, hg, emit]
  · simp [ho]

/-- C9: `promoted_expended <= promoted_reserve` is preserved by `allocate_memory_under_lock`,
for every request kind (PLAB, shared promotion, shared old evacuation, young) and every
answer of the free set that grants no more than was requested.  The call is one the code
makes: `is_promotion` is true in generational mode only (lines 346 and 375 of
`shenandoahHeap.inline.hpp`; every other caller passes `false`), and the byte counts are
those of one heap, so that the sum `promoted_expended + requested bytes` of line 1224 fits
`size_t`. -/
theorem promotion_budget_preserved (env : Env) (is_promotion : Bool) (s : AllocState)
    (hcall : is_promotion = true → env.is_generational = true)
    (hfit : get_promoted_expended s.heap + s.req.size * HeapWordSize < 2 ^ 64)
    (hinv : promotion_within_budget s.heap)
    (hgrant : ∀ g fs, env.free_set_allocate s.heap._free_set s.req = (some g, fs) →
      g.actual_size ≤ s.req.size) :
    promotion_within_budget (allocate_memory_under_lock env is_promotion s).2.heap := by
  unfold promotion_within_budget get_promoted_expended get_promoted_reserve at hinv ⊢
  unfold get_promoted_expended ShenandoahAllocRequest.size at hfit
  unfold allocate_memory_under_lock
  cases hb : budget_check env is_promotion s.heap s.req with
  | reject => exact hinv
  | proceed allow elig =>
    simp only []
    cases allow with
    | false =>
      simp only [Bool.false_eq_true, if_false]
      unfold after_failure
      split <;> exact hinv
    | true =>
      simp only [if_true]
      rcases free_set_allocate_cases env s with ⟨g, fs, hg, e⟩ | ⟨fs, _, e⟩
      · rw [e]
        simp only []
        have hle : g.actual_size ≤ s.req._requested_size := hgrant g fs hg
        have hmul : g.actual_size * HeapWordSize ≤ s.req._requested_size * HeapWordSize :=
          Nat.mul_le_mul_right _ hle
        obtain ⟨hres, hexp⟩ := after_success_budget is_promotion elig
          { s with heap := emit (.ext .free_set_allocate) { s.heap with _free_set := fs },
                   req := { s.req with _actual_size := g.actual_size },
                   in_new_region := g.in_new_region }
        rw [hres]
        rcases hexp with h1 | ⟨helig, h1⟩ | ⟨hip, hold, hnpl, h1⟩
        · rw [h1]
          exact hinv
        · rw [h1]
          subst helig
          have hb1 := budget_check_eligible env is_promotion s.heap s.req true hb
          rw [size_t_mul_eq _ _ (by omega), size_t_add_eq _ _ hfit] at hb1
          simp only [emit]
          rw [size_t_mul_eq _ _ (by omega), size_t_add_eq _ _ (by omega)]
          omega
        · rw [h1]
          subst hip
          have hgen := hcall rfl
          have := budget_check_shared_promotion env s.heap s.req true elig hgen hold hnpl hb
          simp only [emit]
          exact this
      · rw [e]
        simp only []
        unfold after_failure
        split <;> exact hinv

/-- C9 at concrete requests: a PLAB within the budget is expended in full and stays within
the reserve; a shared promotion in generational mode on an empty reserve is rejected. -/
theorem promotion_budget_preserved_witness :
    promotion_within_budget
      (allocate_memory_under_lock granting_env false
        { heap := { _promoted_reserve := 64, _promoted_expended := 16 },
          tld := {},
          req := { _min_size := 2, _requested_size := 4, _alloc_type := ._alloc_plab,
                   _affiliation := .OLD_GENERATION } }).2.heap ∧
    promotion_within_budget
      (allocate_memory_under_lock granting_env true shared_old_request).2.heap :=
  ⟨promotion_budget_preserved granting_env false _ (fun _ => rfl) (by decide) (by decide)
      (by
        intro g fs hg
        simp only [granting_env, Prod.mk.injEq, Option.some.injEq] at hg
        rw [← hg.1]
        exact Nat.le_refl _),
   promotion_budget_preserved granting_env true shared_old_request (fun _ => rfl)
      (by decide) (by decide)
      (by
        intro g fs hg
        simp only [granting_env, Prod.mk.injEq, Option.some.injEq] at hg
        rw [← hg.1]
        exact Nat.le_refl _)⟩

theorem after_success_count (is_promotion elig : Bool) (s : AllocState) :
    (after_success is_promotion elig s).heap.trace.count (.ext .handle_alloc_failure) =
      s.heap.trace.count (.ext .handle_alloc_failure) := by
  unfold after_success
  simp only []
  repeat' split
  all_goals simp [emit, expend_promoted]

theorem after_failure_heap (s : AllocState) : (after_failure s).heap = s.heap := by
  unfold after_failure
  split <;> rfl

theorem allocate_memory_under_lock_count (env : Env) (is_promotion : Bool) (s : AllocState) :
    (allocate_memory_under_lock env is_promotion s).2.heap.trace.count
        (.ext .handle_alloc_failure) =
      s.heap.trace.count (.ext .handle_alloc_failure) := by
  unfold allocate_memory_under_lock
  cases budget_check env is_promotion s.heap s.req with
  | reject => rfl
  | proceed allow elig =>
    simp only []
    cases allow with
    | false =>
      simp only [Bool.false_eq_true, if_false]
      rw [after_failure_heap]
    | true =>
      simp only [if_true]
      rcases free_set_allocate_cases env s with ⟨g, fs, _, e⟩ | ⟨fs, _, e⟩
      · rw [e]
        simp only []
        rw [after_success_count]
        simp [emit]
      · rw [e]
        simp only []
        rw [after_failure_heap]
        simp [emit]

theorem retry_once_count (env : Env) (is_promotion : Bool) (rs : RetryState) :
    (retry_once env is_promotion rs).st.heap.trace.count (.ext .handle_alloc_failure) =
      rs.st.heap.trace.count (.ext .handle_alloc_failure) + 1 ∧
    (retry_once env is_promotion rs).tries = rs.tries + 1 := by
  constructor
  · unfold retry_once
    simp only []
    rw [allocate_memory_under_lock_count]
    simp [call]
  · rfl

theorem retry_while_progress_count (env : Env) (is_promotion : Bool) (fuel : Nat) :
    ∀ rs rs1, retry_while_progress env is_promotion fuel rs = some rs1 →
      rs1.st.heap.trace.count (.ext .handle_alloc_failure) + rs.tries =
        rs.st.heap.trace.count (.ext .handle_alloc_failure) + rs1.tries ∧
      rs.tries ≤ rs1.tries := by
  induction fuel with
  | zero => intro rs rs1 hr; simp [retry_while_progress] at hr
  | succ n ih =>
    intro rs rs1 hr
    unfold retry_while_progress at hr
    split at hr
    · obtain ⟨h1, h2⟩ := ih _ _ hr
      obtain ⟨h3, h4⟩ := retry_once_count env is_promotion rs
      omega
    · simp only [Option.some.injEq] at hr
      subst hr
      exact ⟨rfl, Nat.le_refl _⟩

theorem retry_upto_threshold_count (env : Env) (is_promotion : Bool) (n : Nat) :
    ∀ rs,
      (retry_upto_threshold env is_promotion n rs).st.heap.trace.count
          (.ext .handle_alloc_failure) + rs.tries =
        rs.st.heap.trace.count (.ext .handle_alloc_failure) +
          (retry_upto_threshold env is_promotion n rs).tries ∧
      rs.tries ≤ (retry_upto_threshold env is_promotion n rs).tries ∧
      (retry_upto_threshold env is_promotion n rs).tries ≤
        max rs.tries (env.flags.ShenandoahFullGCThreshold + 1) := by
  induction n with
  | zero =>
    intro rs
    exact ⟨rfl, Nat.le_refl _, Nat.le_max_left _ _⟩
  | succ n ih =>
    intro rs
    unfold retry_upto_threshold
    split
    · rename_i hc
      simp only [Bool.and_eq_true, decide_eq_true_eq] at hc
      obtain ⟨h1, h2, h3⟩ := ih (retry_once env is_promotion rs)
      obtain ⟨h4, h5⟩ := retry_once_count env is_promotion rs
      refine ⟨by omega, by omega, ?_⟩
      rw [h5] at h3
      have : max (rs.tries + 1) (env.flags.ShenandoahFullGCThreshold + 1) ≤
          max rs.tries (env.flags.ShenandoahFullGCThreshold + 1) := by
        apply Nat.max_le.mpr
        constructor
        · exact Nat.le_trans (Nat.succ_le_succ hc.2) (Nat.le_max_right _ _)
        · exact Nat.le_max_right _ _
      exact Nat.le_trans h3 this
    · exact ⟨rfl, Nat.le_refl _, Nat.le_max_left _ _⟩

theorem first_attempt_count (env : Env) (is_promotion : Bool) (s : AllocState) :
    (first_attempt env is_promotion s).st.heap.trace.count (.ext .handle_alloc_failure) =
      s.heap.trace.count (.ext .handle_alloc_failure) ∧
    (first_attempt env is_promotion s).tries = 0 := by
  have hp : (guarded (fun _ => env.flags.ShenandoahPacing) (call env .pace_for_alloc)
      s.heap).trace.count (.ext .handle_alloc_failure) =
      s.heap.trace.count (.ext .handle_alloc_failure) := by
    unfold guarded
    split
    · simp [call]
    · rfl
  unfold first_attempt
  simp only []
  split
  · refine ⟨?_, rfl⟩
    simp only []
    rw [allocate_memory_under_lock_count]
    exact hp
  · exact ⟨hp, rfl⟩

theorem count_of_silent {e : Ev} {f : Stmt} (hs : Silent (fun x => x == e) f)
    (h : ShenandoahHeap) : (f h).trace.count e = h.trace.count e := by
  have := hs h
  simp only [List.count, List.countP_eq_length_filter]
  rw [this]

theorem allocate_memory_finish_count (env : Env) (pacer_epoch : Int) (result : Option Nat)
    (s : AllocState) :
    (allocate_memory_finish env pacer_epoch result s).heap.trace.count
        (.ext .handle_alloc_failure) =
      s.heap.trace.count (.ext .handle_alloc_failure) := by
  have h1 : Silent (fun x => x == Ev.ext .handle_alloc_failure)
      (guarded (fun _ => s.in_new_region)
        (block [call env .notify_heap_changed, call env .notify_heap_changed])) :=
    silent_guarded (silent_block_cons (silent_call env rfl)
      (silent_block_cons (silent_call env rfl) silent_block_nil))
  have h2 : Silent (fun x => x == Ev.ext .handle_alloc_failure)
      (block [call env .notify_mutator_alloc_words, call env .increase_allocated,
        guarded (fun _ => env.flags.ShenandoahPacing && decide (pacer_epoch > 0) &&
            decide (s.req.size > s.req.actual_size))
          (call env .unpace_for_alloc)]) :=
    silent_block_cons (silent_call env rfl) (silent_block_cons (silent_call env rfl)
      (silent_block_cons (silent_guarded (silent_call env rfl)) silent_block_nil))
  have h3 : Silent (fun x => x == Ev.ext .handle_alloc_failure) (call env .increase_used) :=
    silent_call env rfl
  unfold allocate_memory_finish
  simp only []
  split
  · split
    · rw [count_of_silent h2, count_of_silent h1]
    · rw [count_of_silent h3, count_of_silent h1]
  · rw [count_of_silent h1]

/-- C10, as stated, fails: with the default threshold of 3, a mutator request that fails
until the control thread has been notified five times, each collection making progress, makes
`allocate_memory` call `handle_alloc_failure` five times before it returns the memory. -/
theorem alloc_retries_counterexample :
    shared_mutator_request.req.is_mutator_alloc = true ∧
    (allocate_memory slow_env 10 false shared_mutator_request).map
        (fun out => (out.result,
          calls_between (.ext .handle_alloc_failure) shared_mutator_request.heap out.st.heap)) =
      some (some 4096, 5) ∧
    ¬ (5 ≤ slow_env.flags.ShenandoahFullGCThreshold + 1) := by
  decide

/-- C10, amended: for a mutator request, when `allocate_memory` returns, the number of its
calls of `handle_alloc_failure` is the final value of `tries`, which is at most the larger of
`ShenandoahFullGCThreshold + 1` and the number of retries made by the first loop, the one
that runs as long as the attempt fails and the last collection made progress; when the
first attempt succeeds or finds that flag unset, the first loop makes no retry and
`allocate_memory` returns after at most `ShenandoahFullGCThreshold + 1` calls. -/
theorem alloc_retries_bounded (env : Env) (fuel : Nat) (is_promotion : Bool) (s : AllocState)
    (hm : s.req.is_mutator_alloc = true) :
    (∀ out, allocate_memory env fuel is_promotion s = some out →
      calls_between (.ext .handle_alloc_failure) s.heap out.st.heap = (out.tries : Int) ∧
      out.tries_while_progress ≤ out.tries ∧
      out.tries ≤ max out.tries_while_progress (env.flags.ShenandoahFullGCThreshold + 1)) ∧
    (((first_attempt env is_promotion s).result.isSome = true ∨
        (first_attempt env is_promotion s).st.heap._progress_last_gc = false) →
      ∃ out, allocate_memory env (fuel + 1) is_promotion s = some out ∧
        out.tries_while_progress = 0 ∧
        calls_between (.ext .handle_alloc_failure) s.heap out.st.heap ≤
          ((env.flags.ShenandoahFullGCThreshold + 1 : Nat) : Int)) := by
  have key : ∀ fuel out, allocate_memory env fuel is_promotion s = some out →
      calls_between (.ext .handle_alloc_failure) s.heap out.st.heap = (out.tries : Int) ∧
      out.tries_while_progress ≤ out.tries ∧
      out.tries ≤ max out.tries_while_progress (env.flags.ShenandoahFullGCThreshold + 1) := by
    intro fuel out hout
    unfold allocate_memory at hout
    simp only [hm, if_true] at hout
    split at hout
    · simp at hout
    · rename_i rs1 hrs1
      simp only [Option.some.injEq] at hout
      subst hout
      simp only []
      obtain ⟨a1, a2⟩ := first_attempt_count env is_promotion s
      obtain ⟨b1, b2⟩ := retry_while_progress_count env is_promotion fuel _ _ hrs1
      obtain ⟨c1, c2, c3⟩ := retry_upto_threshold_count env is_promotion
        (env.flags.ShenandoahFullGCThreshold + 1 - rs1.tries) rs1
      refine ⟨?_, c2, c3⟩
      unfold calls_between
      rw [allocate_memory_finish_count]
      omega
  refine ⟨key fuel, ?_⟩
  intro hfirst
  have hloop : retry_while_progress env is_promotion (fuel + 1)
      (first_attempt env is_promotion s) = some (first_attempt env is_promotion s) := by
    unfold retry_while_progress
    rcases hfirst with h1 | h1
    · have : (first_attempt env is_promotion s).result.isNone = false := by
        cases hres : (first_attempt env is_promotion s).result with
        | none => rw [hres] at h1; simp at h1
        | some a => rfl
      simp [this]
    · simp [h1]
  have hout : ∃ out, allocate_memory env (fuel + 1) is_promotion s = some out ∧
      out.tries_while_progress = 0 := by
    unfold allocate_memory
    simp only [hm, if_true, hloop]
    exact ⟨_, rfl, (first_attempt_count env is_promotion s).2⟩
  obtain ⟨out, ho, hz⟩ := hout
  obtain ⟨k1, k2, k3⟩ := key (fuel + 1) out ho
  refine ⟨out, ho, hz, ?_⟩
  rw [k1, hz] at *
  have : out.tries ≤ env.flags.ShenandoahFullGCThreshold + 1 := by
    simpa using k3
  exact_mod_cast this

/-- C10, amended, at a concrete request: the flag is unset and the free set never grants, so
`allocate_memory` gives up after `ShenandoahFullGCThreshold + 1 = 4` notifications. -/
theorem alloc_retries_bounded_witness :
    ∃ out, allocate_memory { flags := { ShenandoahPacing := false } } 1 false
        { shared_mutator_request with
          heap := { young_adjusted_available := 1024, _progress_last_gc := false } } =
        some out ∧
      out.tries_while_progress = 0 ∧
      calls_between (.ext .handle_alloc_failure)
        { young_adjusted_available := 1024, _progress_last_gc := false } out.st.heap ≤ 4 :=
  (alloc_retries_bounded { flags := { ShenandoahPacing := false } } 0 false
    { shared_mutator_request with
      heap := { young_adjusted_available := 1024, _progress_last_gc := false } } rfl).2
    (Or.inr rfl)

/-! ## Theorems: the memory pool -/

theorem MAX2_eq_max (a b : Nat) : MAX2 a b = max a b := by
  unfold MAX2
  split <;> omega

theorem MIN2_eq_min (a b : Nat) : MIN2 a b = min a b := by
  unfold MIN2
  split <;> omega

/-- C20: for all values of the heap's `used()` and `committed()` counters, the `MemoryUsage`
returned by `ShenandoahMemoryPool::get_memory_usage` has `used <= committed`; its committed
field is the larger of `used()` and the heap's `committed()`, and its used field is the
heap's `used()`. -/
theorem get_memory_usage_used_le_committed (pool : ShenandoahMemoryPool) :
    pool.get_memory_usage.used ≤ pool.get_memory_usage.committed ∧
    pool.get_memory_usage.committed = max pool.heap_used pool.heap_committed ∧
    pool.get_memory_usage.used = pool.heap_used := by
  refine ⟨?_, MAX2_eq_max _ _, rfl⟩
  show pool.heap_used ≤ MAX2 pool.heap_used pool.heap_committed
  rw [MAX2_eq_max]
  exact Nat.le_max_left _ _

/-! ## Theorems: the state machine of the old generation -/

/-- C19, as stated, fails: from `MARKING`, when marking has ended without collection
candidates, `validate_transition(IDLE)` passes all its assertions and `transition_to(IDLE)`
stores `IDLE`; the edge from `MARKING` to `IDLE` is none of the five edges of the cycle. -/
theorem old_gen_cycle_counterexample :
    validate_transition marking_finished_without_candidates .IDLE = some true ∧
    transition_to marking_finished_without_candidates .IDLE =
      some { marking_finished_without_candidates with _state := .IDLE } ∧
    (OldGenState.MARKING, OldGenState.IDLE) ∉ old_gen_cycle_edges := by
  decide

/-- C19, amended: every state change that `transition_to` performs and `validate_transition`
accepts is one of the five edges of the cycle, or an edge from `FILLING`, `BOOTSTRAPPING` or
`MARKING` to `IDLE`; the new state is the requested one and nothing else changes. -/
theorem old_gen_transitions (g g1 : ShenandoahOldGeneration) (new_state : OldGenState)
    (h : transition_to g new_state = some g1) (hne : g1._state ≠ g._state) :
    g1 = { g with _state := new_state } ∧
    validate_transition g new_state = some true ∧
    ((g._state, g1._state) ∈ old_gen_cycle_edges ∨
      (g1._state = .IDLE ∧ g._state ∈ [OldGenState.FILLING, .BOOTSTRAPPING, .MARKING])) := by
  unfold transition_to at h
  by_cases hs : g._state = new_state
  · simp only [hs, ne_eq, not_true_eq_false, if_false, Option.some.injEq] at h
    subst h
    exact absurd rfl hne
  · simp only [ne_eq, hs, not_false_eq_true, if_true] at h
    by_cases hv : validate_transition g new_state = some true
    · simp only [hv, if_true, Option.some.injEq] at h
      subst h
      refine ⟨rfl, hv, ?_⟩
      obtain ⟨st, m, p, c, q⟩ := g
      simp only [validate_transition] at hv
      simp only at hs
      cases new_state <;> cases st <;> simp_all [old_gen_cycle_edges]
    · simp only [hv, if_false] at h
      cases h

theorem old_gen_transitions_witness :
    ({ idle_preparing with _state := .FILLING } : ShenandoahOldGeneration) =
      { idle_preparing with _state := .FILLING } ∧
    validate_transition idle_preparing .FILLING = some true ∧
    ((idle_preparing._state, OldGenState.FILLING) ∈ old_gen_cycle_edges ∨
      (OldGenState.FILLING = .IDLE ∧
        idle_preparing._state ∈ [OldGenState.FILLING, .BOOTSTRAPPING, .MARKING])) :=
  old_gen_transitions idle_preparing { idle_preparing with _state := .FILLING } .FILLING
    (by decide) (by decide)

/-! ## Theorems: merging the write card table -/

theorem merge_write_table_loop_write (n p : Nat) (t : ShenandoahCardTable) :
    (merge_write_table_loop n p t).write_byte_map = t.write_byte_map := by
  induction n generalizing p t with
  | zero => rfl
  | succ n ih =>
    simp only [merge_write_table_loop]
    rw [ih]
    rfl

theorem merge_write_table_loop_read (n p : Nat) (t : ShenandoahCardTable) (j : Nat) :
    (merge_write_table_loop n p t).read_byte_map j =
      if p ≤ j ∧ j < p + cards_per_word * n then
        Nat.land (t.read_byte_map j) (t.write_byte_map j)
      else t.read_byte_map j := by
  induction n generalizing p t with
  | zero =>
    simp only [merge_write_table_loop, Nat.mul_zero, Nat.add_zero]
    rw [if_neg (by omega)]
  | succ n ih =>
    simp only [merge_write_table_loop]
    rw [ih]
    simp only [merge_word, cards_per_word]
    by_cases h1 : p ≤ j ∧ j < p + 8
    · rw [if_neg (by omega), if_pos h1, if_pos (by omega)]
    · rw [if_neg h1]
      by_cases h2 : p + 8 ≤ j ∧ j < p + 8 + 8 * n
      · rw [if_pos h2, if_pos (by omega)]
      · rw [if_neg h2, if_neg (by omega)]

theorem card_within_covered (cs start k j : Nat) (hcs : 0 < cs)
    (hj : card_within cs start (cards_per_word * cs * k) j) :
    start / cs ≤ j ∧ j < start / cs + cards_per_word * k := by
  obtain ⟨h1, h2⟩ := hj
  constructor
  · have h0 : start / cs ≤ j * cs / cs := Nat.div_le_div_right h1
    rwa [Nat.mul_div_cancel _ hcs] at h0
  · have h3 : start < (start / cs + 1) * cs := by
      have := Nat.lt_div_mul_add (a := start) hcs
      rw [Nat.add_mul, Nat.one_mul]
      exact this
    have h4 : (j + 1) * cs < (start / cs + 1 + cards_per_word * k) * cs := by
      have e : (start / cs + 1 + cards_per_word * k) * cs =
          (start / cs + 1) * cs + cards_per_word * cs * k := by ring
      rw [e]
      omega
    have h5 := Nat.lt_of_mul_lt_mul_right h4
    omega

/-- C18, as stated, fails: with 64-word cards, `merge_write_table(0, 64)` covers card 0, which
is dirty (value 0) in the write table, and leaves it clean (value 255) in the read table:
the loop runs `64 / 64 / 8 = 0` times. -/
theorem merge_write_table_counterexample :
    card_within 64 0 64 0 ∧
    one_dirty_write_card.write_byte_map 0 = 0 ∧
    (merge_write_table 64 0 64 one_dirty_write_card).read_byte_map 0 = 255 := by
  refine ⟨?_, rfl, rfl⟩
  unfold card_within
  decide

/-- C18, amended: for every start address and every `word_count` that is a whole number of
words of eight cards (a multiple of `8 * card_size_in_words`, as the size of a region is),
after `merge_write_table(start, word_count)` every card whose memory lies in
`[start, start + word_count)` and that was dirty in the write table is dirty in the read
table; for every `word_count`, every card that was dirty in the read table is still dirty and
the write table is unchanged.  Dirty is the card value `0`. -/
theorem merge_write_table_spec (dirty_card_val card_size_in_words start word_count : Nat)
    (t : ShenandoahCardTable) (hd : dirty_card_val = 0) (hcs : 0 < card_size_in_words) :
    (word_count % (cards_per_word * card_size_in_words) = 0 →
      ∀ j, card_within card_size_in_words start word_count j →
        t.write_byte_map j = dirty_card_val →
        (merge_write_table card_size_in_words start word_count t).read_byte_map j =
          dirty_card_val) ∧
    (∀ j, t.read_byte_map j = dirty_card_val →
      (merge_write_table card_size_in_words start word_count t).read_byte_map j =
        dirty_card_val) ∧
    (merge_write_table card_size_in_words start word_count t).write_byte_map =
      t.write_byte_map := by
  subst hd
  refine ⟨?_, ?_, merge_write_table_loop_write _ _ _⟩
  · intro hwc j hj hw
    obtain ⟨k, hk⟩ := Nat.dvd_of_mod_eq_zero hwc
    have e1 : word_count = cards_per_word * card_size_in_words * k := hk
    have e2 : word_count / card_size_in_words / cards_per_word = k := by
      rw [e1, Nat.mul_assoc, Nat.mul_comm cards_per_word, Nat.mul_assoc,
        Nat.mul_div_cancel_left _ hcs]
      exact Nat.mul_div_cancel _ (by decide)
    rw [e1] at hj
    have h3 := card_within_covered card_size_in_words start k j hcs hj
    simp only [merge_write_table, card_index_for_addr]
    rw [e2, merge_write_table_loop_read, if_pos h3, hw]
    exact Nat.and_zero _
  · intro j hr
    simp only [merge_write_table]
    rw [merge_write_table_loop_read, hr]
    split
    · exact Nat.zero_and _
    · rfl

theorem merge_write_table_spec_witness :
    (4096 % (cards_per_word * 64) = 0 →
      ∀ j, card_within 64 0 4096 j →
        one_dirty_write_card.write_byte_map j = 0 →
        (merge_write_table 64 0 4096 one_dirty_write_card).read_byte_map j = 0) ∧
    (∀ j, one_dirty_write_card.read_byte_map j = 0 →
      (merge_write_table 64 0 4096 one_dirty_write_card).read_byte_map j = 0) ∧
    (merge_write_table 64 0 4096 one_dirty_write_card).write_byte_map =
      one_dirty_write_card.write_byte_map :=
  merge_write_table_spec 0 64 0 4096 one_dirty_write_card rfl (by decide)

/-! ## Theorems: thread-local buffers -/

theorem free_set_allocate_tld (env : Env) (s : AllocState) :
    (free_set_allocate env s).2.tld = s.tld := by
  unfold free_set_allocate
  simp only []
  split <;> rfl

/-- What an allocation leaves alone in the data of the thread: everything but the promotion
accounting of the PLAB, whose counter `_plab_promoted` is kept or reset. -/
theorem allocate_memory_under_lock_tld (env : Env) (is_promotion : Bool) (s : AllocState) :
    (allocate_memory_under_lock env is_promotion s).2.tld._gclab_size = s.tld._gclab_size ∧
    (allocate_memory_under_lock env is_promotion s).2.tld._plab_size = s.tld._plab_size ∧
    (allocate_memory_under_lock env is_promotion s).2.tld._gclab = s.tld._gclab ∧
    (allocate_memory_under_lock env is_promotion s).2.tld._plab = s.tld._plab ∧
    (allocate_memory_under_lock env is_promotion s).2.tld._plab_evacuated =
      s.tld._plab_evacuated ∧
    (allocate_memory_under_lock env is_promotion s).2.tld._oom_during_evac =
      s.tld._oom_during_evac ∧
    (allocate_memory_under_lock env is_promotion s).2.tld._plab_retries_enabled =
      s.tld._plab_retries_enabled ∧
    ((allocate_memory_under_lock env is_promotion s).2.tld._plab_promoted =
        s.tld._plab_promoted ∨
      (allocate_memory_under_lock env is_promotion s).2.tld._plab_promoted = 0) := by
  have hsucc : ∀ (b : Bool) (s : AllocState),
      (after_success is_promotion b s).tld._gclab_size = s.tld._gclab_size ∧
      (after_success is_promotion b s).tld._plab_size = s.tld._plab_size ∧
      (after_success is_promotion b s).tld._gclab = s.tld._gclab ∧
      (after_success is_promotion b s).tld._plab = s.tld._plab ∧
      (after_success is_promotion b s).tld._plab_evacuated = s.tld._plab_evacuated ∧
      (after_success is_promotion b s).tld._oom_during_evac = s.tld._oom_during_evac ∧
      (after_success is_promotion b s).tld._plab_retries_enabled =
        s.tld._plab_retries_enabled ∧
      ((after_success is_promotion b s).tld._plab_promoted = s.tld._plab_promoted ∨
        (after_success is_promotion b s).tld._plab_promoted = 0) := by
    intro b s
    unfold after_success
    simp only []
    split_ifs <;> simp
  have hfail : ∀ (s : AllocState),
      (after_failure s).tld._gclab_size = s.tld._gclab_size ∧
      (after_failure s).tld._plab_size = s.tld._plab_size ∧
      (after_failure s).tld._gclab = s.tld._gclab ∧
      (after_failure s).tld._plab = s.tld._plab ∧
      (after_failure s).tld._plab_evacuated = s.tld._plab_evacuated ∧
      (after_failure s).tld._oom_during_evac = s.tld._oom_during_evac ∧
      (after_failure s).tld._plab_retries_enabled = s.tld._plab_retries_enabled ∧
      ((after_failure s).tld._plab_promoted = s.tld._plab_promoted ∨
        (after_failure s).tld._plab_promoted = 0) := by
    intro s
    unfold after_failure
    simp only []
    split_ifs <;> simp
  unfold allocate_memory_under_lock
  split
  · simp
  · rename_i allow elig _
    cases allow
    · simpa using hfail s
    · simp only [if_true]
      cases hr : (free_set_allocate env s).1
      · simp only []
        have h1 := hfail (free_set_allocate env s).2
        rw [free_set_allocate_tld] at h1
        exact h1
      · simp only []
        have h1 := hsucc elig (free_set_allocate env s).2
        rw [free_set_allocate_tld] at h1
        exact h1

theorem allocate_memory_for_gc_eq (env : Env) (req : ShenandoahAllocRequest)
    (is_promotion : Bool) (s : EvacState) (hreq : req.is_mutator_alloc = false) :
    allocate_memory_for_gc env req is_promotion s =
      (((allocate_memory_under_lock env is_promotion
            { heap := s.heap, tld := s.tld, req := req }).1,
        (allocate_memory_under_lock env is_promotion
            { heap := s.heap, tld := s.tld, req := req }).2.req),
       { heap := (allocate_memory_finish env 0
            (allocate_memory_under_lock env is_promotion
              { heap := s.heap, tld := s.tld, req := req }).1
            (allocate_memory_under_lock env is_promotion
              { heap := s.heap, tld := s.tld, req := req }).2).heap,
         tld := (allocate_memory_under_lock env is_promotion
            { heap := s.heap, tld := s.tld, req := req }).2.tld }) := by
  unfold allocate_memory_for_gc allocate_memory
  simp only [hreq, Bool.false_eq_true, if_false]
  rfl

theorem allocate_memory_for_gc_tld (env : Env) (req : ShenandoahAllocRequest)
    (is_promotion : Bool) (s : EvacState) (hreq : req.is_mutator_alloc = false) :
    (allocate_memory_for_gc env req is_promotion s).2.tld._gclab_size = s.tld._gclab_size ∧
    (allocate_memory_for_gc env req is_promotion s).2.tld._plab_size = s.tld._plab_size ∧
    (allocate_memory_for_gc env req is_promotion s).2.tld._gclab = s.tld._gclab ∧
    (allocate_memory_for_gc env req is_promotion s).2.tld._plab = s.tld._plab ∧
    (allocate_memory_for_gc env req is_promotion s).2.tld._plab_evacuated =
      s.tld._plab_evacuated ∧
    (allocate_memory_for_gc env req is_promotion s).2.tld._oom_during_evac =
      s.tld._oom_during_evac ∧
    (allocate_memory_for_gc env req is_promotion s).2.tld._plab_retries_enabled =
      s.tld._plab_retries_enabled ∧
    ((allocate_memory_for_gc env req is_promotion s).2.tld._plab_promoted =
        s.tld._plab_promoted ∨
      (allocate_memory_for_gc env req is_promotion s).2.tld._plab_promoted = 0) := by
  rw [allocate_memory_for_gc_eq env req is_promotion s hreq]
  exact allocate_memory_under_lock_tld env is_promotion
    { heap := s.heap, tld := s.tld, req := req }

theorem allocate_new_gclab_tld (env : Env) (min_size word_size : Nat) (s : EvacState) :
    (allocate_new_gclab env min_size word_size s).2.tld =
      (allocate_memory_for_gc env (.for_gclab min_size word_size) false s).2.tld := by
  unfold allocate_new_gclab
  simp only []
  split <;> rfl

theorem allocate_new_plab_tld (env : Env) (min_size word_size : Nat) (s : EvacState) :
    (allocate_new_plab env min_size word_size s).2.tld =
      (allocate_memory_for_gc env (.for_plab min_size word_size) false s).2.tld := by
  unfold allocate_new_plab
  simp only []
  split <;> rfl

theorem allocate_from_gclab_slow_size (env : Env) (gclab size : Nat) (s : EvacState) :
    (allocate_from_gclab_slow env gclab size s).2.tld._gclab_size =
      gclab_new_size env s.tld._gclab_size := by
  unfold allocate_from_gclab_slow
  simp only []
  split
  · rfl
  · split
    · rw [allocate_new_gclab_tld,
        (allocate_memory_for_gc_tld env _ false _ (by rfl)).1]
    · simp only []
      rw [allocate_new_gclab_tld,
        (allocate_memory_for_gc_tld env _ false _ (by rfl)).1]

theorem allocate_from_plab_slow_size (env : Env) (plab size : Nat) (is_promotion : Bool)
    (s : EvacState) :
    (allocate_from_plab_slow env plab size is_promotion s).2.tld._plab_size =
      plab_future_size env
        (if s.tld._plab_size = 0 then env.PLAB_min_size else s.tld._plab_size) := by
  have hr : ∀ s1 : EvacState, (retire_plab env plab s1).tld._plab_size = s1.tld._plab_size :=
    fun _ => rfl
  unfold allocate_from_plab_slow
  simp only []
  generalize (if s.tld._plab_size = 0 then env.PLAB_min_size else s.tld._plab_size) = cur
  by_cases h1 : cur < size
  · rw [if_pos h1]
  · rw [if_neg h1]
    by_cases h2 : env.lab_words_remaining plab < env.PLAB_min_size
    · rw [if_pos h2]
      split
      · rw [allocate_new_plab_tld,
          (allocate_memory_for_gc_tld env _ false _ (by rfl)).2.1, hr]
      · split
        · simp only []
          rw [allocate_new_plab_tld,
            (allocate_memory_for_gc_tld env _ false _ (by rfl)).2.1, hr]
        · simp only []
          rw [allocate_new_plab_tld,
            (allocate_memory_for_gc_tld env _ false _ (by rfl)).2.1, hr]
    · rw [if_neg h2]

theorem gclab_new_size_bounds (env : Env) (gclab_size : Nat) :
    env.PLAB_min_size ≤ gclab_new_size env gclab_size ∧
    (0 < env.flags.ShenandoahMaxEvacLABRatio →
      gclab_new_size env gclab_size ≤
        env.PLAB_min_size * env.flags.ShenandoahMaxEvacLABRatio) := by
  unfold gclab_new_size
  simp only [MAX2_eq_max, MIN2_eq_min]
  refine ⟨Nat.le_max_right _ _, fun hr => ?_⟩
  rw [if_pos hr]
  have h1 : env.PLAB_min_size ≤ env.PLAB_min_size * env.flags.ShenandoahMaxEvacLABRatio :=
    Nat.le_mul_of_pos_right _ hr
  omega

theorem plab_future_size_bounds (env : Env) (cur_size : Nat)
    (hcard : 0 < env.card_size_in_words) :
    env.PLAB_min_size ≤ plab_future_size env cur_size ∧
    plab_future_size env cur_size % env.card_size_in_words = 0 ∧
    (0 < env.flags.ShenandoahMaxEvacLABRatio →
      plab_future_size env cur_size <
        env.PLAB_min_size * env.flags.ShenandoahMaxEvacLABRatio + env.card_size_in_words) := by
  unfold plab_future_size
  simp only [MAX2_eq_max, MIN2_eq_min]
  generalize hx : max (min (if env.flags.ShenandoahMaxEvacLABRatio > 0 then
      min (cur_size * 2) (env.PLAB_min_size * env.flags.ShenandoahMaxEvacLABRatio)
    else cur_size * 2) env.PLAB_max_size) env.PLAB_min_size = x
  have hmin : env.PLAB_min_size ≤ x := by rw [← hx]; exact Nat.le_max_right _ _
  have hmod : x % env.card_size_in_words < env.card_size_in_words := Nat.mod_lt _ hcard
  have hle : x % env.card_size_in_words ≤ x := Nat.mod_le _ _
  have hup : 0 < env.flags.ShenandoahMaxEvacLABRatio →
      x ≤ env.PLAB_min_size * env.flags.ShenandoahMaxEvacLABRatio := by
    intro hr
    rw [← hx, if_pos hr]
    have h1 : env.PLAB_min_size ≤ env.PLAB_min_size * env.flags.ShenandoahMaxEvacLABRatio :=
      Nat.le_mul_of_pos_right _ hr
    omega
  by_cases hz : x % env.card_size_in_words = 0
  · rw [if_neg (by simpa using hz)]
    exact ⟨hmin, hz, fun hr => by have := hup hr; omega⟩
  · rw [if_pos (by simpa using hz)]
    refine ⟨by omega, ?_, fun hr => by have := hup hr; omega⟩
    have e : x - x % env.card_size_in_words + env.card_size_in_words =
        env.card_size_in_words * (x / env.card_size_in_words + 1) := by
      have := Nat.div_add_mod x env.card_size_in_words
      rw [Nat.mul_add, Nat.mul_one]
      omega
    rw [e]
    exact Nat.mul_mod_right _ _

/-- C17, as stated, fails: with `PLAB::min_size()` of 258 words, 64-word cards and the
default `ShenandoahMaxEvacLABRatio` of 16, `allocate_from_plab_slow` called with a desired
size of 4096 words records 4160 words, more than `258 * 16 = 4128`. -/
theorem plab_size_cap_counterexample :
    (allocate_from_plab_slow {} 0 8 false thread_with_large_plab).2.tld._plab_size = 4160 ∧
    ¬ (4160 ≤ ({} : Env).PLAB_min_size * ({} : Env).flags.ShenandoahMaxEvacLABRatio) := by
  decide

/-- C17, amended: after `allocate_from_gclab_slow` the recorded `gclab_size` is at least
`PLAB::min_size()` and, whenever `ShenandoahMaxEvacLABRatio > 0`, at most
`PLAB::min_size() * ShenandoahMaxEvacLABRatio`; after `allocate_from_plab_slow` the recorded
`plab_size` is at least `PLAB::min_size()`, is a multiple of the card size and, whenever
`ShenandoahMaxEvacLABRatio > 0`, is less than `PLAB::min_size() * ShenandoahMaxEvacLABRatio`
plus one card: it is at most that bound rounded up to the next multiple of
`CardTable::card_size_in_words()`.  This holds for every previous desired size and every
object size. -/
theorem lab_size_bounds (env : Env) (gclab plab size : Nat) (is_promotion : Bool)
    (s : EvacState) (hcard : 0 < env.card_size_in_words) :
    env.PLAB_min_size ≤ (allocate_from_gclab_slow env gclab size s).2.tld._gclab_size ∧
    (0 < env.flags.ShenandoahMaxEvacLABRatio →
      (allocate_from_gclab_slow env gclab size s).2.tld._gclab_size ≤
        env.PLAB_min_size * env.flags.ShenandoahMaxEvacLABRatio) ∧
    env.PLAB_min_size ≤
      (allocate_from_plab_slow env plab size is_promotion s).2.tld._plab_size ∧
    (allocate_from_plab_slow env plab size is_promotion s).2.tld._plab_size %
      env.card_size_in_words = 0 ∧
    (0 < env.flags.ShenandoahMaxEvacLABRatio →
      (allocate_from_plab_slow env plab size is_promotion s).2.tld._plab_size <
        env.PLAB_min_size * env.flags.ShenandoahMaxEvacLABRatio + env.card_size_in_words) := by
  rw [allocate_from_gclab_slow_size, allocate_from_plab_slow_size]
  exact ⟨(gclab_new_size_bounds env _).1, (gclab_new_size_bounds env _).2,
    plab_future_size_bounds env _ hcard⟩

theorem lab_size_bounds_witness :
    ({} : Env).PLAB_min_size ≤
      (allocate_from_gclab_slow {} 0 8 thread_with_large_plab).2.tld._gclab_size ∧
    (0 < ({} : Env).flags.ShenandoahMaxEvacLABRatio →
      (allocate_from_gclab_slow {} 0 8 thread_with_large_plab).2.tld._gclab_size ≤
        ({} : Env).PLAB_min_size * ({} : Env).flags.ShenandoahMaxEvacLABRatio) ∧
    ({} : Env).PLAB_min_size ≤
      (allocate_from_plab_slow {} 0 8 false thread_with_large_plab).2.tld._plab_size ∧
    (allocate_from_plab_slow {} 0 8 false thread_with_large_plab).2.tld._plab_size %
      ({} : Env).card_size_in_words = 0 ∧
    (0 < ({} : Env).flags.ShenandoahMaxEvacLABRatio →
      (allocate_from_plab_slow {} 0 8 false thread_with_large_plab).2.tld._plab_size <
        ({} : Env).PLAB_min_size * ({} : Env).flags.ShenandoahMaxEvacLABRatio +
          ({} : Env).card_size_in_words) :=
  lab_size_bounds {} 0 0 8 false thread_with_large_plab (by decide)

/-! ## Theorems: the calls made while a copy is allocated -/

theorem traceGrows_refl (ops : List ExtOp) (h : ShenandoahHeap) : TraceGrows ops h h :=
  ⟨[], by simp, by simp⟩

theorem traceGrows_of_eq {ops : List ExtOp} {h h1 : ShenandoahHeap}
    (e : h1.trace = h.trace) : TraceGrows ops h h1 :=
  ⟨[], by simp [e], by simp⟩

theorem traceGrows_trans {ops : List ExtOp} {h h1 h2 : ShenandoahHeap}
    (a : TraceGrows ops h h1) (b : TraceGrows ops h1 h2) : TraceGrows ops h h2 := by
  obtain ⟨x, hx, hx2⟩ := a
  obtain ⟨y, hy, hy2⟩ := b
  refine ⟨x ++ y, by rw [hy, hx]; simp, ?_⟩
  intro op hop
  rcases List.mem_append.mp hop with h3 | h3
  · exact hx2 op h3
  · exact hy2 op h3

theorem traceGrows_mono {ops ops1 : List ExtOp} {h h1 : ShenandoahHeap}
    (hsub : ∀ op ∈ ops, op ∈ ops1) (a : TraceGrows ops h h1) : TraceGrows ops1 h h1 := by
  obtain ⟨x, hx, hx2⟩ := a
  exact ⟨x, hx, fun op hop => hsub op (hx2 op hop)⟩

theorem traceGrows_call {ops : List ExtOp} (env : Env) {op : ExtOp} (hop : op ∈ ops)
    (h : ShenandoahHeap) : TraceGrows ops h (call env op h) :=
  ⟨[op], rfl, by simpa using hop⟩

theorem traceGrows_guarded {ops : List ExtOp} {c : ShenandoahHeap → Bool} {f : Stmt}
    (hf : ∀ h, TraceGrows ops h (f h)) (h : ShenandoahHeap) :
    TraceGrows ops h (guarded c f h) := by
  unfold guarded
  split
  · exact hf h
  · exact traceGrows_refl ops h

theorem traceGrows_block {ops : List ExtOp} (l : List Stmt)
    (hl : ∀ f ∈ l, ∀ h, TraceGrows ops h (f h)) (h : ShenandoahHeap) :
    TraceGrows ops h (block l h) := by
  induction l generalizing h with
  | nil => exact traceGrows_refl ops h
  | cons f l ih =>
    rw [block_cons]
    exact traceGrows_trans (hl f (List.mem_cons_self _ _) h)
      (ih (fun g hg => hl g (List.mem_cons_of_mem _ hg)) (f h))

/-- Calls outside `ops` are not made: a filter that rejects the calls of `ops` sees nothing
new. -/
theorem traceGrows_filter {ops : List ExtOp} {h h1 : ShenandoahHeap} (q : Ev → Bool)
    (hq : ∀ op ∈ ops, q (.ext op) = false) (a : TraceGrows ops h h1) :
    h1.trace.filter q = h.trace.filter q := by
  obtain ⟨x, hx, hx2⟩ := a
  rw [hx, List.filter_append]
  have : (x.map Ev.ext).filter q = [] := by
    rw [List.filter_eq_nil_iff]
    intro e he
    obtain ⟨op, hop, rfl⟩ := List.mem_map.mp he
    simp [hq op (hx2 op hop)]
  rw [this, List.append_nil]

theorem traceGrows_count {ops : List ExtOp} {h h1 : ShenandoahHeap} (e : Ev)
    (he : ∀ op ∈ ops, e ≠ .ext op) (a : TraceGrows ops h h1) :
    h1.trace.count e = h.trace.count e := by
  have := traceGrows_filter (fun x => x == e) (fun op hop => by
    simpa using fun h2 => he op hop h2.symm) a
  simp only [List.count, List.countP_eq_length_filter]
  rw [this]

theorem traceGrows_count_le {ops : List ExtOp} {h h1 : ShenandoahHeap} (e : Ev)
    (a : TraceGrows ops h h1) : h.trace.count e ≤ h1.trace.count e := by
  obtain ⟨x, hx, _⟩ := a
  rw [hx, List.count_append]
  exact Nat.le_add_right _ _

theorem free_set_allocate_grows (env : Env) (s : AllocState) :
    TraceGrows shared_alloc_ops s.heap (free_set_allocate env s).2.heap := by
  unfold free_set_allocate
  simp only []
  split <;> exact ⟨[.free_set_allocate], rfl, by simp [shared_alloc_ops]⟩

theorem after_success_grows (is_promotion elig : Bool) (s : AllocState) :
    TraceGrows shared_alloc_ops s.heap (after_success is_promotion elig s).heap := by
  unfold after_success
  simp only []
  split
  · refine ⟨[.card_scan_register_object], ?_, by simp [shared_alloc_ops]⟩
    split_ifs <;> rfl
  · exact traceGrows_refl _ _

theorem allocate_memory_under_lock_grows (env : Env) (is_promotion : Bool) (s : AllocState) :
    TraceGrows shared_alloc_ops s.heap
      (allocate_memory_under_lock env is_promotion s).2.heap := by
  unfold allocate_memory_under_lock
  split
  · exact traceGrows_refl _ _
  · rename_i allow elig _
    cases allow
    · simp only [Bool.false_eq_true, if_false]
      rw [after_failure_heap]
      exact traceGrows_refl _ _
    · simp only [if_true]
      cases hr : (free_set_allocate env s).1
      · simp only []
        rw [after_failure_heap]
        exact free_set_allocate_grows env s
      · simp only []
        exact traceGrows_trans (free_set_allocate_grows env s) (after_success_grows _ _ _)

theorem allocate_memory_finish_grows (env : Env) (result : Option Nat) (s : AllocState)
    (hreq : s.req.is_mutator_alloc = false) :
    TraceGrows shared_alloc_ops s.heap (allocate_memory_finish env 0 result s).heap := by
  unfold allocate_memory_finish
  simp only [hreq, Bool.false_eq_true, if_false]
  have h1 : TraceGrows shared_alloc_ops s.heap
      (guarded (fun _ => s.in_new_region)
        (block [call env .notify_heap_changed, call env .notify_heap_changed]) s.heap) := by
    apply traceGrows_guarded
    apply traceGrows_block
    intro f hf h
    simp only [List.mem_cons, List.mem_singleton, List.not_mem_nil, or_false, or_self] at hf
    subst hf
    exact traceGrows_call env (by simp [shared_alloc_ops]) h
  split
  · exact traceGrows_trans h1 (traceGrows_call env (by simp [shared_alloc_ops]) _)
  · exact h1

theorem allocate_memory_under_lock_req (env : Env) (is_promotion : Bool) (s : AllocState) :
    (allocate_memory_under_lock env is_promotion s).2.req.is_mutator_alloc =
      s.req.is_mutator_alloc := by
  have hfs : (free_set_allocate env s).2.req.is_mutator_alloc = s.req.is_mutator_alloc := by
    unfold free_set_allocate
    simp only []
    split <;> rfl
  have hs : ∀ (b : Bool) (s : AllocState), (after_success is_promotion b s).req = s.req := by
    intro b s
    unfold after_success
    simp only []
    split_ifs <;> rfl
  have hf : ∀ (s : AllocState), (after_failure s).req = s.req := by
    intro s
    unfold after_failure
    split <;> rfl
  unfold allocate_memory_under_lock
  split
  · rfl
  · rename_i allow elig _
    cases allow
    · simp only [Bool.false_eq_true, if_false]
      rw [hf]
    · simp only [if_true]
      cases hr : (free_set_allocate env s).1
      · simp only []
        rw [hf, hfs]
      · simp only []
        rw [hs, hfs]

theorem allocate_memory_for_gc_grows (env : Env) (req : ShenandoahAllocRequest)
    (is_promotion : Bool) (s : EvacState) (hreq : req.is_mutator_alloc = false) :
    TraceGrows shared_alloc_ops s.heap
      (allocate_memory_for_gc env req is_promotion s).2.heap := by
  rw [allocate_memory_for_gc_eq env req is_promotion s hreq]
  refine traceGrows_trans
    (allocate_memory_under_lock_grows env is_promotion
      { heap := s.heap, tld := s.tld, req := req })
    (allocate_memory_finish_grows env _ _ ?_)
  rw [allocate_memory_under_lock_req]
  exact hreq

theorem plabAccounting_refl (s : EvacState) : PlabAccounting s s 0 0 :=
  Or.inl ⟨rfl, rfl, rfl⟩

theorem plabAccounting_of_eq {s s1 : EvacState} (ht : s1.tld._plab_promoted = s.tld._plab_promoted)
    (he : s1.tld._plab_evacuated = s.tld._plab_evacuated)
    (hh : s1.heap.trace = s.heap.trace) : PlabAccounting s s1 0 0 :=
  Or.inl ⟨by rw [ht]; rfl, by rw [he]; rfl, by unfold plab_retirements; rw [hh]⟩

theorem plabAccounting_trans {s s1 s2 : EvacState} {a b : Nat}
    (x : PlabAccounting s s1 0 0) (y : PlabAccounting s1 s2 a b) : PlabAccounting s s2 a b := by
  unfold PlabAccounting at *
  omega

theorem allocate_new_plab_state (env : Env) (min_size word_size : Nat) (s : EvacState) :
    (allocate_new_plab env min_size word_size s).2 =
      (allocate_memory_for_gc env (.for_plab min_size word_size) false s).2 := by
  unfold allocate_new_plab
  simp only []
  split <;> rfl

theorem allocate_new_gclab_state (env : Env) (min_size word_size : Nat) (s : EvacState) :
    (allocate_new_gclab env min_size word_size s).2 =
      (allocate_memory_for_gc env (.for_gclab min_size word_size) false s).2 := by
  unfold allocate_new_gclab
  simp only []
  split <;> rfl

theorem shared_sub_evac_ops : ∀ op ∈ shared_alloc_ops, op ∈ evac_alloc_ops := by
  decide

theorem retire_plab_grows (env : Env) (plab : Nat) (s : EvacState) :
    TraceGrows evac_alloc_ops s.heap (retire_plab env plab s).heap ∧
    plab_retirements (retire_plab env plab s).heap = plab_retirements s.heap + 1 ∧
    (retire_plab env plab s).tld._plab_promoted = 0 ∧
    (retire_plab env plab s).tld._plab_evacuated = 0 := by
  refine ⟨?_, ?_, rfl, rfl⟩
  · unfold retire_plab
    simp only []
    refine traceGrows_trans (traceGrows_trans (traceGrows_guarded (fun h => ?_) _)
      (traceGrows_call env (by simp [evac_alloc_ops]) _))
      (traceGrows_guarded (fun h => traceGrows_call env (by simp [evac_alloc_ops]) h) _)
    exact traceGrows_of_eq rfl
  · unfold retire_plab plab_retirements
    simp only [guarded, unexpend_promoted, call]
    split_ifs <;> simp

theorem allocate_new_plab_accounting (env : Env) (min_size word_size : Nat) (s : EvacState)
    (hp : s.tld._plab_promoted = 0) :
    TraceGrows evac_alloc_ops s.heap (allocate_new_plab env min_size word_size s).2.heap ∧
    plab_retirements (allocate_new_plab env min_size word_size s).2.heap =
      plab_retirements s.heap ∧
    (allocate_new_plab env min_size word_size s).2.tld._plab_promoted = 0 ∧
    (allocate_new_plab env min_size word_size s).2.tld._plab_evacuated =
      s.tld._plab_evacuated := by
  rw [allocate_new_plab_state]
  have hg := allocate_memory_for_gc_grows env (.for_plab min_size word_size) false s (by rfl)
  have ht := allocate_memory_for_gc_tld env (.for_plab min_size word_size) false s (by rfl)
  refine ⟨traceGrows_mono shared_sub_evac_ops hg, ?_, ?_, ht.2.2.2.2.1⟩
  · exact traceGrows_count _ (by decide) hg
  · rcases ht.2.2.2.2.2.2.2 with h1 | h1
    · rw [h1, hp]
    · exact h1

theorem allocate_from_plab_slow_accounting (env : Env) (plab size : Nat) (is_promotion : Bool)
    (s : EvacState) :
    TraceGrows evac_alloc_ops s.heap
      (allocate_from_plab_slow env plab size is_promotion s).2.heap ∧
    PlabAccounting s (allocate_from_plab_slow env plab size is_promotion s).2 0 0 ∧
    ((allocate_from_plab_slow env plab size is_promotion s).1.isSome = true →
      (allocate_from_plab_slow env plab size is_promotion s).2.tld._plab.isSome = true) := by
  unfold allocate_from_plab_slow
  simp only []
  generalize (if s.tld._plab_size = 0 then env.PLAB_min_size else s.tld._plab_size) = cur
  generalize hs1 : ({ s with tld := { s.tld with _plab_size := plab_future_size env cur } } :
    EvacState) = s1
  have e1 : s1.heap = s.heap := by rw [← hs1]
  have e2 : s1.tld._plab_promoted = s.tld._plab_promoted := by rw [← hs1]
  have e3 : s1.tld._plab_evacuated = s.tld._plab_evacuated := by rw [← hs1]
  have base : TraceGrows evac_alloc_ops s.heap s1.heap ∧ PlabAccounting s s1 0 0 :=
    ⟨traceGrows_of_eq (by rw [e1]), plabAccounting_of_eq e2 e3 (by rw [e1])⟩
  by_cases h1 : cur < size
  · rw [if_pos h1]
    exact ⟨base.1, base.2, by simp⟩
  · rw [if_neg h1]
    by_cases h2 : env.lab_words_remaining plab < env.PLAB_min_size
    · rw [if_pos h2]
      obtain ⟨r1, r2, r3, r4⟩ := retire_plab_grows env plab s1
      obtain ⟨n1, n2, n3, n4⟩ := allocate_new_plab_accounting env (MAX2 size env.PLAB_min_size)
        cur (retire_plab env plab s1) r3
      have acc : ∀ s3 : EvacState,
          s3.tld._plab_promoted = (allocate_new_plab env (MAX2 size env.PLAB_min_size) cur
            (retire_plab env plab s1)).2.tld._plab_promoted →
          s3.tld._plab_evacuated = (allocate_new_plab env (MAX2 size env.PLAB_min_size) cur
            (retire_plab env plab s1)).2.tld._plab_evacuated →
          plab_retirements s3.heap = plab_retirements (allocate_new_plab env
            (MAX2 size env.PLAB_min_size) cur (retire_plab env plab s1)).2.heap →
          PlabAccounting s s3 0 0 := by
        intro s3 a1 a2 a3
        refine Or.inr ⟨by rw [a1, n3], by rw [a2, n4, r4], ?_⟩
        rw [a3, n2, r2]
        unfold plab_retirements
        rw [e1]
        exact Nat.lt_succ_self _
      have grow := traceGrows_trans base.1 (traceGrows_trans r1 n1)
      split
      · exact ⟨grow, acc _ rfl rfl rfl, by simp⟩
      · have grow2 : TraceGrows evac_alloc_ops s.heap
            (guarded (fun _ => env.flags.ZeroTLAB) (call env .zero_to_words)
              (allocate_new_plab env (MAX2 size env.PLAB_min_size) cur
                (retire_plab env plab s1)).2.heap) :=
          traceGrows_trans grow (traceGrows_guarded
            (fun h => traceGrows_call env (by simp [evac_alloc_ops]) h) _)
        have cnt : plab_retirements
            (guarded (fun _ => env.flags.ZeroTLAB) (call env .zero_to_words)
              (allocate_new_plab env (MAX2 size env.PLAB_min_size) cur
                (retire_plab env plab s1)).2.heap) =
            plab_retirements (allocate_new_plab env (MAX2 size env.PLAB_min_size) cur
                (retire_plab env plab s1)).2.heap := by
          unfold plab_retirements guarded call
          split <;> simp
        split
        · exact ⟨grow2, acc _ rfl rfl cnt, by simp⟩
        · exact ⟨grow2, acc _ rfl rfl cnt, fun _ => rfl⟩
    · rw [if_neg h2]
      exact ⟨base.1, base.2, by simp⟩

theorem allocate_from_plab_accounting (env : Env) (size : Nat) (is_promotion : Bool)
    (s : EvacState) :
    TraceGrows evac_alloc_ops s.heap (allocate_from_plab env size is_promotion s).2.heap ∧
    PlabAccounting s (allocate_from_plab env size is_promotion s).2
      (if is_promotion && (allocate_from_plab env size is_promotion s).1.isSome then
        size * HeapWordSize else 0)
      (if !is_promotion && (allocate_from_plab env size is_promotion s).1.isSome then
        size * HeapWordSize else 0) ∧
    ((allocate_from_plab env size is_promotion s).1.isSome = true →
      (allocate_from_plab env size is_promotion s).2.tld._plab.isSome = true) := by
  unfold allocate_from_plab
  split
  · simp only [Option.isSome_none, Bool.and_false, Bool.false_eq_true, if_false]
    exact ⟨traceGrows_refl _ _, plabAccounting_refl s, by simp⟩
  · rename_i plab hplab
    split
    · simp only [Option.isSome_none, Bool.and_false, Bool.false_eq_true, if_false]
      exact ⟨traceGrows_refl _ _, plabAccounting_refl s, by simp⟩
    · simp only []
      generalize hs1 : ({ s with tld := { s.tld with
        _plab := some (env.lab_allocate plab size).2 } } : EvacState) = s1
      have e1 : s1.heap = s.heap := by rw [← hs1]
      have e2 : s1.tld._plab_promoted = s.tld._plab_promoted := by rw [← hs1]
      have e3 : s1.tld._plab_evacuated = s.tld._plab_evacuated := by rw [← hs1]
      have e4 : s1.tld._plab.isSome = true := by rw [← hs1]; rfl
      have base : PlabAccounting s s1 0 0 := plabAccounting_of_eq e2 e3 (by rw [e1])
      generalize hr : (if ((env.lab_allocate plab size).1.isNone &&
          decide (env.lab_words_remaining (env.lab_allocate plab size).2 < env.PLAB_min_size)) =
            true then
          allocate_from_plab_slow env (env.lab_allocate plab size).2 size is_promotion s1
        else ((env.lab_allocate plab size).1, s1)) = r
      have hr2 : TraceGrows evac_alloc_ops s.heap r.2.heap ∧ PlabAccounting s r.2 0 0 ∧
          (r.1.isSome = true → r.2.tld._plab.isSome = true) := by
        rw [← hr]
        split
        · obtain ⟨a1, a2, a3⟩ := allocate_from_plab_slow_accounting env
            (env.lab_allocate plab size).2 size is_promotion s1
          exact ⟨traceGrows_trans (traceGrows_of_eq (by rw [e1])) a1,
            plabAccounting_trans base a2, a3⟩
        · exact ⟨traceGrows_of_eq (by rw [e1]), base, fun _ => e4⟩
      obtain ⟨g1, g2, g3⟩ := hr2
      cases hres : r.1 with
      | none =>
        simp only [Option.isSome_none, Bool.and_false, Bool.false_eq_true, if_false]
        exact ⟨g1, g2, by simp⟩
      | some obj =>
        have g4 : r.2.tld._plab.isSome = true := g3 (by rw [hres]; rfl)
        cases is_promotion
        · simp only [Bool.false_eq_true, if_false, Option.isSome_some, Bool.and_true,
            Bool.false_and, Bool.not_false, if_true]
          refine ⟨g1, ?_, fun _ => g4⟩
          unfold PlabAccounting at g2 ⊢
          simp only []
          omega
        · simp only [if_true, Option.isSome_some, Bool.and_true, Bool.not_true,
            Bool.false_eq_true, if_false]
          refine ⟨g1, ?_, fun _ => g4⟩
          unfold PlabAccounting at g2 ⊢
          simp only []
          omega

theorem allocate_from_gclab_slow_grows (env : Env) (gclab size : Nat) (s : EvacState) :
    TraceGrows evac_alloc_ops s.heap (allocate_from_gclab_slow env gclab size s).2.heap ∧
    ((allocate_from_gclab_slow env gclab size s).1.isSome = true →
      (allocate_from_gclab_slow env gclab size s).2.tld._gclab.isSome = true) := by
  unfold allocate_from_gclab_slow
  simp only []
  split
  · exact ⟨traceGrows_refl _ _, by simp⟩
  · have g1 : ∀ s2 : EvacState, TraceGrows evac_alloc_ops s2.heap
        (allocate_new_gclab env (MAX2 size env.PLAB_min_size)
          (gclab_new_size env s.tld._gclab_size) s2).2.heap := by
      intro s2
      rw [allocate_new_gclab_state]
      exact traceGrows_mono shared_sub_evac_ops
        (allocate_memory_for_gc_grows env _ false s2 (by rfl))
    have g0 : TraceGrows evac_alloc_ops s.heap (call env .gclab_retire s.heap) :=
      traceGrows_call env (by simp [evac_alloc_ops]) _
    split
    · exact ⟨traceGrows_trans g0 (g1 _), by simp⟩
    · simp only []
      exact ⟨traceGrows_trans (traceGrows_trans g0 (g1 _))
        (traceGrows_guarded (fun h => traceGrows_call env (by simp [evac_alloc_ops]) h) _),
        fun _ => rfl⟩

theorem allocate_from_gclab_grows (env : Env) (size : Nat) (s : EvacState) :
    TraceGrows evac_alloc_ops s.heap (allocate_from_gclab env size s).2.heap ∧
    ((allocate_from_gclab env size s).1.isSome = true →
      (allocate_from_gclab env size s).2.tld._gclab.isSome = true) := by
  unfold allocate_from_gclab
  split
  · exact ⟨traceGrows_refl _ _, by simp⟩
  · simp only []
    split
    · exact ⟨traceGrows_refl _ _, fun _ => rfl⟩
    · exact allocate_from_gclab_slow_grows env _ size _

theorem evac_allocate_gclab_grows (env : Env) (size : Nat) (s : EvacState) :
    TraceGrows evac_alloc_ops s.heap (evac_allocate_gclab env size s).2.heap ∧
    ((evac_allocate_gclab env size s).1.isSome = true →
      (evac_allocate_gclab env size s).2.tld._gclab.isSome = true) := by
  unfold evac_allocate_gclab
  simp only []
  obtain ⟨a1, a2⟩ := allocate_from_gclab_grows env size s
  split
  · obtain ⟨b1, b2⟩ := allocate_from_gclab_grows env size
      { (allocate_from_gclab env size s).2 with
        tld := { (allocate_from_gclab env size s).2.tld with
          _gclab_size := env.PLAB_min_size } }
    exact ⟨traceGrows_trans a1 b1, b2⟩
  · exact ⟨a1, a2⟩

theorem evac_allocate_plab_accounting (env : Env) (size : Nat) (is_promotion : Bool)
    (s : EvacState) (r : Option Nat × EvacState)
    (hr : evac_allocate_plab env size is_promotion s = some r) :
    TraceGrows evac_alloc_ops s.heap r.2.heap ∧
    PlabAccounting s r.2
      (if is_promotion && r.1.isSome then size * HeapWordSize else 0)
      (if !is_promotion && r.1.isSome then size * HeapWordSize else 0) ∧
    (r.1.isSome = true → r.2.tld._plab.isSome = true) := by
  obtain ⟨a1, a2, a3⟩ := allocate_from_plab_accounting env size is_promotion s
  unfold evac_allocate_plab at hr
  simp only [] at hr
  split at hr
  · rename_i hc
    have hnone : (allocate_from_plab env size is_promotion s).1.isSome = false := by
      simp only [Bool.and_eq_true, Option.isNone_iff_eq_none] at hc
      rw [hc.1.1]
      rfl
    rw [hnone] at a2
    simp only [Bool.and_false, Bool.false_eq_true, if_false] at a2
    split at hr
    · split at hr
      · generalize hs2 : ({ (allocate_from_plab env size is_promotion s).2 with
          tld := { (allocate_from_plab env size is_promotion s).2.tld with
            _plab_size := env.PLAB_min_size } } : EvacState) = s2 at hr
        have e1 : s2.heap = (allocate_from_plab env size is_promotion s).2.heap := by
          rw [← hs2]
        have e2 : s2.tld._plab_promoted =
            (allocate_from_plab env size is_promotion s).2.tld._plab_promoted := by rw [← hs2]
        have e3 : s2.tld._plab_evacuated =
            (allocate_from_plab env size is_promotion s).2.tld._plab_evacuated := by
          rw [← hs2]
        have base : PlabAccounting s s2 0 0 :=
          plabAccounting_trans a2 (plabAccounting_of_eq e2 e3 (by rw [e1]))
        obtain ⟨b1, b2, b3⟩ := allocate_from_plab_accounting env size is_promotion s2
        have grow : TraceGrows evac_alloc_ops s.heap
            (allocate_from_plab env size is_promotion s2).2.heap :=
          traceGrows_trans a1 (traceGrows_trans (traceGrows_of_eq (by rw [e1])) b1)
        split at hr
        · rename_i hn
          simp only [Option.some.injEq] at hr
          subst hr
          have hn2 : (allocate_from_plab env size is_promotion s2).1.isSome = false := by
            rw [Option.isNone_iff_eq_none] at hn
            rw [hn]
            rfl
          rw [hn2] at b2
          simp only [Bool.and_false, Bool.false_eq_true, if_false] at b2
          simp only [Option.isSome_none, Bool.and_false, Bool.false_eq_true, if_false]
          refine ⟨grow, ?_, by simp⟩
          have := plabAccounting_trans base b2
          unfold PlabAccounting at this ⊢
          exact this
        · simp only [Option.some.injEq] at hr
          subst hr
          exact ⟨grow, plabAccounting_trans base b2, b3⟩
      · simp only [Option.some.injEq] at hr
        subst hr
        rw [hnone]
        simp only [Bool.and_false, Bool.false_eq_true, if_false]
        exact ⟨a1, a2, fun hf => False.elim hf⟩
    · cases hr
  · simp only [Option.some.injEq] at hr
    subst hr
    exact ⟨a1, a2, a3⟩

theorem evac_allocate_lab_facts (env : Env) (size : Nat) (is_promotion : Bool)
    (target_gen : ShenandoahRegionAffiliation) (s : EvacState) (a : EvacAlloc)
    (ha : evac_allocate_lab env size is_promotion target_gen s = some a) :
    TraceGrows evac_alloc_ops s.heap a.st.heap ∧
    (a.copy.isSome = true →
      (target_gen = .YOUNG_GENERATION ∧ a.st.tld._gclab.isSome = true) ∨
      (target_gen = .OLD_GENERATION ∧ a.st.tld._plab.isSome = true ∧
        PlabAccounting s a.st (if is_promotion then size * HeapWordSize else 0)
          (if !is_promotion then size * HeapWordSize else 0))) := by
  unfold evac_allocate_lab at ha
  split at ha
  · split at ha
    · simp only [Option.some.injEq] at ha
      subst ha
      obtain ⟨g1, g2⟩ := evac_allocate_gclab_grows env size s
      exact ⟨g1, fun hc => Or.inl ⟨rfl, g2 hc⟩⟩
    · split at ha
      · cases hr : evac_allocate_plab env size is_promotion s with
        | none => rw [hr] at ha; cases ha
        | some r =>
          rw [hr] at ha
          simp only [Option.map_some', Option.some.injEq] at ha
          subst ha
          obtain ⟨g1, g2, g3⟩ := evac_allocate_plab_accounting env size is_promotion s r hr
          refine ⟨g1, fun hc => Or.inr ⟨rfl, g3 hc, ?_⟩⟩
          simp only [] at hc
          rw [hc] at g2
          simpa using g2
      · simp only [Option.some.injEq] at ha
        subst ha
        exact ⟨traceGrows_refl _ _, by simp⟩
    · cases ha
  · simp only [Option.some.injEq] at ha
    subst ha
    exact ⟨traceGrows_refl _ _, by simp⟩

theorem evac_allocate_shared_facts (env : Env) (size : Nat) (is_promotion : Bool)
    (target_gen : ShenandoahRegionAffiliation) (a : EvacAlloc) :
    TraceGrows evac_alloc_ops a.st.heap
      (evac_allocate_shared env size is_promotion target_gen a).st.heap ∧
    ((evac_allocate_shared env size is_promotion target_gen a).alloc_from_lab = true →
      (evac_allocate_shared env size is_promotion target_gen a).copy.isSome = true →
      evac_allocate_shared env size is_promotion target_gen a = a) := by
  unfold evac_allocate_shared
  split
  · rename_i hn
    split
    · simp only []
      exact ⟨traceGrows_mono shared_sub_evac_ops
        (allocate_memory_for_gc_grows env _ is_promotion a.st (by rfl)), by simp⟩
    · exact ⟨traceGrows_refl _ _, fun _ _ => rfl⟩
  · exact ⟨traceGrows_refl _ _, fun _ _ => rfl⟩

/-- What is known of the locals of `try_evacuate_object` once the copy is allocated: only
collaborators of the allocation were called, and a copy that came from a buffer of the
thread came from its GCLAB for a young target and from its PLAB for an old one, the counter
of the PLAB having grown by the size of the copy since this PLAB was obtained. -/
theorem evac_allocate_facts (env : Env) (size : Nat) (is_promotion : Bool)
    (target_gen : ShenandoahRegionAffiliation) (s : EvacState) (a : EvacAlloc)
    (ha : evac_allocate env size is_promotion target_gen s = some a) :
    TraceGrows evac_alloc_ops s.heap a.st.heap ∧
    (a.alloc_from_lab = true → a.copy.isSome = true →
      (target_gen = .YOUNG_GENERATION ∧ a.st.tld._gclab.isSome = true) ∨
      (target_gen = .OLD_GENERATION ∧ a.st.tld._plab.isSome = true ∧
        PlabAccounting s a.st (if is_promotion then size * HeapWordSize else 0)
          (if !is_promotion then size * HeapWordSize else 0))) := by
  unfold evac_allocate at ha
  cases h0 : evac_allocate_lab env size is_promotion target_gen s with
  | none => rw [h0] at ha; cases ha
  | some a0 =>
    rw [h0] at ha
    simp only [Option.map_some', Option.some.injEq] at ha
    obtain ⟨g1, g2⟩ := evac_allocate_lab_facts env size is_promotion target_gen s a0 h0
    obtain ⟨k1, k2⟩ := evac_allocate_shared_facts env size is_promotion target_gen a0
    rw [ha] at k1 k2
    refine ⟨traceGrows_trans g1 k1, fun hl hc => ?_⟩
    have e := k2 hl hc
    subst e
    exact g2 hc

/-! ## Theorems: evacuation of one object -/

theorem evac_copy_grows (env : Env) (target_gen : ShenandoahRegionAffiliation)
    (h : ShenandoahHeap) : TraceGrows evac_copy_ops h (evac_copy env target_gen h) := by
  unfold evac_copy
  apply traceGrows_block
  intro f hf h
  simp only [List.mem_cons, List.mem_singleton, List.not_mem_nil, or_false] at hf
  rcases hf with rfl | rfl | rfl
  · exact traceGrows_call env (by simp [evac_copy_ops]) h
  · exact traceGrows_guarded (fun h => traceGrows_call env (by simp [evac_copy_ops]) h) h
  · exact traceGrows_call env (by simp [evac_copy_ops]) h

theorem try_update_forwardee_trace (p : oopDesc) (copy_val : Nat) (h : ShenandoahHeap) :
    (try_update_forwardee p copy_val h).2.trace = h.trace := by
  unfold try_update_forwardee
  split <;> rfl

/-- The header of `p` after the race holds what `try_update_forwardee` returned. -/
theorem try_update_forwardee_installed (p : oopDesc) (copy_val : Nat) (h : ShenandoahHeap) :
    (try_update_forwardee p copy_val h).2._forwardee.lookup p.addr =
      some (try_update_forwardee p copy_val h).1 := by
  unfold try_update_forwardee
  split
  · rename_i w hw
    exact hw
  · simp [List.lookup]

theorem try_update_forwardee_lost (p : oopDesc) (copy_val : Nat) (h : ShenandoahHeap)
    (hl : (try_update_forwardee p copy_val h).1 ≠ copy_val) :
    h._forwardee.lookup p.addr = some (try_update_forwardee p copy_val h).1 ∧
    (try_update_forwardee p copy_val h).2 = h := by
  unfold try_update_forwardee at hl ⊢
  split
  · rename_i w hw
    exact ⟨hw, rfl⟩
  · rename_i hn
    rw [hn] at hl
    exact absurd rfl hl

/-- The decision of `evacuate_object` for an object that is not forwarded, by a thread that
has not gone through the out-of-memory protocol. -/
theorem evacuate_object_eq (env : Env) (p : oopDesc) (s : EvacState)
    (r : ShenandoahHeapRegion) (hoom : s.tld._oom_during_evac = false)
    (hr : heap_region_containing env s.heap p.addr = some r)
    (hnf : is_forwarded s.heap p = false) :
    evacuate_object env p s =
      if promotion_attempted env s.heap p r then
        match try_evacuate_object env p r .OLD_GENERATION s with
        | none => none
        | some (some result, s1) => some (some result, s1)
        | some (none, s1) => try_evacuate_object env p r r.affiliation s1
      else try_evacuate_object env p r r.affiliation s := by
  unfold evacuate_object promotion_attempted
  simp only [hoom, Bool.false_eq_true, if_false, hr, hnf]
  by_cases h1 : (env.is_generational && is_gc_generation_young s.heap &&
      decide (r.affiliation = .YOUNG_GENERATION) &&
      env.flags.ShenandoahPromoteTenuredObjects) = true
  · simp only [h1, if_true, Bool.true_and]
    cases hd : p.has_displaced_mark_helper
    · simp only [Bool.false_eq_true, if_false, Bool.not_false, Bool.true_and,
        decide_eq_true_eq]
    · simp only [if_true, Bool.not_true, Bool.false_and, Bool.false_eq_true, if_false]
  · simp only [h1, Bool.false_eq_true, if_false]
    have h2 : (env.is_generational && is_gc_generation_young s.heap &&
      decide (r.affiliation = .YOUNG_GENERATION) &&
      env.flags.ShenandoahPromoteTenuredObjects) = false := by simpa using h1
    simp only [h2, Bool.false_and, Bool.false_eq_true, if_false]

/-- C11, as stated, fails: in generational mode with `ShenandoahPromoteTenuredObjects`, for
an object that is not forwarded, in a young region, with region age 10 plus header age 0 at
least `InitialTenuringThreshold` (7), `evacuate_object` called during a global collection
makes no attempt into the old generation: it is `try_evacuate_object` with the young target,
the copy comes out of the GCLAB (296 of 300 words left) and the PLAB is untouched, while an
attempt into the old generation would have taken the copy from the PLAB. -/
theorem promotion_target_counterexample :
    evac_env.is_generational = true ∧
    evac_env.flags.ShenandoahPromoteTenuredObjects = true ∧
    heap_region_containing evac_env (evacuating_thread .GLOBAL).heap small_object.addr =
      some aged_young_region ∧
    aged_young_region.affiliation = .YOUNG_GENERATION ∧
    is_forwarded (evacuating_thread .GLOBAL).heap small_object = false ∧
    aged_young_region.age + small_object.age ≥ evac_env.flags.InitialTenuringThreshold ∧
    evacuate_object evac_env small_object (evacuating_thread .GLOBAL) =
      try_evacuate_object evac_env small_object aged_young_region .YOUNG_GENERATION
        (evacuating_thread .GLOBAL) ∧
    (evacuate_object evac_env small_object (evacuating_thread .GLOBAL)).map
        (fun r => (r.1, r.2.tld._gclab, r.2.tld._plab)) =
      some (some 65236, some 296, some 300) ∧
    (try_evacuate_object evac_env small_object aged_young_region .OLD_GENERATION
        (evacuating_thread .GLOBAL)).map (fun r => (r.1, r.2.tld._gclab, r.2.tld._plab)) =
      some (some 65236, some 300, some 296) := by
  decide

/-- C11, amended: for a thread that has not gone through the out-of-memory protocol,
`evacuate_object` applied to an object that is not forwarded first attempts evacuation into
`OLD_GENERATION` exactly when the heap is generational, the collection under way is a young
one, the region of the object is young, `ShenandoahPromoteTenuredObjects` is enabled, the
mark word has no displaced-mark helper and region age plus header age is at least
`InitialTenuringThreshold`; it returns the result of that attempt when it is not null.  In
every other case, and after a promotion attempt that returned null, it evacuates to the
region's own affiliation. -/
theorem evacuate_object_target (env : Env) (p : oopDesc) (s : EvacState)
    (r : ShenandoahHeapRegion) (hoom : s.tld._oom_during_evac = false)
    (hr : heap_region_containing env s.heap p.addr = some r)
    (hnf : is_forwarded s.heap p = false) :
    (promotion_attempted env s.heap p r = true ↔
      (env.is_generational = true ∧ is_gc_generation_young s.heap = true ∧
        r.affiliation = .YOUNG_GENERATION ∧
        env.flags.ShenandoahPromoteTenuredObjects = true ∧
        p.has_displaced_mark_helper = false ∧
        r.age + p.age ≥ env.flags.InitialTenuringThreshold)) ∧
    (promotion_attempted env s.heap p r = true →
      evacuate_object env p s =
        match try_evacuate_object env p r .OLD_GENERATION s with
        | none => none
        | some (some result, s1) => some (some result, s1)
        | some (none, s1) => try_evacuate_object env p r r.affiliation s1) ∧
    (promotion_attempted env s.heap p r = false →
      evacuate_object env p s = try_evacuate_object env p r r.affiliation s) := by
  refine ⟨?_, fun h => ?_, fun h => ?_⟩
  · unfold promotion_attempted
    simp only [Bool.and_eq_true, decide_eq_true_eq, Bool.not_eq_true', and_assoc]
  · rw [evacuate_object_eq env p s r hoom hr hnf, if_pos h]
  · rw [evacuate_object_eq env p s r hoom hr hnf, if_neg (by simp [h])]

theorem evacuate_object_target_witness :
    (promotion_attempted evac_env (evacuating_thread .YOUNG).heap small_object
        aged_young_region = true ↔
      (evac_env.is_generational = true ∧
        is_gc_generation_young (evacuating_thread .YOUNG).heap = true ∧
        aged_young_region.affiliation = .YOUNG_GENERATION ∧
        evac_env.flags.ShenandoahPromoteTenuredObjects = true ∧
        small_object.has_displaced_mark_helper = false ∧
        aged_young_region.age + small_object.age ≥
          evac_env.flags.InitialTenuringThreshold)) ∧
    (promotion_attempted evac_env (evacuating_thread .YOUNG).heap small_object
        aged_young_region = true →
      evacuate_object evac_env small_object (evacuating_thread .YOUNG) =
        match try_evacuate_object evac_env small_object aged_young_region .OLD_GENERATION
          (evacuating_thread .YOUNG) with
        | none => none
        | some (some result, s1) => some (some result, s1)
        | some (none, s1) =>
          try_evacuate_object evac_env small_object aged_young_region
            aged_young_region.affiliation s1) ∧
    (promotion_attempted evac_env (evacuating_thread .YOUNG).heap small_object
        aged_young_region = false →
      evacuate_object evac_env small_object (evacuating_thread .YOUNG) =
        try_evacuate_object evac_env small_object aged_young_region
          aged_young_region.affiliation (evacuating_thread .YOUNG)) :=
  evacuate_object_target evac_env small_object (evacuating_thread .YOUNG) aged_young_region
    rfl (by decide) (by decide)

/-- C14: re-running the evacuation pass leaves forwarded objects alone.  For an object that
is already forwarded, `do_object` returns with the whole state unchanged (heap, thread
data, buffers, counters and the record of calls): it does not call `evacuate_object`.  On
the promotion path of `evacuate_object` (generational heap, young collection, young region,
`ShenandoahPromoteTenuredObjects`), the forwarding pointer already in the header is returned,
again with the whole state unchanged. -/
theorem forwarded_objects_untouched (env : Env) (p : oopDesc) (s : EvacState)
    (hf : is_forwarded s.heap p = true) :
    do_object env p s = some s ∧
    s.heap._forwardee.lookup p.addr = some (resolve_forwarded s.heap p) ∧
    (∀ r, heap_region_containing env s.heap p.addr = some r →
      env.is_generational = true → is_gc_generation_young s.heap = true →
      r.affiliation = .YOUNG_GENERATION → env.flags.ShenandoahPromoteTenuredObjects = true →
      evacuate_object env p s = some (some (resolve_forwarded s.heap p), s)) := by
  refine ⟨?_, ?_, ?_⟩
  · unfold do_object
    simp [hf]
  · unfold is_forwarded at hf
    unfold resolve_forwarded
    cases hl : s.heap._forwardee.lookup p.addr with
    | none => rw [hl] at hf; cases hf
    | some f => rfl
  · intro r hr hgen hy hyoung hprom
    unfold evacuate_object
    cases hoom : s.tld._oom_during_evac
    · simp only [Bool.false_eq_true, if_false, hr, hgen, hy, hyoung, hprom, decide_True,
        Bool.and_self, if_true, hf]
    · simp only [if_true]

theorem forwarded_objects_untouched_witness :
    do_object evac_env small_object thread_facing_forwarded = some thread_facing_forwarded ∧
    thread_facing_forwarded.heap._forwardee.lookup small_object.addr =
      some (resolve_forwarded thread_facing_forwarded.heap small_object) ∧
    (∀ r, heap_region_containing evac_env thread_facing_forwarded.heap small_object.addr =
        some r →
      evac_env.is_generational = true →
      is_gc_generation_young thread_facing_forwarded.heap = true →
      r.affiliation = .YOUNG_GENERATION →
      evac_env.flags.ShenandoahPromoteTenuredObjects = true →
      evacuate_object evac_env small_object thread_facing_forwarded =
        some (some (resolve_forwarded thread_facing_forwarded.heap small_object),
          thread_facing_forwarded)) :=
  forwarded_objects_untouched evac_env small_object thread_facing_forwarded (by decide)

theorem calls_between_of_counts (e : Ev) (h h1 h2 : ShenandoahHeap) (k : Nat)
    (e1 : h1.trace.count e = h.trace.count e) (e2 : h2.trace.count e = h1.trace.count e + k) :
    calls_between e h h2 = k := by
  unfold calls_between
  rw [e2, e1]
  push_cast
  omega

theorem evac_allocation_failed_promotion (env : Env) (p : oopDesc)
    (from_region : ShenandoahHeapRegion) (target_gen : ShenandoahRegionAffiliation)
    (s : EvacState) (hp : target_gen = .OLD_GENERATION ∧ from_region.is_young = true) :
    (evac_allocation_failed env p from_region target_gen s).1 = none ∧
    (evac_allocation_failed env p from_region target_gen s).2.heap.trace =
      s.heap.trace ++ [.ext .handle_promotion_failure] ∧
    (evac_allocation_failed env p from_region target_gen s).2.tld = s.tld := by
  unfold evac_allocation_failed
  rw [if_pos hp]
  exact ⟨rfl, rfl, rfl⟩

theorem evac_allocation_failed_oom (env : Env) (p : oopDesc)
    (from_region : ShenandoahHeapRegion) (target_gen : ShenandoahRegionAffiliation)
    (s : EvacState) (hp : ¬ (target_gen = .OLD_GENERATION ∧ from_region.is_young = true)) :
    (evac_allocation_failed env p from_region target_gen s).1 =
      some (resolve_forwarded (evac_allocation_failed env p from_region target_gen s).2.heap
        p) ∧
    (evac_allocation_failed env p from_region target_gen s).2.heap.trace =
      s.heap.trace ++ [.ext .handle_alloc_failure_evac,
        .ext .handle_out_of_memory_during_evacuation] := by
  unfold evac_allocation_failed
  rw [if_neg hp]
  refine ⟨rfl, ?_⟩
  simp only [call, guarded, handle_old_evacuation_failure]
  split <;> simp

/-- C12: when `try_evacuate_object` obtains no memory for the copy, it returns.  If the
attempt was a promotion from young to old, it returns `NULL` after one call of
`handle_promotion_failure` and no call of `handle_alloc_failure_evac` or of
`handle_out_of_memory_during_evacuation`, and `evacuate_object`, which made the attempt,
goes on to `try_evacuate_object` with the young target.  In every other case it calls
`handle_alloc_failure_evac` and `handle_out_of_memory_during_evacuation` once each, does not
call `handle_promotion_failure`, and returns `resolve_forwarded(p)`. -/
theorem evacuation_without_memory (env : Env) (p : oopDesc)
    (from_region : ShenandoahHeapRegion) (target_gen : ShenandoahRegionAffiliation)
    (s : EvacState) (a : EvacAlloc)
    (ha : evac_allocate env p.size
      (decide (target_gen = .OLD_GENERATION) && from_region.is_young) target_gen s = some a)
    (hc : a.copy = none) :
    (∃ res s1, try_evacuate_object env p from_region target_gen s = some (res, s1) ∧
      (if target_gen = .OLD_GENERATION ∧ from_region.is_young = true then
        res = none ∧
        calls_between (.ext .handle_promotion_failure) s.heap s1.heap = 1 ∧
        calls_between (.ext .handle_alloc_failure_evac) s.heap s1.heap = 0 ∧
        calls_between (.ext .handle_out_of_memory_during_evacuation) s.heap s1.heap = 0
      else
        res = some (resolve_forwarded s1.heap p) ∧
        calls_between (.ext .handle_promotion_failure) s.heap s1.heap = 0 ∧
        calls_between (.ext .handle_alloc_failure_evac) s.heap s1.heap = 1 ∧
        calls_between (.ext .handle_out_of_memory_during_evacuation) s.heap s1.heap = 1)) ∧
    (s.tld._oom_during_evac = false →
      heap_region_containing env s.heap p.addr = some from_region →
      is_forwarded s.heap p = false →
      promotion_attempted env s.heap p from_region = true →
      target_gen = .OLD_GENERATION →
      ∃ s1, try_evacuate_object env p from_region .OLD_GENERATION s = some (none, s1) ∧
        evacuate_object env p s =
          try_evacuate_object env p from_region .YOUNG_GENERATION s1) := by
  have htry : try_evacuate_object env p from_region target_gen s =
      some (evac_allocation_failed env p from_region target_gen a.st) := by
    unfold try_evacuate_object
    simp only [ha, hc]
  have hgrow := (evac_allocate_facts env p.size _ target_gen s a ha).1
  have c1 := traceGrows_count (.ext .handle_promotion_failure) (by decide) hgrow
  have c2 := traceGrows_count (.ext .handle_alloc_failure_evac) (by decide) hgrow
  have c3 := traceGrows_count (.ext .handle_out_of_memory_during_evacuation) (by decide) hgrow
  constructor
  · refine ⟨(evac_allocation_failed env p from_region target_gen a.st).1,
      (evac_allocation_failed env p from_region target_gen a.st).2, htry, ?_⟩
    by_cases hp : target_gen = .OLD_GENERATION ∧ from_region.is_young = true
    · rw [if_pos hp]
      obtain ⟨f1, f2, _⟩ := evac_allocation_failed_promotion env p from_region target_gen
        a.st hp
      generalize evac_allocation_failed env p from_region target_gen a.st = r at f1 f2
      refine ⟨f1, ?_, ?_, ?_⟩
      · exact calls_between_of_counts _ s.heap a.st.heap r.2.heap 1 c1 (by rw [f2]; simp)
      · exact calls_between_of_counts _ s.heap a.st.heap r.2.heap 0 c2 (by rw [f2]; simp)
      · exact calls_between_of_counts _ s.heap a.st.heap r.2.heap 0 c3 (by rw [f2]; simp)
    · rw [if_neg hp]
      obtain ⟨f1, f2⟩ := evac_allocation_failed_oom env p from_region target_gen a.st hp
      generalize evac_allocation_failed env p from_region target_gen a.st = r at f1 f2
      refine ⟨f1, ?_, ?_, ?_⟩
      · exact calls_between_of_counts _ s.heap a.st.heap r.2.heap 0 c1 (by rw [f2]; simp)
      · exact calls_between_of_counts _ s.heap a.st.heap r.2.heap 1 c2 (by rw [f2]; simp)
      · exact calls_between_of_counts _ s.heap a.st.heap r.2.heap 1 c3 (by rw [f2]; simp)
  · intro hoom hr hnf hpa ht
    subst ht
    have hy : from_region.affiliation = .YOUNG_GENERATION := by
      unfold promotion_attempted at hpa
      simp only [Bool.and_eq_true, decide_eq_true_eq] at hpa
      exact hpa.1.1.1.2
    have hyoung : from_region.is_young = true := by
      unfold ShenandoahHeapRegion.is_young
      exact decide_eq_true hy
    have hp : ShenandoahRegionAffiliation.OLD_GENERATION = .OLD_GENERATION ∧
        from_region.is_young = true := ⟨rfl, hyoung⟩
    obtain ⟨f1, _, _⟩ := evac_allocation_failed_promotion env p from_region .OLD_GENERATION
      a.st hp
    have htry2 : try_evacuate_object env p from_region .OLD_GENERATION s =
        some (none, (evac_allocation_failed env p from_region .OLD_GENERATION a.st).2) := by
      rw [htry, ← f1]
    refine ⟨_, htry2, ?_⟩
    rw [evacuate_object_eq env p s from_region hoom hr hnf, if_pos hpa, htry2, hy]

theorem evacuation_without_memory_witness :
    (∃ res s1, try_evacuate_object {} small_object aged_young_region .OLD_GENERATION
        thread_without_memory = some (res, s1) ∧
      (if ShenandoahRegionAffiliation.OLD_GENERATION = .OLD_GENERATION ∧
          aged_young_region.is_young = true then
        res = none ∧
        calls_between (.ext .handle_promotion_failure) thread_without_memory.heap s1.heap =
          1 ∧
        calls_between (.ext .handle_alloc_failure_evac) thread_without_memory.heap s1.heap =
          0 ∧
        calls_between (.ext .handle_out_of_memory_during_evacuation)
          thread_without_memory.heap s1.heap = 0
      else
        res = some (resolve_forwarded s1.heap small_object) ∧
        calls_between (.ext .handle_promotion_failure) thread_without_memory.heap s1.heap =
          0 ∧
        calls_between (.ext .handle_alloc_failure_evac) thread_without_memory.heap s1.heap =
          1 ∧
        calls_between (.ext .handle_out_of_memory_during_evacuation)
          thread_without_memory.heap s1.heap = 1)) ∧
    (thread_without_memory.tld._oom_during_evac = false →
      heap_region_containing {} thread_without_memory.heap small_object.addr =
        some aged_young_region →
      is_forwarded thread_without_memory.heap small_object = false →
      promotion_attempted {} thread_without_memory.heap small_object aged_young_region =
        true →
      ShenandoahRegionAffiliation.OLD_GENERATION = .OLD_GENERATION →
      ∃ s1, try_evacuate_object {} small_object aged_young_region .OLD_GENERATION
          thread_without_memory = some (none, s1) ∧
        evacuate_object {} small_object thread_without_memory =
          try_evacuate_object {} small_object aged_young_region .YOUNG_GENERATION s1) :=
  evacuation_without_memory {} small_object aged_young_region .OLD_GENERATION
    thread_without_memory
    { copy := none, alloc_from_lab := false, has_plab := false, st := thread_without_memory }
    (by decide) rfl

theorem size_t_sub_add (x y : Nat) : size_t_sub (x + y) y = x := by
  unfold size_t_sub
  rw [if_pos (Nat.le_add_left _ _)]
  omega

theorem try_evacuate_object_lost (env : Env) (p : oopDesc)
    (from_region : ShenandoahHeapRegion) (target_gen : ShenandoahRegionAffiliation)
    (s : EvacState) (a : EvacAlloc) (copy : Nat)
    (ha : evac_allocate env p.size
      (decide (target_gen = .OLD_GENERATION) && from_region.is_young) target_gen s = some a)
    (hc : a.copy = some copy)
    (hlost : (try_update_forwardee p copy (evac_copy env target_gen a.st.heap)).1 ≠ copy) :
    try_evacuate_object env p from_region target_gen s =
      (evac_undo_copy env p.size
        (decide (target_gen = .OLD_GENERATION) && from_region.is_young) target_gen copy
        a.alloc_from_lab { a.st with heap := evac_copy env target_gen a.st.heap }).map
        fun s1 => (some (try_update_forwardee p copy (evac_copy env target_gen a.st.heap)).1,
          s1) := by
  unfold try_evacuate_object
  simp only [ha, hc]
  unfold evac_copy_and_install
  simp only []
  rw [if_neg hlost, (try_update_forwardee_lost p copy _ hlost).2]
  cases evac_undo_copy env p.size
    (decide (target_gen = .OLD_GENERATION) && from_region.is_young) target_gen copy
    a.alloc_from_lab { a.st with heap := evac_copy env target_gen a.st.heap } <;> rfl

theorem plab_retirements_after_copy (env : Env) (target_gen : ShenandoahRegionAffiliation)
    (h : ShenandoahHeap) (op : ExtOp) (e : Ev) (he : e ≠ .ext .plab_retire) :
    plab_retirements (call_as env op e (evac_copy env target_gen h)) = plab_retirements h := by
  unfold plab_retirements call_as
  simp only [List.count_append]
  rw [traceGrows_count _ (by decide) (evac_copy_grows env target_gen h)]
  have : List.count (Ev.ext ExtOp.plab_retire) [e] = 0 := by
    rw [List.count_eq_zero]
    simpa using fun h2 => he h2.symm
  rw [this, Nat.add_zero]

/-- C13, amended: when `try_update_forwardee` returns a value other than this thread's copy,
`try_evacuate_object` returns that value, which is the forwarding pointer found in the
header, and undoes its own copy.  A copy from the GCLAB or the PLAB is rewound with
`undo_allocation(copy, size)` on that buffer; for a PLAB the counter `plab_promoted` (for a
promotion) or `plab_evacuated` (from old to old) ends equal to its value before the attempt
when no PLAB was retired during the attempt, and equal to 0 when one was, `retire_plab`
resetting both counters.  A copy from a shared allocation is overwritten by
`fill_with_object(copy, size)`, the data of the thread staying as the allocation left it. -/
theorem lost_race_undoes_copy (env : Env) (p : oopDesc)
    (from_region : ShenandoahHeapRegion) (target_gen : ShenandoahRegionAffiliation)
    (s : EvacState) (a : EvacAlloc) (copy : Nat)
    (ha : evac_allocate env p.size
      (decide (target_gen = .OLD_GENERATION) && from_region.is_young) target_gen s = some a)
    (hc : a.copy = some copy)
    (hlost : (try_update_forwardee p copy (evac_copy env target_gen a.st.heap)).1 ≠ copy) :
    ∃ s1, try_evacuate_object env p from_region target_gen s =
        some (some (try_update_forwardee p copy (evac_copy env target_gen a.st.heap)).1,
          s1) ∧
      (evac_copy env target_gen a.st.heap)._forwardee.lookup p.addr =
        some (try_update_forwardee p copy (evac_copy env target_gen a.st.heap)).1 ∧
      (a.alloc_from_lab = true → target_gen = .YOUNG_GENERATION →
        s1.heap.trace = (evac_copy env target_gen a.st.heap).trace ++
          [.undo_allocation ._alloc_gclab copy p.size] ∧
        ∃ gclab, a.st.tld._gclab = some gclab ∧
          s1.tld = { a.st.tld with
            _gclab := some (env.lab_undo_allocation gclab copy p.size) }) ∧
      (a.alloc_from_lab = true → target_gen = .OLD_GENERATION →
        s1.heap.trace = (evac_copy env target_gen a.st.heap).trace ++
          [.undo_allocation ._alloc_plab copy p.size] ∧
        (∃ plab, a.st.tld._plab = some plab ∧
          s1.tld._plab = some (env.lab_undo_allocation plab copy p.size)) ∧
        (from_region.is_young = true →
          (plab_retirements s1.heap = plab_retirements s.heap →
            s1.tld._plab_promoted = s.tld._plab_promoted) ∧
          (plab_retirements s1.heap ≠ plab_retirements s.heap →
            s1.tld._plab_promoted = 0)) ∧
        (from_region.is_young = false →
          (plab_retirements s1.heap = plab_retirements s.heap →
            s1.tld._plab_evacuated = s.tld._plab_evacuated) ∧
          (plab_retirements s1.heap ≠ plab_retirements s.heap →
            s1.tld._plab_evacuated = 0))) ∧
      (a.alloc_from_lab = false →
        s1.heap.trace = (evac_copy env target_gen a.st.heap).trace ++
          [.fill_with_object copy p.size] ∧
        s1.tld = a.st.tld) := by
  have htry := try_evacuate_object_lost env p from_region target_gen s a copy ha hc hlost
  have hwin := (try_update_forwardee_lost p copy _ hlost).1
  obtain ⟨_, hfacts⟩ := evac_allocate_facts env p.size _ target_gen s a ha
  cases hlab : a.alloc_from_lab with
  | false =>
    rw [hlab] at htry
    simp only [evac_undo_copy, Bool.false_eq_true, if_false, Option.map_some'] at htry
    refine ⟨_, htry, hwin, ?_, ?_, ?_⟩
    · intro h; cases h
    · intro h; cases h
    · intro _
      exact ⟨rfl, rfl⟩
  | true =>
    rw [hlab] at htry
    rcases hfacts hlab (by rw [hc]; rfl) with ⟨ht, hg⟩ | ⟨ht, hpl, hacc⟩
    · subst ht
      obtain ⟨gclab, hgl⟩ := Option.isSome_iff_exists.mp hg
      simp only [evac_undo_copy, if_true, hgl, Option.map_some'] at htry
      refine ⟨_, htry, hwin, ?_, ?_, ?_⟩
      · intro _ _
        exact ⟨rfl, gclab, hgl, rfl⟩
      · intro _ h; cases h
      · intro h; cases h
    · subst ht
      obtain ⟨plab, hp⟩ := Option.isSome_iff_exists.mp hpl
      simp only [evac_undo_copy, if_true, hp, Option.map_some', decide_True,
        Bool.true_and] at htry
      simp only [decide_True, Bool.true_and] at hacc
      refine ⟨_, htry, hwin, ?_, ?_, ?_⟩
      · intro _ h; cases h
      · intro _ _
        have hcount := plab_retirements_after_copy env .OLD_GENERATION a.st.heap
          .lab_undo_allocation (.undo_allocation ._alloc_plab copy p.size)
          (fun h => Ev.noConfusion h)
        refine ⟨rfl, ⟨plab, hp, ?_⟩, ?_, ?_⟩
        · cases from_region.is_young <;> rfl
        · intro hy
          rw [hy] at hacc
          simp only [hy, if_true, hcount]
          simp only [if_true, Bool.not_true, Bool.false_eq_true, if_false] at hacc
          unfold PlabAccounting at hacc
          rcases hacc with ⟨e1, _, e3⟩ | ⟨e1, _, e3⟩
          · refine ⟨fun _ => ?_, fun hne => absurd e3 hne⟩
            rw [e1]
            exact size_t_sub_add _ _
          · refine ⟨fun he => ?_, fun _ => ?_⟩
            · omega
            · rw [e1]
              have h0 := size_t_sub_add 0 (p.size * HeapWordSize)
              simpa using h0
        · intro hy
          rw [hy] at hacc
          simp only [hy, Bool.false_eq_true, if_false, hcount]
          simp only [Bool.false_eq_true, if_false, Bool.not_false, if_true] at hacc
          unfold PlabAccounting at hacc
          rcases hacc with ⟨_, e2, e3⟩ | ⟨_, e2, e3⟩
          · refine ⟨fun _ => ?_, fun hne => absurd e3 hne⟩
            rw [e2]
            exact size_t_sub_add _ _
          · refine ⟨fun he => ?_, fun _ => ?_⟩
            · omega
            · rw [e2]
              have h0 := size_t_sub_add 0 (p.size * HeapWordSize)
              simpa using h0
      · intro h; cases h

/-- C13, as stated, fails: the thread's PLAB is used up and 80 bytes are counted as promoted;
the promotion of a 4-word object retires the PLAB, obtains a new one and takes the copy from
it; another thread wins the race with its copy at 777; `try_evacuate_object` returns 777
after `undo_allocation` on the PLAB, and `plab_promoted` ends at 0, not at 80. -/
theorem plab_counter_counterexample :
    thread_with_full_plab.tld._plab_promoted = 80 ∧
    (try_evacuate_object racing_env small_object aged_young_region .OLD_GENERATION
        thread_with_full_plab).map
        (fun r => (r.1, r.2.tld._plab_promoted, r.2.heap.trace.getLast?)) =
      some (some 777, 0, some (.undo_allocation ._alloc_plab 65278 4)) := by
  decide

theorem lost_race_undoes_copy_witness :
    ∃ s1, try_evacuate_object racing_env small_object aged_young_region
        .OLD_GENERATION (evacuating_thread .YOUNG) =
        some (some (try_update_forwardee small_object 65236
            (evac_copy racing_env .OLD_GENERATION allocated_in_plab.st.heap)).1, s1) ∧
      (evac_copy racing_env .OLD_GENERATION allocated_in_plab.st.heap)._forwardee.lookup
          small_object.addr =
        some (try_update_forwardee small_object 65236
            (evac_copy racing_env .OLD_GENERATION allocated_in_plab.st.heap)).1 ∧
      (allocated_in_plab.alloc_from_lab = true →
          ShenandoahRegionAffiliation.OLD_GENERATION = .YOUNG_GENERATION →
        s1.heap.trace = (evac_copy racing_env .OLD_GENERATION allocated_in_plab.st.heap).trace ++
          [.undo_allocation ._alloc_gclab 65236 small_object.size] ∧
        ∃ gclab, allocated_in_plab.st.tld._gclab = some gclab ∧
          s1.tld = { allocated_in_plab.st.tld with
            _gclab := some (racing_env.lab_undo_allocation gclab 65236 small_object.size) }) ∧
      (allocated_in_plab.alloc_from_lab = true →
          ShenandoahRegionAffiliation.OLD_GENERATION = .OLD_GENERATION →
        s1.heap.trace = (evac_copy racing_env .OLD_GENERATION allocated_in_plab.st.heap).trace ++
          [.undo_allocation ._alloc_plab 65236 small_object.size] ∧
        (∃ plab, allocated_in_plab.st.tld._plab = some plab ∧
          s1.tld._plab = some (racing_env.lab_undo_allocation plab 65236 small_object.size)) ∧
        (aged_young_region.is_young = true →
          (plab_retirements s1.heap = plab_retirements (evacuating_thread .YOUNG).heap →
            s1.tld._plab_promoted = (evacuating_thread .YOUNG).tld._plab_promoted) ∧
          (plab_retirements s1.heap ≠ plab_retirements (evacuating_thread .YOUNG).heap →
            s1.tld._plab_promoted = 0)) ∧
        (aged_young_region.is_young = false →
          (plab_retirements s1.heap = plab_retirements (evacuating_thread .YOUNG).heap →
            s1.tld._plab_evacuated = (evacuating_thread .YOUNG).tld._plab_evacuated) ∧
          (plab_retirements s1.heap ≠ plab_retirements (evacuating_thread .YOUNG).heap →
            s1.tld._plab_evacuated = 0))) ∧
      (allocated_in_plab.alloc_from_lab = false →
        s1.heap.trace = (evac_copy racing_env .OLD_GENERATION allocated_in_plab.st.heap).trace ++
          [.fill_with_object 65236 small_object.size] ∧
        s1.tld = allocated_in_plab.st.tld) :=
  lost_race_undoes_copy racing_env small_object aged_young_region .OLD_GENERATION
    (evacuating_thread .YOUNG) allocated_in_plab 65236 (by decide) rfl (by decide)

/-! ## Theorems: counting live words -/

theorem increase_live_data_regions (i s : Nat) (h : ShenandoahHeap) (j : Nat) :
    (increase_live_data_gc_words_at i s h)._regions[j]? =
      (h._regions[j]?).map fun r =>
        if i = j then r.increase_live_data_gc_words s else r := by
  unfold increase_live_data_gc_words_at
  simp only [List.getElem?_modify]
  rfl

theorem increase_live_data_length (i s : Nat) (h : ShenandoahHeap) :
    (increase_live_data_gc_words_at i s h)._regions.length = h._regions.length := by
  unfold increase_live_data_gc_words_at
  simp only [List.length_modify]

theorem increase_live_data_humongous (i s : Nat) (h : ShenandoahHeap) (j : Nat) :
    is_humongous_start_at (increase_live_data_gc_words_at i s h) j =
      is_humongous_start_at h j := by
  unfold is_humongous_start_at
  rw [increase_live_data_regions]
  cases h._regions[j]? with
  | none => rfl
  | some r =>
    simp only [Option.map_some']
    split <;> rfl

theorem live_words_increase (i s : Nat) (h : ShenandoahHeap) (j : Nat)
    (hi : i < h._regions.length) :
    live_words (increase_live_data_gc_words_at i s h) j =
      live_words h j + (if j = i then s else 0) := by
  unfold live_words
  rw [increase_live_data_regions]
  by_cases hj : j = i
  · subst hj
    rw [List.getElem?_eq_getElem hi]
    simp [ShenandoahHeapRegion.increase_live_data_gc_words]
  · rw [if_neg hj]
    cases h._regions[j]? with
    | none => rfl
    | some r =>
      simp only [Option.map_some']
      rw [if_neg (fun e => hj e.symm)]
      rfl

/-- One call of `count_liveness` for an object in a regular region: the call returns, the
words of the object are added to the cache entry or to the counter of its region, no other
entry or counter changes, and every cache entry stays below the maximum. -/
theorem count_liveness_regular (env : Env) (obj : oopDesc) (m : MarkState)
    (r : ShenandoahHeapRegion) (hmax : 0 < env.SHENANDOAH_LIVEDATA_MAX)
    (hr : m.heap._regions[heap_region_index_containing env obj.addr]? = some r)
    (hreg : r.is_humongous_start = false)
    (hcache : ∀ j, m.live_data j < env.SHENANDOAH_LIVEDATA_MAX) :
    ∃ m1, count_liveness env obj m = some m1 ∧
      (∀ j, live_words m1.heap j + m1.live_data j =
        live_words m.heap j + m.live_data j +
          (if j = heap_region_index_containing env obj.addr then obj.size else 0)) ∧
      (∀ j, m1.live_data j < env.SHENANDOAH_LIVEDATA_MAX) ∧
      m1.heap._regions.length = m.heap._regions.length ∧
      (∀ j, is_humongous_start_at m1.heap j = is_humongous_start_at m.heap j) := by
  have hlen : heap_region_index_containing env obj.addr < m.heap._regions.length := by
    by_contra hc
    rw [List.getElem?_eq_none (Nat.le_of_not_lt hc)] at hr
    cases hr
  unfold count_liveness
  simp only [hr, hreg, Bool.not_false, if_true]
  by_cases hge : obj.size + m.live_data (heap_region_index_containing env obj.addr) ≥
      env.SHENANDOAH_LIVEDATA_MAX
  · rw [if_pos hge]
    refine ⟨_, rfl, ?_, ?_, increase_live_data_length _ _ _,
      increase_live_data_humongous _ _ _⟩
    · intro j
      simp only [MarkState.set_live_data]
      rw [live_words_increase _ _ _ _ hlen]
      by_cases hj : j = heap_region_index_containing env obj.addr
      · subst hj
        simp only [if_true]
        omega
      · simp only [hj, if_false]
        omega
    · intro j
      simp only [MarkState.set_live_data]
      split
      · exact hmax
      · exact hcache j
  · rw [if_neg hge]
    have hlt : obj.size + m.live_data (heap_region_index_containing env obj.addr) <
        env.SHENANDOAH_LIVEDATA_MAX := Nat.lt_of_not_ge hge
    have hcast : to_ShenandoahLiveData env
        (obj.size + m.live_data (heap_region_index_containing env obj.addr)) =
        obj.size + m.live_data (heap_region_index_containing env obj.addr) := by
      unfold to_ShenandoahLiveData
      exact Nat.mod_eq_of_lt (by omega)
    refine ⟨_, rfl, ?_, ?_, rfl, fun _ => rfl⟩
    · intro j
      simp only [MarkState.set_live_data, hcast]
      by_cases hj : j = heap_region_index_containing env obj.addr
      · subst hj
        simp only [if_true]
        omega
      · simp only [hj, if_false]
        omega
    · intro j
      simp only [MarkState.set_live_data, hcast]
      split
      · exact hlt
      · exact hcache j

theorem counted_words_nil (env : Env) (j : Nat) : counted_words env [] j = 0 := rfl

theorem counted_words_cons (env : Env) (obj : oopDesc) (objs : List oopDesc) (j : Nat) :
    counted_words env (obj :: objs) j =
      (if j = heap_region_index_containing env obj.addr then obj.size else 0) +
        counted_words env objs j := by
  unfold counted_words
  by_cases hj : heap_region_index_containing env obj.addr = j
  · simp [List.filter_cons, hj]
  · have hj2 : ¬ j = heap_region_index_containing env obj.addr := fun e => hj e.symm
    simp [List.filter_cons, hj, hj2]

/-- A sequence of calls of `count_liveness` for objects in regular regions: every call
returns, and in the end each region's counter plus its cache entry has grown by the words of
the objects counted in that region. -/
theorem count_liveness_all_regular (env : Env) (hmax : 0 < env.SHENANDOAH_LIVEDATA_MAX)
    (objs : List oopDesc) :
    ∀ m : MarkState, InRegularRegions env m.heap objs →
      (∀ j, m.live_data j < env.SHENANDOAH_LIVEDATA_MAX) →
      ∃ m1, count_liveness_all env objs m = some m1 ∧
        (∀ j, live_words m1.heap j + m1.live_data j =
          live_words m.heap j + m.live_data j + counted_words env objs j) ∧
        (∀ j, m1.live_data j < env.SHENANDOAH_LIVEDATA_MAX) ∧
        m1.heap._regions.length = m.heap._regions.length := by
  induction objs with
  | nil =>
    intro m _ hc
    exact ⟨m, rfl, fun j => by rw [counted_words_nil]; rfl, hc, rfl⟩
  | cons obj objs ih =>
    intro m hreg hc
    obtain ⟨r, hr, hh⟩ := hreg obj (List.mem_cons_self _ _)
    obtain ⟨m1, e1, a1, a2, a3, a4⟩ := count_liveness_regular env obj m r hmax hr hh hc
    have hreg1 : InRegularRegions env m1.heap objs := by
      intro o ho
      obtain ⟨r2, hr2, hh2⟩ := hreg o (List.mem_cons_of_mem _ ho)
      have h4 := a4 (heap_region_index_containing env o.addr)
      unfold is_humongous_start_at at h4
      rw [hr2] at h4
      cases hx : m1.heap._regions[heap_region_index_containing env o.addr]? with
      | none => rw [hx] at h4; cases h4
      | some r3 =>
        rw [hx] at h4
        simp only [Option.map_some', Option.some.injEq] at h4
        exact ⟨r3, rfl, by rw [h4, hh2]⟩
    obtain ⟨m2, e2, b1, b2, b3⟩ := ih m1 hreg1 a2
    refine ⟨m2, ?_, ?_, b2, by rw [b3, a3]⟩
    · simp only [count_liveness_all, e1]
      exact e2
    · intro j
      rw [b1 j, a1 j, counted_words_cons]
      omega

theorem flush_liveness_cache_loop_spec (n : Nat) :
    ∀ (i : Nat) (m : MarkState), i + n ≤ m.heap._regions.length →
      (flush_liveness_cache_loop n i m).heap._regions.length = m.heap._regions.length ∧
      ∀ j,
        (i ≤ j ∧ j < i + n →
          live_words (flush_liveness_cache_loop n i m).heap j =
            live_words m.heap j + m.live_data j ∧
          (flush_liveness_cache_loop n i m).live_data j = 0) ∧
        (¬ (i ≤ j ∧ j < i + n) →
          live_words (flush_liveness_cache_loop n i m).heap j = live_words m.heap j ∧
          (flush_liveness_cache_loop n i m).live_data j = m.live_data j) := by
  induction n with
  | zero =>
    intro i m _
    refine ⟨rfl, fun j => ⟨fun h => ?_, fun _ => ⟨rfl, rfl⟩⟩⟩
    omega
  | succ n ih =>
    intro i m hlen
    simp only [flush_liveness_cache_loop]
    generalize hm1 : (if m.live_data i > 0 then
        MarkState.set_live_data
          { m with heap := increase_live_data_gc_words_at i (m.live_data i) m.heap } i 0
      else m) = m1
    have hi : i < m.heap._regions.length := by omega
    have h1 : m1.heap._regions.length = m.heap._regions.length ∧
        ∀ j, live_words m1.heap j = live_words m.heap j + (if j = i then m.live_data i else 0) ∧
          m1.live_data j = if j = i then 0 else m.live_data j := by
      rw [← hm1]
      by_cases hpos : m.live_data i > 0
      · rw [if_pos hpos]
        refine ⟨increase_live_data_length _ _ _, fun j => ⟨?_, rfl⟩⟩
        exact live_words_increase _ _ _ _ hi
      · rw [if_neg hpos]
        have hz : m.live_data i = 0 := by omega
        refine ⟨rfl, fun j => ⟨?_, ?_⟩⟩
        · rw [hz]; simp
        · by_cases hj : j = i
          · rw [if_pos hj, hj, hz]
          · rw [if_neg hj]
    obtain ⟨k1, k2⟩ := ih (i + 1) m1 (by rw [h1.1]; omega)
    refine ⟨by rw [k1, h1.1], fun j => ⟨fun hj => ?_, fun hj => ?_⟩⟩
    · by_cases hji : j = i
      · have := (k2 j).2 (by omega)
        rw [this.1, this.2, (h1.2 j).1, (h1.2 j).2, if_pos hji, if_pos hji, hji]
        exact ⟨rfl, rfl⟩
      · have := (k2 j).1 (by omega)
        rw [this.1, this.2, (h1.2 j).1, (h1.2 j).2, if_neg hji, if_neg hji]
        exact ⟨by omega, rfl⟩
    · have hji : ¬ j = i := by omega
      have := (k2 j).2 (by omega)
      rw [this.1, this.2, (h1.2 j).1, (h1.2 j).2, if_neg hji, if_neg hji]
      exact ⟨by omega, rfl⟩

theorem inRegularRegions_take (env : Env) (h : ShenandoahHeap) (objs : List oopDesc)
    (k : Nat) (hreg : InRegularRegions env h objs) : InRegularRegions env h (objs.take k) :=
  fun obj ho => hreg obj (List.mem_of_mem_take ho)

/-- C15: for every sequence of `count_liveness` calls on objects in regions that are not
humongous, started with an empty cache and followed by `flush_liveness_cache`, every call
returns and each region's count of live words has grown by exactly the sum of the sizes of
the objects counted in that region; after every call every cache entry is strictly below
`SHENANDOAH_LIVEDATA_MAX`; after the flush every cache entry is 0. -/
theorem liveness_cache_exact (env : Env) (objs : List oopDesc) (m : MarkState)
    (hmax : 0 < env.SHENANDOAH_LIVEDATA_MAX) (hzero : ∀ i, m.live_data i = 0)
    (hreg : InRegularRegions env m.heap objs) :
    ∃ m1, count_liveness_all env objs m = some m1 ∧
      (∀ i, i < m.heap._regions.length →
        live_words (flush_liveness_cache m1).heap i =
          live_words m.heap i + counted_words env objs i) ∧
      (∀ k, ∃ mk, count_liveness_all env (objs.take k) m = some mk ∧
        ∀ i, mk.live_data i < env.SHENANDOAH_LIVEDATA_MAX) ∧
      (∀ i, i < m.heap._regions.length → (flush_liveness_cache m1).live_data i = 0) := by
  have hc : ∀ j, m.live_data j < env.SHENANDOAH_LIVEDATA_MAX := fun j => by
    rw [hzero j]; exact hmax
  obtain ⟨m1, e1, a1, _, a3⟩ := count_liveness_all_regular env hmax objs m hreg hc
  obtain ⟨_, f2⟩ := flush_liveness_cache_loop_spec m1.heap._regions.length 0 m1 (by omega)
  refine ⟨m1, e1, fun i hi => ?_, fun k => ?_, fun i hi => ?_⟩
  · have := ((f2 i).1 (by omega)).1
    unfold flush_liveness_cache
    rw [this, a1 i, hzero i]
    omega
  · obtain ⟨mk, ek, _, b2, _⟩ := count_liveness_all_regular env hmax (objs.take k) m
      (inRegularRegions_take env m.heap objs k hreg) hc
    exact ⟨mk, ek, b2⟩
  · exact ((f2 i).1 (by omega)).2

theorem liveness_cache_exact_witness :
    ∃ m1, count_liveness_all {} three_objects fresh_marker = some m1 ∧
      (∀ i, i < fresh_marker.heap._regions.length →
        live_words (flush_liveness_cache m1).heap i =
          live_words fresh_marker.heap i + counted_words {} three_objects i) ∧
      (∀ k, ∃ mk, count_liveness_all {} (three_objects.take k) fresh_marker = some mk ∧
        ∀ i, mk.live_data i < ({} : Env).SHENANDOAH_LIVEDATA_MAX) ∧
      (∀ i, i < fresh_marker.heap._regions.length →
        (flush_liveness_cache m1).live_data i = 0) :=
  liveness_cache_exact {} three_objects fresh_marker (by decide) (fun _ => rfl) (by
    intro obj ho
    simp only [three_objects, List.mem_cons, List.mem_singleton, List.not_mem_nil,
      or_false] at ho
    rcases ho with rfl | rfl | rfl
    · exact ⟨_, rfl, rfl⟩
    · exact ⟨_, rfl, rfl⟩
    · exact ⟨_, rfl, rfl⟩)

/-! ## Theorems: chunked marking of object arrays -/

theorem to_int_eq (x : Int) (h1 : -2147483648 ≤ x) (h2 : x < 2147483648) : to_int x = x := by
  unfold to_int
  norm_num
  omega

theorem to_int_pred (x : Int) : to_int (to_int x - 1) = to_int (x - 1) := by
  unfold to_int
  norm_num
  omega

theorem two_pow_pos (p : Nat) : (0 : Int) < 2 ^ p := by positivity

theorem two_pow_le (p : Nat) (hp : p ≤ 30) : (2 : Int) ^ p ≤ 2 ^ 30 :=
  pow_le_pow_right₀ (by norm_num) hp

theorem shl_one_eq (p : Nat) (hp : p ≤ 30) : shl_one p = some (2 ^ p) := by
  unfold shl_one
  rw [if_pos (by omega)]
  have h1 := two_pow_le p hp
  have h2 := two_pow_pos p
  norm_num at h1
  rw [to_int_eq _ (by omega) (by omega)]

theorem times_iterated_cons (r : Int × Int) (rs : List (Int × Int)) (i : Int) :
    times_iterated (r :: rs) i = hit r.1 r.2 i + times_iterated rs i := by
  unfold times_iterated hit
  rw [List.countP_cons]
  by_cases h : r.1 ≤ i ∧ i < r.2
  · simp [h]; omega
  · simp [h]

theorem times_iterated_nil (i : Int) : times_iterated [] i = 0 := rfl

theorem times_iterated_append (a b : List (Int × Int)) (i : Int) :
    times_iterated (a ++ b) i = times_iterated a i + times_iterated b i := by
  unfold times_iterated
  exact List.countP_append _ _ _

theorem tasks_cover_nil (i : Int) : tasks_cover [] i = 0 := rfl

theorem tasks_cover_cons (t : ChunkTask) (ts : List ChunkTask) (i : Int) :
    tasks_cover (t :: ts) i =
      hit ((t.chunk - 1) * 2 ^ t.pow) (t.chunk * 2 ^ t.pow) i + tasks_cover ts i := by
  unfold tasks_cover
  rw [List.map_cons, times_iterated_cons]
  rfl

theorem tasks_cover_append (a b : List ChunkTask) (i : Int) :
    tasks_cover (a ++ b) i = tasks_cover a i + tasks_cover b i := by
  unfold tasks_cover
  rw [List.map_append, times_iterated_append]

theorem tasks_cover_reverse (a : List ChunkTask) (i : Int) :
    tasks_cover a.reverse i = tasks_cover a i := by
  unfold tasks_cover times_iterated
  rw [List.map_reverse, List.countP_reverse]

theorem tasks_weight_nil : tasks_weight [] = 0 := rfl

theorem tasks_weight_cons (t : ChunkTask) (ts : List ChunkTask) :
    tasks_weight (t :: ts) = 2 ^ t.pow + tasks_weight ts := by
  unfold tasks_weight
  rw [List.map_cons, List.sum_cons]
  rfl

theorem tasks_weight_append (a b : List ChunkTask) :
    tasks_weight (a ++ b) = tasks_weight a + tasks_weight b := by
  unfold tasks_weight
  rw [List.map_append, List.sum_append]

theorem tasks_weight_reverse (a : List ChunkTask) :
    tasks_weight a.reverse = tasks_weight a := by
  unfold tasks_weight
  rw [List.map_reverse, List.sum_reverse]

theorem chunk_loop_cond_small (S : Int) (cs : Nat) (c : Int) (hS : 1 ≤ S) :
    chunk_loop_cond S cs 0 c = some false := by
  unfold chunk_loop_cond
  rw [shl_one_eq 0 (by omega)]
  simp only [pow_zero, Option.map_some', Option.some.injEq, Bool.and_eq_false_imp,
    decide_eq_true_eq, decide_eq_false_iff_not]
  intro h
  omega

theorem chunk_loop_cond_some (S : Int) (cs : Nat) (p : Nat) (c : Int) (hp : p ≤ 30) :
    ∃ b, chunk_loop_cond S cs p c = some b := by
  unfold chunk_loop_cond
  rw [shl_one_eq p hp]
  exact ⟨_, rfl⟩

/-- The loop of `do_chunked_array` on a full chunk: it ends, what it pushes are full chunks,
and these together with the chunk left over make up the chunk it started from. -/
theorem chunk_split_loop_spec (S : Int) (cs : Nat) (len : Int) (hS : 1 ≤ S)
    (hlen : len < 2147483648) :
    ∀ (p : Nat) (c : Int), p ≤ 30 → 1 ≤ c → c * 2 ^ p ≤ len →
      ∃ pushed c1 p1, chunk_split_loop S cs p c = some (pushed, c1, p1) ∧
        p1 ≤ p ∧ 1 ≤ c1 ∧ c1 * 2 ^ p1 = c * 2 ^ p ∧
        (∀ t ∈ pushed, t.Valid len) ∧
        (∀ i, tasks_cover pushed i + hit ((c1 - 1) * 2 ^ p1) (c1 * 2 ^ p1) i =
          hit ((c - 1) * 2 ^ p) (c * 2 ^ p) i) ∧
        tasks_weight pushed + 2 ^ p1 = 2 ^ p := by
  intro p
  induction p with
  | zero =>
    intro c _ hc hcl
    refine ⟨[], c, 0, ?_, Nat.le_refl _, hc, rfl, by simp, fun i => ?_, ?_⟩
    · simp only [chunk_split_loop, chunk_loop_cond_small S cs c hS]
    · rw [tasks_cover_nil, Nat.zero_add]
    · rw [tasks_weight_nil, Nat.zero_add]
  | succ p ih =>
    intro c hp hc hcl
    obtain ⟨b, hb⟩ := chunk_loop_cond_some S cs (p + 1) c hp
    cases b with
    | false =>
      refine ⟨[], c, p + 1, ?_, Nat.le_refl _, hc, rfl, by simp, fun i => ?_, ?_⟩
      · simp only [chunk_split_loop, hb]
      · rw [tasks_cover_nil, Nat.zero_add]
      · rw [tasks_weight_nil, Nat.zero_add]
    | true =>
      have hP := two_pow_pos p
      have e1 : c * 2 ^ (p + 1) = 2 * (c * 2 ^ p) := by ring
      have hX : c ≤ c * 2 ^ p := by nlinarith
      have h2c : to_int (c * 2) = 2 * c := by
        rw [to_int_eq _ (by omega) (by omega)]
        ring
      have h2c1 : to_int (2 * c - 1) = 2 * c - 1 :=
        to_int_eq _ (by omega) (by omega)
      obtain ⟨pushed, c1, p1, q1, q2, q3, q4, q5, q6, q7⟩ := ih (2 * c) (by omega) (by omega)
        (by rw [show 2 * c * 2 ^ p = 2 * (c * 2 ^ p) by ring]; omega)
      refine ⟨{ chunk := 2 * c - 1, pow := p } :: pushed, c1, p1, ?_, by omega, q3,
        by rw [q4]; ring, ?_, fun i => ?_, ?_⟩
      · simp only [chunk_split_loop, hb, h2c, h2c1, q1, Option.map_some']
      · intro t ht
        rcases List.mem_cons.mp ht with rfl | ht
        · refine ⟨by simp only; omega, ?_, by simp only; omega⟩
          simp only
          rw [show (2 * c - 1) * 2 ^ p = 2 * (c * 2 ^ p) - 2 ^ p by ring]
          omega
        · exact q5 t ht
      · rw [tasks_cover_cons, Nat.add_assoc, q6 i]
        simp only
        rw [show (2 * c - 1 - 1) * 2 ^ p = 2 * (c * 2 ^ p) - 2 * 2 ^ p by ring,
          show (2 * c - 1) * 2 ^ p = 2 * (c * 2 ^ p) - 2 ^ p by ring,
          show 2 * c * 2 ^ p = 2 * (c * 2 ^ p) by ring,
          show (c - 1) * 2 ^ (p + 1) = 2 * (c * 2 ^ p) - 2 * 2 ^ p by ring, e1]
        unfold hit
        split_ifs <;> omega
      · rw [tasks_weight_cons, Nat.add_assoc, q7]
        simp only
        ring
/-- `do_chunked_array` on a full chunk returns; what it pushes are full chunks, and these
together with the range it iterates make up the chunk. -/
theorem do_chunked_array_spec (stride cs : Nat) (len : Int) (hS : 1 ≤ to_int stride)
    (hlen : len < 2147483648) (t : ChunkTask) (ht : t.Valid len) :
    ∃ pushed r, do_chunked_array stride cs t = some (pushed, r) ∧
      (∀ u ∈ pushed, u.Valid len) ∧
      (∀ i, tasks_cover pushed i + hit r.1 r.2 i =
        hit ((t.chunk - 1) * 2 ^ t.pow) (t.chunk * 2 ^ t.pow) i) ∧
      tasks_weight pushed + 1 ≤ 2 ^ t.pow := by
  obtain ⟨v1, v2, v3⟩ := ht
  obtain ⟨pushed, c1, p1, q1, q2, q3, q4, q5, q6, q7⟩ :=
    chunk_split_loop_spec (to_int stride) cs len hS hlen t.pow t.chunk v3 v1 v2
  have hP := two_pow_pos p1
  have e1 : (c1 - 1) * 2 ^ p1 = c1 * 2 ^ p1 - 2 ^ p1 := by ring
  have hc1 : c1 ≤ c1 * 2 ^ p1 := by nlinarith
  have hto : to_int (c1 * 2 ^ p1) = c1 * 2 ^ p1 :=
    to_int_eq _ (by omega) (by omega)
  have hnn : 0 ≤ (c1 - 1) * 2 ^ p1 := mul_nonneg (by omega) (le_of_lt hP)
  have hfrom : to_int ((c1 - 1) * 2 ^ p1) = (c1 - 1) * 2 ^ p1 :=
    to_int_eq _ (by omega) (by omega)
  refine ⟨pushed, ((c1 - 1) * 2 ^ p1, c1 * 2 ^ p1), ?_, q5, q6, ?_⟩
  · unfold do_chunked_array
    simp only [q1, shl_one_eq p1 (by omega), Option.map_some', hto, hfrom]
  · have h1 : 1 ≤ 2 ^ p1 := Nat.one_le_two_pow
    omega

/-- Draining a queue of full chunks ends within as many steps as the chunks have indices,
and every index of every chunk is iterated as often as it occurs in the queue. -/
theorem drain_chunks_spec (stride cs : Nat) (len : Int) (hS : 1 ≤ to_int stride)
    (hlen : len < 2147483648) :
    ∀ (fuel : Nat) (tasks : List ChunkTask), (∀ t ∈ tasks, t.Valid len) →
      tasks_weight tasks ≤ fuel →
      ∃ rs, drain_chunks stride cs fuel tasks = some rs ∧
        ∀ i, times_iterated rs i = tasks_cover tasks i := by
  intro fuel
  induction fuel with
  | zero =>
    intro tasks _ hw
    cases tasks with
    | nil => exact ⟨[], rfl, fun i => rfl⟩
    | cons t ts =>
      rw [tasks_weight_cons] at hw
      have h1 : 1 ≤ 2 ^ t.pow := Nat.one_le_two_pow
      omega
  | succ fuel ih =>
    intro tasks hv hw
    cases tasks with
    | nil => exact ⟨[], rfl, fun i => rfl⟩
    | cons t ts =>
      obtain ⟨pushed, r, e1, a1, a2, a3⟩ := do_chunked_array_spec stride cs len hS hlen t
        (hv t (List.mem_cons_self _ _))
      rw [tasks_weight_cons] at hw
      obtain ⟨rs, e2, b1⟩ := ih (pushed.reverse ++ ts)
        (by
          intro u hu
          rcases List.mem_append.mp hu with h1 | h1
          · exact a1 u (List.mem_reverse.mp h1)
          · exact hv u (List.mem_cons_of_mem _ h1))
        (by rw [tasks_weight_append, tasks_weight_reverse]; omega)
      refine ⟨r :: rs, ?_, fun i => ?_⟩
      · simp only [drain_chunks, e1, e2, Option.map_some']
      · rw [times_iterated_cons, b1 i, tasks_cover_append, tasks_cover_reverse,
          tasks_cover_cons, ← a2 i]
        omega
/-- The loop of `do_chunked_array_start`, entered with the chunk `(chunk, pow)` that begins
at `last_idx` and reaches past the end of the array: it ends, what it pushes are full chunks,
and these make up the indices from `last_idx` to the final `last_idx`, which is below
`len`. -/
theorem chunk_start_loop_spec (S : Int) (cs : Nat) (len : Int) (hS : 1 ≤ S)
    (hlen : len < 2147483648) :
    ∀ (p : Nat) (c last : Int), p ≤ 30 → 1 ≤ c → last = (c - 1) * 2 ^ p → last < len →
      len ≤ c * 2 ^ p → c * 2 ^ p ≤ 2147483648 →
      ∃ pushed last1, chunk_start_loop S cs len p c last = some (pushed, last1) ∧
        (∀ t ∈ pushed, t.Valid len) ∧ last ≤ last1 ∧ last1 < len ∧
        (∀ i, tasks_cover pushed i + hit last1 len i = hit last len i) ∧
        (tasks_weight pushed : Int) = last1 - last := by
  intro p
  induction p with
  | zero =>
    intro c last _ _ _ hl _ _
    refine ⟨[], last, ?_, by simp, le_refl _, hl, fun i => ?_, ?_⟩
    · simp only [chunk_start_loop, chunk_loop_cond_small S cs c hS]
    · rw [tasks_cover_nil, Nat.zero_add]
    · rw [tasks_weight_nil]; simp
  | succ p ih =>
    intro c last hp hc hlast hl hlen2 hbound
    obtain ⟨b, hb⟩ := chunk_loop_cond_some S cs (p + 1) c hp
    cases b with
    | false =>
      refine ⟨[], last, ?_, by simp, le_refl _, hl, fun i => ?_, ?_⟩
      · simp only [chunk_start_loop, hb]
      · rw [tasks_cover_nil, Nat.zero_add]
      · rw [tasks_weight_nil]; simp
    | true =>
      have hP := two_pow_pos p
      have e1 : c * 2 ^ (p + 1) = 2 * (c * 2 ^ p) := by ring
      have e2 : (c - 1) * 2 ^ (p + 1) = 2 * (c * 2 ^ p) - 2 * 2 ^ p := by ring
      have e3 : (2 * c - 1) * 2 ^ p = 2 * (c * 2 ^ p) - 2 ^ p := by ring
      have e4 : (2 * c - 1 - 1) * 2 ^ p = 2 * (c * 2 ^ p) - 2 * 2 ^ p := by ring
      have e5 : 2 * c * 2 ^ p = 2 * (c * 2 ^ p) := by ring
      rw [e1] at hlen2 hbound
      rw [e2] at hlast
      have hX : c ≤ c * 2 ^ p := by nlinarith
      have hnn : 0 ≤ (c - 1) * 2 ^ p := mul_nonneg (by omega) (le_of_lt hP)
      have e6 : (c - 1) * 2 ^ p = c * 2 ^ p - 2 ^ p := by ring
      rw [e6] at hnn
      have hleft : to_int (to_int (c * 2) - 1) = 2 * c - 1 := by
        rw [to_int_pred, to_int_eq _ (by omega) (by omega)]
        ring
      have hend : to_int ((2 * c - 1) * 2 ^ p) = 2 * (c * 2 ^ p) - 2 ^ p := by
        rw [e3]
        exact to_int_eq _ (by omega) (by omega)
      simp only [chunk_start_loop, hb, hleft, shl_one_eq p (by omega), hend]
      by_cases hlt : 2 * (c * 2 ^ p) - 2 ^ p < len
      · rw [if_pos hlt]
        have h2c : 2 * c < 2147483648 := by
          rcases Nat.eq_zero_or_pos p with h0 | h0
          · subst h0
            simp only [pow_zero, mul_one] at hlt
            omega
          · have h2 : (2 : Int) * 2 ^ (p - 1) = 2 ^ p := by
              rw [← pow_succ']
              congr 1
              omega
            have h3 := two_pow_pos (p - 1)
            have h4 : 2 * c ≤ c * 2 ^ p := by
              rw [← h2]
              nlinarith
            omega
        have hright : to_int (c * 2) = 2 * c := by
          rw [to_int_eq _ (by omega) (by omega)]
          ring
        rw [hright]
        obtain ⟨pushed, last1, q1, q2, q3, q4, q5, q6⟩ := ih (2 * c)
          (2 * (c * 2 ^ p) - 2 ^ p) (by omega) (by omega) e3.symm hlt
          (by rw [e5]; exact hlen2) (by rw [e5]; exact hbound)
        refine ⟨{ chunk := 2 * c - 1, pow := p } :: pushed, last1, ?_, ?_, by omega, q4,
          fun i => ?_, ?_⟩
        · rw [q1]
          rfl
        · intro t ht
          rcases List.mem_cons.mp ht with rfl | ht
          · refine ⟨by simp only; omega, ?_, by simp only; omega⟩
            simp only
            rw [e3]
            omega
          · exact q2 t ht
        · rw [tasks_cover_cons, Nat.add_assoc, q5 i]
          simp only
          rw [e4, e3, hlast]
          unfold hit
          split_ifs <;> omega
        · rw [tasks_weight_cons]
          push_cast
          rw [q6, hlast]
          ring
      · rw [if_neg hlt]
        obtain ⟨pushed, last1, q1, q2, q3, q4, q5, q6⟩ := ih (2 * c - 1) last (by omega)
          (by omega) (by rw [e4]; exact hlast) hl (by rw [e3]; omega) (by rw [e3]; omega)
        exact ⟨pushed, last1, q1, q2, q3, q4, q5, q6⟩
theorem hit_single (a b i : Int) : times_iterated [(a, b)] i = hit a b i := by
  rw [times_iterated_cons, times_iterated_nil, Nat.add_zero]

/-- `do_chunked_array_start` returns; what it pushes are full chunks, and these together
with the ranges it iterates itself make up `[0, len)`. -/
theorem do_chunked_array_start_spec (stride cs : Nat) (len : Int)
    (hS1 : 0 < to_int stride) (hS2 : to_int stride < 1073741824) (h0 : 0 ≤ len)
    (hlen : len < 2147483648) :
    ∃ pushed ranges, do_chunked_array_start stride cs len = some (pushed, ranges) ∧
      (∀ t ∈ pushed, t.Valid len) ∧
      (∀ i, tasks_cover pushed i + times_iterated ranges i = hit 0 len i) ∧
      (tasks_weight pushed : Int) ≤ len := by
  have h2S : to_int (to_int stride * 2) = 2 * to_int stride := by
    rw [to_int_eq _ (by omega) (by omega)]
    ring
  unfold do_chunked_array_start
  rw [h2S]
  by_cases hle : len ≤ 2 * to_int stride
  · rw [if_pos hle]
    refine ⟨[], [(0, len)], rfl, by simp, fun i => ?_, ?_⟩
    · rw [tasks_cover_nil, hit_single, Nat.zero_add]
    · rw [tasks_weight_nil]
      exact_mod_cast h0
  · rw [if_neg hle]
    obtain ⟨n, hn⟩ : ∃ n : Nat, len = n := ⟨len.toNat, (Int.toNat_of_nonneg h0).symm⟩
    subst hn
    have hn0 : n ≠ 0 := by omega
    have hlog : log2i_graceful (n : Int) = (Nat.log2 n : Int) := by
      unfold log2i_graceful
      rw [if_neg (by omega), if_neg (by omega), Int.toNat_natCast]
    have hb1 : (2 : Int) ^ Nat.log2 n ≤ n := by exact_mod_cast Nat.log2_self_le hn0
    have hb2 : (n : Int) < 2 ^ (Nat.log2 n + 1) := by
      exact_mod_cast (Nat.lt_log2_self : n < 2 ^ (n.log2 + 1))
    have hb3 : Nat.log2 n < 31 := (Nat.log2_lt hn0).mpr (by omega)
    rw [hlog]
    generalize Nat.log2 n = b at hb1 hb2 hb3
    have hnneg : ¬ ((b : Int) < 0) := by omega
    simp only [hnneg, if_false, Int.toNat_natCast, shl_one_eq b (by omega)]
    have hloop := chunk_start_loop_spec (to_int stride) cs (n : Int) (by omega) hlen
    by_cases heq : (n : Int) = 2 ^ b
    · have hbits : (if (n : Int) ≠ 2 ^ b then b + 1 else b) = b := by
        rw [if_neg (by simpa using heq)]
      rw [hbits, if_neg (by omega)]
      obtain ⟨pushed, last1, q1, q2, q3, q4, q5, q6⟩ := hloop b 1 0 (by omega) (le_refl _)
        (by simp) (by omega) (by rw [one_mul, heq]) (by rw [one_mul]; omega)
      refine ⟨[] ++ pushed, [(last1, n)], ?_, ?_, fun i => ?_, ?_⟩
      · simp only [q1, Option.map_some', q4, if_true]
      · simpa using q2
      · rw [List.nil_append, hit_single]
        exact q5 i
      · rw [List.nil_append, q6]
        omega
    · have hbits : (if (n : Int) ≠ 2 ^ b then b + 1 else b) = b + 1 := by
        rw [if_pos heq]
      rw [hbits]
      have hpow : (2 : Int) ^ (b + 1) = 2 * 2 ^ b := by ring
      by_cases hb : b + 1 ≥ 31
      · have hb30 : b = 30 := by omega
        subst hb30
        rw [if_pos hb]
        have h30 : (2 : Int) ^ 30 = 1073741824 := by norm_num
        obtain ⟨pushed, last1, q1, q2, q3, q4, q5, q6⟩ := hloop 30 2 (2 ^ 30) (by omega)
          (by omega) (by ring) (by omega) (by omega) (by omega)
        refine ⟨[{ chunk := 1, pow := 30 }] ++ pushed, [(last1, n)], ?_, ?_, fun i => ?_, ?_⟩
        · rw [show 30 + 1 - 1 = 30 from rfl, shl_one_eq 30 (by omega)]
          simp only [Option.map_some', q1, q4, if_true]
        · intro t ht
          rcases List.mem_append.mp ht with h1 | h1
          · simp only [List.mem_singleton] at h1
            subst h1
            refine ⟨le_refl _, ?_, le_refl _⟩
            simp only
            omega
          · exact q2 t h1
        · rw [tasks_cover_append, tasks_cover_cons, tasks_cover_nil, hit_single,
            Nat.add_zero, Nat.add_assoc, q5 i]
          simp only [sub_self, zero_mul, one_mul]
          unfold hit
          split_ifs <;> omega
        · rw [tasks_weight_append, tasks_weight_cons, tasks_weight_nil]
          push_cast
          rw [q6]
          omega
      · rw [if_neg hb]
        obtain ⟨pushed, last1, q1, q2, q3, q4, q5, q6⟩ := hloop (b + 1) 1 0 (by omega)
          (le_refl _) (by simp) (by omega) (by rw [one_mul]; omega)
          (by
            rw [one_mul, hpow]
            have := two_pow_le b (by omega)
            norm_num at this
            omega)
        refine ⟨[] ++ pushed, [(last1, n)], ?_, ?_, fun i => ?_, ?_⟩
        · simp only [q1, Option.map_some', q4, if_true]
        · simpa using q2
        · rw [List.nil_append, hit_single]
          exact q5 i
        · rw [List.nil_append, q6]
          omega
/-- C16, as stated, fails: `ObjArrayMarkingStride = 4294967296` is positive, and
`(int) ObjArrayMarkingStride` is 0; for an array of length 1 the test of line 153 fails, the
loop of line 185 is entered with `pow = 0`, decrements `pow` to -1 and evaluates
`1 << pow`, which is undefined: no index is iterated in a defined way, whatever the number
of steps allowed.  Likewise `ObjArrayMarkingStride = 1073741824`, whose double does not fit
an `int`, sends the empty array to `1 << log2i_graceful(0)`, a shift by -1. -/
theorem chunked_array_counterexample :
    0 < 4294967296 ∧ to_int (4294967296 : Nat) = 0 ∧
    (∀ fuel, mark_objArray 4294967296 1024 1 fuel = none) ∧
    (∀ fuel, mark_objArray 1073741824 1024 0 fuel = none) := by
  refine ⟨by norm_num, by decide, fun fuel => ?_, fun fuel => ?_⟩
  · have h1 : to_int ((4294967296 : Nat) : Int) = 0 := by decide
    have h2 : log2i_graceful 1 = 0 := by
      unfold log2i_graceful
      simp [Nat.log2]
    have h : do_chunked_array_start 4294967296 1024 1 = none := by
      unfold do_chunked_array_start
      rw [h1, h2]
      decide
    rw [mark_objArray, h]
    rfl
  · have h1 : to_int (to_int ((1073741824 : Nat) : Int) * 2) = -2147483648 := by decide
    have h2 : log2i_graceful 0 = -1 := by
      unfold log2i_graceful
      simp
    have h : do_chunked_array_start 1073741824 1024 0 = none := by
      unfold do_chunked_array_start
      rw [h1, h2]
      decide
    rw [mark_objArray, h]
    rfl

/-- C16, amended: for every array length `len` with `0 <= len < 2^31`, every
`ObjArrayMarkingStride` whose value as an `int` is positive and below `2^30` (so that
`(int) ObjArrayMarkingStride * 2` is computed without overflow), and every chunk-id limit
`ShenandoahMarkTask::chunk_size()`, running `do_chunked_array_start` and then
`do_chunked_array` on every chunk task pushed, directly or not, ends within `len` tasks and
iterates each array index in `[0, len)` exactly once and no other index: the ranges passed to
`oop_iterate_range` are pairwise disjoint and their union is `[0, len)`. -/
theorem chunked_array_covers_once (stride cs : Nat) (len : Int) (fuel : Nat)
    (hS1 : 0 < to_int stride) (hS2 : to_int stride < 2 ^ 30) (h0 : 0 ≤ len)
    (hlen : len < 2 ^ 31) (hfuel : len ≤ fuel) :
    ∃ rs, mark_objArray stride cs len fuel = some rs ∧
      ∀ i, times_iterated rs i = if 0 ≤ i ∧ i < len then 1 else 0 := by
  have hS2b : to_int stride < 1073741824 := hS2
  have hlenb : len < 2147483648 := hlen
  clear hS2 hlen
  obtain ⟨pushed, ranges, e1, a1, a2, a3⟩ :=
    do_chunked_array_start_spec stride cs len hS1 hS2b h0 hlenb
  obtain ⟨rs, e2, b1⟩ := drain_chunks_spec stride cs len (by omega) hlenb fuel pushed.reverse
    (fun t ht => a1 t (List.mem_reverse.mp ht))
    (by rw [tasks_weight_reverse]; omega)
  refine ⟨ranges ++ rs, ?_, fun i => ?_⟩
  · rw [mark_objArray, e1, Option.some_bind, e2]
    rfl
  · rw [times_iterated_append, b1 i, tasks_cover_reverse, Nat.add_comm, a2 i]
    unfold hit
    rfl

/-- The array of 100000 elements with the default stride 2048 and 1024 chunk ids. -/
theorem chunked_array_covers_once_witness :
    (0 < to_int (2048 : Nat) ∧ to_int (2048 : Nat) < 2 ^ 30) ∧
    ∃ rs, mark_objArray 2048 1024 100000 100000 = some rs ∧
      ∀ i, times_iterated rs i = if 0 ≤ i ∧ i < (100000 : Int) then 1 else 0 :=
  ⟨⟨by decide, by decide⟩,
   chunked_array_covers_once 2048 1024 100000 100000 (by decide) (by decide) (by decide)
    (by decide) (by decide)⟩

/-! ## Theorems: sizing the generations -/

/-- C22: in generational mode, a `MaxNewSize` given on the command line is an upper bound of
`young_generation_capacity(c)` for every capacity `c`, and when `NewSize` is given too and
`MaxNewSize < NewSize` the result is exactly `MaxNewSize`. -/
theorem max_new_size_is_upper_bound (f : GenSizingFlags) (c : Nat)
    (hmode : f.ShenandoahGCMode = "generational")
    (hmax : f.FLAG_IS_CMDLINE_MaxNewSize = true) :
    young_generation_capacity f c ≤ f.MaxNewSize ∧
    (f.FLAG_IS_CMDLINE_NewSize = true → f.MaxNewSize < f.NewSize →
      young_generation_capacity f c = f.MaxNewSize) := by
  unfold young_generation_capacity
  rw [if_pos hmode, hmax]
  simp only [Bool.not_true, Bool.and_false, Bool.false_and, Bool.false_eq_true, if_false,
    if_true, MIN2_eq_min]
  refine ⟨Nat.min_le_left _ _, fun hnew hlt => ?_⟩
  rw [if_pos hnew, MAX2_eq_max]
  exact Nat.min_eq_left (le_trans (le_of_lt hlt) (Nat.le_max_left _ _))

/-- With `-XX:NewSize=512m -XX:MaxNewSize=256m` the young capacity of a heap of 1 GB is
256 MB. -/
theorem max_new_size_is_upper_bound_witness :
    young_generation_capacity max_new_size_below_new_size 1073741824 ≤ 268435456 ∧
    (max_new_size_below_new_size.FLAG_IS_CMDLINE_NewSize = true →
      max_new_size_below_new_size.MaxNewSize < max_new_size_below_new_size.NewSize →
      young_generation_capacity max_new_size_below_new_size 1073741824 = 268435456) :=
  max_new_size_is_upper_bound max_new_size_below_new_size 1073741824 rfl rfl

/-- A `NewSize` that does not exceed the capacity keeps the young capacity within it. -/
theorem young_generation_capacity_le (f : GenSizingFlags) (c : Nat) (h : f.NewSize ≤ c) :
    young_generation_capacity f c ≤ c := by
  have hdiv : c / (f.NewRatio + 1) ≤ c := Nat.div_le_self _ _
  unfold young_generation_capacity
  simp only [MIN2_eq_min, MAX2_eq_max]
  split_ifs <;> omega

/-- Without `NewSize` on the command line the young capacity is within the capacity. -/
theorem young_generation_capacity_le_of_default (f : GenSizingFlags) (c : Nat)
    (h : f.FLAG_IS_CMDLINE_NewSize = false) : young_generation_capacity f c ≤ c := by
  have hdiv : c / (f.NewRatio + 1) ≤ c := Nat.div_le_self _ _
  unfold young_generation_capacity
  rw [h]
  simp only [MIN2_eq_min, Bool.false_and, Bool.false_eq_true, if_false]
  split_ifs <;> omega

/-- C30 fails on the code: with `-XX:ShenandoahGCMode=generational -XX:NewSize=2g
-XX:NewRatio=2` and a heap of 1 GB, `young_generation_capacity` returns 2 GB, the lower bound
`NewSize`, which exceeds the capacity; the subtractions of `initialize_generations` and of
`set_soft_max_capacity` wrap around, and the old generation gets a capacity of
`2^64 - 2^30` bytes, so that young and old capacity do not add up to the capacity. -/
theorem young_capacity_above_heap :
    young_generation_capacity new_size_above_heap 1073741824 = 2147483648 ∧
    heap_of_one_gigabyte._old_generation =
      { _max_capacity := 18446744072635809792, _soft_max_capacity := 18446744072635809792 } ∧
    (set_soft_max_capacity {} new_size_above_heap 1073741824 heap_of_one_gigabyte)._old_generation
      = { _max_capacity := 18446744072635809792, _soft_max_capacity := 18446744072635809792 } ∧
    2147483648 + 18446744072635809792 ≠ 1073741824 := by
  decide

/-! ## Theorems: region ages at the end of a cycle -/

/-- C26: in generational mode, `heap_region_do` of
`ShenandoahFinalUpdateRefsUpdateRegionStateClosure` applied to a young region resets the age
to 0 when `top > TAMS`, increments it by one when `top <= TAMS` in an aging cycle, and leaves
it unchanged otherwise; the age of a region that is not young is never changed. -/
theorem final_update_refs_region_age (env : Env) (h : ShenandoahHeap) (tams pin_count : Nat)
    (r : ShenandoahHeapRegion) (hgen : env.is_generational = true) :
    (r.is_young = true → r._top > tams →
      (ShenandoahFinalUpdateRefsUpdateRegionStateClosure.heap_region_do env h tams pin_count
        r).age = 0) ∧
    (r.is_young = true → r._top ≤ tams → is_aging_cycle h = true →
      (ShenandoahFinalUpdateRefsUpdateRegionStateClosure.heap_region_do env h tams pin_count
        r).age = r.age + 1) ∧
    (r.is_young = true → r._top ≤ tams → is_aging_cycle h = false →
      (ShenandoahFinalUpdateRefsUpdateRegionStateClosure.heap_region_do env h tams pin_count
        r).age = r.age) ∧
    (r.is_young = false →
      (ShenandoahFinalUpdateRefsUpdateRegionStateClosure.heap_region_do env h tams pin_count
        r).age = r.age) := by
  have key : ∀ r1 : ShenandoahHeapRegion,
      (if r1.is_active then
        if r1.is_pinned then (if pin_count = 0 then r1.make_unpinned else r1)
        else (if pin_count > 0 then r1.make_pinned else r1)
      else r1).age = r1.age := by
    intro r1
    split_ifs <;> rfl
  unfold ShenandoahFinalUpdateRefsUpdateRegionStateClosure.heap_region_do
  simp only [key, hgen, Bool.true_and]
  refine ⟨fun hy ht => ?_, fun hy ht ha => ?_, fun hy ht ha => ?_, fun hy => ?_⟩
  · rw [if_pos hy, if_pos ht]
    rfl
  · rw [if_pos hy, if_neg (by omega), if_pos ha]
    rfl
  · rw [if_pos hy, if_neg (by omega), if_neg (by simp [ha])]
  · rw [if_neg (by simp [hy])]

/-- The young region `survivor_region`, of age 3 and with `top = 100`: allocations above a
TAMS of 40 reset its age; with a TAMS of 100 an aging cycle makes it 4. -/
theorem final_update_refs_region_age_witness :
    (ShenandoahFinalUpdateRefsUpdateRegionStateClosure.heap_region_do {} {} 40 0
      survivor_region).age = 0 ∧
    (ShenandoahFinalUpdateRefsUpdateRegionStateClosure.heap_region_do {}
      { _is_aging_cycle := true } 100 0 survivor_region).age = 4 :=
  ⟨(final_update_refs_region_age {} {} 40 0 survivor_region rfl).1 rfl (by decide),
   (final_update_refs_region_age {} { _is_aging_cycle := true } 100 0 survivor_region
      rfl).2.1 rfl (by decide) rfl⟩

/-! ## Theorems: generational evacuation -/

/-- C28 fails on the code: with `InitialTenuringThreshold = 7`, a young, active
humongous-start region outside the collection set whose age is 7, the tenure threshold, is
visited by `do_work` and not promoted, although `age() >= InitialTenuringThreshold`; the test
of line 1463 is `age() > InitialTenuringThreshold`.  At age 8 the region is promoted. -/
theorem humongous_at_threshold_not_promoted :
    (humongous_start_region 7).age ≥ ({} : Flags).InitialTenuringThreshold ∧
    humongous_promoted
      (ShenandoahGenerationalEvacuationTask.do_work {} false [0]
        { _regions := [humongous_start_region 7] }) 0 = false ∧
    humongous_promoted
      (ShenandoahGenerationalEvacuationTask.do_work {} false [0]
        { _regions := [humongous_start_region 8] }) 0 = true := by
  decide
/-! ## Theorems: update watermarks on the way to the restart of evacuation -/

theorem region_bounds_emit (e : Ev) (h : ShenandoahHeap) :
    (emit e h)._regions.map region_bounds = h._regions.map region_bounds :=
  rfl

theorem region_bounds_call {env : Env} (hk : KeepsRegionBounds env) {op : ExtOp}
    (hop : op ∈ evac_restart_ops) (h : ShenandoahHeap) :
    (call env op h)._regions.map region_bounds = h._regions.map region_bounds :=
  hk op hop h

theorem region_bounds_guarded {c : ShenandoahHeap → Bool} {f : Stmt}
    (hf : ∀ h, (f h)._regions.map region_bounds = h._regions.map region_bounds)
    (h : ShenandoahHeap) :
    (guarded c f h)._regions.map region_bounds = h._regions.map region_bounds := by
  unfold guarded
  split
  · exact hf h
  · rfl

/-- What the loop of lines 217 to 222 does to the bounds of one region. -/
theorem region_bounds_advance (h : ShenandoahHeap) :
    (advance_update_watermarks h)._regions.map region_bounds =
      (h._regions.map region_bounds).map
        (fun b => if b.2.2 && decide (b.1 > b.2.1) then (b.1, b.1, b.2.2) else b) := by
  unfold advance_update_watermarks
  simp only [List.map_map]
  apply List.map_congr_left
  intro r _
  simp only [Function.comp, region_bounds]
  split <;> rfl

theorem region_bounds_before_switch {env : Env} (hk : KeepsRegionBounds env)
    (h : ShenandoahHeap) :
    (degen_before_switch env h)._regions.map region_bounds = h._regions.map region_bounds := by
  show (call env .metrics_snap_before (clear_cancelled_gc true h))._regions.map region_bounds = _
  rw [region_bounds_call hk (by decide)]
  unfold clear_cancelled_gc
  simp only [if_true]
  split <;> rfl

theorem region_bounds_evac_entry {env : Env} (hk : KeepsRegionBounds env)
    (gc : ShenandoahDegenGC) (h : ShenandoahHeap) :
    (evac_entry env gc h)._regions.map region_bounds = h._regions.map region_bounds := by
  show (evac_coalesce env gc (emit (.case_label ._degenerated_evac) h))._regions.map
    region_bounds = _
  unfold evac_coalesce
  rw [region_bounds_guarded, region_bounds_emit]
  intro h1
  show (call env .coalesce_and_fill_old_regions
    (emit (.op .op_global_coalesce_and_fill) h1))._regions.map region_bounds = _
  rw [region_bounds_call hk (by decide), region_bounds_emit]

theorem region_bounds_evac_restart {env : Env} (hk : KeepsRegionBounds env)
    (gc : ShenandoahDegenGC) (hpoint : gc._degen_point = ._degenerated_evac)
    (h : ShenandoahHeap) :
    (call env .cset_clear_current_index (evac_restart env gc h))._regions.map region_bounds =
      (h._regions.map region_bounds).map
        (fun b => if b.2.2 && decide (b.1 > b.2.1) then (b.1, b.1, b.2.2) else b) := by
  rw [region_bounds_call hk (by decide)]
  show (call env .cset_clear_current_index (call env .sync_pinned_region_status
    (evac_handover env gc h)))._regions.map region_bounds = _
  rw [region_bounds_call hk (by decide), region_bounds_call hk (by decide)]
  unfold evac_handover guarded
  rw [hpoint]
  simp only [beq_self_eq_true, if_true]
  show (advance_update_watermarks
    (guarded (fun _ => env.flags.UseTLAB) (call env .labs_make_parsable) h))._regions.map
      region_bounds = _
  rw [region_bounds_advance, region_bounds_guarded]
  intro h1
  exact region_bounds_call hk (by decide) h1

/-- C23: when `op_degenerated` is entered at the evac point with evacuation in progress and
the collaborators called on the way leave the bounds of the regions alone, then on the heap on
which `op_evacuate` is called every region has the `top` it had on entry, every active region
whose update watermark was at most `top` has its update watermark at `top`, and the update
watermark of every inactive region is unchanged. -/
theorem update_watermarks_advanced (env : Env) (gc : ShenandoahDegenGC)
    (h h_ev : ShenandoahHeap) (hpoint : gc._degen_point = ._degenerated_evac)
    (hk : KeepsRegionBounds env) (hev : evacuation_restart_heap env gc h = some h_ev) :
    is_evacuation_in_progress (evac_entry env gc (degen_before_switch env h)) = true ∧
    h_ev._regions.length = h._regions.length ∧
    ∀ i r, h._regions.get? i = some r →
      ∃ r1, h_ev._regions.get? i = some r1 ∧ r1._top = r._top ∧ r1.is_active = r.is_active ∧
        (r.is_active = true → r._update_watermark ≤ r._top →
          r1._update_watermark = r1._top) ∧
        (r.is_active = false → r1._update_watermark = r._update_watermark) := by
  have hreach : reach_evac env gc h = some (degen_before_switch env h) := by
    unfold reach_evac
    rw [hpoint]
  unfold evacuation_restart_heap at hev
  rw [hreach] at hev
  simp only at hev
  split at hev
  · rename_i hprog
    split at hev
    · exact absurd hev (by simp)
    · have hev1 := Option.some.inj hev
      have hb := region_bounds_evac_restart hk gc hpoint
        (evac_entry env gc (degen_before_switch env h))
      rw [hev1, region_bounds_evac_entry hk, region_bounds_before_switch hk] at hb
      have hlen : h_ev._regions.length = h._regions.length := by
        have := congrArg List.length hb
        simpa using this
      refine ⟨hprog, hlen, fun i r hr => ?_⟩
      have hi : i < h._regions.length := by
        rcases lt_or_ge i h._regions.length with hlt | hge
        · exact hlt
        · rw [List.get?_eq_none.mpr hge] at hr
          exact absurd hr (by simp)
      obtain ⟨r1, hr1⟩ : ∃ r1, h_ev._regions.get? i = some r1 :=
        ⟨h_ev._regions.get ⟨i, by omega⟩, List.get?_eq_get (by omega)⟩
      have hbi := congrArg (fun l => l.get? i) hb
      simp only [List.get?_eq_getElem?, List.getElem?_map] at hbi hr hr1
      rw [hr, hr1] at hbi
      simp only [Option.map_some', Option.some.injEq, region_bounds] at hbi
      refine ⟨r1, by simpa using hr1, ?_⟩
      by_cases ha : r.is_active = true
      · by_cases hw : r._top > r._update_watermark
        · rw [if_pos (by simp [ha, hw])] at hbi
          simp only [Prod.mk.injEq] at hbi
          exact ⟨hbi.1, hbi.2.2, fun _ _ => by omega, fun hf => by rw [ha] at hf; cases hf⟩
        · rw [if_neg (by simp [ha, hw])] at hbi
          simp only [Prod.mk.injEq] at hbi
          exact ⟨hbi.1, hbi.2.2, fun _ _ => by omega, fun hf => by rw [ha] at hf; cases hf⟩
      · rw [if_neg (by simp [ha])] at hbi
        simp only [Prod.mk.injEq] at hbi
        exact ⟨hbi.1, hbi.2.2, fun hf => absurd hf ha, fun _ => hbi.2.1⟩
  · exact absurd hev (by simp)

/-- The heap `heap_with_watermarks` with collaborators that change nothing: the watermark of
the first region moves from 40 to 100, the others stay. -/
theorem update_watermarks_advanced_witness :
    evacuation_restart_heap {} { _degen_point := ._degenerated_evac, _generation := .YOUNG }
      heap_with_watermarks =
      some (call {} .cset_clear_current_index
        (evac_restart {} { _degen_point := ._degenerated_evac, _generation := .YOUNG }
          (evac_entry {} { _degen_point := ._degenerated_evac, _generation := .YOUNG }
            (degen_before_switch {} heap_with_watermarks)))) ∧
    ∀ i r, heap_with_watermarks._regions.get? i = some r →
      ∃ r1, (call {} .cset_clear_current_index
        (evac_restart {} { _degen_point := ._degenerated_evac, _generation := .YOUNG }
          (evac_entry {} { _degen_point := ._degenerated_evac, _generation := .YOUNG }
            (degen_before_switch {} heap_with_watermarks))))._regions.get? i = some r1 ∧
        r1._top = r._top ∧ r1.is_active = r.is_active ∧
        (r.is_active = true → r._update_watermark ≤ r._top →
          r1._update_watermark = r1._top) ∧
        (r.is_active = false → r1._update_watermark = r._update_watermark) :=
  ⟨by decide,
   (update_watermarks_advanced {} { _degen_point := ._degenerated_evac, _generation := .YOUNG }
      heap_with_watermarks _ rfl (fun _ _ _ => rfl) (by decide)).2.2⟩

/-! ## Theorems: the chunk tasks of an array -/

theorem chunk_id_below_limit (c : Int) (cs : Nat) (hc : 1 ≤ c) (hb : c * 2 ≤ 2147483648)
    (h : int_to_uintptr (to_int (c * 2)) < cs) : 2 * c - 1 < cs := by
  unfold int_to_uintptr to_int at h
  omega

theorem chunk_loop_cond_true (S : Int) (cs : Nat) (p : Nat) (c : Int) (hp : p ≤ 30)
    (h : chunk_loop_cond S cs p c = some true) : int_to_uintptr (to_int (c * 2)) < cs := by
  unfold chunk_loop_cond at h
  rw [shl_one_eq p hp] at h
  simp only [Option.map_some', Option.some.injEq, Bool.and_eq_true, decide_eq_true_eq] at h
  exact h.2

/-- The loop of `do_chunked_array` pushes chunk ids below the limit only. -/
theorem chunk_split_loop_ids (S : Int) (cs : Nat) :
    ∀ (p : Nat) (c : Int) (pushed : List ChunkTask) (c1 : Int) (p1 : Nat), p ≤ 30 → 1 ≤ c →
      c * 2 ^ p < 2147483648 → chunk_split_loop S cs p c = some (pushed, c1, p1) →
      ∀ t ∈ pushed, t.chunk < cs := by
  intro p
  induction p with
  | zero =>
    intro c pushed c1 p1 _ _ _ h t ht
    unfold chunk_split_loop at h
    split at h
    · exact absurd h (by simp)
    · exact absurd h (by simp)
    · simp only [Option.some.injEq, Prod.mk.injEq] at h
      rw [← h.1] at ht
      exact absurd ht (List.not_mem_nil _)
  | succ p ih =>
    intro c pushed c1 p1 hp hc hcl h t ht
    have hP := two_pow_pos p
    have e1 : c * 2 ^ (p + 1) = 2 * (c * 2 ^ p) := by ring
    have hX : c ≤ c * 2 ^ p := by nlinarith
    have h2c : to_int (c * 2) = 2 * c := by
      rw [to_int_eq _ (by omega) (by omega)]
      ring
    have h2c1 : to_int (2 * c - 1) = 2 * c - 1 :=
      to_int_eq _ (by omega) (by omega)
    unfold chunk_split_loop at h
    split at h
    · exact absurd h (by simp)
    · simp only [Option.some.injEq, Prod.mk.injEq] at h
      rw [← h.1] at ht
      exact absurd ht (List.not_mem_nil _)
    · rename_i hb
      have hlim := chunk_id_below_limit c cs hc (by omega)
        (chunk_loop_cond_true S cs (p + 1) c hp hb)
      simp only [h2c, h2c1] at h
      cases hrec : chunk_split_loop S cs p (2 * c) with
      | none =>
        rw [hrec] at h
        exact absurd h (by simp)
      | some r =>
        rw [hrec] at h
        simp only [Option.map_some', Option.some.injEq, Prod.mk.injEq] at h
        rw [← h.1] at ht
        rcases List.mem_cons.mp ht with rfl | ht
        · exact hlim
        · exact ih (2 * c) r.1 r.2.1 r.2.2 (by omega) (by omega)
            (by rw [show 2 * c * 2 ^ p = 2 * (c * 2 ^ p) by ring]; omega) hrec t ht

/-- The loop of `do_chunked_array_start` pushes chunk ids below the limit only. -/
theorem chunk_start_loop_ids (S : Int) (cs : Nat) (len : Int) (hlen : len < 2147483648) :
    ∀ (p : Nat) (c last : Int) (pushed : List ChunkTask) (last1 : Int), p ≤ 30 → 1 ≤ c →
      c * 2 ^ p ≤ 2147483648 → chunk_start_loop S cs len p c last = some (pushed, last1) →
      ∀ t ∈ pushed, t.chunk < cs := by
  intro p
  induction p with
  | zero =>
    intro c last pushed last1 _ _ _ h t ht
    unfold chunk_start_loop at h
    split at h
    · exact absurd h (by simp)
    · exact absurd h (by simp)
    · simp only [Option.some.injEq, Prod.mk.injEq] at h
      rw [← h.1] at ht
      exact absurd ht (List.not_mem_nil _)
  | succ p ih =>
    intro c last pushed last1 hp hc hbound h t ht
    have hP := two_pow_pos p
    have e1 : c * 2 ^ (p + 1) = 2 * (c * 2 ^ p) := by ring
    have e3 : (2 * c - 1) * 2 ^ p = 2 * (c * 2 ^ p) - 2 ^ p := by ring
    have e5 : 2 * c * 2 ^ p = 2 * (c * 2 ^ p) := by ring
    rw [e1] at hbound
    have hX : c ≤ c * 2 ^ p := by nlinarith
    have hnn : 0 ≤ (c - 1) * 2 ^ p := mul_nonneg (by omega) (le_of_lt hP)
    have e6 : (c - 1) * 2 ^ p = c * 2 ^ p - 2 ^ p := by ring
    rw [e6] at hnn
    have hleft : to_int (to_int (c * 2) - 1) = 2 * c - 1 := by
      rw [to_int_pred, to_int_eq _ (by omega) (by omega)]
      ring
    have hend : to_int ((2 * c - 1) * 2 ^ p) = 2 * (c * 2 ^ p) - 2 ^ p := by
      rw [e3]
      exact to_int_eq _ (by omega) (by omega)
    unfold chunk_start_loop at h
    split at h
    · exact absurd h (by simp)
    · simp only [Option.some.injEq, Prod.mk.injEq] at h
      rw [← h.1] at ht
      exact absurd ht (List.not_mem_nil _)
    · rename_i hb
      have hlim := chunk_id_below_limit c cs hc (by omega)
        (chunk_loop_cond_true S cs (p + 1) c hp hb)
      simp only [hleft, shl_one_eq p (by omega), hend] at h
      by_cases hlt : 2 * (c * 2 ^ p) - 2 ^ p < len
      · rw [if_pos hlt] at h
        have h2c : 2 * c < 2147483648 := by
          rcases Nat.eq_zero_or_pos p with h0 | h0
          · subst h0
            simp only [pow_zero, mul_one] at hlt
            omega
          · have h2 : (2 : Int) * 2 ^ (p - 1) = 2 ^ p := by
              rw [← pow_succ']
              congr 1
              omega
            have h3 := two_pow_pos (p - 1)
            have h4 : 2 * c ≤ c * 2 ^ p := by
              rw [← h2]
              nlinarith
            omega
        have hright : to_int (c * 2) = 2 * c := by
          rw [to_int_eq _ (by omega) (by omega)]
          ring
        rw [hright] at h
        cases hrec : chunk_start_loop S cs len p (2 * c) (2 * (c * 2 ^ p) - 2 ^ p) with
        | none =>
          rw [hrec] at h
          exact absurd h (by simp)
        | some r =>
          rw [hrec] at h
          simp only [Option.map_some', Option.some.injEq, Prod.mk.injEq] at h
          rw [← h.1] at ht
          rcases List.mem_cons.mp ht with rfl | ht
          · exact hlim
          · exact ih (2 * c) _ r.1 r.2 (by omega) (by omega) (by rw [e5]; exact hbound) hrec
              t ht
      · rw [if_neg hlt] at h
        exact ih (2 * c - 1) last pushed last1 (by omega) (by omega) (by rw [e3]; omega) h t ht
/-- `do_chunked_array_start` pushes chunk ids below the limit only, when the limit is 2 at
least. -/
theorem do_chunked_array_start_ids (stride cs : Nat) (len : Int)
    (hS1 : 0 < to_int stride) (hS2 : to_int stride < 1073741824) (h0 : 0 ≤ len)
    (hlen : len < 2147483648) (hcs : 2 ≤ cs) :
    ∃ pushed ranges, do_chunked_array_start stride cs len = some (pushed, ranges) ∧
      ∀ t ∈ pushed, t.chunk < cs := by
  have h2S : to_int (to_int stride * 2) = 2 * to_int stride := by
    rw [to_int_eq _ (by omega) (by omega)]
    ring
  unfold do_chunked_array_start
  rw [h2S]
  by_cases hle : len ≤ 2 * to_int stride
  · rw [if_pos hle]
    exact ⟨[], [(0, len)], rfl, by simp⟩
  · rw [if_neg hle]
    obtain ⟨n, hn⟩ : ∃ n : Nat, len = n := ⟨len.toNat, (Int.toNat_of_nonneg h0).symm⟩
    subst hn
    have hn0 : n ≠ 0 := by omega
    have hlog : log2i_graceful (n : Int) = (Nat.log2 n : Int) := by
      unfold log2i_graceful
      rw [if_neg (by omega), if_neg (by omega), Int.toNat_natCast]
    have hb1 : (2 : Int) ^ Nat.log2 n ≤ n := by exact_mod_cast Nat.log2_self_le hn0
    have hb2 : (n : Int) < 2 ^ (Nat.log2 n + 1) := by
      exact_mod_cast (Nat.lt_log2_self : n < 2 ^ (n.log2 + 1))
    have hb3 : Nat.log2 n < 31 := (Nat.log2_lt hn0).mpr (by omega)
    rw [hlog]
    generalize Nat.log2 n = b at hb1 hb2 hb3
    have hnneg : ¬ ((b : Int) < 0) := by omega
    simp only [hnneg, if_false, Int.toNat_natCast, shl_one_eq b (by omega)]
    have hloop := chunk_start_loop_spec (to_int stride) cs (n : Int) (by omega) hlen
    have hids := chunk_start_loop_ids (to_int stride) cs (n : Int) hlen
    by_cases heq : (n : Int) = 2 ^ b
    · have hbits : (if (n : Int) ≠ 2 ^ b then b + 1 else b) = b := by
        rw [if_neg (by simpa using heq)]
      rw [hbits, if_neg (by omega)]
      obtain ⟨pushed, last1, q1, q2, q3, q4, q5, q6⟩ := hloop b 1 0 (by omega) (le_refl _)
        (by simp) (by omega) (by rw [one_mul, heq]) (by rw [one_mul]; omega)
      refine ⟨[] ++ pushed, [(last1, n)], ?_, ?_⟩
      · simp only [q1, Option.map_some', q4, if_true]
      · rw [List.nil_append]
        exact hids b 1 0 pushed last1 (by omega) (le_refl _) (by rw [one_mul]; omega) q1
    · have hbits : (if (n : Int) ≠ 2 ^ b then b + 1 else b) = b + 1 := by
        rw [if_pos heq]
      rw [hbits]
      have hpow : (2 : Int) ^ (b + 1) = 2 * 2 ^ b := by ring
      by_cases hb : b + 1 ≥ 31
      · have hb30 : b = 30 := by omega
        subst hb30
        rw [if_pos hb]
        have h30 : (2 : Int) ^ 30 = 1073741824 := by norm_num
        obtain ⟨pushed, last1, q1, q2, q3, q4, q5, q6⟩ := hloop 30 2 (2 ^ 30) (by omega)
          (by omega) (by ring) (by omega) (by omega) (by omega)
        refine ⟨[{ chunk := 1, pow := 30 }] ++ pushed, [(last1, n)], ?_, ?_⟩
        · rw [show 30 + 1 - 1 = 30 from rfl, shl_one_eq 30 (by omega)]
          simp only [Option.map_some', q1, q4, if_true]
        · intro t ht
          rcases List.mem_append.mp ht with h1 | h1
          · simp only [List.mem_singleton] at h1
            subst h1
            simp only
            omega
          · exact hids 30 2 (2 ^ 30) pushed last1 (by omega) (by omega) (by omega) q1 t h1
      · rw [if_neg hb]
        have hbound : (1 : Int) * 2 ^ (b + 1) ≤ 2147483648 := by
          rw [one_mul, hpow]
          have := two_pow_le b (by omega)
          norm_num at this
          omega
        obtain ⟨pushed, last1, q1, q2, q3, q4, q5, q6⟩ := hloop (b + 1) 1 0 (by omega)
          (le_refl _) (by simp) (by omega) (by rw [one_mul]; omega) hbound
        refine ⟨[] ++ pushed, [(last1, n)], ?_, ?_⟩
        · simp only [q1, Option.map_some', q4, if_true]
        · rw [List.nil_append]
          exact hids (b + 1) 1 0 pushed last1 (by omega) (le_refl _) hbound q1

/-- `do_chunked_array` on a full chunk: the range it iterates is a full chunk inside the
chunk it was given, and the chunk ids it pushes are below the limit. -/
theorem do_chunked_array_range (stride cs : Nat) (len : Int) (hS : 1 ≤ to_int stride)
    (hlen : len < 2147483648) (t : ChunkTask) (ht : t.Valid len) :
    ∃ pushed c1 p1, do_chunked_array stride cs t =
        some (pushed, ((c1 - 1) * 2 ^ p1, c1 * 2 ^ p1)) ∧
      1 ≤ c1 ∧ c1 * 2 ^ p1 = t.chunk * 2 ^ t.pow ∧ (∀ u ∈ pushed, u.chunk < cs) := by
  obtain ⟨v1, v2, v3⟩ := ht
  obtain ⟨pushed, c1, p1, q1, q2, q3, q4, q5, q6, q7⟩ :=
    chunk_split_loop_spec (to_int stride) cs len hS hlen t.pow t.chunk v3 v1 v2
  have hP := two_pow_pos p1
  have e1 : (c1 - 1) * 2 ^ p1 = c1 * 2 ^ p1 - 2 ^ p1 := by ring
  have hc1 : c1 ≤ c1 * 2 ^ p1 := by nlinarith
  have hto : to_int (c1 * 2 ^ p1) = c1 * 2 ^ p1 :=
    to_int_eq _ (by omega) (by omega)
  have hnn : 0 ≤ (c1 - 1) * 2 ^ p1 := mul_nonneg (by omega) (le_of_lt hP)
  have hfrom : to_int ((c1 - 1) * 2 ^ p1) = (c1 - 1) * 2 ^ p1 :=
    to_int_eq _ (by omega) (by omega)
  refine ⟨pushed, c1, p1, ?_, q3, q4, ?_⟩
  · unfold do_chunked_array
    simp only [q1, shl_one_eq p1 (by omega), Option.map_some', hto, hfrom]
  · exact chunk_split_loop_ids (to_int stride) cs t.pow t.chunk pushed c1 p1 v3 v1 (by omega) q1

theorem chunk_loop_cond_big (S : Int) (cs : Nat) (p : Nat) (c : Int) (hS : 1073741824 ≤ S)
    (hp : p ≤ 30) : chunk_loop_cond S cs p c = some false := by
  unfold chunk_loop_cond
  rw [shl_one_eq p hp]
  have h1 := two_pow_le p hp
  norm_num at h1
  simp only [Option.map_some', Option.some.injEq, Bool.and_eq_false_imp,
    decide_eq_true_eq, decide_eq_false_iff_not]
  intro h
  omega

theorem chunk_start_loop_big (S : Int) (cs : Nat) (len : Int) (p : Nat) (c last : Int)
    (hS : 1073741824 ≤ S) (hp : p ≤ 30) :
    chunk_start_loop S cs len p c last = some ([], last) := by
  cases p with
  | zero => simp only [chunk_start_loop, chunk_loop_cond_big S cs 0 c hS hp]
  | succ q => simp only [chunk_start_loop, chunk_loop_cond_big S cs (q + 1) c hS hp]

/-- With a stride of `2^30` at least, `do_chunked_array_start` pushes no task but the chunk
`(1, 30)` of an array longer than `2^30`. -/
theorem do_chunked_array_start_big (stride cs : Nat) (len : Int)
    (hS : 1073741824 ≤ to_int stride) (h0 : 0 ≤ len) (hlen : len < 2147483648)
    (pushed : List ChunkTask) (ranges : List (Int × Int))
    (hrun : do_chunked_array_start stride cs len = some (pushed, ranges)) :
    ∀ t ∈ pushed, t = { chunk := 1, pow := 30 } ∧ 1073741824 < len := by
  unfold do_chunked_array_start at hrun
  by_cases hle : len ≤ to_int (to_int stride * 2)
  · rw [if_pos hle] at hrun
    simp only [Option.some.injEq, Prod.mk.injEq] at hrun
    intro t ht
    rw [← hrun.1] at ht
    cases ht
  · rw [if_neg hle] at hrun
    obtain ⟨n, hn⟩ : ∃ n : Nat, len = n := ⟨len.toNat, (Int.toNat_of_nonneg h0).symm⟩
    subst hn
    by_cases hn0 : n = 0
    · subst hn0
      have hlog : log2i_graceful ((0 : Nat) : Int) = -1 := by
        unfold log2i_graceful
        simp
      rw [hlog] at hrun
      simp at hrun
    · have hlog : log2i_graceful (n : Int) = (Nat.log2 n : Int) := by
        unfold log2i_graceful
        rw [if_neg (by omega), if_neg (by omega), Int.toNat_natCast]
      have hb1 : (2 : Int) ^ Nat.log2 n ≤ n := by exact_mod_cast Nat.log2_self_le hn0
      have hb3 : Nat.log2 n < 31 := (Nat.log2_lt hn0).mpr (by omega)
      rw [hlog] at hrun
      generalize Nat.log2 n = b at hb1 hb3 hrun
      have hnneg : ¬ ((b : Int) < 0) := by omega
      simp only [hnneg, if_false, Int.toNat_natCast, shl_one_eq b (by omega)] at hrun
      by_cases heq : (n : Int) = 2 ^ b
      · have hbits : (if (n : Int) ≠ 2 ^ b then b + 1 else b) = b := by
          rw [if_neg (by simpa using heq)]
        rw [hbits, if_neg (by omega)] at hrun
        simp only [chunk_start_loop_big (to_int stride) cs (n : Int) b 1 0 hS (by omega),
          Option.map_some', Option.some.injEq, Prod.mk.injEq] at hrun
        intro t ht
        rw [← hrun.1] at ht
        cases ht
      · have hbits : (if (n : Int) ≠ 2 ^ b then b + 1 else b) = b + 1 := by
          rw [if_pos heq]
        rw [hbits] at hrun
        by_cases hb : b + 1 ≥ 31
        · have hb30 : b = 30 := by omega
          subst hb30
          rw [if_pos hb] at hrun
          rw [show 30 + 1 - 1 = 30 from rfl, shl_one_eq 30 (by omega)] at hrun
          simp only [Option.map_some',
            chunk_start_loop_big (to_int stride) cs (n : Int) 30 2 _ hS (by omega),
            Option.some.injEq, Prod.mk.injEq] at hrun
          intro t ht
          rw [← hrun.1] at ht
          simp only [List.append_nil, List.mem_singleton] at ht
          refine ⟨ht, ?_⟩
          norm_num at hb1 heq
          omega
        · rw [if_neg hb] at hrun
          simp only [chunk_start_loop_big (to_int stride) cs (n : Int) (b + 1) 1 0 hS
            (by omega), Option.map_some', Option.some.injEq, Prod.mk.injEq] at hrun
          intro t ht
          rw [← hrun.1] at ht
          cases ht

/-- Every chunk task pushed is a full chunk with an id below the limit. -/
theorem pushedChunk_valid (stride cs : Nat) (len : Int)
    (hS1 : 0 < to_int stride) (h0 : 0 ≤ len)
    (hlen : len < 2147483648) (hcs : 2 ≤ cs) (t : ChunkTask)
    (ht : PushedChunk stride cs len t) : t.Valid len ∧ t.chunk < cs := by
  induction ht with
  | by_start hstart hmem =>
    by_cases hS2 : to_int stride < 1073741824
    · obtain ⟨pushed1, ranges1, e1, a1, _, _⟩ :=
        do_chunked_array_start_spec stride cs len hS1 hS2 h0 hlen
      obtain ⟨pushed2, ranges2, e2, a2⟩ :=
        do_chunked_array_start_ids stride cs len hS1 hS2 h0 hlen hcs
      rw [hstart] at e1 e2
      simp only [Option.some.injEq, Prod.mk.injEq] at e1 e2
      exact ⟨a1 _ (e1.1 ▸ hmem), a2 _ (e2.1 ▸ hmem)⟩
    · obtain ⟨e, hbig⟩ := do_chunked_array_start_big stride cs len (by omega) h0 hlen _ _
        hstart _ hmem
      subst e
      refine ⟨⟨le_refl _, ?_, le_refl _⟩, ?_⟩
      · simp only
        omega
      · simp only
        omega
  | by_chunk _ hrun hmem ih =>
    obtain ⟨pushed1, r1, e1, a1, _, _⟩ :=
      do_chunked_array_spec stride cs len (by omega) hlen _ ih.1
    obtain ⟨pushed2, c2, p2, e2, _, _, a2⟩ :=
      do_chunked_array_range stride cs len (by omega) hlen _ ih.1
    rw [hrun] at e1 e2
    simp only [Option.some.injEq, Prod.mk.injEq] at e1 e2
    exact ⟨a1 _ (e1.1 ▸ hmem), a2 _ (e2.1 ▸ hmem)⟩

theorem start_of_512 :
    do_chunked_array_start 4294967296 1024 512 =
      some ([{ chunk := 1, pow := 8 }, { chunk := 3, pow := 7 }, { chunk := 7, pow := 6 },
        { chunk := 15, pow := 5 }, { chunk := 31, pow := 4 }, { chunk := 63, pow := 3 },
        { chunk := 127, pow := 2 }, { chunk := 255, pow := 1 }, { chunk := 511, pow := 0 }],
        [(511, 512)]) := by
  have h1 : to_int ((4294967296 : Nat) : Int) = 0 := by decide
  have h2 : log2i_graceful 512 = 9 := by
    unfold log2i_graceful
    simp [Nat.log2]
  unfold do_chunked_array_start
  rw [h1, h2]
  decide

/-- C27, as stated, fails: `ObjArrayMarkingStride = 4294967296` is positive and
`(int) ObjArrayMarkingStride` is 0.  For an array of length 512, with 1024 chunk ids,
`do_chunked_array_start` pushes the task `(1, 8)`; `do_chunked_array` on that task runs the
loop of line 218 down to `pow = 0` with `chunk = 256`, where the condition still holds,
decrements `pow` to -1 and evaluates `1 << pow`, which is undefined: no range within the
bounds is iterated for this task. -/
theorem pushed_chunk_counterexample :
    0 < 4294967296 ∧ to_int (4294967296 : Nat) = 0 ∧
    (512 : Int) ≤ 2 ^ 31 - 1 ∧
    PushedChunk 4294967296 1024 512 { chunk := 1, pow := 8 } ∧
    chunk_loop_cond (to_int (4294967296 : Nat)) 1024 0 256 = some true ∧
    do_chunked_array 4294967296 1024 { chunk := 1, pow := 8 } = none := by
  refine ⟨by norm_num, by decide, by norm_num,
    PushedChunk.by_start start_of_512 (List.mem_cons_self _ _), by decide, ?_⟩
  have h1 : to_int ((4294967296 : Nat) : Int) = 0 := by decide
  unfold do_chunked_array
  rw [h1]
  decide

/-- C27, amended: for every array length `len` up to `2^31 - 1`, every
`ObjArrayMarkingStride` whose value as an `int` is positive and every chunk-id limit
`ShenandoahMarkTask::chunk_size()` of 2 at least, every chunk task `(chunk, pow)` pushed by
`do_chunked_array_start` or by `do_chunked_array` has `chunk >= 1` and
`chunk < chunk_size()`, and `do_chunked_array` run on it returns after iterating a range
`[from, to)` with `0 <= from < len` and `0 < to <= len`: the bounds assertions of
`do_chunked_array` cannot fail. -/
theorem pushed_chunks_in_bounds (stride cs : Nat) (len : Int)
    (hS1 : 0 < to_int stride) (h0 : 0 ≤ len)
    (hlen : len < 2 ^ 31) (hcs : 2 ≤ cs) (t : ChunkTask)
    (ht : PushedChunk stride cs len t) :
    1 ≤ t.chunk ∧ t.chunk < cs ∧
    ∃ pushed range, do_chunked_array stride cs t = some (pushed, range) ∧
      0 ≤ range.1 ∧ range.1 < len ∧ 0 < range.2 ∧ range.2 ≤ len := by
  have hlenb : len < 2147483648 := hlen
  clear hlen
  obtain ⟨hv, hid⟩ := pushedChunk_valid stride cs len hS1 h0 hlenb hcs t ht
  obtain ⟨pushed, c1, p1, e, hc1, hprod, _⟩ :=
    do_chunked_array_range stride cs len (by omega) hlenb t hv
  have hP := two_pow_pos p1
  have hnn : 0 ≤ (c1 - 1) * 2 ^ p1 := mul_nonneg (by omega) (le_of_lt hP)
  have e1 : (c1 - 1) * 2 ^ p1 = c1 * 2 ^ p1 - 2 ^ p1 := by ring
  obtain ⟨v1, v2, _⟩ := hv
  refine ⟨v1, hid, pushed, _, e, hnn, ?_, ?_, ?_⟩
  · simp only
    omega
  · simp only
    omega
  · simp only
    omega

theorem start_of_37 :
    do_chunked_array_start 2 1024 37 =
      some ([{ chunk := 1, pow := 5 }, { chunk := 9, pow := 2 }], [(36, 37)]) := by
  have h2 : log2i_graceful 37 = 5 := by
    unfold log2i_graceful
    simp [Nat.log2]
  unfold do_chunked_array_start
  rw [h2]
  decide

/-- C27, amended, at an array of 37 elements, with a stride of 2 and 1024 chunk ids: the
task `(15, 1)`, pushed by `do_chunked_array` on the task `(1, 5)` that
`do_chunked_array_start` pushed. -/
theorem pushed_chunks_in_bounds_witness :
    1 ≤ ({ chunk := 15, pow := 1 } : ChunkTask).chunk ∧
    ({ chunk := 15, pow := 1 } : ChunkTask).chunk < (1024 : Nat) ∧
    ∃ pushed range, do_chunked_array 2 1024 { chunk := 15, pow := 1 } = some (pushed, range) ∧
      0 ≤ range.1 ∧ range.1 < (37 : Int) ∧ 0 < range.2 ∧ range.2 ≤ (37 : Int) :=
  pushed_chunks_in_bounds 2 1024 37 (by decide) (by decide) (by decide) (by decide)
    { chunk := 15, pow := 1 }
    (PushedChunk.by_chunk
      (PushedChunk.by_start start_of_37 (List.mem_cons_self _ _))
      (by decide : do_chunked_array 2 1024 { chunk := 1, pow := 5 } =
        some ([{ chunk := 1, pow := 4 }, { chunk := 3, pow := 3 }, { chunk := 7, pow := 2 },
          { chunk := 15, pow := 1 }], (30, 32)))
      (by decide))

/-! ## Theorems: marking through a reference -/

/-- What `mark_ref` does to the queue and to the marking context. -/
theorem mark_ref_spec (env : Env) (q : List ShenandoahMarkTask) (ctx : Nat) (weak : Bool)
    (obj : Nat) :
    (mark_ref env q ctx weak obj).2 = marked_context env ctx weak obj ∧
    (newly_marked env ctx weak obj = false → (mark_ref env q ctx weak obj).1 = q) ∧
    (newly_marked env ctx weak obj = true →
      ∃ skip_live, (mark_ref env q ctx weak obj).1 =
        q ++ [{ obj := obj, skip_live := skip_live, weak := weak }]) := by
  unfold mark_ref newly_marked marked_context
  cases weak
  · simp only [Bool.false_eq_true, if_false]
    refine ⟨by split <;> rfl, fun h => by rw [h]; rfl, fun h => ⟨_, by rw [h]; rfl⟩⟩
  · simp only [if_true]
    refine ⟨by split <;> rfl, fun h => by rw [h]; rfl, fun h => ⟨_, by rw [h]; rfl⟩⟩

/-- C21, as stated, fails: in a young pass with an old-generation queue, the reference at
address 4 to the old object at address 20, whose mark bit is set already, pushes nothing onto
the old-generation queue: `mark_ref` pushes only what the marking context marks anew. -/
theorem mark_through_ref_counterexample :
    in_generation bitmap_env .YOUNG young_pass_with_old_queue.heap 20 = false ∧
    young_pass_with_old_queue.old = some [] ∧
    (mark_through_ref bitmap_env .YOUNG 4 (some 20) false young_pass_with_old_queue).old =
      some [] := by
  decide

/-- C21, amended: `mark_through_ref<GENERATION>` keeps the mark queues of the generations
independent.  For every reference, the queue `q` changes only by the push of the object the
reference holds, and only when this object lies in `GENERATION` and the marking context marks
it anew.  In a `YOUNG` pass a reference to an object outside the young generation leaves `q`
alone; when an old-generation queue is supplied the object is marked and, if the marking
context marks it anew, pushed onto the old-generation queue; otherwise it is neither marked
nor pushed. -/
theorem mark_through_ref_queues (env : Env) (GENERATION : GenerationMode) (p : Nat)
    (o : Option Nat) (weak : Bool) (s : MarkRefState) :
    ((mark_through_ref env GENERATION p o weak s).q ≠ s.q →
      ∃ obj skip_live, o = some obj ∧ in_generation env GENERATION s.heap obj = true ∧
        newly_marked env s.mark_context weak obj = true ∧
        (mark_through_ref env GENERATION p o weak s).q =
          s.q ++ [{ obj := obj, skip_live := skip_live, weak := weak }]) ∧
    (∀ obj old, GENERATION = .YOUNG → o = some obj → is_in_young env s.heap obj = false →
      s.old = some old →
      (mark_through_ref env GENERATION p o weak s).q = s.q ∧
      (mark_through_ref env GENERATION p o weak s).mark_context =
        marked_context env s.mark_context weak obj ∧
      (newly_marked env s.mark_context weak obj = false →
        (mark_through_ref env GENERATION p o weak s).old = some old) ∧
      (newly_marked env s.mark_context weak obj = true →
        ∃ skip_live, (mark_through_ref env GENERATION p o weak s).old =
          some (old ++ [{ obj := obj, skip_live := skip_live, weak := weak }]))) ∧
    (∀ obj, GENERATION = .YOUNG → o = some obj → is_in_young env s.heap obj = false →
      s.old = none → mark_through_ref env GENERATION p o weak s = s) := by
  refine ⟨fun hq => ?_, fun obj old hG ho hy hold => ?_, fun obj hG ho hy hold => ?_⟩
  · cases o with
    | none => exact absurd rfl hq
    | some obj =>
      obtain ⟨_, m2, m3⟩ := mark_ref_spec env s.q s.mark_context weak obj
      unfold mark_through_ref at hq ⊢
      simp only at hq ⊢
      by_cases hin : in_generation env GENERATION s.heap obj = true
      · rw [if_pos hin] at hq ⊢
        have hq1 : (mark_ref env s.q s.mark_context weak obj).1 ≠ s.q := by
          intro hc
          apply hq
          split_ifs <;> exact hc
        have hn : newly_marked env s.mark_context weak obj = true := by
          cases hnm : newly_marked env s.mark_context weak obj
          · exact absurd (m2 hnm) hq1
          · rfl
        obtain ⟨skip_live, hpush⟩ := m3 hn
        refine ⟨obj, skip_live, rfl, hin, hn, ?_⟩
        split_ifs <;> exact hpush
      · rw [if_neg hin] at hq
        exfalso
        apply hq
        split
        · rfl
        · split_ifs <;> rfl
  · subst hG ho
    obtain ⟨m1, m2, m3⟩ := mark_ref_spec env old s.mark_context weak obj
    have hin : ¬ in_generation env .YOUNG s.heap obj = true := by
      unfold in_generation
      simp [hy]
    unfold mark_through_ref
    simp only [if_neg hin, hold]
    refine ⟨trivial, m1, fun hn => by rw [m2 hn], fun hn => ?_⟩
    obtain ⟨skip_live, hpush⟩ := m3 hn
    exact ⟨skip_live, by rw [hpush]⟩
  · subst hG ho
    have hin : ¬ in_generation env .YOUNG s.heap obj = true := by
      unfold in_generation
      simp [hy]
    unfold mark_through_ref
    simp only [if_neg hin, hold]
    rfl

/-- In the young pass `young_pass_with_old_queue`, the reference at address 4 to the
unmarked old object at address 24 leaves `q` empty and pushes the object onto the
old-generation queue. -/
theorem mark_through_ref_queues_witness :
    (mark_through_ref bitmap_env .YOUNG 4 (some 24) false young_pass_with_old_queue).q = [] ∧
    ∃ skip_live,
      (mark_through_ref bitmap_env .YOUNG 4 (some 24) false young_pass_with_old_queue).old =
        some ([] ++ [{ obj := 24, skip_live := skip_live, weak := false }]) :=
  ⟨((mark_through_ref_queues bitmap_env .YOUNG 4 (some 24) false
      young_pass_with_old_queue).2.1 24 [] rfl rfl (by decide) rfl).1,
   ((mark_through_ref_queues bitmap_env .YOUNG 4 (some 24) false
      young_pass_with_old_queue).2.1 24 [] rfl rfl (by decide) rfl).2.2.2 (by decide)⟩

/-! ## Theorems: the promotion budget over the life of a PLAB -/

/-- C25 fails on the code: a thread gets a promotion-eligible PLAB of 258 words, for which
2064 bytes are expended and recorded as preallocated, and promotes an object of 32 bytes into
it; retiring the PLAB at this point leaves 32 bytes expended.  When the thread first makes a
shared allocation in the old generation (for an old object of 500 words), line 1259 resets
`plab_promoted` to 0; the retirement then unexpends all of the 2064 bytes, and nothing stays
expended for the 32 bytes promoted into the PLAB. -/
theorem shared_allocation_forgets_promoted_bytes :
    thread_before_plab.heap._promoted_expended = 0 ∧
    thread_after_promotion.heap._promoted_expended = 2064 ∧
    thread_after_promotion.tld._plab_preallocated_promoted = 2064 ∧
    thread_after_promotion.tld._plab_promoted = 32 ∧
    (retire_current_plab evac_env thread_after_promotion).heap._promoted_expended = 32 ∧
    thread_after_shared_allocation.heap._promoted_expended = 2064 ∧
    thread_after_shared_allocation.tld._plab_preallocated_promoted = 2064 ∧
    thread_after_shared_allocation.tld._plab_promoted = 0 ∧
    (retire_current_plab evac_env thread_after_shared_allocation).heap._promoted_expended =
      0 := by
  decide

/-! ## Theorems: iterating over the marked objects of a region -/

theorem next_marked_from_spec (m : Nat → Bool) :
    ∀ (n s : Nat), s ≤ next_marked_from m n s ∧ next_marked_from m n s ≤ s + n ∧
      (next_marked_from m n s < s + n → m (next_marked_from m n s) = true) ∧
      ∀ x, s ≤ x → x < next_marked_from m n s → m x = false := by
  intro n
  induction n with
  | zero =>
    intro s
    refine ⟨Nat.le_refl _, Nat.le_refl _, fun h => absurd h (Nat.lt_irrefl _), fun x h1 h2 => ?_⟩
    simp only [next_marked_from] at h2
    omega
  | succ n ih =>
    intro s
    unfold next_marked_from
    by_cases hm : m s = true
    · rw [if_pos hm]
      exact ⟨Nat.le_refl _, by omega, fun _ => hm, fun x h1 h2 => by omega⟩
    · rw [if_neg hm]
      obtain ⟨a1, a2, a3, a4⟩ := ih (s + 1)
      refine ⟨by omega, by omega, fun h => a3 (by omega), fun x h1 h2 => ?_⟩
      rcases Nat.eq_or_lt_of_le h1 with h | h
      · subst h
        simpa using hm
      · exact a4 x h h2

theorem get_next_marked_addr_spec (ctx : ShenandoahMarkingContext) (s e : Nat) (h : s ≤ e) :
    s ≤ ctx.get_next_marked_addr s e ∧ ctx.get_next_marked_addr s e ≤ e ∧
      (ctx.get_next_marked_addr s e < e → ctx.is_marked (ctx.get_next_marked_addr s e) = true) ∧
      ∀ x, s ≤ x → x < ctx.get_next_marked_addr s e → ctx.is_marked x = false := by
  unfold ShenandoahMarkingContext.get_next_marked_addr
  obtain ⟨a1, a2, a3, a4⟩ := next_marked_from_spec ctx.is_marked (e - s) s
  exact ⟨a1, by omega, fun h1 => a3 (by omega), a4⟩

theorem advance_cursor_spec (ctx : ShenandoahMarkingContext) (lb cb : Nat) (h : cb < lb) :
    cb < advance_cursor ctx lb cb ∧ advance_cursor ctx lb cb ≤ lb ∧
      (advance_cursor ctx lb cb < lb → ctx.is_marked (advance_cursor ctx lb cb) = true) ∧
      ∀ x, cb < x → x < advance_cursor ctx lb cb → ctx.is_marked x = false := by
  unfold advance_cursor skip_bitmap_delta
  simp only
  by_cases h1 : cb + 1 < lb
  · rw [if_pos h1]
    obtain ⟨a1, a2, a3, a4⟩ := get_next_marked_addr_spec ctx (cb + 1) lb (by omega)
    exact ⟨by omega, a2, a3, fun x hx1 hx2 => a4 x (by omega) hx2⟩
  · rw [if_neg h1]
    exact ⟨by omega, by omega, fun h2 => by omega, fun x hx1 hx2 => by omega⟩

theorem cursor_trail_stable (ctx : ShenandoahMarkingContext) (lb : Nat) :
    ∀ (g cb : Nat), lb - cb ≤ g →
      cursor_trail ctx lb g cb = cursor_trail ctx lb (lb - cb) cb := by
  intro g
  induction g using Nat.strong_induction_on with
  | _ g ih =>
    intro cb hg
    by_cases hlt : cb < lb
    · obtain ⟨p1, p2, _, _⟩ := advance_cursor_spec ctx lb cb hlt
      obtain ⟨g1, rfl⟩ : ∃ g1, g = g1 + 1 := ⟨g - 1, by omega⟩
      obtain ⟨k, hk⟩ : ∃ k, lb - cb = k + 1 := ⟨lb - cb - 1, by omega⟩
      rw [hk]
      simp only [cursor_trail, if_pos hlt]
      rw [ih g1 (by omega) _ (by omega), ih k (by omega) _ (by omega)]
    · have h0 : lb - cb = 0 := by omega
      rw [h0]
      cases g with
      | zero => rfl
      | succ g1 => simp only [cursor_trail, if_neg hlt]

theorem cursor_trail_cons (ctx : ShenandoahMarkingContext) (lb cb : Nat) (hlt : cb < lb) :
    cursor_trail ctx lb (lb - cb) cb =
      cb :: cursor_trail ctx lb (lb - advance_cursor ctx lb cb) (advance_cursor ctx lb cb) := by
  obtain ⟨p1, p2, _, _⟩ := advance_cursor_spec ctx lb cb hlt
  obtain ⟨k, hk⟩ : ∃ k, lb - cb = k + 1 := ⟨lb - cb - 1, by omega⟩
  rw [hk]
  simp only [cursor_trail, if_pos hlt]
  rw [cursor_trail_stable ctx lb k _ (by omega)]

theorem cursor_trail_nil (ctx : ShenandoahMarkingContext) (lb cb : Nat) (hge : ¬ cb < lb) :
    cursor_trail ctx lb (lb - cb) cb = [] := by
  have h0 : lb - cb = 0 := by omega
  rw [h0]
  rfl

/-- The scan without prefetching ends and visits the trail of the cursor. -/
theorem simple_scan_eq (ctx : ShenandoahMarkingContext) (lb : Nat) :
    ∀ (fuel cb : Nat), lb - cb < fuel →
      simple_scan ctx lb fuel cb = some (cursor_trail ctx lb (lb - cb) cb) := by
  intro fuel
  induction fuel with
  | zero =>
    intro cb h
    omega
  | succ fuel ih =>
    intro cb h
    unfold simple_scan
    by_cases hlt : cb < lb
    · obtain ⟨p1, p2, _, _⟩ := advance_cursor_spec ctx lb cb hlt
      rw [if_pos hlt, ih _ (by omega), cursor_trail_cons ctx lb cb hlt]
      rfl
    · rw [if_neg hlt, cursor_trail_nil ctx lb cb hlt]

theorem fill_slots_trail (ctx : ShenandoahMarkingContext) (lb : Nat) :
    ∀ (n cb : Nat),
      cursor_trail ctx lb (lb - cb) cb =
        (fill_slots ctx lb n cb).1 ++
          cursor_trail ctx lb (lb - (fill_slots ctx lb n cb).2) (fill_slots ctx lb n cb).2 ∧
      ((fill_slots ctx lb n cb).1.length > 0 → cb < lb ∧ cb < (fill_slots ctx lb n cb).2) ∧
      (0 < n → ¬ (fill_slots ctx lb n cb).1.length > 0 → ¬ cb < lb) := by
  intro n
  induction n with
  | zero =>
    intro cb
    refine ⟨rfl, fun h => ?_, fun h => absurd h (Nat.lt_irrefl _)⟩
    simp [fill_slots] at h
  | succ n ih =>
    intro cb
    unfold fill_slots
    by_cases hlt : cb < lb
    · obtain ⟨p1, p2, _, _⟩ := advance_cursor_spec ctx lb cb hlt
      obtain ⟨i1, i2, _⟩ := ih (advance_cursor ctx lb cb)
      rw [if_pos hlt]
      refine ⟨?_, fun _ => ?_, fun _ h => ?_⟩
      · rw [cursor_trail_cons ctx lb cb hlt, i1]
        rfl
      · refine ⟨hlt, ?_⟩
        simp only
        by_cases hl : (fill_slots ctx lb n (advance_cursor ctx lb cb)).1.length > 0
        · exact Nat.lt_trans p1 (i2 hl).2
        · have hnil : (fill_slots ctx lb n (advance_cursor ctx lb cb)).1 = [] :=
            List.eq_nil_of_length_eq_zero (by omega)
          have h2 : (fill_slots ctx lb n (advance_cursor ctx lb cb)).2 =
              advance_cursor ctx lb cb := by
            cases n with
            | zero => rfl
            | succ n1 =>
              unfold fill_slots at hnil ⊢
              split
              · rename_i hc
                rw [if_pos hc] at hnil
                exact absurd hnil (by simp)
              · rfl
          rw [h2]
          exact p1
      · exfalso
        apply h
        simp
    · rw [if_neg hlt]
      exact ⟨by rw [List.nil_append], fun h => by simp at h, fun _ _ => hlt⟩

/-- The batched scan ends and visits the trail of the cursor. -/
theorem batched_scan_eq (ctx : ShenandoahMarkingContext) (lb dist : Nat) (hd : 0 < dist) :
    ∀ (fuel cb : Nat), lb - cb < fuel →
      batched_scan ctx lb dist fuel cb = some (cursor_trail ctx lb (lb - cb) cb) := by
  intro fuel
  induction fuel with
  | zero =>
    intro cb h
    omega
  | succ fuel ih =>
    intro cb h
    obtain ⟨f1, f2, f3⟩ := fill_slots_trail ctx lb dist cb
    unfold batched_scan
    simp only
    by_cases ha : (fill_slots ctx lb dist cb).1.length > 0
    · have := f2 ha
      rw [if_pos ha, ih _ (by omega), f1]
      rfl
    · have hnil : (fill_slots ctx lb dist cb).1 = [] :=
        List.eq_nil_of_length_eq_zero (by omega)
      rw [if_neg ha, cursor_trail_nil ctx lb cb (f3 hd ha), hnil]

theorem filter_range_unmarked (m : Nat → Bool) (lb : Nat) :
    ∀ (k s : Nat), s + k ≤ lb → (∀ x, s ≤ x → x < s + k → m x = false) →
      (List.range' s (lb - s)).filter m = (List.range' (s + k) (lb - (s + k))).filter m := by
  intro k
  induction k with
  | zero =>
    intro s _ _
    rfl
  | succ k ih =>
    intro s h1 h2
    obtain ⟨j, hj⟩ : ∃ j, lb - s = j + 1 := ⟨lb - s - 1, by omega⟩
    rw [hj, List.range'_succ, List.filter_cons_of_neg (by simp [h2 s (Nat.le_refl _) (by omega)])]
    have hj2 : j = lb - (s + 1) := by omega
    rw [hj2, ih (s + 1) (by omega) (fun x hx1 hx2 => h2 x (by omega) (by omega))]
    congr 2 <;> omega

/-- The trail of a cursor that stands on a marked address, or at the end, is the list of the
marked addresses from there to the end. -/
theorem cursor_trail_eq_filter (ctx : ShenandoahMarkingContext) (lb : Nat) :
    ∀ (g cb : Nat), lb - cb ≤ g → (cb < lb → ctx.is_marked cb = true) →
      cursor_trail ctx lb (lb - cb) cb = (List.range' cb (lb - cb)).filter ctx.is_marked := by
  intro g
  induction g with
  | zero =>
    intro cb hg _
    have h0 : lb - cb = 0 := by omega
    rw [h0]
    rfl
  | succ g ih =>
    intro cb hg hm
    by_cases hlt : cb < lb
    · obtain ⟨p1, p2, p3, p4⟩ := advance_cursor_spec ctx lb cb hlt
      rw [cursor_trail_cons ctx lb cb hlt, ih _ (by omega) p3]
      obtain ⟨j, hj⟩ : ∃ j, lb - cb = j + 1 := ⟨lb - cb - 1, by omega⟩
      rw [hj, List.range'_succ, List.filter_cons_of_pos (by simpa using hm hlt)]
      have hj2 : j = lb - (cb + 1) := by omega
      obtain ⟨k, hk⟩ : ∃ k, advance_cursor ctx lb cb = cb + 1 + k :=
        ⟨advance_cursor ctx lb cb - (cb + 1), by omega⟩
      rw [hj2, filter_range_unmarked ctx.is_marked lb k (cb + 1) (by omega)
        (fun x hx1 hx2 => p4 x (by omega) (by omega)), hk]
    · rw [cursor_trail_nil ctx lb cb hlt]
      have h0 : lb - cb = 0 := by omega
      rw [h0]
      rfl

/-- The first candidate of `marked_object_iterate`: its trail is the list of the marked
addresses from `bottom` to `limit_bitmap`, when `limit_bitmap` does not lie past the end of
the first search. -/
theorem first_candidate_trail (ctx : ShenandoahMarkingContext) (bottom e lb : Nat)
    (hle : lb ≤ e) :
    cursor_trail ctx lb (lb - ctx.get_next_marked_addr bottom e)
        (ctx.get_next_marked_addr bottom e) =
      (List.range' bottom (lb - bottom)).filter ctx.is_marked := by
  by_cases hbe : bottom ≤ e
  · obtain ⟨a1, a2, a3, a4⟩ := get_next_marked_addr_spec ctx bottom e hbe
    by_cases hlt : ctx.get_next_marked_addr bottom e < lb
    · obtain ⟨k, hk⟩ : ∃ k, ctx.get_next_marked_addr bottom e = bottom + k :=
        ⟨ctx.get_next_marked_addr bottom e - bottom, by omega⟩
      rw [cursor_trail_eq_filter ctx lb _ _ (Nat.le_refl _) (fun _ => a3 (by omega)),
        filter_range_unmarked ctx.is_marked lb k bottom (by omega)
          (fun x hx1 hx2 => a4 x hx1 (by omega)), hk]
    · rw [cursor_trail_nil ctx lb _ hlt]
      by_cases hb : bottom ≤ lb
      · obtain ⟨k, hk⟩ : ∃ k, lb = bottom + k := ⟨lb - bottom, by omega⟩
        rw [filter_range_unmarked ctx.is_marked lb k bottom (by omega)
          (fun x hx1 hx2 => a4 x hx1 (by omega))]
        have h0 : lb - (bottom + k) = 0 := by omega
        rw [h0]
        rfl
      · have h0 : lb - bottom = 0 := by omega
        rw [h0]
        rfl
  · have h1 : ctx.get_next_marked_addr bottom e = bottom := by
      unfold ShenandoahMarkingContext.get_next_marked_addr
      have h0 : e - bottom = 0 := by omega
      rw [h0]
      rfl
    rw [h1, cursor_trail_nil ctx lb _ (by omega)]
    have h0 : lb - bottom = 0 := by omega
    rw [h0]
    rfl

/-- The walk by sizes ends when every object has a positive size. -/
theorem size_walk_returns (size_of : Nat → Nat) (limit : Nat) (hsize : ∀ a, 0 < size_of a) :
    ∀ (fuel cs : Nat), limit - cs < fuel → ∃ l, size_walk size_of limit fuel cs = some l := by
  intro fuel
  induction fuel with
  | zero =>
    intro cs h
    omega
  | succ fuel ih =>
    intro cs h
    unfold size_walk
    by_cases hlt : cs < limit
    · have := hsize cs
      obtain ⟨l, hl⟩ := ih (cs + size_of cs) (by omega)
      rw [if_pos hlt, hl]
      exact ⟨_, rfl⟩
    · rw [if_neg hlt]
      exact ⟨_, rfl⟩

/-- C29: for every region, marking bitmap, TAMS, limit and prefetch distance `d` with
`1 <= d <= 256`, the batched prefetching scan of `marked_object_iterate` hands to
`cl->do_object` the same objects in the same order as the simple scan used when
`ShenandoahMarkScanPrefetch = 0`; and when `min(limit, TAMS)` does not lie past the end of
the region and objects have positive sizes, both return and these objects are every marked
address in `[bottom, min(limit, TAMS))` in increasing order, followed by the size-based walk of
the objects in `[TAMS, limit)`. -/
theorem prefetching_scan_refines_simple_scan (env env0 : Env) (ctx : ShenandoahMarkingContext)
    (size_of : Nat → Nat) (region : ShenandoahHeapRegion) (limit fuel : Nat)
    (hd1 : 1 ≤ env.flags.ShenandoahMarkScanPrefetch)
    (hd2 : env.flags.ShenandoahMarkScanPrefetch ≤ 256)
    (hd0 : env0.flags.ShenandoahMarkScanPrefetch = 0) (hfuel : limit < fuel) :
    marked_object_iterate env ctx size_of region limit fuel =
      marked_object_iterate env0 ctx size_of region limit fuel ∧
    (min limit ctx.top_at_mark_start ≤ region._end →
      marked_object_iterate env0 ctx size_of region limit fuel =
        marked_object_iterate_spec ctx size_of region limit fuel) ∧
    ((∀ a, 0 < size_of a) →
      ∃ l, marked_object_iterate env0 ctx size_of region limit fuel = some l) := by
  have hlb : MIN2 limit ctx.top_at_mark_start ≤ limit := by
    rw [MIN2_eq_min]
    exact Nat.min_le_left _ _
  have hbat := batched_scan_eq ctx (MIN2 limit ctx.top_at_mark_start)
    env.flags.ShenandoahMarkScanPrefetch.toNat (by omega) fuel
    (ctx.get_next_marked_addr region._bottom (MIN2 ctx.top_at_mark_start region._end))
    (by omega)
  have hsim := simple_scan_eq ctx (MIN2 limit ctx.top_at_mark_start) fuel
    (ctx.get_next_marked_addr region._bottom (MIN2 ctx.top_at_mark_start region._end))
    (by omega)
  have e1 : marked_object_iterate env ctx size_of region limit fuel =
      (some (cursor_trail ctx (MIN2 limit ctx.top_at_mark_start)
        (MIN2 limit ctx.top_at_mark_start -
          ctx.get_next_marked_addr region._bottom (MIN2 ctx.top_at_mark_start region._end))
        (ctx.get_next_marked_addr region._bottom
          (MIN2 ctx.top_at_mark_start region._end)))).bind fun below_tams =>
        (size_walk size_of limit fuel ctx.top_at_mark_start).map
          fun above_tams => below_tams ++ above_tams := by
    unfold marked_object_iterate
    simp only
    rw [if_pos (by omega), if_pos hd2, hbat]
  have e0 : marked_object_iterate env0 ctx size_of region limit fuel =
      (some (cursor_trail ctx (MIN2 limit ctx.top_at_mark_start)
        (MIN2 limit ctx.top_at_mark_start -
          ctx.get_next_marked_addr region._bottom (MIN2 ctx.top_at_mark_start region._end))
        (ctx.get_next_marked_addr region._bottom
          (MIN2 ctx.top_at_mark_start region._end)))).bind fun below_tams =>
        (size_walk size_of limit fuel ctx.top_at_mark_start).map
          fun above_tams => below_tams ++ above_tams := by
    unfold marked_object_iterate
    simp only
    rw [hd0, if_neg (by omega), hsim]
  refine ⟨by rw [e1, e0], fun hend => ?_, fun hsize => ?_⟩
  · rw [e0, Option.some_bind]
    have hle : MIN2 limit ctx.top_at_mark_start ≤ MIN2 ctx.top_at_mark_start region._end := by
      rw [MIN2_eq_min, MIN2_eq_min] at *
      exact Nat.le_min.mpr ⟨Nat.min_le_right _ _, hend⟩
    rw [first_candidate_trail ctx region._bottom _ _ hle, MIN2_eq_min]
    rfl
  · obtain ⟨l, hl⟩ := size_walk_returns size_of limit hsize fuel ctx.top_at_mark_start
      (by omega)
    rw [e0, Option.some_bind, hl]
    exact ⟨_, rfl⟩

/-- The region `scanned_region` with the marks of `three_marks`, objects of 7 words, scanned
up to its top with the default prefetch distance of 32 and without prefetching. -/
theorem prefetching_scan_refines_simple_scan_witness :
    marked_object_iterate (prefetching_env 32) three_marks (fun _ => 7) scanned_region 150 200 =
      marked_object_iterate (prefetching_env 0) three_marks (fun _ => 7) scanned_region 150
        200 ∧
    marked_object_iterate (prefetching_env 0) three_marks (fun _ => 7) scanned_region 150 200 =
      marked_object_iterate_spec three_marks (fun _ => 7) scanned_region 150 200 ∧
    marked_object_iterate_spec three_marks (fun _ => 7) scanned_region 150 200 =
      some [104, 110, 125, 130, 137, 144] :=
  ⟨(prefetching_scan_refines_simple_scan (prefetching_env 32) (prefetching_env 0) three_marks
      (fun _ => 7) scanned_region 150 200 (by decide) (by decide) rfl (by decide)).1,
   (prefetching_scan_refines_simple_scan (prefetching_env 32) (prefetching_env 0) three_marks
      (fun _ => 7) scanned_region 150 200 (by decide) (by decide) rfl (by decide)).2.1
      (by decide),
   by decide⟩

/-! ## Theorems: the forwarding table is written by the compare-and-swap only -/

theorem forwardee_emit (e : Ev) (h : ShenandoahHeap) : (emit e h)._forwardee = h._forwardee :=
  rfl

theorem forwardee_call {env : Env} (hk : KeepsForwardee env) (op : ExtOp)
    (h : ShenandoahHeap) : (call env op h)._forwardee = h._forwardee :=
  hk op h

theorem forwardee_call_as {env : Env} (hk : KeepsForwardee env) (op : ExtOp) (e : Ev)
    (h : ShenandoahHeap) : (call_as env op e h)._forwardee = h._forwardee :=
  hk op h

theorem forwardee_guarded {c : ShenandoahHeap → Bool} {f : Stmt}
    (hf : ∀ h, (f h)._forwardee = h._forwardee) (h : ShenandoahHeap) :
    (guarded c f h)._forwardee = h._forwardee := by
  unfold guarded
  split
  · exact hf h
  · rfl

theorem forwardee_block (l : List Stmt)
    (hl : ∀ f ∈ l, ∀ h, (f h)._forwardee = h._forwardee) (h : ShenandoahHeap) :
    (block l h)._forwardee = h._forwardee := by
  unfold block
  induction l generalizing h with
  | nil => rfl
  | cons f l ih =>
    rw [List.foldl_cons, ih (fun g hg => hl g (List.mem_cons_of_mem _ hg)),
      hl f (List.mem_cons_self _ _)]

theorem free_set_allocate_forwardee (env : Env) (s : AllocState) :
    (free_set_allocate env s).2.heap._forwardee = s.heap._forwardee := by
  unfold free_set_allocate
  simp only []
  split <;> rfl

theorem after_success_forwardee (is_promotion elig : Bool) (s : AllocState) :
    (after_success is_promotion elig s).heap._forwardee = s.heap._forwardee := by
  unfold after_success
  simp only []
  split_ifs <;> rfl

theorem allocate_memory_under_lock_forwardee (env : Env) (is_promotion : Bool)
    (s : AllocState) :
    (allocate_memory_under_lock env is_promotion s).2.heap._forwardee =
      s.heap._forwardee := by
  unfold allocate_memory_under_lock
  split
  · rfl
  · rename_i allow elig _
    cases allow
    · simp only [Bool.false_eq_true, if_false]
      rw [after_failure_heap]
    · simp only [if_true]
      cases hr : (free_set_allocate env s).1
      · simp only []
        rw [after_failure_heap, free_set_allocate_forwardee]
      · simp only []
        rw [after_success_forwardee, free_set_allocate_forwardee]

theorem allocate_memory_finish_forwardee {env : Env} (hk : KeepsForwardee env)
    (result : Option Nat) (s : AllocState) (hreq : s.req.is_mutator_alloc = false) :
    (allocate_memory_finish env 0 result s).heap._forwardee = s.heap._forwardee := by
  unfold allocate_memory_finish
  simp only [hreq, Bool.false_eq_true, if_false]
  have h1 : (guarded (fun _ => s.in_new_region)
      (block [call env .notify_heap_changed, call env .notify_heap_changed])
        s.heap)._forwardee = s.heap._forwardee := by
    apply forwardee_guarded
    apply forwardee_block
    intro f hf h
    simp only [List.mem_cons, List.mem_singleton, List.not_mem_nil, or_false, or_self] at hf
    subst hf
    exact forwardee_call hk _ h
  split
  · rw [forwardee_call hk, h1]
  · exact h1

theorem allocate_memory_for_gc_forwardee {env : Env} (hk : KeepsForwardee env)
    (req : ShenandoahAllocRequest) (is_promotion : Bool) (s : EvacState)
    (hreq : req.is_mutator_alloc = false) :
    (allocate_memory_for_gc env req is_promotion s).2.heap._forwardee = s.heap._forwardee := by
  rw [allocate_memory_for_gc_eq env req is_promotion s hreq]
  simp only []
  rw [allocate_memory_finish_forwardee hk _ _
      (by rw [allocate_memory_under_lock_req]; exact hreq),
    allocate_memory_under_lock_forwardee]

theorem retire_plab_forwardee {env : Env} (hk : KeepsForwardee env) (plab : Nat)
    (s : EvacState) : (retire_plab env plab s).heap._forwardee = s.heap._forwardee := by
  unfold retire_plab
  simp only []
  rw [forwardee_guarded (fun h => forwardee_call hk _ h), forwardee_call hk]
  apply forwardee_guarded
  intro h
  rfl

theorem allocate_from_plab_slow_forwardee {env : Env} (hk : KeepsForwardee env)
    (plab size : Nat) (is_promotion : Bool) (s : EvacState) :
    (allocate_from_plab_slow env plab size is_promotion s).2.heap._forwardee =
      s.heap._forwardee := by
  unfold allocate_from_plab_slow
  simp only []
  generalize (if s.tld._plab_size = 0 then env.PLAB_min_size else s.tld._plab_size) = cur
  generalize hs1 : ({ s with tld := { s.tld with _plab_size := plab_future_size env cur } } :
    EvacState) = s1
  have e1 : s1.heap = s.heap := by rw [← hs1]
  by_cases h1 : cur < size
  · rw [if_pos h1, e1]
  · rw [if_neg h1]
    by_cases h2 : env.lab_words_remaining plab < env.PLAB_min_size
    · rw [if_pos h2]
      have base : (allocate_new_plab env (MAX2 size env.PLAB_min_size) cur
          (retire_plab env plab s1)).2.heap._forwardee = s.heap._forwardee := by
        rw [allocate_new_plab_state, allocate_memory_for_gc_forwardee hk _ _ _ (by rfl),
          retire_plab_forwardee hk, e1]
      split
      · exact base
      · have base2 : (guarded (fun _ => env.flags.ZeroTLAB) (call env .zero_to_words)
            (allocate_new_plab env (MAX2 size env.PLAB_min_size) cur
              (retire_plab env plab s1)).2.heap)._forwardee = s.heap._forwardee := by
          rw [forwardee_guarded (fun h => forwardee_call hk _ h), base]
        split
        · exact base2
        · exact base2
    · rw [if_neg h2, e1]

theorem allocate_from_plab_forwardee {env : Env} (hk : KeepsForwardee env) (size : Nat)
    (is_promotion : Bool) (s : EvacState) :
    (allocate_from_plab env size is_promotion s).2.heap._forwardee = s.heap._forwardee := by
  unfold allocate_from_plab
  split
  · rfl
  · rename_i plab hplab
    split
    · rfl
    · simp only []
      generalize hs1 : ({ s with tld := { s.tld with
        _plab := some (env.lab_allocate plab size).2 } } : EvacState) = s1
      have e1 : s1.heap = s.heap := by rw [← hs1]
      generalize hr : (if ((env.lab_allocate plab size).1.isNone &&
          decide (env.lab_words_remaining (env.lab_allocate plab size).2 < env.PLAB_min_size)) =
            true then
          allocate_from_plab_slow env (env.lab_allocate plab size).2 size is_promotion s1
        else ((env.lab_allocate plab size).1, s1)) = r
      have hr2 : r.2.heap._forwardee = s.heap._forwardee := by
        rw [← hr]
        split
        · rw [allocate_from_plab_slow_forwardee hk, e1]
        · rw [e1]
      cases hres : r.1 with
      | none => exact hr2
      | some obj =>
        simp only []
        split <;> exact hr2

theorem allocate_from_gclab_slow_forwardee {env : Env} (hk : KeepsForwardee env)
    (gclab size : Nat) (s : EvacState) :
    (allocate_from_gclab_slow env gclab size s).2.heap._forwardee = s.heap._forwardee := by
  unfold allocate_from_gclab_slow
  simp only []
  split
  · rfl
  · have g1 : ∀ s2 : EvacState, (allocate_new_gclab env (MAX2 size env.PLAB_min_size)
        (gclab_new_size env s.tld._gclab_size) s2).2.heap._forwardee = s2.heap._forwardee := by
      intro s2
      rw [allocate_new_gclab_state]
      exact allocate_memory_for_gc_forwardee hk _ false s2 (by rfl)
    split
    · rw [g1]
      exact forwardee_call hk _ _
    · simp only []
      rw [forwardee_guarded (fun h => forwardee_call hk _ h), g1]
      exact forwardee_call hk _ _

theorem allocate_from_gclab_forwardee {env : Env} (hk : KeepsForwardee env) (size : Nat)
    (s : EvacState) :
    (allocate_from_gclab env size s).2.heap._forwardee = s.heap._forwardee := by
  unfold allocate_from_gclab
  split
  · rfl
  · simp only []
    split
    · rfl
    · rw [allocate_from_gclab_slow_forwardee hk]

theorem evac_allocate_gclab_forwardee {env : Env} (hk : KeepsForwardee env) (size : Nat)
    (s : EvacState) :
    (evac_allocate_gclab env size s).2.heap._forwardee = s.heap._forwardee := by
  unfold evac_allocate_gclab
  simp only []
  split
  · rw [allocate_from_gclab_forwardee hk]
    exact allocate_from_gclab_forwardee hk size s
  · exact allocate_from_gclab_forwardee hk size s

theorem evac_allocate_plab_forwardee {env : Env} (hk : KeepsForwardee env) (size : Nat)
    (is_promotion : Bool) (s : EvacState) (r : Option Nat × EvacState)
    (hr : evac_allocate_plab env size is_promotion s = some r) :
    r.2.heap._forwardee = s.heap._forwardee := by
  have a1 := allocate_from_plab_forwardee hk size is_promotion s
  unfold evac_allocate_plab at hr
  simp only [] at hr
  split at hr
  · split at hr
    · split at hr
      · have b1 := allocate_from_plab_forwardee hk size is_promotion
          { (allocate_from_plab env size is_promotion s).2 with
            tld := { (allocate_from_plab env size is_promotion s).2.tld with
              _plab_size := env.PLAB_min_size } }
        split at hr
        · simp only [Option.some.injEq] at hr
          subst hr
          exact b1.trans a1
        · simp only [Option.some.injEq] at hr
          subst hr
          exact b1.trans a1
      · simp only [Option.some.injEq] at hr
        subst hr
        exact a1
    · cases hr
  · simp only [Option.some.injEq] at hr
    subst hr
    exact a1

theorem evac_allocate_forwardee {env : Env} (hk : KeepsForwardee env) (size : Nat)
    (is_promotion : Bool) (target_gen : ShenandoahRegionAffiliation) (s : EvacState)
    (a : EvacAlloc) (ha : evac_allocate env size is_promotion target_gen s = some a) :
    a.st.heap._forwardee = s.heap._forwardee := by
  have hshared : ∀ a0 : EvacAlloc,
      (evac_allocate_shared env size is_promotion target_gen a0).st.heap._forwardee =
        a0.st.heap._forwardee := by
    intro a0
    unfold evac_allocate_shared
    split
    · split
      · simp only []
        exact allocate_memory_for_gc_forwardee hk _ is_promotion a0.st (by rfl)
      · rfl
    · rfl
  have hlab : ∀ a0 : EvacAlloc, evac_allocate_lab env size is_promotion target_gen s = some a0 →
      a0.st.heap._forwardee = s.heap._forwardee := by
    intro a0 h0
    unfold evac_allocate_lab at h0
    split at h0
    · split at h0
      · simp only [Option.some.injEq] at h0
        subst h0
        exact evac_allocate_gclab_forwardee hk size s
      · split at h0
        · cases hr : evac_allocate_plab env size is_promotion s with
          | none => rw [hr] at h0; cases h0
          | some r =>
            rw [hr] at h0
            simp only [Option.map_some', Option.some.injEq] at h0
            subst h0
            exact evac_allocate_plab_forwardee hk size is_promotion s r hr
        · simp only [Option.some.injEq] at h0
          subst h0
          rfl
      · cases h0
    · simp only [Option.some.injEq] at h0
      subst h0
      rfl
  unfold evac_allocate at ha
  cases h0 : evac_allocate_lab env size is_promotion target_gen s with
  | none => rw [h0] at ha; cases ha
  | some a0 =>
    rw [h0] at ha
    simp only [Option.map_some', Option.some.injEq] at ha
    rw [← ha, hshared, hlab a0 h0]

theorem evac_allocation_failed_forwardee {env : Env} (hk : KeepsForwardee env) (p : oopDesc)
    (from_region : ShenandoahHeapRegion) (target_gen : ShenandoahRegionAffiliation)
    (s : EvacState) :
    (evac_allocation_failed env p from_region target_gen s).2.heap._forwardee =
      s.heap._forwardee := by
  unfold evac_allocation_failed
  split
  · exact forwardee_call hk _ _
  · simp only []
    rw [forwardee_call hk, forwardee_call hk]
    apply forwardee_guarded
    intro h
    rfl

theorem evac_copy_forwardee {env : Env} (hk : KeepsForwardee env)
    (target_gen : ShenandoahRegionAffiliation) (h : ShenandoahHeap) :
    (evac_copy env target_gen h)._forwardee = h._forwardee := by
  unfold evac_copy
  apply forwardee_block
  intro f hf h
  simp only [List.mem_cons, List.mem_singleton, List.not_mem_nil, or_false] at hf
  rcases hf with rfl | rfl | rfl
  · exact forwardee_call hk _ h
  · exact forwardee_guarded (fun h => forwardee_call hk _ h) h
  · exact forwardee_call hk _ h

theorem handle_old_evacuation_forwardee {env : Env} (hk : KeepsForwardee env)
    (promotion : Bool) (h : ShenandoahHeap) :
    (handle_old_evacuation env promotion h)._forwardee = h._forwardee := by
  unfold handle_old_evacuation
  apply forwardee_block
  intro f hf h
  simp only [List.mem_cons, List.mem_singleton, List.not_mem_nil, or_false] at hf
  rcases hf with rfl | rfl | rfl
  · exact forwardee_call hk _ h
  · exact forwardee_call hk _ h
  · exact forwardee_guarded (fun h => forwardee_call hk _ h) h

theorem evac_undo_copy_forwardee {env : Env} (hk : KeepsForwardee env) (size : Nat)
    (is_promotion : Bool) (target_gen : ShenandoahRegionAffiliation) (copy : Nat)
    (alloc_from_lab : Bool) (s s1 : EvacState)
    (h : evac_undo_copy env size is_promotion target_gen copy alloc_from_lab s = some s1) :
    s1.heap._forwardee = s.heap._forwardee := by
  unfold evac_undo_copy at h
  split at h
  · split at h
    · cases hg : s.tld._gclab with
      | none => rw [hg] at h; cases h
      | some g =>
        rw [hg] at h
        simp only [Option.map_some', Option.some.injEq] at h
        subst h
        exact forwardee_call_as hk _ _ _
    · cases hg : s.tld._plab with
      | none => rw [hg] at h; cases h
      | some g =>
        rw [hg] at h
        simp only [Option.map_some', Option.some.injEq] at h
        subst h
        exact forwardee_call_as hk _ _ _
    · cases h
  · simp only [Option.some.injEq] at h
    subst h
    exact forwardee_call_as hk _ _ _
/-! ## Theorems: threads racing to evacuate one object -/

theorem try_evacuate_object_until_cas_facts {env : Env} (hk : KeepsForwardee env) (p : oopDesc)
    (from_region : ShenandoahHeapRegion) (target_gen : ShenandoahRegionAffiliation)
    (s : EvacState) :
    (try_evacuate_object_until_cas env p from_region target_gen s).2.heap._forwardee =
      s.heap._forwardee ∧
    ∀ res how, (try_evacuate_object_until_cas env p from_region target_gen s).1 =
      .returned res how → how = .oom := by
  unfold try_evacuate_object_until_cas
  simp only []
  cases ha : evac_allocate env p.size
      (decide (target_gen = .OLD_GENERATION) && from_region.is_young) target_gen s with
  | none => exact ⟨rfl, fun res how h => by cases h⟩
  | some a =>
    have hf := evac_allocate_forwardee hk _ _ _ _ a ha
    simp only []
    cases hc : a.copy with
    | none =>
      simp only []
      refine ⟨?_, fun res how h => ?_⟩
      · rw [evac_allocation_failed_forwardee hk, hf]
      · simp only [EvacProgress.returned.injEq] at h
        exact h.2.symm
    | some copy =>
      simp only []
      refine ⟨?_, fun res how h => by cases h⟩
      rw [evac_copy_forwardee hk, hf]

theorem evacuate_object_until_cas_facts {env : Env} (hk : KeepsForwardee env) (p : oopDesc)
    (s : EvacState) :
    (evacuate_object_until_cas env p s).2.heap._forwardee = s.heap._forwardee ∧
    ∀ res how, (evacuate_object_until_cas env p s).1 = .returned res how →
      how = .oom ∨ (how = .already_forwarded ∧ is_forwarded s.heap p = true ∧
        res = some (resolve_forwarded s.heap p)) := by
  have plain : ∀ (r : ShenandoahHeapRegion) (tg : ShenandoahRegionAffiliation) (s1 : EvacState),
      s1.heap._forwardee = s.heap._forwardee →
      (try_evacuate_object_until_cas env p r tg s1).2.heap._forwardee = s.heap._forwardee ∧
      ∀ res how, (try_evacuate_object_until_cas env p r tg s1).1 = .returned res how →
        how = .oom ∨ (how = .already_forwarded ∧ is_forwarded s.heap p = true ∧
          res = some (resolve_forwarded s.heap p)) := by
    intro r tg s1 h1
    obtain ⟨a1, a2⟩ := try_evacuate_object_until_cas_facts hk p r tg s1
    exact ⟨a1.trans h1, fun res how h => Or.inl (a2 res how h)⟩
  unfold evacuate_object_until_cas
  split
  · refine ⟨rfl, fun res how h => ?_⟩
    simp only [EvacProgress.returned.injEq] at h
    exact Or.inl h.2.symm
  · split
    · exact ⟨rfl, fun res how h => by cases h⟩
    · rename_i r _
      simp only []
      split
      · split
        · rename_i hfw
          refine ⟨rfl, fun res how h => ?_⟩
          simp only [EvacProgress.returned.injEq] at h
          exact Or.inr ⟨h.2.symm, hfw, h.1.symm⟩
        · split
          · exact plain r _ s rfl
          · split
            · split
              · rename_i s1 hres
                have h1 := (try_evacuate_object_until_cas_facts hk p r .OLD_GENERATION s).1
                rw [hres] at h1
                exact plain r _ s1 h1
              · exact plain r _ s rfl
            · exact plain r _ s rfl
      · exact plain r _ s rfl

theorem try_evacuate_object_from_cas_free {env : Env} (hk : KeepsForwardee env) (p : oopDesc)
    (r : EvacRace) (s : EvacState) (hn : s.heap._forwardee.lookup p.addr = none) :
    (try_evacuate_object_from_cas env p r s).1 = .returned (some r.copy) .cas_won ∧
    (try_evacuate_object_from_cas env p r s).2.heap._forwardee.lookup p.addr =
      some r.copy := by
  have hcas : try_update_forwardee p r.copy s.heap =
      (r.copy, { s.heap with _forwardee := (p.addr, r.copy) :: s.heap._forwardee }) := by
    unfold try_update_forwardee
    rw [hn]
  have hfw : is_forwarded s.heap p = false := by
    unfold is_forwarded
    rw [hn]
    rfl
  unfold try_evacuate_object_from_cas
  simp only [hcas, hfw, if_true, Bool.false_eq_true, if_false]
  refine ⟨trivial, ?_⟩
  rw [forwardee_guarded (fun h => handle_old_evacuation_forwardee hk _ h)]
  simp [List.lookup]

theorem try_evacuate_object_from_cas_taken {env : Env} (hk : KeepsForwardee env) (p : oopDesc)
    (r : EvacRace) (s : EvacState) (w : Nat) (hw : s.heap._forwardee.lookup p.addr = some w) :
    ((try_evacuate_object_from_cas env p r s).1 = .stopped ∨
      (try_evacuate_object_from_cas env p r s).1 = .returned (some w) .cas_lost) ∧
    (try_evacuate_object_from_cas env p r s).2.heap._forwardee.lookup p.addr = some w := by
  have hcas : try_update_forwardee p r.copy s.heap = (w, s.heap) := by
    unfold try_update_forwardee
    rw [hw]
  have hfw : is_forwarded s.heap p = true := by
    unfold is_forwarded
    rw [hw]
    rfl
  unfold try_evacuate_object_from_cas
  simp only [hcas, hfw, if_true]
  by_cases hc : w = r.copy
  · rw [if_pos hc]
    refine ⟨Or.inr (by rw [hc]), ?_⟩
    simp only []
    rw [forwardee_guarded (fun h => handle_old_evacuation_forwardee hk _ h)]
    exact hw
  · rw [if_neg hc]
    cases hu : evac_undo_copy env p.size
        (decide (r.target_gen = .OLD_GENERATION) && r.from_region.is_young) r.target_gen r.copy
        r.alloc_from_lab { s with heap := s.heap } with
    | none => exact ⟨Or.inl rfl, hw⟩
    | some s1 =>
      refine ⟨Or.inr rfl, ?_⟩
      simp only []
      rw [evac_undo_copy_forwardee hk _ _ _ _ _ _ s1 hu]
      exact hw

/-- The sequential `try_evacuate_object` is its part up to the compare-and-swap followed by
its part from the compare-and-swap on. -/
theorem try_evacuate_object_split (env : Env) (p : oopDesc) (from_region : ShenandoahHeapRegion)
    (target_gen : ShenandoahRegionAffiliation) (s : EvacState) :
    try_evacuate_object env p from_region target_gen s =
      match try_evacuate_object_until_cas env p from_region target_gen s with
      | (.returned res _, s1) => some (res, s1)
      | (.racing r, s1) =>
        match try_evacuate_object_from_cas env p r s1 with
        | (.returned res _, s2) => some (res, s2)
        | _ => none
      | _ => none := by
  unfold try_evacuate_object try_evacuate_object_until_cas
  simp only []
  cases ha : evac_allocate env p.size
      (decide (target_gen = .OLD_GENERATION) && from_region.is_young) target_gen s with
  | none => rfl
  | some a =>
    simp only []
    cases hc : a.copy with
    | none => rfl
    | some copy =>
      simp only []
      unfold evac_copy_and_install try_evacuate_object_from_cas
      simp only []
      split
      · rfl
      · cases hu : evac_undo_copy env p.size
            (decide (target_gen = .OLD_GENERATION) && from_region.is_young) target_gen copy
            a.alloc_from_lab
            { a.st with heap := (try_update_forwardee p copy
                (evac_copy env target_gen a.st.heap)).2 } with
        | none => rfl
        | some s1 => rfl

theorem countP_set_of_eq {α : Type} (q : α → Bool) :
    ∀ (l : List α) (i : Nat) (a b : α), l.get? i = some a → q b = q a →
      (l.set i b).countP q = l.countP q := by
  intro l
  induction l with
  | nil =>
    intro i a b h _
    cases h
  | cons x xs ih =>
    intro i a b h hq
    cases i with
    | zero =>
      simp only [List.get?_cons_zero, Option.some.injEq] at h
      subst h
      simp only [List.set_cons_zero, List.countP_cons, hq]
    | succ i =>
      simp only [List.get?_cons_succ] at h
      simp only [List.set_cons_succ, List.countP_cons, ih i a b h hq]

theorem countP_set_of_gain {α : Type} (q : α → Bool) :
    ∀ (l : List α) (i : Nat) (a b : α), l.get? i = some a → q a = false → q b = true →
      (l.set i b).countP q = l.countP q + 1 := by
  intro l
  induction l with
  | nil =>
    intro i a b h _ _
    cases h
  | cons x xs ih =>
    intro i a b h hqa hqb
    cases i with
    | zero =>
      simp only [List.get?_cons_zero, Option.some.injEq] at h
      subst h
      simp only [List.set_cons_zero, List.countP_cons, hqa, hqb, Bool.false_eq_true, if_false,
        if_true, Nat.add_zero]
    | succ i =>
      simp only [List.get?_cons_succ] at h
      simp only [List.set_cons_succ, List.countP_cons, ih i a b h hqa hqb]
      omega

theorem mem_set_cases {α : Type} :
    ∀ (l : List α) (i : Nat) (b x : α), x ∈ l.set i b → x = b ∨ x ∈ l := by
  intro l
  induction l with
  | nil =>
    intro i b x h
    simp at h
  | cons y ys ih =>
    intro i b x h
    cases i with
    | zero =>
      simp only [List.set_cons_zero, List.mem_cons] at h
      rcases h with h | h
      · exact Or.inl h
      · exact Or.inr (List.mem_cons_of_mem _ h)
    | succ i =>
      simp only [List.set_cons_succ, List.mem_cons] at h
      rcases h with h | h
      · exact Or.inr (h ▸ List.mem_cons_self _ _)
      · rcases ih i b x h with h1 | h1
        · exact Or.inl h1
        · exact Or.inr (List.mem_cons_of_mem _ h1)

theorem mem_set_self {α : Type} :
    ∀ (l : List α) (i : Nat) (a b : α), l.get? i = some a → b ∈ l.set i b := by
  intro l
  induction l with
  | nil =>
    intro i a b h
    cases h
  | cons y ys ih =>
    intro i a b h
    cases i with
    | zero => simp
    | succ i =>
      simp only [List.get?_cons_succ] at h
      simp only [List.set_cons_succ, List.mem_cons]
      exact Or.inr (ih i a b h)
theorem thread_step_invariant {env : Env} (hk : KeepsForwardee env) (p : oopDesc)
    (start : Option Nat) (i : Nat) (sys : EvacSystem) (hinv : RaceInvariant p start sys) :
    RaceInvariant p start (thread_step env p i sys) ∧
    ∀ v, installed_forwardee sys p = some v →
      installed_forwardee (thread_step env p i sys) p = some v := by
  obtain ⟨i1, i2, i3⟩ := hinv
  unfold thread_step
  cases hget : sys.threads.get? i with
  | none => exact ⟨⟨i1, i2, i3⟩, fun v hv => hv⟩
  | some t =>
    simp only []
    cases hprog : t.progress with
    | calling =>
      simp only []
      obtain ⟨f1, f2⟩ := evacuate_object_until_cas_facts hk p { heap := sys.heap, tld := t.tld }
      have hinst : ∀ threads : List EvacThread,
          installed_forwardee
            { heap := (evacuate_object_until_cas env p
                { heap := sys.heap, tld := t.tld }).2.heap, threads := threads } p =
            installed_forwardee sys p := by
        intro threads
        unfold installed_forwardee
        simp only []
        rw [f1]
      have hwon_new : EvacThread.won
          { tld := (evacuate_object_until_cas env p { heap := sys.heap, tld := t.tld }).2.tld,
            progress := (evacuate_object_until_cas env p
              { heap := sys.heap, tld := t.tld }).1 } = false := by
        unfold EvacThread.won
        simp only []
        split
        · rename_i res hres
          rcases f2 _ _ hres with h | h
          · cases h
          · cases h.1
        · rfl
      have hwon_old : EvacThread.won t = false := by
        unfold EvacThread.won
        rw [hprog]
      refine ⟨⟨fun t1 ht1 res how hret hne => ?_, ?_, fun v hv => ?_⟩, fun v hv => ?_⟩
      · rw [hinst]
        rcases mem_set_cases _ _ _ _ ht1 with h | h
        · subst h
          simp only [] at hret
          rcases f2 res how hret with h2 | ⟨_, h3, h4⟩
          · exact absurd h2 hne
          · unfold is_forwarded at h3
            unfold resolve_forwarded at h4
            simp only [] at h3 h4
            unfold installed_forwardee
            cases hl : sys.heap._forwardee.lookup p.addr with
            | none =>
              rw [hl] at h3
              cases h3
            | some w =>
              rw [hl] at h4
              exact ⟨h4, rfl⟩
        · exact i1 t1 h res how hret hne
      · rw [hinst]
        unfold cas_winners
        simp only []
        rw [countP_set_of_eq EvacThread.won sys.threads i t _ hget (by rw [hwon_new, hwon_old])]
        exact i2
      · rw [hinst]
        exact i3 v hv
      · rw [hinst]
        exact hv
    | racing race =>
      simp only []
      have hwon_old : EvacThread.won t = false := by
        unfold EvacThread.won
        rw [hprog]
      cases hl : sys.heap._forwardee.lookup p.addr with
      | none =>
        obtain ⟨c1, c2⟩ := try_evacuate_object_from_cas_free hk p race
          { heap := sys.heap, tld := t.tld } hl
        have hnone : installed_forwardee sys p = none := hl
        have hstart : start = none := by
          cases hs : start with
          | none => rfl
          | some v =>
            have := i3 v hs
            rw [hnone] at this
            cases this
        have hinst : ∀ threads : List EvacThread,
            installed_forwardee
              { heap := (try_evacuate_object_from_cas env p race
                  { heap := sys.heap, tld := t.tld }).2.heap, threads := threads } p =
              some race.copy := by
          intro threads
          exact c2
        refine ⟨⟨fun t1 ht1 res how hret hne => ?_, ?_, fun v hv => ?_⟩, fun v hv => ?_⟩
        · rw [hinst]
          rcases mem_set_cases _ _ _ _ ht1 with h | h
          · subst h
            simp only [] at hret
            rw [c1] at hret
            simp only [EvacProgress.returned.injEq] at hret
            exact ⟨hret.1.symm, rfl⟩
          · have := (i1 t1 h res how hret hne).2
            rw [hnone] at this
            cases this
        · rw [hinst]
          unfold cas_winners
          simp only []
          rw [countP_set_of_gain EvacThread.won sys.threads i t _ hget hwon_old
            (by unfold EvacThread.won; simp only []; rw [c1])]
          unfold cas_winners at i2
          rw [i2, hnone]
          simp [hstart]
        · rw [hstart] at hv
          cases hv
        · rw [hnone] at hv
          cases hv
      | some w =>
        obtain ⟨c1, c2⟩ := try_evacuate_object_from_cas_taken hk p race
          { heap := sys.heap, tld := t.tld } w hl
        have hsome : installed_forwardee sys p = some w := hl
        have hinst : ∀ threads : List EvacThread,
            installed_forwardee
              { heap := (try_evacuate_object_from_cas env p race
                  { heap := sys.heap, tld := t.tld }).2.heap, threads := threads } p =
              installed_forwardee sys p := by
          intro threads
          rw [hsome]
          exact c2
        have hwon_new : EvacThread.won
            { tld := (try_evacuate_object_from_cas env p race
                { heap := sys.heap, tld := t.tld }).2.tld,
              progress := (try_evacuate_object_from_cas env p race
                { heap := sys.heap, tld := t.tld }).1 } = false := by
          unfold EvacThread.won
          simp only []
          rcases c1 with h | h <;> rw [h]
        refine ⟨⟨fun t1 ht1 res how hret hne => ?_, ?_, fun v hv => ?_⟩, fun v hv => ?_⟩
        · rw [hinst]
          rcases mem_set_cases _ _ _ _ ht1 with h | h
          · subst h
            simp only [] at hret
            rcases c1 with h2 | h2
            · rw [h2] at hret
              cases hret
            · rw [h2] at hret
              simp only [EvacProgress.returned.injEq] at hret
              rw [hsome]
              exact ⟨hret.1.symm, rfl⟩
          · exact i1 t1 h res how hret hne
        · rw [hinst]
          unfold cas_winners
          simp only []
          rw [countP_set_of_eq EvacThread.won sys.threads i t _ hget
            (by rw [hwon_new, hwon_old])]
          exact i2
        · rw [hinst]
          exact i3 v hv
        · rw [hinst]
          exact hv
    | returned res how => exact ⟨⟨i1, i2, i3⟩, fun v hv => hv⟩
    | stopped => exact ⟨⟨i1, i2, i3⟩, fun v hv => hv⟩

theorem run_threads_invariant {env : Env} (hk : KeepsForwardee env) (p : oopDesc)
    (start : Option Nat) :
    ∀ (schedule : List Nat) (sys : EvacSystem), RaceInvariant p start sys →
      RaceInvariant p start (run_threads env p schedule sys) ∧
      ∀ v, installed_forwardee sys p = some v →
        installed_forwardee (run_threads env p schedule sys) p = some v := by
  intro schedule
  induction schedule with
  | nil =>
    intro sys hinv
    exact ⟨hinv, fun v hv => hv⟩
  | cons i rest ih =>
    intro sys hinv
    obtain ⟨s1, s2⟩ := thread_step_invariant hk p start i sys hinv
    obtain ⟨r1, r2⟩ := ih (thread_step env p i sys) s1
    exact ⟨r1, fun v hv => r2 v (s2 v hv)⟩

theorem raceInvariant_start (p : oopDesc) (sys : EvacSystem)
    (hstart : ∀ t ∈ sys.threads, t.progress = .calling) :
    RaceInvariant p (installed_forwardee sys p) sys := by
  refine ⟨fun t ht res how hret _ => ?_, ?_, fun v hv => hv⟩
  · rw [hstart t ht] at hret
    cases hret
  · have h0 : cas_winners sys = 0 := by
      unfold cas_winners
      rw [List.countP_eq_zero]
      intro t ht
      unfold EvacThread.won
      rw [hstart t ht]
      simp
    rw [h0]
    cases h : installed_forwardee sys p <;> simp

/-- C24, as stated, fails: a single thread that finds no memory for the copy returns through
the out-of-memory protocol (with the object itself, which is still in place); no
compare-and-swap is made, none wins, and no forwarding pointer is installed. -/
theorem evacuation_race_counterexample :
    (run_threads {} small_object [0, 0] one_thread_without_memory).threads.map
      (fun t => t.progress) = [.returned (some 64) .oom] ∧
    cas_winners (run_threads {} small_object [0, 0] one_thread_without_memory) = 0 ∧
    installed_forwardee (run_threads {} small_object [0, 0] one_thread_without_memory)
      small_object = none := by
  decide

/-- C24, amended: for every object and every number of threads that call `evacuate_object`
on it concurrently, in every interleaving of their steps on the header of the object and as
long as nothing but their compare-and-swaps writes forwarding pointers: the compare-and-swap
of at most one thread wins, and of exactly one when the object was not forwarded at the start
and at least one caller came to its compare-and-swap; a forwarding pointer once installed
stays, so that at most one value is ever installed; and every caller that has returned
otherwise than through the out-of-memory protocol has returned the address installed. -/
theorem evacuation_race (env : Env) (p : oopDesc) (sys : EvacSystem)
    (schedule later : List Nat) (hk : KeepsForwardee env)
    (hstart : ∀ t ∈ sys.threads, t.progress = .calling) :
    cas_winners (run_threads env p schedule sys) ≤ 1 ∧
    (installed_forwardee sys p = none →
      (∃ t ∈ (run_threads env p schedule sys).threads, t.raced = true) →
      cas_winners (run_threads env p schedule sys) = 1) ∧
    (∀ v, installed_forwardee (run_threads env p schedule sys) p = some v →
      installed_forwardee (run_threads env p later (run_threads env p schedule sys)) p =
        some v) ∧
    (∀ t ∈ (run_threads env p schedule sys).threads, ∀ res how,
      t.progress = .returned res how → how ≠ .oom →
      res = installed_forwardee (run_threads env p schedule sys) p ∧ res.isSome = true) := by
  obtain ⟨⟨i1, i2, i3⟩, _⟩ := run_threads_invariant hk p (installed_forwardee sys p) schedule
    sys (raceInvariant_start p sys hstart)
  have hinv : RaceInvariant p (installed_forwardee sys p) (run_threads env p schedule sys) :=
    ⟨i1, i2, i3⟩
  refine ⟨?_, fun h0 hraced => ?_, (run_threads_invariant hk p _ later _ hinv).2,
    fun t ht res how hret hne => ?_⟩
  · rw [i2]
    split <;> omega
  · obtain ⟨t, ht, hr⟩ := hraced
    have hsome : (installed_forwardee (run_threads env p schedule sys) p).isSome = true := by
      unfold EvacThread.raced at hr
      split at hr
      · rename_i res hres
        exact (i1 t ht res .cas_won hres (by decide)).2
      · rename_i res hres
        exact (i1 t ht res .cas_lost hres (by decide)).2
      · cases hr
    rw [i2, if_pos ⟨h0, hsome⟩]
  · obtain ⟨a1, a2⟩ := i1 t ht res how hret hne
    exact ⟨a1, by rw [a1]; exact a2⟩

/-- Three threads evacuate the object at address 64; the second one comes first to its
compare-and-swap and wins, and all three return its copy. -/
theorem evacuation_race_witness :
    (run_threads evac_env small_object [0, 1, 2, 1, 0, 2] three_evacuating_threads).threads.map
      (fun t => t.progress) =
      [.returned (some 65336) .cas_lost, .returned (some 65336) .cas_won,
       .returned (some 65336) .cas_lost] ∧
    cas_winners
      (run_threads evac_env small_object [0, 1, 2, 1, 0, 2] three_evacuating_threads) ≤ 1 ∧
    (installed_forwardee three_evacuating_threads small_object = none →
      (∃ t ∈ (run_threads evac_env small_object [0, 1, 2, 1, 0, 2]
        three_evacuating_threads).threads, t.raced = true) →
      cas_winners
        (run_threads evac_env small_object [0, 1, 2, 1, 0, 2] three_evacuating_threads) = 1) :=
  ⟨by decide,
   (evacuation_race evac_env small_object three_evacuating_threads [0, 1, 2, 1, 0, 2] []
      (fun _ _ => rfl) (by decide)).1,
   (evacuation_race evac_env small_object three_evacuating_threads [0, 1, 2, 1, 0, 2] []
      (fun _ _ => rfl) (by decide)).2.1⟩

/-- The sequential `evacuate_object` is its part up to the compare-and-swap followed by the
part of `try_evacuate_object` from the compare-and-swap on. -/
theorem evacuate_object_split (env : Env) (p : oopDesc) (s : EvacState) :
    evacuate_object env p s =
      match evacuate_object_until_cas env p s with
      | (.returned res _, s1) => some (res, s1)
      | (.racing r, s1) =>
        match try_evacuate_object_from_cas env p r s1 with
        | (.returned res _, s2) => some (res, s2)
        | _ => none
      | _ => none := by
  unfold evacuate_object evacuate_object_until_cas
  split
  · rfl
  · split
    · rfl
    · rename_i r _
      simp only []
      split
      · split
        · rfl
        · split
          · exact try_evacuate_object_split env p r _ s
          · split
            · rw [try_evacuate_object_split env p r .OLD_GENERATION s]
              cases hu : try_evacuate_object_until_cas env p r .OLD_GENERATION s with
              | mk pr s1 =>
                cases pr with
                | calling => rfl
                | stopped => rfl
                | returned res how =>
                  cases res with
                  | none =>
                    simp only []
                    exact try_evacuate_object_split env p r _ s1
                  | some v => rfl
                | racing race =>
                  simp only []
                  cases hc : try_evacuate_object_from_cas env p race s1 with
                  | mk pr2 s2 =>
                    cases pr2 with
                    | calling => rfl
                    | stopped => rfl
                    | racing r2 => rfl
                    | returned res how =>
                      obtain ⟨h1, h2⟩ : ∃ v, res = some v := by
                        have : (try_evacuate_object_from_cas env p race s1).1 =
                            .returned res how := by rw [hc]
                        unfold try_evacuate_object_from_cas at this
                        simp only [] at this
                        split at this
                        · simp only [EvacProgress.returned.injEq] at this
                          exact ⟨_, this.1.symm⟩
                        · split at this
                          · cases this
                          · simp only [EvacProgress.returned.injEq] at this
                            exact ⟨_, this.1.symm⟩
                      subst h2
                      rfl
            · exact try_evacuate_object_split env p r _ s
      · exact try_evacuate_object_split env p r _ s

end Shenandoah
